import Mathlib

/-!
# AMF-Placer: timing graph, timing optimizer, packer distance, placer set-up and `FILEbuf`

A shallow embedding of

* `PlacementTimingInfo::TimingGraph` (`PlacementTimingInfo.h`): timing nodes, timing edges,
  `addEdgeBetween`, `setLongestPathLength`, `findALoopFromNode`;
* `PlacementTimingOptimizer` (`PlacementTimingOptimizer.cc`): `enhanceNetWeight_LevelBased`
  and its log, `setPinsLocation`, the edge-delay loop and the longest-delay node of
  `conductStaticTimingAnalysis`, `clusterLongPathInOneClockRegion` and
  `moveDriverIntoBetterClockRegion`;
* `AMFPlacer` (`AMFPlacer.h`): the configuration checks of the constructor and
  `clearSomeAttributesCannotRecord`;
* `IncrementalBELPacker` (`IncrementalBELPacker.h`): `y2xRatio` and `getCellDistance`;
* `FILEbuf` (`readZip.h`): `underflow`.

Conventions of the embedding.

* Pointers into a container owned by the design or by the graph are positions in that
  container (`Nat`); a null pointer is `none`.
* `int` values are `Int`, and `int` arithmetic is exact: a signed overflow is undefined
  behaviour in C++ and lies outside the model.  A conversion that C++ defines is modelled:
  `edges.size()` passed as `int id` goes through `sizeToInt`.  Pin counts are kept as they
  are: pins are indexed by an `int` element id, so a design has fewer than `2^31` pins and
  `int pinNum = pins.size()` is exact.
* `float`/`double` values are rationals (`ℚ`).  In the timing optimizer rounding is not
  modelled, so `0.8`, `1.5`, `0.005` and `30.0` are the fractions `4/5`, `3/2`, `1/200`,
  `30`.  `getCellDistance` is modelled in floating point: the result of each of its
  operations is rounded to the nearest `float` or `double` (`roundFloat32`, `roundFloat64`).
* `std::pow` is library code; it is a parameter `fpow` of every definition that calls it, and
  each theorem states which facts about `std::pow` it relies on.
* A function whose C++ run has no defined result (an index outside a `std::vector`, a failed
  `assert`) returns `none`.
* A `std::set` is the ascending list of its elements, a `std::map` the list of its entries.
* Functions that are declared in headers outside the sources (`DFSFromNode`,
  `getClockRegionByLocation`, `legalizeXYInArea`, `getDelayByModel`), `std::stoi`,
  `std::stof` and the file system are parameters of the definitions that call them.
* The recursion of `findALoopFromNode` carries a bound on its depth; a run that no bound
  brings to an end is a run that does not terminate.
-/

namespace AMFPlacer

/-! ## Design entities (the parts the timing optimizer reads) -/

/-- A `DesignInfo::DesignPin`: `net` is `getNet()` (the position of the net in the design's net
list, `none` for a null pointer), `isInputPort` is `isInputPort()`, and the last three fields
are `getOffsetXInCell()`, `getOffsetYInCell()` and `getElementIdInType()`. -/
structure DesignPin where
  net : Option Nat
  isInputPort : Bool
  offsetXInCell : ℚ := 0
  offsetYInCell : ℚ := 0
  elementIdInType : Int := 0
deriving DecidableEq, Repr

/-- A `DesignInfo::DesignCell`: `isVirtualCell()`, `getCellId()` and `getPins()`. -/
structure DesignCell where
  isVirtualCell : Bool
  cellId : Nat
  pins : List DesignPin
deriving DecidableEq, Repr

/-- A `DesignInfo::DesignNet`: `getPins()` (element ids of its pins, only the size is read
here) and the scalar `overallTimingEnhancement`. -/
structure DesignNet where
  pins : List Nat
  overallTimingEnhancement : ℚ
deriving DecidableEq, Repr

/-- Modelled from the spec: `DesignNet::setOverallTimingNetEnhancement` is declared in
`DesignInfo.h`, which is not among the sources; it stores the scalar (every net is set to `1.0`
before the enhancement factors are applied). -/
def DesignNet.setOverallTimingNetEnhancement (n : DesignNet) (r : ℚ) : DesignNet :=
  { n with overallTimingEnhancement := r }

/-- Modelled from the spec: `DesignNet::enhanceOverallTimingNetEnhancement` is declared in
`DesignInfo.h`, which is not among the sources; the spec says "multiply
`net.overallTimingEnhancement` by `ratio`". -/
def DesignNet.enhanceOverallTimingNetEnhancement (n : DesignNet) (r : ℚ) : DesignNet :=
  { n with overallTimingEnhancement := n.overallTimingEnhancement * r }

/-- The design as the optimizer sees it: `getCells()` and `getNets()`. -/
structure DesignInfo where
  cells : List DesignCell
  nets : List DesignNet
deriving DecidableEq, Repr

/-! ## Timing nodes and edges (`PlacementTimingInfo::TimingGraph`) -/

/-- `TimingGraph::TimingNode`, with the member initialisers of the class.  `inEdges` and
`outEdges` hold positions in the graph's `edges`. -/
structure TimingNode where
  designNode : Nat
  id : Int
  latestArrival : ℚ := 0
  requiredArrival : ℚ := 10
  slowestPredecessorId : Int := -1
  earliestSuccessorId : Int := -1
  innerDelay : ℚ := 1 / 10
  isRegister : Bool := false
  inEdges : List Nat := []
  outEdges : List Nat := []
  forwardLevel : Int := -1
  backwardLevel : Int := -1
  destLevel : Int := -1
  longestPathLength : Int := 100000000
deriving DecidableEq, Repr

namespace TimingNode

/-- `setForwardLevel`. -/
def setForwardLevel (n : TimingNode) (_forwardLevel : Int) : TimingNode :=
  { n with forwardLevel := _forwardLevel, destLevel := _forwardLevel }

/-- `setBackwardLevel`. -/
def setBackwardLevel (n : TimingNode) (_backwardLevel : Int) : TimingNode :=
  { n with backwardLevel := _backwardLevel }

/-- `calcLongestPath`: `longestPathLength = forwardLevel + backwardLevel + 1`. -/
def calcLongestPath (n : TimingNode) : TimingNode :=
  { n with longestPathLength := n.forwardLevel + n.backwardLevel + 1 }

/-- `getForwardLevel`. -/
def getForwardLevel (n : TimingNode) : Int := n.forwardLevel

/-- `getBackwardLevel`. -/
def getBackwardLevel (n : TimingNode) : Int := n.backwardLevel

/-- `getLongestPathLength`: the stored length when both levels are set, `-1` otherwise. -/
def getLongestPathLength (n : TimingNode) : Int :=
  if n.forwardLevel ≥ 0 ∧ n.backwardLevel ≥ 0 then n.longestPathLength else -1

/-- `addInEdge`. -/
def addInEdge (n : TimingNode) (tmpEdge : Nat) : TimingNode :=
  { n with inEdges := n.inEdges ++ [tmpEdge] }

/-- `addOutEdge`. -/
def addOutEdge (n : TimingNode) (tmpEdge : Nat) : TimingNode :=
  { n with outEdges := n.outEdges ++ [tmpEdge] }

end TimingNode

/-! ## `PlacementTimingOptimizer::enhanceNetWeight_LevelBased` -/

/-- The state `enhanceNetWeight_LevelBased` reads and writes: the design (`designInfo`), the
timing nodes `timingInfo->getSimplePlacementTimingInfo()`, and the two members
`enhanceNetWeight_LevelBased_Cnt` and `effectFactor`. -/
structure PlacementTimingOptimizer where
  designInfo : DesignInfo
  timingInfo : List TimingNode
  enhanceNetWeight_LevelBased_Cnt : Int
  effectFactor : ℚ
deriving DecidableEq, Repr

/-- Lines 86-95: the ratio computed for a pin whose net has `pinNum` pins, for a cell of
longest path length `targetPathLen`. -/
def enhanceRatio (fpow : ℚ → ℚ → ℚ) (effectFactor : ℚ) (levelThr targetPathLen pinNum : Int) : ℚ :=
  let overflowRatio : ℚ := fpow ((4 / 5 : ℚ) * targetPathLen / levelThr) 1
  let enhanceRatio : ℚ :=
    if pinNum < 200 then (3 / 2 : ℚ) * (overflowRatio + (1 / 200 : ℚ) * pinNum)
    else (3 / 2 : ℚ) * (overflowRatio + 1)
  fpow enhanceRatio effectFactor

/-- Lines 76-98, the body of the loop over the pins of `cellA`.  The result is `none` when the
pin's net pointer does not lead to a net of the design. -/
def enhancePin (fpow : ℚ → ℚ → ℚ) (effectFactor : ℚ) (levelThr targetPathLen : Int)
    (nets : List DesignNet) (curPinA : DesignPin) : Option (List DesignNet) :=
  match curPinA.net with
  | none => some nets
  | some netId =>
    if curPinA.isInputPort then some nets
    else
      match nets[netId]? with
      | none => none
      | some net =>
        let pinNum : Int := net.pins.length
        if pinNum ≤ 1 ∨ pinNum ≥ 1000 then some nets
        else
          some (nets.set netId (net.enhanceOverallTimingNetEnhancement
            (enhanceRatio fpow effectFactor levelThr targetPathLen pinNum)))

/-- Lines 74-106, the loop over `cellA->getPins()`. -/
def enhancePins (fpow : ℚ → ℚ → ℚ) (effectFactor : ℚ) (levelThr targetPathLen : Int) :
    List DesignPin → List DesignNet → Option (List DesignNet)
  | [], nets => some nets
  | curPinA :: rest, nets =>
    (enhancePin fpow effectFactor levelThr targetPathLen nets curPinA).bind
      (enhancePins fpow effectFactor levelThr targetPathLen rest)

/-- Lines 67-106, the body of the loop over the cells.  The result is `none` when
`timingNodes[cellA->getCellId()]` is outside the vector. -/
def enhanceCell (fpow : ℚ → ℚ → ℚ) (effectFactor : ℚ) (levelThr : Int)
    (timingNodes : List TimingNode) (nets : List DesignNet) (cellA : DesignCell) :
    Option (List DesignNet) :=
  if cellA.isVirtualCell then some nets
  else
    match timingNodes[cellA.cellId]? with
    | none => none
    | some node =>
      let targetPathLen : Int := node.getLongestPathLength
      if targetPathLen < levelThr then some nets
      else enhancePins fpow effectFactor levelThr targetPathLen cellA.pins nets

/-- Lines 65-107, the loop over `designInfo->getCells()`. -/
def enhanceCells (fpow : ℚ → ℚ → ℚ) (effectFactor : ℚ) (levelThr : Int)
    (timingNodes : List TimingNode) : List DesignCell → List DesignNet → Option (List DesignNet)
  | [], nets => some nets
  | cellA :: rest, nets =>
    (enhanceCell fpow effectFactor levelThr timingNodes nets cellA).bind
      (enhanceCells fpow effectFactor levelThr timingNodes rest)

/-- Lines 59-63: `effectFactor` from the incremented call counter. -/
def updateEffectFactor (fpow : ℚ → ℚ → ℚ) (cnt : Int) : ℚ :=
  let effectFactor : ℚ := (cnt : ℚ) / 30
  if effectFactor < 1 then fpow effectFactor 1 else 1

/-- `PlacementTimingOptimizer::enhanceNetWeight_LevelBased(int levelThr)`, lines 48-107.
The log stream `outfile0` (lines 34-46, 100-104, 108-119) and `maxEnhanceRatio`, which is only
printed, do not reach the state and are left out. -/
def enhanceNetWeight_LevelBased (fpow : ℚ → ℚ → ℚ) (levelThr : Int)
    (o : PlacementTimingOptimizer) : Option PlacementTimingOptimizer :=
  if levelThr < 4 then some o
  else
    let timingNodes := o.timingInfo
    let nets := o.designInfo.nets.map fun tmpNet => tmpNet.setOverallTimingNetEnhancement 1
    let cnt := o.enhanceNetWeight_LevelBased_Cnt + 1
    let effectFactor := updateEffectFactor fpow cnt
    (enhanceCells fpow effectFactor levelThr timingNodes o.designInfo.cells nets).map fun nets =>
      { o with
        designInfo := { o.designInfo with nets := nets }
        enhanceNetWeight_LevelBased_Cnt := cnt
        effectFactor := effectFactor }

/-! ## The factors one call applies, as a list -/

/-- The pin lists of the nets, the part of the nets no enhancement touches. -/
def netPins (nets : List DesignNet) : List (List Nat) := nets.map fun n => n.pins

/-- One call of `enhanceOverallTimingNetEnhancement r` on the net at `netId`. -/
def applyFactor (nets : List DesignNet) (e : Nat × ℚ) : List DesignNet :=
  match nets[e.1]? with
  | none => nets
  | some net => nets.set e.1 (net.enhanceOverallTimingNetEnhancement e.2)

/-- The factor a pin brings, for a ratio function `ratio targetPathLen pinNum`: a pin with a
net, that is not an input port and whose net has more than 1 and fewer than 1000 pins, brings
`(net, ratio targetPathLen pinNum)`; any other pin brings nothing.  Pin counts are read in
`nets0`. -/
def pinFactor (ratio : Int → Int → ℚ) (targetPathLen : Int) (nets0 : List DesignNet)
    (pin : DesignPin) : Option (Nat × ℚ) :=
  match pin.net with
  | none => none
  | some netId =>
    if pin.isInputPort then none
    else
      match nets0[netId]? with
      | none => none
      | some net =>
        if 1 < net.pins.length ∧ net.pins.length < 1000 then
          some (netId, ratio targetPathLen net.pins.length)
        else none

/-- The factors a cell brings: those of its pins when the cell is not virtual and the longest
path length of its timing node is at least `levelThr`, none otherwise. -/
def cellFactors (ratio : Int → Int → ℚ) (levelThr : Int) (timingNodes : List TimingNode)
    (nets0 : List DesignNet) (cell : DesignCell) : List (Nat × ℚ) :=
  if cell.isVirtualCell then []
  else
    match timingNodes[cell.cellId]? with
    | none => []
    | some node =>
      if levelThr ≤ node.getLongestPathLength then
        cell.pins.filterMap (pinFactor ratio node.getLongestPathLength nets0)
      else []

/-- The factors of all cells, in the order of the loops over cells and pins. -/
def appliedFactors (ratio : Int → Int → ℚ) (levelThr : Int) (timingNodes : List TimingNode)
    (nets0 : List DesignNet) (cells : List DesignCell) : List (Nat × ℚ) :=
  cells.flatMap (cellFactors ratio levelThr timingNodes nets0)

/-- Every reference the enhancement loops can follow leads somewhere: the cell id of each
non-virtual cell is a position in `timingNodes`, and the net of each pin is a position in
`nets`. -/
def refsValid (timingNodes : List TimingNode) (nets : List DesignNet)
    (cells : List DesignCell) : Bool :=
  cells.all fun c =>
    (c.isVirtualCell || decide (c.cellId < timingNodes.length)) &&
      c.pins.all fun p =>
        match p.net with
        | none => true
        | some netId => decide (netId < nets.length)

/-- A sequence of `enhanceNetWeight_LevelBased` calls; each call comes with the timing nodes
the timing graph holds at that moment and with its `levelThr`. -/
def runCalls (fpow : ℚ → ℚ → ℚ) :
    List (List TimingNode × Int) → PlacementTimingOptimizer → Option PlacementTimingOptimizer
  | [], o => some o
  | (timingNodes, levelThr) :: rest, o =>
    (enhanceNetWeight_LevelBased fpow levelThr { o with timingInfo := timingNodes }).bind
      (runCalls fpow rest)

/-- A stand-in for `std::pow` in closed evaluations: exact for the exponent `1`, which is the
only exponent the evaluations below reach (they run with `effectFactor = 1`). -/
def powAtOne (x e : ℚ) : ℚ := if e = 1 then x else 1

/-- The overall timing enhancements of the nets, in net order. -/
def enhancements (o : PlacementTimingOptimizer) : List ℚ :=
  o.designInfo.nets.map fun n => n.overallTimingEnhancement

/-- Cell 0 (longest path length 5) drives the two-pin net 0 and the one-pin net 1 and has an
unconnected input pin; cell 7 is virtual; cell 1, whose levels are unset, reads net 0.  The
call counter stands at 29. -/
def smallDesign : PlacementTimingOptimizer :=
  { designInfo :=
      { cells := [{ isVirtualCell := false, cellId := 0,
                    pins := [{ net := some 0, isInputPort := false },
                             { net := some 1, isInputPort := false },
                             { net := none, isInputPort := true }] },
                  { isVirtualCell := true, cellId := 7, pins := [] },
                  { isVirtualCell := false, cellId := 1,
                    pins := [{ net := some 0, isInputPort := true }] }]
        nets := [{ pins := [0, 3], overallTimingEnhancement := 1 },
                 { pins := [1], overallTimingEnhancement := 1 }] }
    timingInfo := [{ designNode := 0, id := 0, forwardLevel := 2, backwardLevel := 2,
                     longestPathLength := 5 },
                   { designNode := 2, id := 1 }]
    enhanceNetWeight_LevelBased_Cnt := 29
    effectFactor := 0 }

/-- The state of `smallDesign` after a call with `levelThr = 5` that has raised the counter to
`cnt ≥ 30`: net 0 stands at `243/200`. -/
def smallDesignAfter (cnt : Int) : PlacementTimingOptimizer :=
  { smallDesign with
    designInfo :=
      { smallDesign.designInfo with
        nets := [{ pins := [0, 3], overallTimingEnhancement := 243 / 200 },
                 { pins := [1], overallTimingEnhancement := 1 }] }
    enhanceNetWeight_LevelBased_Cnt := cnt
    effectFactor := 1 }

/-! ## `TimingGraph`: edges, `addEdgeBetween`, `setLongestPathLength` -/

/-- `TimingGraph::TimingEdge`.  `srcNode` and `sinkNode` are positions in the graph's `nodes`,
`srcPin` and `sinkPin` are the (non-null) design pins, `net` may be null. -/
structure TimingEdge where
  srcNode : Nat
  sinkNode : Nat
  srcPin : Nat
  sinkPin : Nat
  net : Option Nat
  id : Int
  delay : ℚ := 0
deriving DecidableEq, Repr

namespace TimingEdge

/-- The constructor `TimingEdge(srcNode, sinkNode, srcPin, sinkPin, net, id)` with its three
assertions `assert(srcPin)`, `assert(sinkPin)`, `assert(id >= 0)`; `none` when one fails. -/
def new (srcNode sinkNode : Nat) (srcPin sinkPin : Option Nat) (net : Option Nat) (id : Int) :
    Option TimingEdge :=
  match srcPin, sinkPin with
  | some srcPin, some sinkPin =>
    if id ≥ 0 then
      some { srcNode := srcNode, sinkNode := sinkNode, srcPin := srcPin, sinkPin := sinkPin,
             net := net, id := id }
    else none
  | _, _ => none

/-- `getId`. -/
def getId (e : TimingEdge) : Int := e.id

/-- `setDelay`. -/
def setDelay (e : TimingEdge) (_delay : ℚ) : TimingEdge := { e with delay := _delay }

/-- `getDelay`. -/
def getDelay (e : TimingEdge) : ℚ := e.delay

/-- `getSink`. -/
def getSink (e : TimingEdge) : Nat := e.sinkNode

/-- `getSource`. -/
def getSource (e : TimingEdge) : Nat := e.srcNode

end TimingEdge

/-- `TimingGraph<nodeType>`: the vectors `nodes`, `pathLenSortedNodes` (pointers to nodes, so
positions in `nodes`) and `edges`. -/
structure TimingGraph where
  nodes : List TimingNode := []
  pathLenSortedNodes : List Nat := []
  edges : List TimingEdge := []
deriving DecidableEq, Repr

/-- The conversion of a `size_t` (64 bits) to `int` (32 bits, two's complement): the value
modulo `2^32`, read as a signed number. -/
def sizeToInt (n : Nat) : Int :=
  if n % 2 ^ 32 < 2 ^ 31 then ((n % 2 ^ 32 : Nat) : Int) else ((n % 2 ^ 32 : Nat) : Int) - 2 ^ 32

namespace TimingGraph

/-- `insertTimingNode`. -/
def insertTimingNode (g : TimingGraph) (timingNode : TimingNode) : TimingGraph :=
  { g with nodes := g.nodes ++ [timingNode] }

/-- `addEdgeBetween(idA, idB, srcPin, sinkPin, net, delay)`.  The new edge gets the id
`edges.size()` converted to `int`; it is appended to `edges`, to the in-edges of `nodes[idB]`
and to the out-edges of `nodes[idA]`.  The result is `none` when `nodes[idA]` or `nodes[idB]`
is outside the vector or an assertion of the edge constructor fails. -/
def addEdgeBetween (g : TimingGraph) (idA idB : Int) (srcPin sinkPin : Option Nat)
    (net : Option Nat) (delay : ℚ) : Option TimingGraph :=
  if idA < 0 ∨ idB < 0 ∨ g.nodes.length ≤ idA.toNat ∨ g.nodes.length ≤ idB.toNat then none
  else
    match TimingEdge.new idA.toNat idB.toNat srcPin sinkPin net (sizeToInt g.edges.length) with
    | none => none
    | some newEdge =>
      let newEdge := newEdge.setDelay delay
      let edgePtr := g.edges.length
      let edges := g.edges ++ [newEdge]
      let nodes := g.nodes.modify (fun n => n.addInEdge edgePtr) idB.toNat
      let nodes := nodes.modify (fun n => n.addOutEdge edgePtr) idA.toNat
      some { g with nodes := nodes, edges := edges }

/-- The comparator of `setLongestPathLength`: longer path first, and among equal lengths the
smaller forward level first. -/
def pathLenComp (a b : TimingNode) : Bool :=
  if a.getLongestPathLength = b.getLongestPathLength then
    decide (a.getForwardLevel < b.getForwardLevel)
  else decide (a.getLongestPathLength > b.getLongestPathLength)

/-- `std::sort(first, last, comp)` on a vector of pointers, each pointer paired with the node
it points to.  The standard fixes the result only up to the order of equivalent elements; this
is the insertion sort, whose order relation "`b` does not go before `a`" is `¬ comp b a`. -/
def stdSort (comp : TimingNode → TimingNode → Bool) (v : List (Nat × TimingNode)) :
    List (Nat × TimingNode) :=
  v.insertionSort fun a b => comp b.2 a.2 = false

/-- `setLongestPathLength`: `calcLongestPath` on every node, then `pathLenSortedNodes` is the
copy of `nodes` sorted by `pathLenComp`. -/
def setLongestPathLength (g : TimingGraph) : TimingGraph :=
  let nodes := g.nodes.map fun tmpNode => tmpNode.calcLongestPath
  { g with
    nodes := nodes
    pathLenSortedNodes := (stdSort pathLenComp nodes.enum).map Prod.fst }

end TimingGraph

/-- An operation that builds the graph: `insertTimingNode` or `addEdgeBetween`. -/
inductive GraphOp where
  | insertTimingNode (timingNode : TimingNode)
  | addEdgeBetween (idA idB : Int) (srcPin sinkPin : Option Nat) (net : Option Nat) (delay : ℚ)
deriving DecidableEq, Repr

/-- Whether the operation is an `addEdgeBetween`. -/
def GraphOp.isAddEdge : GraphOp → Bool
  | .insertTimingNode _ => false
  | .addEdgeBetween _ _ _ _ _ _ => true

/-- One building operation on the graph. -/
def TimingGraph.step (g : TimingGraph) : GraphOp → Option TimingGraph
  | .insertTimingNode timingNode => some (g.insertTimingNode timingNode)
  | .addEdgeBetween idA idB srcPin sinkPin net delay =>
    g.addEdgeBetween idA idB srcPin sinkPin net delay

/-- A sequence of building operations, all of which have to succeed. -/
def TimingGraph.build : List GraphOp → TimingGraph → Option TimingGraph
  | [], g => some g
  | op :: rest, g => (g.step op).bind (TimingGraph.build rest)

/-- The nodes of a chain of `N` combinational cells after levelization, as the specification
describes it: the `k`-th cell has `forwardLevel = k` and `backwardLevel = N - k - 1`. -/
def chainNodes (N : Nat) : List TimingNode :=
  (List.range N).map fun k =>
    { designNode := k, id := (k : Int), forwardLevel := (k : Int),
      backwardLevel := (N : Int) - (k : Int) - 1 }

/-- A graph of four nodes with path lengths 3, unset, 5, 5 and one edge. -/
def sampleGraph : TimingGraph :=
  { nodes := [{ designNode := 0, id := 0, forwardLevel := 1, backwardLevel := 1 },
              { designNode := 1, id := 1 },
              { designNode := 2, id := 2, forwardLevel := 3, backwardLevel := 1 },
              { designNode := 3, id := 3, forwardLevel := 2, backwardLevel := 2 }]
    edges := [] }

/-- The graph `sampleGraph` after `addEdgeBetween(0, 2, ..)`, the insertion of a fifth node and
`addEdgeBetween(2, 4, ..)`. -/
def sampleGraphBuilt : TimingGraph :=
  { nodes := [{ designNode := 0, id := 0, forwardLevel := 1, backwardLevel := 1,
                outEdges := [0] },
              { designNode := 1, id := 1 },
              { designNode := 2, id := 2, forwardLevel := 3, backwardLevel := 1,
                inEdges := [0], outEdges := [1] },
              { designNode := 3, id := 3, forwardLevel := 2, backwardLevel := 2 },
              { designNode := 4, id := 4, inEdges := [1] }]
    edges := [{ srcNode := 0, sinkNode := 2, srcPin := 0, sinkPin := 1, net := none, id := 0,
                delay := 0 },
              { srcNode := 2, sinkNode := 4, srcPin := 2, sinkPin := 3, net := some 0, id := 1,
                delay := 1 / 2 }] }

/-- The edge ids of a graph are the positions of the edges, and there are at most `2^31`
edges. -/
def DenseIds (g : TimingGraph) : Prop :=
  g.edges.length ≤ 2 ^ 31 ∧ ∀ (i : Nat) (h : i < g.edges.length), (g.edges[i]).getId = (i : Int)


/-! ## Timing node accessors for the slowest predecessor and the earliest successor -/

namespace TimingNode

/-- `getSlowestPredecessorId`. -/
def getSlowestPredecessorId (n : TimingNode) : Int := n.slowestPredecessorId

/-- `setSlowestPredecessorId`. -/
def setSlowestPredecessorId (n : TimingNode) (_slowestPredecessorId : Int) : TimingNode :=
  { n with slowestPredecessorId := _slowestPredecessorId }

/-- `getEarlestSuccessorId`, documented as "Get the earliest successor node Id"; the body is
`return slowestPredecessorId;`. -/
def getEarlestSuccessorId (n : TimingNode) : Int := n.slowestPredecessorId

/-- `setEarlestSuccessorId`. -/
def setEarlestSuccessorId (n : TimingNode) (_earliestSuccessorId : Int) : TimingNode :=
  { n with earliestSuccessorId := _earliestSuccessorId }

end TimingNode

/-! ## Placement units and the placement information -/

/-- `PlacementInfo::Location`: the pair of coordinates `X`, `Y`. -/
structure Location where
  X : ℚ
  Y : ℚ
deriving DecidableEq, Repr

/-- The two classes a `PlacementUnit` is cast to: a `PlacementUnpackedCell` with the id of
its cell, or a `PlacementMacro` with the ids of its member cells (`getCells()`). -/
inductive PUKind where
  | unpackedCell (cellId : Int)
  | placementMacro (cellIds : List Int)
deriving DecidableEq, Repr

/-- Modelled from the spec: `PlacementInfo::PlacementUnit` is declared in `PlacementInfo.h`,
which is not among the sources.  The spec gives a PU the variant (unpacked cell or macro), the
location `(x, y)` and the flags `isFixed`, `isLocked`, `isPacked`; `id` is `getId()`. -/
structure PlacementUnit where
  id : Int
  X : ℚ
  Y : ℚ
  fixed : Bool := false
  locked : Bool := false
  packed : Bool := false
  kind : PUKind
deriving DecidableEq, Repr

namespace PlacementUnit

/-- Modelled from the spec: `isFixed()` of the missing `PlacementInfo.h` reads the flag. -/
def isFixed (u : PlacementUnit) : Bool := u.fixed

/-- Modelled from the spec: `isLocked()` of the missing `PlacementInfo.h` reads the flag. -/
def isLocked (u : PlacementUnit) : Bool := u.locked

/-- Modelled from the spec: `isPacked()` of the missing `PlacementInfo.h` reads the flag. -/
def isPacked (u : PlacementUnit) : Bool := u.packed

/-- Modelled from the spec: `resetPacked()` of the missing `PlacementInfo.h` clears `isPacked`
("`isPacked` and transient fixed flags are explicitly cleared before dumping"). -/
def resetPacked (u : PlacementUnit) : PlacementUnit := { u with packed := false }

/-- Modelled from the spec: `setUnfixed()` of the missing `PlacementInfo.h` clears `isFixed`
("a fixed PU ... may be un-fixed explicitly"). -/
def setUnfixed (u : PlacementUnit) : PlacementUnit := { u with fixed := false }

/-- The cell ids the two `dynamic_cast` branches visit: the cell of an unpacked cell, the
member cells of a macro. -/
def cellIds (u : PlacementUnit) : List Int :=
  match u.kind with
  | .unpackedCell cellId => [cellId]
  | .placementMacro cellIds => cellIds

end PlacementUnit

/-- The parts of `PlacementInfo` the embedded code reads and writes: `getCells()`,
`getPlacementUnits()`, the vector behind `getPlacementUnitByCellId` (pointers to placement
units, so positions in `placementUnits`), `getCellId2location()`, `getPinId2location()`,
`getPU2ClockRegionCenters()` (a map from PU pointers to a pair of coordinates) and
`getPULegalXY()` (a pair of maps from PU pointers to a coordinate). -/
structure PlacementInfo where
  cells : List DesignCell := []
  placementUnits : List PlacementUnit := []
  cellId2PlacementUnit : List Nat := []
  cellId2location : List Location := []
  pinId2location : List Location := []
  PU2ClockRegionCenter : List (Nat × (ℚ × ℚ)) := []
  PULegalXY : List (Nat × ℚ) × List (Nat × ℚ) := ([], [])
deriving DecidableEq, Repr

/-- The element `v[i]` of a `std::vector` for an `int` index; `none` when the index is
outside the vector. -/
def vecAt {α : Type} (v : List α) (i : Int) : Option α :=
  if i < 0 then none else v[i.toNat]?

/-! ## `AMFPlacer::clearSomeAttributesCannotRecord` -/

/-- Lines 104-108: `resetPacked` on every packed PU. -/
def resetPackedAll (placementUnits : List PlacementUnit) : List PlacementUnit :=
  placementUnits.map fun PU => if PU.isPacked then PU.resetPacked else PU

/-- Lines 111-114, the body of the loop over `getPULegalXY().first`; `none` when the key does
not point to a placement unit. -/
def unfixOne (placementUnits : List PlacementUnit) (pair : Nat × ℚ) :
    Option (List PlacementUnit) :=
  match placementUnits[pair.1]? with
  | none => none
  | some PU =>
    if PU.isFixed && !PU.isLocked then some (placementUnits.set pair.1 PU.setUnfixed)
    else some placementUnits

/-- Lines 109-115, the loop over `getPULegalXY().first`. -/
def unfixLegalized : List (Nat × ℚ) → List PlacementUnit → Option (List PlacementUnit)
  | [], placementUnits => some placementUnits
  | pair :: rest, placementUnits => (unfixOne placementUnits pair).bind (unfixLegalized rest)

/-- `AMFPlacer::clearSomeAttributesCannotRecord`. -/
def clearSomeAttributesCannotRecord (placementInfo : PlacementInfo) : Option PlacementInfo :=
  let placementUnits := resetPackedAll placementInfo.placementUnits
  (unfixLegalized placementInfo.PULegalXY.1 placementUnits).map fun placementUnits =>
    { placementInfo with placementUnits := placementUnits }

/-! ## The constructor of `AMFPlacer` -/

/-- `JSON.find(key) != JSON.end()` on the `std::map<std::string, std::string>`. -/
def jsonHas (JSON : List (String × String)) (key : String) : Bool :=
  JSON.any fun entry => entry.1 = key

/-- `JSON[key]`: the value of the key, the empty string when the key is absent. -/
def jsonValue (JSON : List (String × String)) (key : String) : String :=
  match JSON.find? fun entry => entry.1 = key with
  | some entry => entry.2
  | none => ""

/-- The map after `JSON[key]` has been evaluated: `operator[]` inserts the key with an empty
value when it is absent. -/
def jsonTouch (JSON : List (String × String)) (key : String) : List (String × String) :=
  if jsonHas JSON key then JSON else JSON ++ [(key, "")]

/-- The seven keys the constructor asserts (lines 54-60). -/
def assertedKeys : List String :=
  ["vivado extracted device information file", "special pin offset info file",
   "vivado extracted design information file", "cellType2fixedAmo file",
   "cellType2sharedCellType file", "sharedCellType2BELtype file", "GlobalPlacementIteration"]

/-- The constructor `AMFPlacer(JSONFileName)` from the parsed configuration `JSON` up to line
78, before the device and the design are loaded.  `fileExists` and `createDirectories` are
the file system, `stoi` is `std::stoi` (`none` when it throws).  The result is the number
given to the last `omp_set_num_threads`; `none` when an assertion fails or `std::stoi`
throws. -/
def newAMFPlacer (fileExists createDirectories : String → Bool) (stoi : String → Option Int)
    (JSON : List (String × String)) : Option Int :=
  if !(assertedKeys.all fun key => jsonHas JSON key) then none
  else if jsonHas JSON "dumpDirectory" && !fileExists (jsonValue JSON "dumpDirectory") &&
      !createDirectories (jsonValue JSON "dumpDirectory") then none
  else
    match stoi (jsonValue JSON "jobs") with
    | none => none
    | some _ =>
      let JSON := jsonTouch JSON "jobs"
      if jsonHas JSON "jobs" then stoi (jsonValue JSON "jobs")
      else some 1

/-! ## `PlacementTimingOptimizer::setPinsLocation` and the edge delays of
`conductStaticTimingAnalysis` -/

/-- The conversion `(unsigned int) id` of an `int`: the value modulo `2^32`. -/
def toUnsigned (id : Int) : Nat := (id % 2 ^ 32).toNat

/-- Lines 136-140, the body of the loop over the pins of `tmpCell`: the pin location is the
cell location plus the pin offset; `none` when the assertion
`(unsigned int) getElementIdInType() < pinLoc.size()` fails or the index is outside
`pinLoc`. -/
def setPinLocation (tmpCellLoc : Location) (pinLoc : List Location) (tmpPin : DesignPin) :
    Option (List Location) :=
  let pinX : ℚ := tmpCellLoc.X + tmpPin.offsetXInCell
  let pinY : ℚ := tmpCellLoc.Y + tmpPin.offsetYInCell
  if toUnsigned tmpPin.elementIdInType < pinLoc.length then
    if tmpPin.elementIdInType < 0 then none
    else some (pinLoc.set tmpPin.elementIdInType.toNat { X := pinX, Y := pinY })
  else none

/-- Lines 134-141, the loop over `tmpCell->getPins()`. -/
def setPinLocations (tmpCellLoc : Location) :
    List DesignPin → List Location → Option (List Location)
  | [], pinLoc => some pinLoc
  | tmpPin :: rest, pinLoc =>
    (setPinLocation tmpCellLoc pinLoc tmpPin).bind (setPinLocations tmpCellLoc rest)

/-- Lines 130-142, the loop over `placementInfo->getCells()`; `none` when
`cellLoc[cellId]` is outside the vector. -/
def setCellPinLocations (cellLoc : List Location) :
    List DesignCell → List Location → Option (List Location)
  | [], pinLoc => some pinLoc
  | tmpCell :: rest, pinLoc =>
    match cellLoc[tmpCell.cellId]? with
    | none => none
    | some tmpCellLoc =>
      (setPinLocations tmpCellLoc tmpCell.pins pinLoc).bind (setCellPinLocations cellLoc rest)

/-- `PlacementTimingOptimizer::setPinsLocation`.  `numPins` is `designInfo->getPins().size()`
and `unplaced` is the default-constructed `Location` (its declaration is in the missing
`PlacementInfo.h`). -/
def setPinsLocation (unplaced : Location) (numPins : Nat) (placementInfo : PlacementInfo) :
    Option PlacementInfo :=
  let pinLoc := List.replicate numPins unplaced
  (setCellPinLocations placementInfo.cellId2location placementInfo.cells pinLoc).map
    fun pinLoc => { placementInfo with pinId2location := pinLoc }

/-- The test `Loc.X < -5 && Loc.Y < -5` of lines 172 and 174: the pin is not placed. -/
def unplacedPin (loc : Location) : Bool := decide (loc.X < -5) && decide (loc.Y < -5)

/-- Lines 170-182, the body of the loop over the timing edges.  `pins` is
`designInfo->getPins()`, the edge's pin pointers being positions in it;
`getDelayByModel` (declared in the missing `PlacementTimingOptimizer.h`) and
`getClockRegionByLocation` (of the device, giving `(clockRegionX, clockRegionY)`) are
parameters.  `none` when a pin pointer or an index into `pinLoc` leads nowhere. -/
def setEdgeDelay (getDelayByModel : ℚ → ℚ → ℚ) (getClockRegionByLocation : ℚ → ℚ → Int × Int)
    (pins : List DesignPin) (pinLoc : List Location) (edge : TimingEdge) : Option TimingEdge :=
  match pins[edge.srcPin]?, pins[edge.sinkPin]? with
  | some srcPin, some sinkPin =>
    match vecAt pinLoc srcPin.elementIdInType, vecAt pinLoc sinkPin.elementIdInType with
    | some pin1Loc, some pin2Loc =>
      if pin1Loc.X < -5 ∧ pin1Loc.Y < -5 then some edge
      else if pin2Loc.X < -5 ∧ pin2Loc.Y < -5 then some edge
      else
        let clockRegionX0 := (getClockRegionByLocation pin1Loc.X pin1Loc.Y).1
        let clockRegionX1 := (getClockRegionByLocation pin2Loc.X pin2Loc.Y).1
        some (edge.setDelay
          (getDelayByModel |pin1Loc.X - pin2Loc.X| |pin1Loc.Y - pin2Loc.Y| +
            ((|clockRegionX1 - clockRegionX0| : Int) : ℚ) * (1 / 2)))
    | _, _ => none
  | _, _ => none

/-- Lines 168-183, the loop over `timingGraph->getEdges()`. -/
def setEdgeDelays (getDelayByModel : ℚ → ℚ → ℚ) (getClockRegionByLocation : ℚ → ℚ → Int × Int)
    (pins : List DesignPin) (pinLoc : List Location) : List TimingEdge → Option (List TimingEdge)
  | [] => some []
  | edge :: rest =>
    match setEdgeDelay getDelayByModel getClockRegionByLocation pins pinLoc edge with
    | none => none
    | some edge' =>
      (setEdgeDelays getDelayByModel getClockRegionByLocation pins pinLoc rest).map
        fun rest' => edge' :: rest'

/-- The part of `conductStaticTimingAnalysis` before the propagation (lines 162-183):
`setPinsLocation`, then the delay of every edge.  The log stream of lines 148-160 and
212-226 does not reach the state and is left out. -/
def conductStaticTimingAnalysis_edgeDelays (getDelayByModel : ℚ → ℚ → ℚ)
    (getClockRegionByLocation : ℚ → ℚ → Int × Int) (unplaced : Location)
    (pins : List DesignPin) (placementInfo : PlacementInfo) (timingGraph : TimingGraph) :
    Option (PlacementInfo × TimingGraph) :=
  match setPinsLocation unplaced pins.length placementInfo with
  | none => none
  | some placementInfo =>
    (setEdgeDelays getDelayByModel getClockRegionByLocation pins placementInfo.pinId2location
      timingGraph.edges).map fun edges => (placementInfo, { timingGraph with edges := edges })

/-! ## Long-path clustering: `clusterLongPathInOneClockRegion` and
`moveDriverIntoBetterClockRegion` -/

/-- `std::set::insert`: the element is added unless it is there already.  The set is kept in
ascending order, the order in which a `std::set` is traversed (for a set of pointers, the
order of the positions stands for the order of the addresses). -/
def setInsert {α : Type} [LinearOrder α] (x : α) (s : List α) : List α :=
  if x ∈ s then s else s.orderedInsert (fun a b => a ≤ b) x

/-- `std::set::insert` of every element of a list, in order. -/
def setInsertAll {α : Type} [LinearOrder α] (xs : List α) (s : List α) : List α :=
  xs.foldl (fun s x => setInsert x s) s

/-- `m.find(key)` on a `std::map`: the value stored for the key, if any. -/
def mapFind {κ ν : Type} [DecidableEq κ] (m : List (κ × ν)) (key : κ) : Option ν :=
  (m.find? fun entry => entry.1 = key).map fun entry => entry.2

/-- `m[key] = value` on a `std::map`: the entry of the key is replaced, or added when the key
is new. -/
def mapSet {κ ν : Type} [DecidableEq κ] (m : List (κ × ν)) (key : κ) (value : ν) :
    List (κ × ν) :=
  if m.any fun entry => entry.1 = key then
    m.map fun entry => if entry.1 = key then (key, value) else entry
  else m ++ [(key, value)]

/-- A clock region of the device with its `getLeft()` and `getRight()`. -/
structure ClockRegion where
  left : ℚ
  right : ℚ
deriving DecidableEq, Repr

/-- The local variables of the clock-region tally: the map `clockRegionYX2Cnt`,
`maxClockRegionWeight`, `totalClockRegionWeight` and `optClockLocYX` (a default-constructed
pair, so `(0, 0)`, until it is assigned). -/
structure ClockRegionTally where
  clockRegionYX2Cnt : List ((Int × Int) × ℚ) := []
  maxClockRegionWeight : ℚ := 0
  totalClockRegionWeight : ℚ := 0
  optClockLocYX : Int × Int := (0, 0)
deriving DecidableEq, Repr

/-- The block of lines 285-300 (repeated at 306-323 and in `moveDriverIntoBetterClockRegion`):
the cell at `cellLoc[cellId]` adds 1 to the count of its clock-region column and to the total;
the column becomes the optimum when its count exceeds the maximum so far.  `none` when
`cellLoc[cellId]` is outside the vector. -/
def tallyCell (getClockRegionByLocation : ℚ → ℚ → Int × Int) (cellLoc : List Location)
    (t : ClockRegionTally) (cellId : Int) : Option ClockRegionTally :=
  match vecAt cellLoc cellId with
  | none => none
  | some tmpLoc =>
    let clockRegionX := (getClockRegionByLocation tmpLoc.X tmpLoc.Y).1
    let tmpClockLocYX : Int × Int := (-1, clockRegionX)
    let clockRegionYX2Cnt :=
      if (mapFind t.clockRegionYX2Cnt tmpClockLocYX).isNone then
        mapSet t.clockRegionYX2Cnt tmpClockLocYX 0
      else t.clockRegionYX2Cnt
    let clockRegionYX2Cnt :=
      mapSet clockRegionYX2Cnt tmpClockLocYX
        ((mapFind clockRegionYX2Cnt tmpClockLocYX).getD 0 + 1)
    let totalClockRegionWeight := t.totalClockRegionWeight + 1
    if (mapFind clockRegionYX2Cnt tmpClockLocYX).getD 0 > t.maxClockRegionWeight then
      some { clockRegionYX2Cnt := clockRegionYX2Cnt
             maxClockRegionWeight := (mapFind clockRegionYX2Cnt tmpClockLocYX).getD 0
             totalClockRegionWeight := totalClockRegionWeight
             optClockLocYX := tmpClockLocYX }
    else
      some { clockRegionYX2Cnt := clockRegionYX2Cnt
             maxClockRegionWeight := t.maxClockRegionWeight
             totalClockRegionWeight := totalClockRegionWeight
             optClockLocYX := t.optClockLocYX }

/-- The loop over `curMacro->getCells()` of lines 304-324. -/
def tallyCells (getClockRegionByLocation : ℚ → ℚ → Int × Int) (cellLoc : List Location) :
    List Int → ClockRegionTally → Option ClockRegionTally
  | [], t => some t
  | cellId :: rest, t =>
    (tallyCell getClockRegionByLocation cellLoc t cellId).bind
      (tallyCells getClockRegionByLocation cellLoc rest)

/-- Lines 280-325, the body of the loop over `PUsInLongPaths`: an unpacked cell is tallied
once, a macro once for each of its cells.  `none` when the pointer leads to no placement
unit. -/
def tallyPU (getClockRegionByLocation : ℚ → ℚ → Int × Int) (cellLoc : List Location)
    (placementUnits : List PlacementUnit) (t : ClockRegionTally) (tmpPU : Nat) :
    Option ClockRegionTally :=
  match placementUnits[tmpPU]? with
  | none => none
  | some PU =>
    match PU.kind with
    | .unpackedCell cellId => tallyCell getClockRegionByLocation cellLoc t cellId
    | .placementMacro cellIds => tallyCells getClockRegionByLocation cellLoc cellIds t

/-- Lines 278-326, the loop over `PUsInLongPaths`. -/
def tallyPUs (getClockRegionByLocation : ℚ → ℚ → Int × Int) (cellLoc : List Location)
    (placementUnits : List PlacementUnit) : List Nat → ClockRegionTally → Option ClockRegionTally
  | [], t => some t
  | tmpPU :: rest, t =>
    (tallyPU getClockRegionByLocation cellLoc placementUnits t tmpPU).bind
      (tallyPUs getClockRegionByLocation cellLoc placementUnits rest)

/-- Lines 256-264: the placement units of the candidate cells that are neither in
`extractedPUs` nor collected already.  `none` when `getPlacementUnitByCellId` is asked for a
cell id outside its vector. -/
def collectPUs (cellId2PlacementUnit : List Nat) (extractedPUs : List Nat) :
    List Int → List Nat → Option (List Nat)
  | [], PUsInLongPaths => some PUsInLongPaths
  | candidateCellId :: rest, PUsInLongPaths =>
    match vecAt cellId2PlacementUnit candidateCellId with
    | none => none
    | some PUInPath =>
      if PUInPath ∉ extractedPUs ∧ PUInPath ∉ PUsInLongPaths then
        collectPUs cellId2PlacementUnit extractedPUs rest (setInsert PUInPath PUsInLongPaths)
      else collectPUs cellId2PlacementUnit extractedPUs rest PUsInLongPaths

/-- The variables the loop over the sorted timing nodes carries: `extractedCellIds`,
`extractedPUs`, the map `PU2ClockRegionCenter` and the member `clockRegionclusters`. -/
structure ClusterState where
  extractedCellIds : List Int := []
  extractedPUs : List Nat := []
  PU2ClockRegionCenter : List (Nat × (ℚ × ℚ)) := []
  clockRegionclusters : List (List Int) := []
deriving DecidableEq, Repr

/-- Lines 332-350 for one placement unit that is not fixed: the anchor is
`legalizeXYInArea` of `(cX, curPU->Y())`, the unit enters `extractedPUs` and the map, and its
cells enter `extractedCellIds`.  `legalizeXYInArea` (declared in the missing
`PlacementInfo.h`) is a parameter giving the legalized `(fX, fY)`. -/
def anchorUnfixedPU (legalizeXYInArea : Nat → ℚ → ℚ → ℚ × ℚ) (cX : ℚ) (st : ClusterState)
    (curPU : Nat) (PU : PlacementUnit) : ClusterState :=
  let fX : ℚ := cX
  let fY : ℚ := PU.Y
  let legal := legalizeXYInArea curPU fX fY
  let extractedCellIds :=
    match PU.kind with
    | .unpackedCell cellId => setInsert cellId st.extractedCellIds
    | .placementMacro cellIds => setInsertAll cellIds st.extractedCellIds
  { st with
    extractedPUs := setInsert curPU st.extractedPUs
    PU2ClockRegionCenter := mapSet st.PU2ClockRegionCenter curPU legal
    extractedCellIds := extractedCellIds }

/-- Lines 328-354, the loop over `PUsInLongPaths` that anchors the units that are not fixed
and collects their ids in `PUIdsInLongPaths`. -/
def anchorPUs (legalizeXYInArea : Nat → ℚ → ℚ → ℚ × ℚ) (placementUnits : List PlacementUnit)
    (cX : ℚ) : List Nat → ClusterState × List Int → Option (ClusterState × List Int)
  | [], acc => some acc
  | curPU :: rest, (st, PUIdsInLongPaths) =>
    match placementUnits[curPU]? with
    | none => none
    | some PU =>
      if !PU.isFixed then
        anchorPUs legalizeXYInArea placementUnits cX rest
          (anchorUnfixedPU legalizeXYInArea cX st curPU PU, PUIdsInLongPaths ++ [PU.id])
      else anchorPUs legalizeXYInArea placementUnits cX rest (st, PUIdsInLongPaths)

/-- `YX2ClockRegion[0][x]`; `none` outside the vectors. -/
def clockRegionRow0 (YX2ClockRegion : List (List ClockRegion)) (x : Int) : Option ClockRegion :=
  match YX2ClockRegion[0]? with
  | none => none
  | some row => vecAt row x

/-- Lines 266-359: what is done with the placement units `PUsInLongPaths` of a candidate
cluster that has at least 8 of them. -/
def clusterPUs (getClockRegionByLocation : ℚ → ℚ → Int × Int)
    (YX2ClockRegion : List (List ClockRegion)) (legalizeXYInArea : Nat → ℚ → ℚ → ℚ × ℚ)
    (placementInfo : PlacementInfo) (clusterThrRatio : ℚ) (candidateCellIds : List Int)
    (PUsInLongPaths : List Nat) (st : ClusterState) : Option ClusterState :=
  match tallyPUs getClockRegionByLocation placementInfo.cellId2location
      placementInfo.placementUnits PUsInLongPaths {} with
  | none => none
  | some t =>
    if t.maxClockRegionWeight > t.totalClockRegionWeight * clusterThrRatio ∧
        t.maxClockRegionWeight ≥ 4 then
      match clockRegionRow0 YX2ClockRegion t.optClockLocYX.2 with
      | none => none
      | some optClockRegion =>
        let cX : ℚ := (optClockRegion.left + optClockRegion.right) / 2
        (anchorPUs legalizeXYInArea placementInfo.placementUnits cX PUsInLongPaths (st, [])).map
          fun acc => { acc.1 with clockRegionclusters := acc.1.clockRegionclusters ++ [acc.2] }
    else if t.totalClockRegionWeight ≥ 20000 then
      some { st with extractedCellIds := setInsertAll candidateCellIds st.extractedCellIds }
    else some st

/-- Lines 250-359: the cluster grown from one timing node.  `DFSFromNode` is declared in
`PlacementTimingInfo.h` without a body among the sources; it is a parameter that gives the
candidate cell ids for a start node id, the path-length threshold, the size limit and the
excepted cells. -/
def clusterFromNode (DFSFromNode : Int → Int → Nat → List Int → List Int)
    (getClockRegionByLocation : ℚ → ℚ → Int × Int) (YX2ClockRegion : List (List ClockRegion))
    (legalizeXYInArea : Nat → ℚ → ℚ → ℚ × ℚ) (placementInfo : PlacementInfo)
    (pathLenThr : Int) (clusterThrRatio : ℚ) (timingNode : TimingNode) (st : ClusterState) :
    Option ClusterState :=
  let candidateCellIds := DFSFromNode timingNode.id pathLenThr 2000 st.extractedCellIds
  if (candidateCellIds.length : ℚ) ≥ (pathLenThr : ℚ) * (4 / 5) then
    match collectPUs placementInfo.cellId2PlacementUnit st.extractedPUs candidateCellIds [] with
    | none => none
    | some PUsInLongPaths =>
      if PUsInLongPaths.length ≥ 8 then
        clusterPUs getClockRegionByLocation YX2ClockRegion legalizeXYInArea placementInfo
          clusterThrRatio candidateCellIds PUsInLongPaths st
      else some st
  else some st

/-- The node `timingNodes[nodeId]` of the path-length-sorted vector: the pointer at the
position `nodeId` of `pathLenSortedNodes`, followed into `nodes`. -/
def sortedNodeAt (timingGraph : TimingGraph) (nodeId : Nat) : Option TimingNode :=
  match timingGraph.pathLenSortedNodes[nodeId]? with
  | none => none
  | some ptr => timingGraph.nodes[ptr]?

/-- The values `nodeId = 0, 1, ...` for which the loop condition
`nodeId < timingNodes.size() * 0.1` holds. -/
def loopPositions (size : Nat) : List Nat :=
  (List.range size).takeWhile fun nodeId => decide ((nodeId : ℚ) < (size : ℚ) * (1 / 10))

/-- Lines 243-365, the loop over `nodeId`: a node whose longest path length is not above
`pathLenThr` ends the loop (`break`); a `nodeId` found in `extractedCellIds` is passed over
(`continue`); otherwise the cluster of the node is grown. -/
def clusterLoop (DFSFromNode : Int → Int → Nat → List Int → List Int)
    (getClockRegionByLocation : ℚ → ℚ → Int × Int) (YX2ClockRegion : List (List ClockRegion))
    (legalizeXYInArea : Nat → ℚ → ℚ → ℚ × ℚ) (placementInfo : PlacementInfo)
    (timingGraph : TimingGraph) (pathLenThr : Int) (clusterThrRatio : ℚ) :
    List Nat → ClusterState → Option ClusterState
  | [], st => some st
  | nodeId :: rest, st =>
    match sortedNodeAt timingGraph nodeId with
    | none => none
    | some timingNode =>
      if timingNode.getLongestPathLength > pathLenThr then
        if (nodeId : Int) ∈ st.extractedCellIds then
          clusterLoop DFSFromNode getClockRegionByLocation YX2ClockRegion legalizeXYInArea
            placementInfo timingGraph pathLenThr clusterThrRatio rest st
        else
          (clusterFromNode DFSFromNode getClockRegionByLocation YX2ClockRegion legalizeXYInArea
            placementInfo pathLenThr clusterThrRatio timingNode st).bind
            (clusterLoop DFSFromNode getClockRegionByLocation YX2ClockRegion legalizeXYInArea
              placementInfo timingGraph pathLenThr clusterThrRatio rest)
      else some st

/-- `PlacementTimingOptimizer::clusterLongPathInOneClockRegion(pathLenThr, clusterThrRatio)`:
the map `PU2ClockRegionCenter`, the sets and `clockRegionclusters` are cleared, then the loop
runs.  The result is the placement information with the new map, and `clockRegionclusters`.
`dumpClockRegionClusters`, which only writes a file, is left out. -/
def clusterLongPathInOneClockRegion (DFSFromNode : Int → Int → Nat → List Int → List Int)
    (getClockRegionByLocation : ℚ → ℚ → Int × Int) (YX2ClockRegion : List (List ClockRegion))
    (legalizeXYInArea : Nat → ℚ → ℚ → ℚ × ℚ) (timingGraph : TimingGraph)
    (pathLenThr : Int) (clusterThrRatio : ℚ) (placementInfo : PlacementInfo) :
    Option (PlacementInfo × List (List Int)) :=
  (clusterLoop DFSFromNode getClockRegionByLocation YX2ClockRegion legalizeXYInArea
    placementInfo timingGraph pathLenThr clusterThrRatio
    (loopPositions timingGraph.pathLenSortedNodes.length) {}).map
    fun st =>
      ({ placementInfo with PU2ClockRegionCenter := st.PU2ClockRegionCenter },
        st.clockRegionclusters)

/-- Lines 452-455 of `moveDriverIntoBetterClockRegion`: the set of the ids of the sink nodes
of the out-edges of the timing node.  `none` when an edge or node pointer leads nowhere. -/
def sinkIds (timingGraph : TimingGraph) : List Nat → List Int → Option (List Int)
  | [], candidateCellIds => some candidateCellIds
  | outEdge :: rest, candidateCellIds =>
    match timingGraph.edges[outEdge]? with
    | none => none
    | some edge =>
      match timingGraph.nodes[edge.getSink]? with
      | none => none
      | some sink => sinkIds timingGraph rest (setInsert sink.id candidateCellIds)

/-- Lines 461-465 of `moveDriverIntoBetterClockRegion`: the set of the placement units of the
candidate cells. -/
def collectAllPUs (cellId2PlacementUnit : List Nat) : List Int → List Nat → Option (List Nat)
  | [], PUsInLongPaths => some PUsInLongPaths
  | candidateCellId :: rest, PUsInLongPaths =>
    match vecAt cellId2PlacementUnit candidateCellId with
    | none => none
    | some PUInPath =>
      collectAllPUs cellId2PlacementUnit rest (setInsert PUInPath PUsInLongPaths)

/-- Lines 448-551 of `moveDriverIntoBetterClockRegion`: the work for the loop value `nodeId`
and the timing node `timingNodes[nodeId]`.  The driver PU is
`getPlacementUnitByCellId(nodeId)` and the driver location is `cellLoc[nodeId]`. -/
def moveDriverFromNode (getClockRegionByLocation : ℚ → ℚ → Int × Int)
    (YX2ClockRegion : List (List ClockRegion)) (legalizeXYInArea : Nat → ℚ → ℚ → ℚ × ℚ)
    (placementInfo : PlacementInfo) (timingGraph : TimingGraph) (pathLenThr : Int)
    (clusterThrRatio : ℚ) (nodeId : Nat) (timingNode : TimingNode) (st : ClusterState) :
    Option ClusterState :=
  match placementInfo.cellId2PlacementUnit[nodeId]? with
  | none => none
  | some driverPU =>
    match sinkIds timingGraph timingNode.outEdges [] with
    | none => none
    | some candidateCellIds =>
      if (candidateCellIds.length : ℚ) ≥ (pathLenThr : ℚ) * (1 / 2) then
        match collectAllPUs placementInfo.cellId2PlacementUnit candidateCellIds [] with
        | none => none
        | some PUsInLongPaths =>
          if PUsInLongPaths.length ≥ 8 then
            match placementInfo.cellId2location[nodeId]? with
            | none => none
            | some driverLoc =>
              let driverClockRegionX := (getClockRegionByLocation driverLoc.X driverLoc.Y).1
              let driverClockLocYX : Int × Int := (-1, driverClockRegionX)
              match tallyPUs getClockRegionByLocation placementInfo.cellId2location
                  placementInfo.placementUnits PUsInLongPaths {} with
              | none => none
              | some t =>
                if driverClockLocYX ≠ t.optClockLocYX ∧
                    t.maxClockRegionWeight > t.totalClockRegionWeight * clusterThrRatio ∧
                    t.maxClockRegionWeight ≥ 4 then
                  match clockRegionRow0 YX2ClockRegion t.optClockLocYX.2 with
                  | none => none
                  | some optClockRegion =>
                    let cX : ℚ := (optClockRegion.left + optClockRegion.right) / 2
                    match placementInfo.placementUnits[driverPU]? with
                    | none => none
                    | some PU =>
                      if !PU.isFixed then
                        some (anchorUnfixedPU legalizeXYInArea cX st driverPU PU)
                      else some st
                else if t.totalClockRegionWeight ≥ 20000 then
                  some { st with
                    extractedCellIds := setInsertAll candidateCellIds st.extractedCellIds }
                else some st
          else some st
      else some st

/-- Lines 441-557 of `moveDriverIntoBetterClockRegion`, the loop over `nodeId`. -/
def moveDriverLoop (getClockRegionByLocation : ℚ → ℚ → Int × Int)
    (YX2ClockRegion : List (List ClockRegion)) (legalizeXYInArea : Nat → ℚ → ℚ → ℚ × ℚ)
    (placementInfo : PlacementInfo) (timingGraph : TimingGraph) (pathLenThr : Int)
    (clusterThrRatio : ℚ) : List Nat → ClusterState → Option ClusterState
  | [], st => some st
  | nodeId :: rest, st =>
    match sortedNodeAt timingGraph nodeId with
    | none => none
    | some timingNode =>
      if timingNode.getLongestPathLength > pathLenThr then
        if (nodeId : Int) ∈ st.extractedCellIds then
          moveDriverLoop getClockRegionByLocation YX2ClockRegion legalizeXYInArea placementInfo
            timingGraph pathLenThr clusterThrRatio rest st
        else
          (moveDriverFromNode getClockRegionByLocation YX2ClockRegion legalizeXYInArea
            placementInfo timingGraph pathLenThr clusterThrRatio nodeId timingNode st).bind
            (moveDriverLoop getClockRegionByLocation YX2ClockRegion legalizeXYInArea
              placementInfo timingGraph pathLenThr clusterThrRatio rest)
      else some st

/-- `PlacementTimingOptimizer::moveDriverIntoBetterClockRegion(pathLenThr, clusterThrRatio)`:
the map `PU2ClockRegionCenter` and the sets are cleared, then the loop runs; the result is the
placement information with the new map. -/
def moveDriverIntoBetterClockRegion (getClockRegionByLocation : ℚ → ℚ → Int × Int)
    (YX2ClockRegion : List (List ClockRegion)) (legalizeXYInArea : Nat → ℚ → ℚ → ℚ × ℚ)
    (timingGraph : TimingGraph) (pathLenThr : Int) (clusterThrRatio : ℚ)
    (placementInfo : PlacementInfo) : Option PlacementInfo :=
  (moveDriverLoop getClockRegionByLocation YX2ClockRegion legalizeXYInArea placementInfo
    timingGraph pathLenThr clusterThrRatio
    (loopPositions timingGraph.pathLenSortedNodes.length) {}).map
    fun st => { placementInfo with PU2ClockRegionCenter := st.PU2ClockRegionCenter }

/-- The required keys of the configuration: the seven asserted keys and `jobs`. -/
def requiredKeys : List String := assertedKeys ++ ["jobs"]

/-- A stand-in for `std::stoi` in closed evaluations: exact on the strings `"8"` and `""`
(the empty string makes `std::stoi` throw), the only ones the evaluations reach. -/
def stoiSample (s : String) : Option Int := if s = "8" then some 8 else none

/-- A configuration with every required key and a dump directory. -/
def fullConfig : List (String × String) :=
  [("vivado extracted device information file", "device.zip"),
   ("special pin offset info file", "offset"),
   ("vivado extracted design information file", "design.zip"),
   ("cellType2fixedAmo file", "fixedAmo"),
   ("cellType2sharedCellType file", "shared"),
   ("sharedCellType2BELtype file", "BEL"),
   ("GlobalPlacementIteration", "30"),
   ("jobs", "8"),
   ("dumpDirectory", "/nowhere/dump")]

/-- Two placement units: unit 0 is fixed, not locked and packed, and is not a key of
`getPULegalXY().first`; unit 1 is fixed, not locked, and is a key. -/
def fixedUnitsInfo : PlacementInfo :=
  { placementUnits :=
      [{ id := 0, X := 1, Y := 2, fixed := true, packed := true, kind := .unpackedCell 0 },
       { id := 1, X := 3, Y := 4, fixed := true, kind := .placementMacro [1, 2] }]
    PULegalXY := ([(1, 3)], [(1, 4)]) }

/-- What `clearSomeAttributesCannotRecord` may do to one placement unit: clear `isPacked`,
and clear `isFixed` when the unit is not locked; nothing else changes. -/
def ClearedFrom (a b : PlacementUnit) : Prop :=
  b.id = a.id ∧ b.X = a.X ∧ b.Y = a.Y ∧ b.kind = a.kind ∧ b.locked = a.locked ∧
    b.packed = false ∧ (b.fixed = a.fixed ∨ (b.fixed = false ∧ a.locked = false))

/-- The relation between a placement unit before and after the loop over
`getPULegalXY().first`: the unit is the same, or it was fixed and not locked and has been
un-fixed. -/
def UnfixedFrom (a b : PlacementUnit) : Prop :=
  b = a ∨ (a.locked = false ∧ b = a.setUnfixed)


/-- The delay an edge has after the delay loop, for the locations `pin1Loc`, `pin2Loc` of its
source and sink pins: unchanged when one of the pins is not placed, otherwise the delay of the
model for `|Δx|`, `|Δy|` plus `0.5` times the distance of the clock-region columns. -/
def edgeAfterDelay (getDelayByModel : ℚ → ℚ → ℚ) (getClockRegionByLocation : ℚ → ℚ → Int × Int)
    (pin1Loc pin2Loc : Location) (edge : TimingEdge) : TimingEdge :=
  if unplacedPin pin1Loc || unplacedPin pin2Loc then edge
  else
    { edge with
      delay := getDelayByModel |pin1Loc.X - pin2Loc.X| |pin1Loc.Y - pin2Loc.Y| +
        (1 / 2 : ℚ) * ((|(getClockRegionByLocation pin2Loc.X pin2Loc.Y).1 -
          (getClockRegionByLocation pin1Loc.X pin1Loc.Y).1| : Int) : ℚ) }

/-- The relation between an edge before and after the delay loop, for the pin table `pins`
and the pin locations `pinLoc`. -/
def DelaySet (getDelayByModel : ℚ → ℚ → ℚ) (getClockRegionByLocation : ℚ → ℚ → Int × Int)
    (pins : List DesignPin) (pinLoc : List Location) (edge edge' : TimingEdge) : Prop :=
  ∃ srcPin sinkPin pin1Loc pin2Loc,
    pins[edge.srcPin]? = some srcPin ∧ pins[edge.sinkPin]? = some sinkPin ∧
    vecAt pinLoc srcPin.elementIdInType = some pin1Loc ∧
    vecAt pinLoc sinkPin.elementIdInType = some pin2Loc ∧
    edge' = edgeAfterDelay getDelayByModel getClockRegionByLocation pin1Loc pin2Loc edge

/-- Two cells with three pins, and the locations of the cells. -/
def pinsInfo : PlacementInfo :=
  { cells := [{ isVirtualCell := false, cellId := 0,
                pins := [{ net := some 0, isInputPort := false, offsetXInCell := 1 / 2,
                           offsetYInCell := 1 / 4, elementIdInType := 0 },
                         { net := none, isInputPort := true, offsetXInCell := 0,
                           offsetYInCell := 3 / 4, elementIdInType := 2 }] },
              { isVirtualCell := false, cellId := 1,
                pins := [{ net := some 0, isInputPort := true, offsetXInCell := 1,
                           offsetYInCell := 1, elementIdInType := 1 }] }]
    cellId2location := [{ X := 10, Y := 20 }, { X := 30, Y := 40 }] }

/-- The pins of `pinsInfo` in the order of their element ids (`designInfo->getPins()`). -/
def pinsInfoPins : List DesignPin :=
  [{ net := some 0, isInputPort := false, offsetXInCell := 1 / 2, offsetYInCell := 1 / 4,
     elementIdInType := 0 },
   { net := some 0, isInputPort := true, offsetXInCell := 1, offsetYInCell := 1,
     elementIdInType := 1 },
   { net := none, isInputPort := true, offsetXInCell := 0, offsetYInCell := 3 / 4,
     elementIdInType := 2 }]

/-- A timing graph with the two cells of `pinsInfo` and the edge from pin 0 to pin 1. -/
def pinsGraph : TimingGraph :=
  { nodes := [{ designNode := 0, id := 0, outEdges := [0] },
              { designNode := 1, id := 1, inEdges := [0] }]
    edges := [{ srcNode := 0, sinkNode := 1, srcPin := 0, sinkPin := 1, net := some 0,
                id := 0 }] }
/-- Four placement units: unit 0 is fixed, not locked and packed, and is not a key of
`getPULegalXY().first`; unit 1 is fixed, not locked, and is a key; unit 2 is fixed and locked,
and is a key; unit 3 is neither fixed nor locked, and is a key. -/
def lockedUnitsInfo : PlacementInfo :=
  { placementUnits :=
      [{ id := 0, X := 1, Y := 2, fixed := true, packed := true, kind := .unpackedCell 0 },
       { id := 1, X := 3, Y := 4, fixed := true, kind := .placementMacro [1, 2] },
       { id := 2, X := 5, Y := 6, fixed := true, locked := true, kind := .unpackedCell 3 },
       { id := 3, X := 7, Y := 8, packed := true, kind := .unpackedCell 4 }]
    PULegalXY := ([(1, 3), (2, 5), (3, 7)], [(1, 4), (2, 6), (3, 8)]) }

/-! ## Notions used to state the clustering claims -/

/-- The block of lines 285-300 for a cell in the clock-region column `clockRegionX`: what
`tallyCell` does once the location of the cell is known. -/
def tallyColumn (t : ClockRegionTally) (clockRegionX : Int) : ClockRegionTally :=
  let tmpClockLocYX : Int × Int := (-1, clockRegionX)
  let clockRegionYX2Cnt :=
    if (mapFind t.clockRegionYX2Cnt tmpClockLocYX).isNone then
      mapSet t.clockRegionYX2Cnt tmpClockLocYX 0
    else t.clockRegionYX2Cnt
  let clockRegionYX2Cnt :=
    mapSet clockRegionYX2Cnt tmpClockLocYX
      ((mapFind clockRegionYX2Cnt tmpClockLocYX).getD 0 + 1)
  let totalClockRegionWeight := t.totalClockRegionWeight + 1
  if (mapFind clockRegionYX2Cnt tmpClockLocYX).getD 0 > t.maxClockRegionWeight then
    { clockRegionYX2Cnt := clockRegionYX2Cnt
      maxClockRegionWeight := (mapFind clockRegionYX2Cnt tmpClockLocYX).getD 0
      totalClockRegionWeight := totalClockRegionWeight
      optClockLocYX := tmpClockLocYX }
  else
    { clockRegionYX2Cnt := clockRegionYX2Cnt
      maxClockRegionWeight := t.maxClockRegionWeight
      totalClockRegionWeight := totalClockRegionWeight
      optClockLocYX := t.optClockLocYX }

/-- The clock-region columns of the cells `cellIds`, in order (cells without a location are
left out). -/
def cellColumns (getClockRegionByLocation : ℚ → ℚ → Int × Int) (cellLoc : List Location)
    (cellIds : List Int) : List Int :=
  cellIds.filterMap fun cellId =>
    (vecAt cellLoc cellId).map fun tmpLoc => (getClockRegionByLocation tmpLoc.X tmpLoc.Y).1

/-- The member cells of the placement units `PUs`, in order: one cell for an unpacked cell,
every cell of a macro. -/
def memberCellIds (placementUnits : List PlacementUnit) (PUs : List Nat) : List Int :=
  PUs.flatMap fun tmpPU =>
    match placementUnits[tmpPU]? with
    | some PU => PU.cellIds
    | none => []

/-- The clock-region columns of the member cells of the placement units `PUs`. -/
def memberColumns (getClockRegionByLocation : ℚ → ℚ → Int × Int) (cellLoc : List Location)
    (placementUnits : List PlacementUnit) (PUs : List Nat) : List Int :=
  cellColumns getClockRegionByLocation cellLoc (memberCellIds placementUnits PUs)

/-- The tally `t` is the count of the columns `cols`: the total is their number, the map
holds the number of occurrences of each column, the maximum bounds every count, and when
there is a column at all the optimum is a column whose count is the maximum. -/
def TallyOf (t : ClockRegionTally) (cols : List Int) : Prop :=
  t.totalClockRegionWeight = (cols.length : ℚ) ∧
  (∀ c : Int, (mapFind t.clockRegionYX2Cnt (-1, c)).getD 0 = (cols.count c : ℚ)) ∧
  (∀ c : Int, (cols.count c : ℚ) ≤ t.maxClockRegionWeight) ∧
  (cols = [] → t.maxClockRegionWeight = 0) ∧
  (cols ≠ [] → ∃ c ∈ cols, t.optClockLocYX = (-1, c) ∧
    t.maxClockRegionWeight = (cols.count c : ℚ))

/-- The ids of the placement units among `PUs` that are not fixed, in order. -/
def unfixedIds (placementUnits : List PlacementUnit) (PUs : List Nat) : List Int :=
  PUs.filterMap fun curPU =>
    match placementUnits[curPU]? with
    | some PU => if PU.isFixed then none else some PU.id
    | none => none

/-- The column `col` is a dominant one among `cols`: it occurs, and no column occurs more
often. -/
def DominantColumn (cols : List Int) (col : Int) : Prop :=
  col ∈ cols ∧ ∀ c : Int, cols.count c ≤ cols.count col

/-- The anchor map after a cluster `PUs` was accepted, as the specification words it: a
placement unit of the cluster that is not fixed has the anchor `legalizeXYInArea` of
`(cX, PU.Y)`, every other placement unit has what the map `before` held for it. -/
def anchoredLookup (legalizeXYInArea : Nat → ℚ → ℚ → ℚ × ℚ)
    (placementUnits : List PlacementUnit) (cX : ℚ) (PUs : List Nat)
    (before : List (Nat × (ℚ × ℚ))) (p : Nat) : Option (ℚ × ℚ) :=
  match placementUnits[p]? with
  | some PU =>
    if p ∈ PUs ∧ PU.isFixed = false then some (legalizeXYInArea p cX PU.Y) else mapFind before p
  | none => mapFind before p

/-- The state `after` is the state `before` with the cluster `PUs` accepted: the cluster is
the set of placement units collected from the cells that `DFSFromNode` gives for the node, it
has at least 8 placement units, the column `col` is a dominant column of its member cells
with at least 4 of them and a share above `clusterThrRatio`, and the anchors are those of
`anchoredLookup` for the centre of the clock region of that column; the ids of the units
that are not fixed are recorded as a new entry of `clockRegionclusters`. -/
def AcceptedCluster (DFSFromNode : Int → Int → Nat → List Int → List Int)
    (getClockRegionByLocation : ℚ → ℚ → Int × Int) (YX2ClockRegion : List (List ClockRegion))
    (legalizeXYInArea : Nat → ℚ → ℚ → ℚ × ℚ) (placementInfo : PlacementInfo)
    (pathLenThr : Int) (clusterThrRatio : ℚ) (timingNode : TimingNode)
    (before after : ClusterState) (PUs : List Nat) (col : Int) (optClockRegion : ClockRegion) :
    Prop :=
  collectPUs placementInfo.cellId2PlacementUnit before.extractedPUs
    (DFSFromNode timingNode.id pathLenThr 2000 before.extractedCellIds) [] = some PUs ∧
  8 ≤ PUs.length ∧
  DominantColumn (memberColumns getClockRegionByLocation placementInfo.cellId2location
    placementInfo.placementUnits PUs) col ∧
  4 ≤ (memberColumns getClockRegionByLocation placementInfo.cellId2location
    placementInfo.placementUnits PUs).count col ∧
  (((memberColumns getClockRegionByLocation placementInfo.cellId2location
    placementInfo.placementUnits PUs).count col : ℚ) >
    ((memberColumns getClockRegionByLocation placementInfo.cellId2location
      placementInfo.placementUnits PUs).length : ℚ) * clusterThrRatio) ∧
  clockRegionRow0 YX2ClockRegion col = some optClockRegion ∧
  (∀ p : Nat, mapFind after.PU2ClockRegionCenter p =
    anchoredLookup legalizeXYInArea placementInfo.placementUnits
      ((optClockRegion.left + optClockRegion.right) / 2) PUs before.PU2ClockRegionCenter p) ∧
  (∀ entry ∈ after.PU2ClockRegionCenter, entry ∈ before.PU2ClockRegionCenter ∨
    (entry.1 ∈ PUs ∧ ∃ PU, placementInfo.placementUnits[entry.1]? = some PU ∧
      PU.isFixed = false ∧
      entry.2 = legalizeXYInArea entry.1
        ((optClockRegion.left + optClockRegion.right) / 2) PU.Y)) ∧
  after.clockRegionclusters =
    before.clockRegionclusters ++ [unfixedIds placementInfo.placementUnits PUs]

/-- The anchor `entry` comes from an accepted cluster: there is a cluster `PUs`, collected
from the cells `DFSFromNode` gives for a timing node, with at least 8 placement units, that
holds the key of the entry, a placement unit that is not fixed; a dominant column `col` of the
member cells of the cluster has at least 4 of them and a share above `clusterThrRatio`; and
the value of the entry is `legalizeXYInArea` of `((left + right) / 2, PU.Y)` for the clock
region of that column in row 0. -/
def ClusterAnchor (DFSFromNode : Int → Int → Nat → List Int → List Int)
    (getClockRegionByLocation : ℚ → ℚ → Int × Int) (YX2ClockRegion : List (List ClockRegion))
    (legalizeXYInArea : Nat → ℚ → ℚ → ℚ × ℚ) (placementInfo : PlacementInfo)
    (pathLenThr : Int) (clusterThrRatio : ℚ) (entry : Nat × (ℚ × ℚ)) : Prop :=
  ∃ (timingNode : TimingNode) (extractedCellIds : List Int) (extractedPUs PUs : List Nat)
    (PU : PlacementUnit) (col : Int) (optClockRegion : ClockRegion),
    collectPUs placementInfo.cellId2PlacementUnit extractedPUs
      (DFSFromNode timingNode.id pathLenThr 2000 extractedCellIds) [] = some PUs ∧
    8 ≤ PUs.length ∧ entry.1 ∈ PUs ∧
    placementInfo.placementUnits[entry.1]? = some PU ∧ PU.isFixed = false ∧
    DominantColumn (memberColumns getClockRegionByLocation placementInfo.cellId2location
      placementInfo.placementUnits PUs) col ∧
    4 ≤ (memberColumns getClockRegionByLocation placementInfo.cellId2location
      placementInfo.placementUnits PUs).count col ∧
    (((memberColumns getClockRegionByLocation placementInfo.cellId2location
      placementInfo.placementUnits PUs).count col : ℚ) >
      ((memberColumns getClockRegionByLocation placementInfo.cellId2location
        placementInfo.placementUnits PUs).length : ℚ) * clusterThrRatio) ∧
    clockRegionRow0 YX2ClockRegion col = some optClockRegion ∧
    entry.2 = legalizeXYInArea entry.1
      ((optClockRegion.left + optClockRegion.right) / 2) PU.Y

/-- The pointers and indices the clustering follows all lead somewhere: the sorted vector
points into the nodes, `DFSFromNode` gives cell ids of the design, every cell has a placement
unit, the member cells of a placement unit have a location, and the clock-region column of
every cell location is a column of row 0 of `YX2ClockRegion`. -/
def ClusterInputsValid (DFSFromNode : Int → Int → Nat → List Int → List Int)
    (getClockRegionByLocation : ℚ → ℚ → Int × Int) (YX2ClockRegion : List (List ClockRegion))
    (placementInfo : PlacementInfo) (timingGraph : TimingGraph) : Prop :=
  (∀ ptr ∈ timingGraph.pathLenSortedNodes, ptr < timingGraph.nodes.length) ∧
  (∀ (startNodeId pathLenThr : Int) (sizeThr : Nat) (exceptionCells : List Int),
    ∀ c ∈ DFSFromNode startNodeId pathLenThr sizeThr exceptionCells,
      0 ≤ c ∧ c < placementInfo.cellId2PlacementUnit.length) ∧
  (∀ p ∈ placementInfo.cellId2PlacementUnit, p < placementInfo.placementUnits.length) ∧
  (∀ PU ∈ placementInfo.placementUnits, ∀ c ∈ PU.cellIds,
    0 ≤ c ∧ c < placementInfo.cellId2location.length) ∧
  (∀ loc ∈ placementInfo.cellId2location,
    (clockRegionRow0 YX2ClockRegion (getClockRegionByLocation loc.X loc.Y).1).isSome = true)

/-- The placement units among `PUs` that have a member cell in the clock-region column
`col`. -/
def pusInColumn (getClockRegionByLocation : ℚ → ℚ → Int × Int) (cellLoc : List Location)
    (placementUnits : List PlacementUnit) (PUs : List Nat) (col : Int) : List Nat :=
  PUs.filter fun p => decide (col ∈ memberColumns getClockRegionByLocation cellLoc placementUnits [p])

/-! ## Sample designs for the clustering claims -/

/-- Twenty timing nodes, node `k` for cell `k`.  Nodes 5 and 7 lie on paths of length 12, the
others on paths of length 3; node 5 has out-edges (edges 0 to 7) to the nodes 8 to 15. -/
def longPathNodes : List TimingNode :=
  (List.range 20).map fun k =>
    if k = 5 then
      { designNode := k, id := (k : Int), forwardLevel := 5, backwardLevel := 6,
        outEdges := List.range 8 }
    else if k = 7 then
      { designNode := k, id := (k : Int), forwardLevel := 6, backwardLevel := 5 }
    else
      { designNode := k, id := (k : Int), forwardLevel := 1, backwardLevel := 1,
        inEdges := if 8 ≤ k ∧ k < 16 then [k - 8] else [] }

/-- The graph of `longPathNodes` with the eight edges from node 5 to the nodes 8 to 15, after
`setLongestPathLength`: the sorted vector starts with node 5, then node 7. -/
def longPathGraph : TimingGraph :=
  TimingGraph.setLongestPathLength
    { nodes := longPathNodes
      edges := (List.range 8).map fun k =>
        { srcNode := 5, sinkNode := k + 8, srcPin := 0, sinkPin := 0, net := none,
          id := (k : Int) } }

/-- Twenty unpacked cells, cell `k` in placement unit `k`; the cells 8 to 15 are at `x = 75`,
the others at `x = 25`. -/
def longPathInfo : PlacementInfo :=
  { placementUnits := (List.range 20).map fun k =>
      { id := (k : Int), X := if 8 ≤ k ∧ k < 16 then 75 else 25, Y := (k : ℚ),
        kind := .unpackedCell (k : Int) }
    cellId2PlacementUnit := List.range 20
    cellId2location := (List.range 20).map fun k =>
      { X := if 8 ≤ k ∧ k < 16 then 75 else 25, Y := (k : ℚ) } }

/-- A device with two clock-region columns in one row: column 0 for `x < 50`, column 1
otherwise. -/
def twoColumns (x _y : ℚ) : Int × Int := (if x < 50 then 0 else 1, 0)

/-- The clock regions of the device `twoColumns`. -/
def twoColumnRegions : List (List ClockRegion) :=
  [[{ left := 0, right := 50 }, { left := 50, right := 100 }]]

/-- A stand-in for `DFSFromNode` on `longPathGraph`: from node 5 it gives the cells
5, 0, 1, 2, 3, 4, 6, 8, from node 7 the cells 7, 9, 10, 11, 12, 13, 14, 15, from any other
node no cell. -/
def sampleDFS (startNodeId _pathLenThr : Int) (_sizeThr : Nat) (_exceptionCells : List Int) :
    List Int :=
  if startNodeId = 5 then [5, 0, 1, 2, 3, 4, 6, 8]
  else if startNodeId = 7 then [7, 9, 10, 11, 12, 13, 14, 15]
  else []

/-- A stand-in for `legalizeXYInArea` that leaves the point where it is. -/
def noLegalize (_PU : Nat) (fX fY : ℚ) : ℚ × ℚ := (fX, fY)

/-- Twenty cells in thirteen placement units: the cells 0 to 7 form the macro of placement
unit 0 and lie at `x = 1/2`; the cell `k` for `8 ≤ k` is the unpacked cell of the placement
unit `k - 7` and lies at `x = k - 7 + 1/2`. -/
def macroInfo : PlacementInfo :=
  { placementUnits :=
      { id := 0, X := 1 / 2, Y := 0, kind := .placementMacro [0, 1, 2, 3, 4, 5, 6, 7] } ::
        (List.range 12).map fun k =>
          { id := (k : Int) + 1, X := (k : ℚ) + 3 / 2, Y := (k : ℚ) + 1,
            kind := .unpackedCell ((k : Int) + 8) }
    cellId2PlacementUnit := (List.range 20).map fun k => k - 7
    cellId2location := (List.range 20).map fun k =>
      { X := ((k - 7 : Nat) : ℚ) + 1 / 2, Y := ((k - 7 : Nat) : ℚ) } }

/-- A device with one row of clock regions of width 1: the column of `x` is its integer
part. -/
def unitColumns (x _y : ℚ) : Int × Int := (Rat.floor x, 0)

/-- The clock regions of the columns 0 to 12 of the device `unitColumns`. -/
def unitColumnRegions : List (List ClockRegion) :=
  [(List.range 13).map fun k => { left := (k : ℚ), right := (k : ℚ) + 1 }]

/-- A stand-in for `DFSFromNode` on `longPathGraph`: from node 5 it gives the cells 0 to 14,
from any other node no cell. -/
def macroDFS (startNodeId _pathLenThr : Int) (_sizeThr : Nat) (_exceptionCells : List Int) :
    List Int :=
  if startNodeId = 5 then (List.range 15).map fun k => (k : Int) else []

/-! ## `float` and `double` arithmetic

`getCellDistance` is computed in floating point.  Its model rounds the result of every
operation to the nearest number of the format (IEEE 754 binary32 for `float`, binary64 for
`double`): round to nearest, ties to the even significand, with the spacing of the subnormal
numbers at the bottom of the range.  A result whose rounded magnitude is beyond the largest
finite number of the format is an infinity; an operation on an infinity gives an infinity or
a NaN.  The model has `none` for every result that is not a finite number. -/

/-- The power `2 ^ e` of an integer exponent. -/
def twoPow (e : Int) : ℚ :=
  if 0 ≤ e then ((2 ^ e.toNat : Nat) : ℚ) else 1 / ((2 ^ (-e).toNat : Nat) : ℚ)

/-- The number of times `n` can be halved before it is below 2, in at most `fuel` steps. -/
def halvings : Nat → Nat → Nat
  | 0, _ => 0
  | fuel + 1, n => if 2 ≤ n then halvings fuel (n / 2) + 1 else 0

/-- The binary logarithm of a positive natural number, rounded down. -/
def floorLog2 (n : Nat) : Nat := halvings n n

/-- The binary exponent of a positive rational `x`: the `e` with `2 ^ e ≤ x < 2 ^ (e + 1)`,
found from the binary logarithms of the numerator and the denominator. -/
def binaryExponent (x : ℚ) : Int :=
  let e0 : Int := (floorLog2 x.num.natAbs : Int) - (floorLog2 x.den : Int)
  if twoPow e0 ≤ x then e0 else e0 - 1

/-- The integer nearest to a rational that is not negative, the even one of the two when the
rational is half way between them. -/
def roundHalfEven (y : ℚ) : Int :=
  let n := Rat.floor y
  let f := y - (n : ℚ)
  if f < 1 / 2 then n else if 1 / 2 < f then n + 1 else if n % 2 = 0 then n else n + 1

/-- Rounding of a rational that is not negative to a significand of `p` bits: the multiple
nearest to `x` of the spacing `2 ^ (e - (p - 1))` at the binary exponent `e` of `x`, the
spacing being at least `2 ^ minExp` (the spacing of the subnormal numbers). -/
def roundMagnitude (p : Nat) (minExp : Int) (x : ℚ) : ℚ :=
  if x = 0 then 0
  else
    let ulp := twoPow (max (binaryExponent x - ((p : Int) - 1)) minExp)
    (roundHalfEven (x / ulp) : ℚ) * ulp

/-- Rounding to nearest, ties to even, of a rational of either sign, with no bound on the
exponent. -/
def roundNearest (p : Nat) (minExp : Int) (x : ℚ) : ℚ :=
  if x < 0 then -roundMagnitude p minExp (-x) else roundMagnitude p minExp x

/-- The result of a floating-point operation whose exact result is `x`, in the format with a
significand of `p` bits, subnormal spacing `2 ^ minExp` and finite numbers below
`2 ^ maxExp`: the rounded `x`, or `none` when the operation overflows to an infinity. -/
def roundBinary (p : Nat) (minExp maxExp : Int) (x : ℚ) : Option ℚ :=
  let r := roundNearest p minExp x
  if twoPow maxExp ≤ |r| then none else some r

/-- Rounding to `float` (binary32). -/
def roundFloat32 (x : ℚ) : Option ℚ := roundBinary 24 (-149) 128 x

/-- Rounding to `double` (binary64). -/
def roundFloat64 (x : ℚ) : Option ℚ := roundBinary 53 (-1074) 1024 x

/-! ## `IncrementalBELPacker`: `y2xRatio` and `getCellDistance` -/

/-- The member of `IncrementalBELPacker` that `getCellDistance` reads: `y2xRatio`, with its
member initialiser `1.0`. -/
structure IncrementalBELPacker where
  y2xRatio : ℚ := 1
deriving DecidableEq, Repr

/-- The constructor of `IncrementalBELPacker`, lines 58-61: when the configuration has the key
`y2xRatio`, the member is `std::stof` of its value.  `stof` is `std::stof`, `none` when it
throws. -/
def newIncrementalBELPacker (stof : String → Option ℚ) (JSONCfg : List (String × String)) :
    Option IncrementalBELPacker :=
  if jsonHas JSONCfg "y2xRatio" then
    (stof (jsonValue JSONCfg "y2xRatio")).map fun r => { y2xRatio := r }
  else some {}

/-- The function that the unqualified name `fabs` stands for in `getCellDistance`.  It is
settled by headers outside the sources: with `float fabs(float)` of `<cmath>` in scope the
product and the sum are `float` operations; with only `double fabs(double)` of `<math.h>` the
operands are converted to `double`, the product and the sum are `double` operations, and the
`return` converts the sum to `float`. -/
inductive FabsOverload where
  | float
  | double
deriving DecidableEq, Repr

/-- `getCellDistance(A, B)`: `fabs(A.X - B.X) + y2xRatio * fabs(A.Y - B.Y)` in floating point.
The two differences are `float` operations; `fabs` and the conversion of a `float` to
`double` are exact; the product and the sum are operations of the type `fabs` returns; the
result is a `float`.  `none` is a result that is not a finite number. -/
def IncrementalBELPacker.getCellDistance (fabsOverload : FabsOverload)
    (packer : IncrementalBELPacker) (A B : Location) : Option ℚ :=
  (roundFloat32 (A.X - B.X)).bind fun dx =>
    (roundFloat32 (A.Y - B.Y)).bind fun dy =>
      match fabsOverload with
      | .float =>
        (roundFloat32 (packer.y2xRatio * |dy|)).bind fun prod => roundFloat32 (|dx| + prod)
      | .double =>
        (roundFloat64 (packer.y2xRatio * |dy|)).bind fun prod =>
          (roundFloat64 (|dx| + prod)).bind fun sum => roundFloat32 sum

/-- The distance of the specification, in exact arithmetic:
`|A.X - B.X| + y2xRatio * |A.Y - B.Y|`. -/
def specCellDistance (y2xRatio : ℚ) (A B : Location) : ℚ :=
  |A.X - B.X| + y2xRatio * |A.Y - B.Y|

/-- A stand-in for `std::stof` that reads the strings `"2"` and `"0.5"` and throws on every
other string. -/
def stofSample (s : String) : Option ℚ :=
  if s = "2" then some 2 else if s = "0.5" then some (1 / 2) else none

/-! ## `TimingGraph::findALoopFromNode` -/

namespace TimingNode

/-- `getId` of a timing node. -/
def getId (n : TimingNode) : Int := n.id

/-- `checkIsRegister`. -/
def checkIsRegister (n : TimingNode) : Bool := n.isRegister

/-- `getOutEdges`. -/
def getOutEdges (n : TimingNode) : List Nat := n.outEdges

end TimingNode

/-- How a run of `findALoopFromNode` ends: the call returns, with `nodeInPath` as it is then;
or the loop is printed (the node ids of `nodeInPath`) and `exit(0)` ends the program; or the
run has no defined result (an index outside `nodes`, a pointer that leads nowhere); or the
recursion is deeper than the fuel the model was given. -/
inductive LoopSearch where
  | returned (nodeInPath : List Int)
  | exited (printed : List Int)
  | undefined
  | outOfFuel
deriving DecidableEq, Repr

/-- Lines 530-541 of `findALoopFromNode`, the loop over the out-edges of `nodes[curNode]`;
`call` is the recursive call `findALoopFromNode(nodeInPath, startNode, nextId, level + 1)`.
A sink that is a register is passed over; otherwise its id is pushed, the call is made, and
the id is popped when the call returns. -/
def findALoopEdges (g : TimingGraph) (call : List Int → Int → Int → Int → LoopSearch)
    (startNode level : Int) : List Nat → List Int → LoopSearch
  | [], nodeInPath => .returned nodeInPath
  | outEdge :: rest, nodeInPath =>
    match g.edges[outEdge]? with
    | none => .undefined
    | some edge =>
      match g.nodes[edge.getSink]? with
      | none => .undefined
      | some sink =>
        let nextId := sink.getId
        match vecAt g.nodes nextId with
        | none => .undefined
        | some next =>
          if !next.checkIsRegister then
            match call (nodeInPath ++ [nextId]) startNode nextId (level + 1) with
            | .returned nodeInPath =>
              findALoopEdges g call startNode level rest nodeInPath.dropLast
            | other => other
          else findALoopEdges g call startNode level rest nodeInPath

/-- `TimingGraph::findALoopFromNode(nodeInPath, startNode, curNode, level)`, with a bound
`fuel` on the depth of the recursion.  On `level > 0 && curNode == startNode` the nodes of
`nodeInPath` are printed and the program exits; otherwise the out-edges of `nodes[curNode]`
are followed. -/
def findALoopFromNode (g : TimingGraph) : Nat → List Int → Int → Int → Int → LoopSearch
  | 0, _, _, _, _ => .outOfFuel
  | fuel + 1, nodeInPath, startNode, curNode, level =>
    if level > 0 ∧ curNode = startNode then
      if nodeInPath.all fun nodeId => (vecAt g.nodes nodeId).isSome then .exited nodeInPath
      else .undefined
    else
      match vecAt g.nodes curNode with
      | none => .undefined
      | some node =>
        findALoopEdges g (findALoopFromNode g fuel) startNode level node.getOutEdges nodeInPath

/-- The out-edge `outEdge` leads to the node of id `v`, and that node is not a register: the
step the loop of `findALoopFromNode` takes along the edge. -/
def EdgeEnters (g : TimingGraph) (outEdge : Nat) (v : Int) : Prop :=
  ∃ edge sink next, g.edges[outEdge]? = some edge ∧ g.nodes[edge.getSink]? = some sink ∧
    sink.getId = v ∧ vecAt g.nodes v = some next ∧ next.checkIsRegister = false

/-- The node `v` is a successor of the node `u` that is not a register: an out-edge of
`nodes[u]` leads to `v`. -/
def LoopStep (g : TimingGraph) (u v : Int) : Prop :=
  ∃ node, vecAt g.nodes u = some node ∧ ∃ outEdge ∈ node.getOutEdges, EdgeEnters g outEdge v

/-- The node `s` lies on a directed cycle whose nodes are not registers: there are nodes
`w = [w1, ..., wk]`, `k ≥ 1`, with steps `s → w1 → ... → wk` and `wk = s`. -/
def OnRegisterFreeLoop (g : TimingGraph) (s : Int) : Prop :=
  ∃ w : List Int, List.Chain (LoopStep g) s w ∧ w.getLast? = some s

/-- The nodes that are not registers and can be reached from `s` hold no cycle: no walk from
`s` comes to a node twice. -/
def NoLoopReachable (g : TimingGraph) (s : Int) : Prop :=
  ∀ w : List Int, List.Chain (LoopStep g) s w → (s :: w).Nodup

/-- Every out-edge of every node leads to an edge of the graph, whose sink is a node of the
graph with an id that is an index of `nodes`. -/
def LoopGraphValid (g : TimingGraph) : Prop :=
  ∀ node ∈ g.nodes, ∀ outEdge ∈ node.getOutEdges,
    ∃ edge sink next, g.edges[outEdge]? = some edge ∧ g.nodes[edge.getSink]? = some sink ∧
      vecAt g.nodes sink.getId = some next

/-- The two nodes A (node 0) and B (node 1) with the edges A -> B and B -> A; no node is a
register. -/
def twoNodeLoop : TimingGraph :=
  { nodes := [{ designNode := 0, id := 0, outEdges := [0], inEdges := [1] },
              { designNode := 1, id := 1, outEdges := [1], inEdges := [0] }]
    edges := [{ srcNode := 0, sinkNode := 1, srcPin := 0, sinkPin := 1, net := none, id := 0 },
              { srcNode := 1, sinkNode := 0, srcPin := 2, sinkPin := 3, net := none, id := 1 }] }

/-- Node 0 with an edge to node 1, and node 1 with an edge to itself; no node is a
register. -/
def selfLoopGraph : TimingGraph :=
  { nodes := [{ designNode := 0, id := 0, outEdges := [0] },
              { designNode := 1, id := 1, outEdges := [1], inEdges := [0, 1] }]
    edges := [{ srcNode := 0, sinkNode := 1, srcPin := 0, sinkPin := 1, net := none, id := 0 },
              { srcNode := 1, sinkNode := 1, srcPin := 2, sinkPin := 1, net := none, id := 1 }] }

/-- Node 0 with edges to node 1 and to node 2, in this order; node 1 has an edge to itself,
node 2 an edge back to node 0; no node is a register.  Node 0 lies on the cycle 0 -> 2 -> 0. -/
def loopBesideGraph : TimingGraph :=
  { nodes := [{ designNode := 0, id := 0, outEdges := [0, 2], inEdges := [3] },
              { designNode := 1, id := 1, outEdges := [1], inEdges := [0, 1] },
              { designNode := 2, id := 2, outEdges := [3], inEdges := [2] }]
    edges := [{ srcNode := 0, sinkNode := 1, srcPin := 0, sinkPin := 1, net := none, id := 0 },
              { srcNode := 1, sinkNode := 1, srcPin := 2, sinkPin := 1, net := none, id := 1 },
              { srcNode := 0, sinkNode := 2, srcPin := 0, sinkPin := 3, net := none, id := 2 },
              { srcNode := 2, sinkNode := 0, srcPin := 4, sinkPin := 5, net := none, id := 3 }] }

/-- A chain 0 -> 1 -> 2 whose last node is a register with an edge back to node 0. -/
def registerLoopGraph : TimingGraph :=
  { nodes := [{ designNode := 0, id := 0, outEdges := [0], inEdges := [2] },
              { designNode := 1, id := 1, outEdges := [1], inEdges := [0] },
              { designNode := 2, id := 2, isRegister := true, outEdges := [2], inEdges := [1] }]
    edges := [{ srcNode := 0, sinkNode := 1, srcPin := 0, sinkPin := 1, net := none, id := 0 },
              { srcNode := 1, sinkNode := 2, srcPin := 2, sinkPin := 3, net := none, id := 1 },
              { srcNode := 2, sinkNode := 0, srcPin := 4, sinkPin := 5, net := none, id := 2 }] }

/-! ## The log files of the timing optimizer -/

/-- Lines 34-46 of `enhanceNetWeight_LevelBased` and lines 148-160 of
`conductStaticTimingAnalysis`: when the configuration has the key of the log, `printOut` is
set, the file named by the value is opened, and the assertion
`outfile0.is_open() && outfile0.good()` follows.  `openFile` says whether the stream of a file
name is open and good after `open`.  The result is `printOut`; `none` when the assertion
fails. -/
def openLog (openFile : String → Bool) (JSONCfg : List (String × String)) (key : String) :
    Option Bool :=
  if jsonHas JSONCfg key then
    if openFile (jsonValue JSONCfg key) then some true else none
  else some false

/-- Lines 110-117 of `enhanceNetWeight_LevelBased`, the loop that writes the line
"cell path len" for every cell that is not virtual: the path lengths written, in order.
`none` when `timingNodes[cellA->getCellId()]` is outside the vector. -/
def logCellPathLen (timingNodes : List TimingNode) : List DesignCell → Option (List Int)
  | [] => some []
  | cellA :: rest =>
    if cellA.isVirtualCell then logCellPathLen timingNodes rest
    else
      match timingNodes[cellA.cellId]? with
      | none => none
      | some node =>
        (logCellPathLen timingNodes rest).map fun lens => node.getLongestPathLength :: lens

/-- `PlacementTimingOptimizer::enhanceNetWeight_LevelBased(int levelThr)` with its log: the
log set-up of lines 34-46, the return for `levelThr < 4`, the enhancement of lines 48-107
(`enhanceNetWeight_LevelBased`), and for `printOut` the lines "cell path len" of lines 108-119.
The result is the state and the path lengths written to the log (the lines "enhanced net" of
lines 100-104 are left out). -/
def enhanceNetWeight_LevelBased_withLog (openFile : String → Bool)
    (JSONCfg : List (String × String)) (fpow : ℚ → ℚ → ℚ) (levelThr : Int)
    (o : PlacementTimingOptimizer) : Option (PlacementTimingOptimizer × List Int) :=
  match openLog openFile JSONCfg "PlacementTimingOptimizer_EnhanceNetWeightLevelBasedLog" with
  | none => none
  | some printOut =>
    if levelThr < 4 then some (o, [])
    else
      match enhanceNetWeight_LevelBased fpow levelThr o with
      | none => none
      | some o' =>
        if printOut then
          (logCellPathLen o'.timingInfo o'.designInfo.cells).map fun lens => (o', lens)
        else some (o', [])

/-- The part of `conductStaticTimingAnalysis` before the propagation with its log set-up:
lines 148-160, then `conductStaticTimingAnalysis_edgeDelays`. -/
def conductStaticTimingAnalysis_edgeDelays_withLog (openFile : String → Bool)
    (JSONCfg : List (String × String)) (getDelayByModel : ℚ → ℚ → ℚ)
    (getClockRegionByLocation : ℚ → ℚ → Int × Int) (unplaced : Location)
    (pins : List DesignPin) (placementInfo : PlacementInfo) (timingGraph : TimingGraph) :
    Option (PlacementInfo × TimingGraph) :=
  match openLog openFile JSONCfg "PlacementTimingOptimizer_EdgesDelayLog" with
  | none => none
  | some _ =>
    conductStaticTimingAnalysis_edgeDelays getDelayByModel getClockRegionByLocation unplaced
      pins placementInfo timingGraph

/-! ## The node of the largest arrival time in `conductStaticTimingAnalysis` -/

/-- `TimingNode::getLatestArrival`. -/
def TimingNode.getLatestArrival (n : TimingNode) : ℚ := n.latestArrival

/-- Lines 190-194 of `conductStaticTimingAnalysis`, the body of the loop over `i`: `acc` holds
`maxDelay` and `maxDelayId`, and `entry` is `i` with the node `getNodes()[i]`.  The
`unsigned int i` is stored in the `int maxDelayId`. -/
def maxDelayStep (acc : ℚ × Int) (entry : Nat × TimingNode) : ℚ × Int :=
  if entry.2.getLatestArrival > acc.1 then (entry.2.getLatestArrival, sizeToInt entry.1)
  else acc

/-- Lines 186-195 of `conductStaticTimingAnalysis`: `maxDelay = 0`, `maxDelayId = -1`, then the
loop over the nodes.  The result is `(maxDelay, maxDelayId)`; `maxDelayId` is the argument
of the call `backTraceDelayLongestPathFromNode(maxDelayId)` of line 197. -/
def findMaxDelayId (timingGraph : TimingGraph) : ℚ × Int :=
  timingGraph.nodes.enum.foldl maxDelayStep (0, -1)

/-! ## The edge lists of the nodes of a timing graph -/

/-- The sum of the out-degrees of the nodes. -/
def outDegreeSum (g : TimingGraph) : Nat := (g.nodes.map fun n => n.outEdges.length).sum

/-- The sum of the in-degrees of the nodes. -/
def inDegreeSum (g : TimingGraph) : Nat := (g.nodes.map fun n => n.inEdges.length).sum

/-- Every edge of the graph occurs exactly once in the out-edges of its source and exactly
once in the in-edges of its sink, and the sum of the out-degrees and the sum of the
in-degrees are the number of edges. -/
def EdgesLinked (g : TimingGraph) : Prop :=
  (∀ (e : Nat) (edge : TimingEdge), g.edges[e]? = some edge →
    ∃ src sink, g.nodes[edge.getSource]? = some src ∧ g.nodes[edge.getSink]? = some sink ∧
      src.outEdges.count e = 1 ∧ sink.inEdges.count e = 1) ∧
  outDegreeSum g = g.edges.length ∧ inDegreeSum g = g.edges.length

/-- Every edge pointer in an edge list of a node points to an edge of the graph. -/
def EdgePointersValid (g : TimingGraph) : Prop :=
  ∀ node ∈ g.nodes, (∀ p ∈ node.outEdges, p < g.edges.length) ∧
    (∀ p ∈ node.inEdges, p < g.edges.length)

/-- The building operations insert only nodes whose edge lists are empty, as a newly
constructed `TimingNode` has them. -/
def InsertsFreshNodes (ops : List GraphOp) : Prop :=
  ∀ timingNode : TimingNode, GraphOp.insertTimingNode timingNode ∈ ops →
    timingNode.inEdges = [] ∧ timingNode.outEdges = []

/-- The graph has nodes only: no edge, and empty edge lists in every node. -/
def NoEdgesYet (g : TimingGraph) : Prop :=
  g.edges = [] ∧ ∀ node ∈ g.nodes, node.inEdges = [] ∧ node.outEdges = []

/-! ## Notions used to state the claim on the clock-region tally -/

/-- Among the columns `cols`, taken in order, `col` is the first to reach the count
`maxCount`: some occurrence of `col` brings its count to `maxCount`, and before that
occurrence every column has a smaller count. -/
def FirstToReach (cols : List Int) (col : Int) (maxCount : Nat) : Prop :=
  ∃ pre post : List Int, cols = pre ++ col :: post ∧ (pre ++ [col]).count col = maxCount ∧
    ∀ c : Int, pre.count c < maxCount

/-- The optimum of the tally `t` is the first column of `cols` to reach the maximum of
`t`. -/
def OptFirst (t : ClockRegionTally) (cols : List Int) : Prop :=
  cols ≠ [] → ∃ (col : Int) (maxCount : Nat), t.optClockLocYX = (-1, col) ∧
    t.maxClockRegionWeight = (maxCount : ℚ) ∧ FirstToReach cols col maxCount

/-- The column `col` is the clock-region column of the location of the cell `cellId`. -/
def CellInColumn (getClockRegionByLocation : ℚ → ℚ → Int × Int) (cellLoc : List Location)
    (cellId col : Int) : Prop :=
  ∃ tmpLoc, vecAt cellLoc cellId = some tmpLoc ∧
    col = (getClockRegionByLocation tmpLoc.X tmpLoc.Y).1

/-! ## Notions used to state the claim on the recorded clusters -/

/-- The placement units among `PUs` that are not fixed, in order. -/
def unfixedPUs (placementUnits : List PlacementUnit) (PUs : List Nat) : List Nat :=
  PUs.filter fun curPU =>
    match placementUnits[curPU]? with
    | some PU => !PU.isFixed
    | none => false

/-- `getId()` of a placement unit is its position in `getPlacementUnits()` (the positions are
what `dumpClockRegionClusters` looks the recorded ids up with). -/
def IdsArePositions (placementUnits : List PlacementUnit) : Prop :=
  ∀ (p : Nat) (PU : PlacementUnit), placementUnits[p]? = some PU → PU.id = (p : Int)

/-- The state of the clustering loop is consistent: the recorded clusters, one after the
other, are the keys of the anchor map in the order of their insertion; no key occurs twice;
and every key is in `extractedPUs`. -/
def ClustersMatchAnchors (st : ClusterState) : Prop :=
  st.clockRegionclusters.flatten = st.PU2ClockRegionCenter.map (fun entry => (entry.1 : Int)) ∧
  (st.PU2ClockRegionCenter.map Prod.fst).Nodup ∧
  ∀ p ∈ st.PU2ClockRegionCenter.map Prod.fst, p ∈ st.extractedPUs

/-! ## `FILEbuf` (`readZip.h`) -/

/-- `fread(buffer, 1, n, fp)` as `FILEbuf` sees it.  The `FILE` is the list of the chunks of
bytes that it delivers to the coming calls, in order; a call takes at most `n` bytes of the
first chunk and leaves the rest, and returns no byte once the chunks are used up.  The result
is the bytes read and the `FILE` after the call. -/
def fread (n : Nat) (fp : List (List Nat)) : List Nat × List (List Nat) :=
  match fp with
  | [] => ([], [])
  | chunk :: rest =>
    (chunk.take n, if chunk.length ≤ n then rest else chunk.drop n :: rest)

/-- The byte `b` stored in a `char` (8 bits, two's complement). -/
def byteToChar (b : Nat) : Int :=
  if b % 256 < 128 then ((b % 256 : Nat) : Int) else ((b % 256 : Nat) : Int) - 256

/-- `traits_type::to_int_type(c)` of `std::char_traits<char>`: the `char` converted to
`unsigned char`, as an `int`. -/
def to_int_type (c : Int) : Int := c % 256

/-- `traits_type::eof()` of `std::char_traits<char>`. -/
def eof : Int := -1

/-- `FILEbuf`: the `FILE` `fp_`, the array `buffer_`, and the get area of the
`std::streambuf`, whose pointers `gptr()` and `egptr()` are offsets into `buffer_` (both 0
stands for the two null pointers of a new `streambuf`). -/
structure FILEbuf where
  fp_ : List (List Nat)
  buffer_ : List Int
  gptr : Nat := 0
  egptr : Nat := 0
deriving DecidableEq, Repr

namespace FILEbuf

/-- The enumerator `s_size`. -/
def s_size : Nat := 1024

/-- Lines 28-35 of `underflow`: when the get area is used up, `fread` fills `buffer_` and, for
a positive size, `setg` exposes the bytes read. -/
def fill (s : FILEbuf) : FILEbuf :=
  if s.gptr = s.egptr then
    let read := fread s_size s.fp_
    let size : Int := (read.1.length : Int)
    let s := { s with
      fp_ := read.2
      buffer_ := read.1.map byteToChar ++ s.buffer_.drop read.1.length }
    if 0 < size then { s with gptr := 0, egptr := read.1.length } else s
  else s

/-- `FILEbuf::underflow()`: after `fill`, the result is `eof()` when the get area is still
empty, and the character at `gptr()` otherwise.  `none` when `gptr()` points outside
`buffer_`. -/
def underflow (s : FILEbuf) : Option (Int × FILEbuf) :=
  let s := s.fill
  if s.gptr = s.egptr then some (eof, s)
  else
    match s.buffer_[s.gptr]? with
    | none => none
    | some c => some (to_int_type c, s)

/-- The characters of the get area, from `gptr()` to `egptr()`, each as `to_int_type` gives
it. -/
def exposed (s : FILEbuf) : List Int :=
  ((s.buffer_.drop s.gptr).take (s.egptr - s.gptr)).map to_int_type

/-- The reader takes the whole get area: `gptr()` moves to `egptr()`. -/
def consume (s : FILEbuf) : FILEbuf := { s with gptr := s.egptr }

/-- The results of `n` successive calls of `underflow`, each followed by `consume`: for each
call the value returned and the bytes it has exposed. -/
def underflowCalls : Nat → FILEbuf → Option (List (Int × List Int))
  | 0, _ => some []
  | n + 1, s =>
    match s.underflow with
    | none => none
    | some (c, s') =>
      (underflowCalls n s'.consume).map fun calls => (c, s'.exposed) :: calls

end FILEbuf

/-- The stream that a `FILE` delivering `chunks` holds, as the specification words it: the
bytes of the chunks in order. -/
def streamBytes (chunks : List (List Nat)) : List Int :=
  chunks.flatten.map fun (b : Nat) => (b : Int)

/-- The constructor `FILEbuf(fp)`; `buffer_` is not initialised, so its content is any sequence `garbage` of characters. -/
def newFILEbuf (fp : List (List Nat)) (garbage : List Int) : FILEbuf :=
  { fp_ := fp, buffer_ := garbage }

/-- The chunks are as `fread` with the size 1024 delivers them: each has from 1 to 1024
bytes, and a byte is below 256. -/
def ChunksValid (chunks : List (List Nat)) : Prop :=
  ∀ chunk ∈ chunks, 1 ≤ chunk.length ∧ chunk.length ≤ 1024 ∧ ∀ b ∈ chunk, b < 256

/-! ## Lemmas on the enhancement loops -/

theorem netPins_getElem? {nets nets0 : List DesignNet} (hs : netPins nets = netPins nets0)
    (i : Nat) : (nets[i]?).map (fun n => n.pins) = (nets0[i]?).map (fun n => n.pins) := by
  have := congrArg (fun l => l[i]?) hs
  simpa [netPins, List.getElem?_map] using this

theorem netPins_set_enhance {nets : List DesignNet} {i : Nat} {net : DesignNet}
    (h : nets[i]? = some net) (r : ℚ) :
    netPins (nets.set i (net.enhanceOverallTimingNetEnhancement r)) = netPins nets := by
  unfold netPins
  apply List.ext_getElem?
  intro n
  simp only [List.getElem?_map, List.getElem?_set]
  by_cases hin : i = n
  · subst hin
    have hlt : i < nets.length := (List.getElem?_eq_some.mp h).1
    simp [hlt, h, DesignNet.enhanceOverallTimingNetEnhancement]
  · simp [hin]

theorem enhancePin_cases {fpow : ℚ → ℚ → ℚ} {eff : ℚ} {T L : Int} {nets nets' : List DesignNet}
    {pin : DesignPin} (h : enhancePin fpow eff T L nets pin = some nets') :
    nets' = nets ∨ ∃ netId net, pin.net = some netId ∧ pin.isInputPort = false ∧
      nets[netId]? = some net ∧ 1 < net.pins.length ∧ net.pins.length < 1000 ∧
      nets' = nets.set netId (net.enhanceOverallTimingNetEnhancement
        (enhanceRatio fpow eff T L net.pins.length)) := by
  unfold enhancePin at h
  cases hn : pin.net with
  | none => simp [hn] at h; exact Or.inl h.symm
  | some netId =>
    simp only [hn] at h
    by_cases hin : pin.isInputPort = true
    · simp [hin] at h; exact Or.inl h.symm
    · simp only [hin] at h
      cases hg : nets[netId]? with
      | none => simp [hg] at h
      | some net =>
        simp only [hg] at h
        by_cases hp : ((net.pins.length : Int) ≤ 1 ∨ (net.pins.length : Int) ≥ 1000)
        · rw [if_pos hp] at h; exact Or.inl (Option.some.inj h).symm
        · rw [if_neg hp] at h
          refine Or.inr ⟨netId, net, rfl, by simpa using hin, hg, ?_, ?_, ?_⟩
          · omega
          · omega
          · exact (Option.some.inj h).symm

theorem netPins_length {nets nets0 : List DesignNet} (hs : netPins nets = netPins nets0) :
    nets.length = nets0.length := by
  have := congrArg List.length hs
  simpa [netPins] using this

theorem enhancePin_netPins {fpow : ℚ → ℚ → ℚ} {eff : ℚ} {T L : Int} {nets nets' : List DesignNet}
    {pin : DesignPin} (h : enhancePin fpow eff T L nets pin = some nets') :
    netPins nets' = netPins nets := by
  rcases enhancePin_cases h with h1 | ⟨netId, net, -, -, hg, -, -, h1⟩
  · rw [h1]
  · rw [h1]; exact netPins_set_enhance hg _

theorem enhancePin_inv {fpow : ℚ → ℚ → ℚ} {eff : ℚ} {T L : Int} {P : DesignNet → Prop}
    (hP : ∀ net : DesignNet, P net → 1 < net.pins.length → net.pins.length < 1000 →
      P (net.enhanceOverallTimingNetEnhancement (enhanceRatio fpow eff T L net.pins.length)))
    {nets nets' : List DesignNet} {pin : DesignPin} (hall : ∀ n ∈ nets, P n)
    (h : enhancePin fpow eff T L nets pin = some nets') : ∀ n ∈ nets', P n := by
  rcases enhancePin_cases h with h1 | ⟨netId, net, -, -, hg, hlo, hhi, h1⟩
  · rw [h1]; exact hall
  · intro n hn
    rw [h1] at hn
    rcases List.mem_or_eq_of_mem_set hn with hm | he
    · exact hall n hm
    · rw [he]
      exact hP net (hall net (List.getElem?_mem hg)) hlo hhi

theorem enhancePin_fold {fpow : ℚ → ℚ → ℚ} {eff : ℚ} {T L : Int}
    {nets nets0 nets' : List DesignNet} {pin : DesignPin}
    (hs : netPins nets = netPins nets0)
    (h : enhancePin fpow eff T L nets pin = some nets') :
    nets' = (pinFactor (enhanceRatio fpow eff T) L nets0 pin).toList.foldl applyFactor nets := by
  unfold enhancePin at h
  unfold pinFactor
  cases hn : pin.net with
  | none => simp [hn] at h; simp [h]
  | some netId =>
    simp only [hn] at h ⊢
    by_cases hin : pin.isInputPort = true
    · simp [hin] at h; simp [hin, h]
    · simp only [hin] at h ⊢
      cases hg : nets[netId]? with
      | none => simp [hg] at h
      | some net =>
        have hshape := netPins_getElem? hs netId
        rw [hg] at hshape
        cases hg0 : nets0[netId]? with
        | none => simp [hg0] at hshape
        | some net0 =>
          have hpins : net.pins = net0.pins := by simpa [hg0] using hshape
          simp only [hg] at h
          by_cases hp : ((net.pins.length : Int) ≤ 1 ∨ (net.pins.length : Int) ≥ 1000)
          · rw [if_pos hp] at h
            have hq : ¬ (1 < net0.pins.length ∧ net0.pins.length < 1000) := by
              rw [← hpins]; omega
            simp [hq, (Option.some.inj h).symm]
          · rw [if_neg hp] at h
            have hq : (1 < net0.pins.length ∧ net0.pins.length < 1000) := by
              rw [← hpins]; omega
            simp [hq, (Option.some.inj h).symm, applyFactor, hg, hpins]

theorem enhancePin_isSome (fpow : ℚ → ℚ → ℚ) (eff : ℚ) (T L : Int) {nets : List DesignNet}
    {pin : DesignPin}
    (hv : ∀ netId, pin.net = some netId → netId < nets.length) :
    ∃ nets', enhancePin fpow eff T L nets pin = some nets' := by
  unfold enhancePin
  cases hn : pin.net with
  | none => exact ⟨nets, rfl⟩
  | some netId =>
    have hlt := hv netId hn
    simp only
    split
    · exact ⟨nets, rfl⟩
    · rw [List.getElem?_eq_getElem hlt]
      simp only
      split
      · exact ⟨nets, rfl⟩
      · exact ⟨_, rfl⟩

theorem enhancePins_netPins {fpow : ℚ → ℚ → ℚ} {eff : ℚ} {T L : Int} :
    ∀ (pins : List DesignPin) (nets nets' : List DesignNet),
      enhancePins fpow eff T L pins nets = some nets' → netPins nets' = netPins nets
  | [], nets, nets', h => by
    simp only [enhancePins] at h
    rw [← Option.some.inj h]
  | p :: ps, nets, nets', h => by
    simp only [enhancePins, Option.bind_eq_some] at h
    obtain ⟨mid, h1, h2⟩ := h
    rw [enhancePins_netPins ps mid nets' h2, enhancePin_netPins h1]

theorem enhancePins_inv {fpow : ℚ → ℚ → ℚ} {eff : ℚ} {T L : Int} {P : DesignNet → Prop}
    (hP : ∀ net : DesignNet, P net → 1 < net.pins.length → net.pins.length < 1000 →
      P (net.enhanceOverallTimingNetEnhancement (enhanceRatio fpow eff T L net.pins.length))) :
    ∀ (pins : List DesignPin) (nets nets' : List DesignNet), (∀ n ∈ nets, P n) →
      enhancePins fpow eff T L pins nets = some nets' → ∀ n ∈ nets', P n
  | [], nets, nets', hall, h => by
    simp only [enhancePins] at h
    rw [← Option.some.inj h]; exact hall
  | p :: ps, nets, nets', hall, h => by
    simp only [enhancePins, Option.bind_eq_some] at h
    obtain ⟨mid, h1, h2⟩ := h
    exact enhancePins_inv hP ps mid nets' (enhancePin_inv hP hall h1) h2

theorem enhancePins_fold {fpow : ℚ → ℚ → ℚ} {eff : ℚ} {T L : Int} {nets0 : List DesignNet} :
    ∀ (pins : List DesignPin) (nets nets' : List DesignNet), netPins nets = netPins nets0 →
      enhancePins fpow eff T L pins nets = some nets' →
      nets' = (pins.filterMap (pinFactor (enhanceRatio fpow eff T) L nets0)).foldl applyFactor nets
  | [], nets, nets', _, h => by
    simp only [enhancePins] at h
    simp [← Option.some.inj h]
  | p :: ps, nets, nets', hs, h => by
    simp only [enhancePins, Option.bind_eq_some] at h
    obtain ⟨mid, h1, h2⟩ := h
    have hmid := enhancePin_fold hs h1
    have hs' : netPins mid = netPins nets0 := by rw [enhancePin_netPins h1, hs]
    rw [enhancePins_fold ps mid nets' hs' h2, hmid, List.filterMap_cons]
    cases pinFactor (enhanceRatio fpow eff T) L nets0 p <;> simp

theorem enhancePins_isSome (fpow : ℚ → ℚ → ℚ) (eff : ℚ) (T L : Int) :
    ∀ (pins : List DesignPin) (nets : List DesignNet),
      (∀ p ∈ pins, ∀ netId, p.net = some netId → netId < nets.length) →
      ∃ nets', enhancePins fpow eff T L pins nets = some nets'
  | [], nets, _ => ⟨nets, rfl⟩
  | p :: ps, nets, hv => by
    obtain ⟨mid, h1⟩ := enhancePin_isSome fpow eff T L (hv p (List.mem_cons_self _ _))
    have hlen : mid.length = nets.length := netPins_length (enhancePin_netPins h1)
    obtain ⟨out, h2⟩ := enhancePins_isSome fpow eff T L ps mid
      (fun q hq netId hn => by rw [hlen]; exact hv q (List.mem_cons_of_mem _ hq) netId hn)
    exact ⟨out, by simp [enhancePins, h1, h2]⟩

theorem enhanceCell_cases {fpow : ℚ → ℚ → ℚ} {eff : ℚ} {T : Int} {timingNodes : List TimingNode}
    {nets nets' : List DesignNet} {cell : DesignCell}
    (h : enhanceCell fpow eff T timingNodes nets cell = some nets') :
    (nets' = nets ∧ cellFactors (enhanceRatio fpow eff T) T timingNodes nets cell = [] ∧
      ∀ nets0, cellFactors (enhanceRatio fpow eff T) T timingNodes nets0 cell = []) ∨
    ∃ node, cell.isVirtualCell = false ∧ timingNodes[cell.cellId]? = some node ∧
      T ≤ node.getLongestPathLength ∧
      enhancePins fpow eff T node.getLongestPathLength cell.pins nets = some nets' ∧
      ∀ nets0, cellFactors (enhanceRatio fpow eff T) T timingNodes nets0 cell =
        cell.pins.filterMap (pinFactor (enhanceRatio fpow eff T) node.getLongestPathLength nets0) := by
  unfold enhanceCell at h
  by_cases hv : cell.isVirtualCell = true
  · rw [if_pos hv] at h
    exact Or.inl ⟨(Option.some.inj h).symm, by simp [cellFactors, hv], by simp [cellFactors, hv]⟩
  · rw [if_neg hv] at h
    cases hg : timingNodes[cell.cellId]? with
    | none => simp [hg] at h
    | some node =>
      simp only [hg] at h
      by_cases hl : node.getLongestPathLength < T
      · rw [if_pos hl] at h
        have hl' : ¬ T ≤ node.getLongestPathLength := by omega
        exact Or.inl ⟨(Option.some.inj h).symm, by simp [cellFactors, hv, hg, hl'],
          by simp [cellFactors, hv, hg, hl']⟩
      · rw [if_neg hl] at h
        have hl' : T ≤ node.getLongestPathLength := by omega
        exact Or.inr ⟨node, by simpa using hv, rfl, hl', h, by simp [cellFactors, hv, hg, hl']⟩

theorem enhanceCell_netPins {fpow : ℚ → ℚ → ℚ} {eff : ℚ} {T : Int} {timingNodes : List TimingNode}
    {nets nets' : List DesignNet} {cell : DesignCell}
    (h : enhanceCell fpow eff T timingNodes nets cell = some nets') :
    netPins nets' = netPins nets := by
  rcases enhanceCell_cases h with ⟨h1, -, -⟩ | ⟨node, -, -, -, h1, -⟩
  · rw [h1]
  · exact enhancePins_netPins _ _ _ h1

theorem enhanceCell_inv {fpow : ℚ → ℚ → ℚ} {eff : ℚ} {T : Int} {P : DesignNet → Prop}
    (hP : ∀ L : Int, T ≤ L → ∀ net : DesignNet, P net → 1 < net.pins.length →
      net.pins.length < 1000 →
      P (net.enhanceOverallTimingNetEnhancement (enhanceRatio fpow eff T L net.pins.length)))
    {timingNodes : List TimingNode} {nets nets' : List DesignNet} {cell : DesignCell}
    (hall : ∀ n ∈ nets, P n)
    (h : enhanceCell fpow eff T timingNodes nets cell = some nets') : ∀ n ∈ nets', P n := by
  rcases enhanceCell_cases h with ⟨h1, -, -⟩ | ⟨node, -, -, hl, h1, -⟩
  · rw [h1]; exact hall
  · exact enhancePins_inv (hP _ hl) _ _ _ hall h1

theorem enhanceCell_fold {fpow : ℚ → ℚ → ℚ} {eff : ℚ} {T : Int} {timingNodes : List TimingNode}
    {nets nets0 nets' : List DesignNet} {cell : DesignCell}
    (hs : netPins nets = netPins nets0)
    (h : enhanceCell fpow eff T timingNodes nets cell = some nets') :
    nets' = (cellFactors (enhanceRatio fpow eff T) T timingNodes nets0 cell).foldl
      applyFactor nets := by
  rcases enhanceCell_cases h with ⟨h1, -, h0⟩ | ⟨node, -, -, -, h1, h0⟩
  · rw [h0 nets0, h1]; rfl
  · rw [h0 nets0]; exact enhancePins_fold _ _ _ hs h1

theorem enhanceCell_isSome (fpow : ℚ → ℚ → ℚ) (eff : ℚ) (T : Int)
    {timingNodes : List TimingNode} (nets : List DesignNet) {cell : DesignCell}
    (hc : cell.isVirtualCell = false → cell.cellId < timingNodes.length)
    (hv : ∀ p ∈ cell.pins, ∀ netId, p.net = some netId → netId < nets.length) :
    ∃ nets', enhanceCell fpow eff T timingNodes nets cell = some nets' := by
  unfold enhanceCell
  by_cases hvirt : cell.isVirtualCell = true
  · exact ⟨nets, by rw [if_pos hvirt]⟩
  · rw [if_neg hvirt, List.getElem?_eq_getElem (hc (by simpa using hvirt))]
    simp only
    split
    · exact ⟨nets, rfl⟩
    · exact enhancePins_isSome fpow eff T _ _ _ hv

theorem enhanceCells_netPins {fpow : ℚ → ℚ → ℚ} {eff : ℚ} {T : Int}
    {timingNodes : List TimingNode} :
    ∀ (cells : List DesignCell) (nets nets' : List DesignNet),
      enhanceCells fpow eff T timingNodes cells nets = some nets' → netPins nets' = netPins nets
  | [], nets, nets', h => by
    simp only [enhanceCells] at h
    rw [← Option.some.inj h]
  | c :: cs, nets, nets', h => by
    simp only [enhanceCells, Option.bind_eq_some] at h
    obtain ⟨mid, h1, h2⟩ := h
    rw [enhanceCells_netPins cs mid nets' h2, enhanceCell_netPins h1]

theorem enhanceCells_inv {fpow : ℚ → ℚ → ℚ} {eff : ℚ} {T : Int} {P : DesignNet → Prop}
    (hP : ∀ L : Int, T ≤ L → ∀ net : DesignNet, P net → 1 < net.pins.length →
      net.pins.length < 1000 →
      P (net.enhanceOverallTimingNetEnhancement (enhanceRatio fpow eff T L net.pins.length)))
    {timingNodes : List TimingNode} :
    ∀ (cells : List DesignCell) (nets nets' : List DesignNet), (∀ n ∈ nets, P n) →
      enhanceCells fpow eff T timingNodes cells nets = some nets' → ∀ n ∈ nets', P n
  | [], nets, nets', hall, h => by
    simp only [enhanceCells] at h
    rw [← Option.some.inj h]; exact hall
  | c :: cs, nets, nets', hall, h => by
    simp only [enhanceCells, Option.bind_eq_some] at h
    obtain ⟨mid, h1, h2⟩ := h
    exact enhanceCells_inv hP cs mid nets' (enhanceCell_inv hP hall h1) h2

theorem enhanceCells_fold {fpow : ℚ → ℚ → ℚ} {eff : ℚ} {T : Int}
    {timingNodes : List TimingNode} {nets0 : List DesignNet} :
    ∀ (cells : List DesignCell) (nets nets' : List DesignNet), netPins nets = netPins nets0 →
      enhanceCells fpow eff T timingNodes cells nets = some nets' →
      nets' = (appliedFactors (enhanceRatio fpow eff T) T timingNodes nets0 cells).foldl
        applyFactor nets
  | [], nets, nets', _, h => by
    simp only [enhanceCells] at h
    simp [appliedFactors, ← Option.some.inj h]
  | c :: cs, nets, nets', hs, h => by
    simp only [enhanceCells, Option.bind_eq_some] at h
    obtain ⟨mid, h1, h2⟩ := h
    have hmid := enhanceCell_fold hs h1
    have hs' : netPins mid = netPins nets0 := by rw [enhanceCell_netPins h1, hs]
    have := enhanceCells_fold cs mid nets' hs' h2
    rw [this, hmid]
    simp [appliedFactors, List.flatMap_cons, List.foldl_append]

theorem refsValid_cons {timingNodes : List TimingNode} {nets : List DesignNet} {c : DesignCell}
    {cs : List DesignCell} (h : refsValid timingNodes nets (c :: cs) = true) :
    (c.isVirtualCell = false → c.cellId < timingNodes.length) ∧
    (∀ p ∈ c.pins, ∀ netId, p.net = some netId → netId < nets.length) ∧
    refsValid timingNodes nets cs = true := by
  simp only [refsValid, List.all_cons, Bool.and_eq_true, Bool.or_eq_true, decide_eq_true_eq,
    List.all_eq_true] at h
  obtain ⟨⟨h1, h2⟩, h3⟩ := h
  refine ⟨?_, ?_, ?_⟩
  · intro hv
    rcases h1 with h1 | h1
    · rw [hv] at h1; cases h1
    · exact h1
  · intro p hp netId hn
    have := h2 p hp
    simpa [hn] using this
  · simp only [refsValid, List.all_eq_true, Bool.and_eq_true, Bool.or_eq_true, decide_eq_true_eq]
    exact h3

theorem enhanceCells_isSome (fpow : ℚ → ℚ → ℚ) (eff : ℚ) (T : Int)
    {timingNodes : List TimingNode} {nets0 : List DesignNet} :
    ∀ (cells : List DesignCell) (nets : List DesignNet), netPins nets = netPins nets0 →
      refsValid timingNodes nets0 cells = true →
      ∃ nets', enhanceCells fpow eff T timingNodes cells nets = some nets'
  | [], nets, _, _ => ⟨nets, rfl⟩
  | c :: cs, nets, hs, hv => by
    obtain ⟨hc, hp, hrest⟩ := refsValid_cons hv
    have hlen := netPins_length hs
    obtain ⟨mid, h1⟩ := enhanceCell_isSome fpow eff T nets hc (fun p hq netId hn => by rw [hlen]; exact hp p hq netId hn)
    have hs' : netPins mid = netPins nets0 := by rw [enhanceCell_netPins h1, hs]
    obtain ⟨out, h2⟩ := enhanceCells_isSome fpow eff T cs mid hs' hrest
    exact ⟨out, by simp [enhanceCells, h1, h2]⟩

theorem netPins_reset (nets : List DesignNet) :
    netPins (nets.map fun tmpNet => tmpNet.setOverallTimingNetEnhancement 1) = netPins nets := by
  simp [netPins, DesignNet.setOverallTimingNetEnhancement]

theorem enhanceNetWeight_LevelBased_unfold {fpow : ℚ → ℚ → ℚ} {T : Int} (hT : 4 ≤ T)
    {o o' : PlacementTimingOptimizer} (h : enhanceNetWeight_LevelBased fpow T o = some o') :
    ∃ nets', enhanceCells fpow (updateEffectFactor fpow (o.enhanceNetWeight_LevelBased_Cnt + 1)) T
        o.timingInfo o.designInfo.cells
        (o.designInfo.nets.map fun tmpNet => tmpNet.setOverallTimingNetEnhancement 1) = some nets' ∧
      o' = { o with
        designInfo := { o.designInfo with nets := nets' }
        enhanceNetWeight_LevelBased_Cnt := o.enhanceNetWeight_LevelBased_Cnt + 1
        effectFactor := updateEffectFactor fpow (o.enhanceNetWeight_LevelBased_Cnt + 1) } := by
  unfold enhanceNetWeight_LevelBased at h
  rw [if_neg (by omega)] at h
  simp only [Option.map_eq_some'] at h
  obtain ⟨nets', h1, h2⟩ := h
  exact ⟨nets', h1, h2.symm⟩

theorem updateEffectFactor_eq_min {fpow : ℚ → ℚ → ℚ} (hpow : ∀ x : ℚ, fpow x 1 = x) (cnt : Int) :
    updateEffectFactor fpow cnt = min 1 ((cnt : ℚ) / 30) := by
  unfold updateEffectFactor
  simp only [hpow]
  by_cases h : (cnt : ℚ) / 30 < 1
  · rw [if_pos h, min_eq_right h.le]
  · rw [if_neg h, min_eq_left (not_lt.mp h)]

theorem enhanceNetWeight_LevelBased_isSome (fpow : ℚ → ℚ → ℚ) (T : Int)
    (o : PlacementTimingOptimizer)
    (hv : refsValid o.timingInfo o.designInfo.nets o.designInfo.cells = true) :
    ∃ o', enhanceNetWeight_LevelBased fpow T o = some o' := by
  unfold enhanceNetWeight_LevelBased
  by_cases hT : T < 4
  · exact ⟨o, by rw [if_pos hT]⟩
  · rw [if_neg hT]
    obtain ⟨nets', h⟩ := enhanceCells_isSome fpow
      (updateEffectFactor fpow (o.enhanceNetWeight_LevelBased_Cnt + 1)) T o.designInfo.cells _
      (netPins_reset o.designInfo.nets) hv
    simp only [h]
    exact ⟨_, rfl⟩

theorem refsValid_congr (timingNodes : List TimingNode) {nets nets' : List DesignNet}
    (h : nets.length = nets'.length) (cells : List DesignCell) :
    refsValid timingNodes nets cells = refsValid timingNodes nets' cells := by
  unfold refsValid
  rw [h]

theorem enhanceNetWeight_LevelBased_frame {fpow : ℚ → ℚ → ℚ} {T : Int}
    {o o' : PlacementTimingOptimizer} (h : enhanceNetWeight_LevelBased fpow T o = some o') :
    o'.designInfo.cells = o.designInfo.cells ∧ o'.timingInfo = o.timingInfo ∧
      netPins o'.designInfo.nets = netPins o.designInfo.nets := by
  by_cases hT : T < 4
  · unfold enhanceNetWeight_LevelBased at h
    rw [if_pos hT] at h
    rw [← Option.some.inj h]
    exact ⟨rfl, rfl, rfl⟩
  · obtain ⟨nets', h1, h2⟩ := enhanceNetWeight_LevelBased_unfold (not_lt.mp hT) h
    rw [h2]
    refine ⟨rfl, rfl, ?_⟩
    rw [enhanceCells_netPins _ _ _ h1, netPins_reset]

theorem enhanceNetWeight_LevelBased_outside {fpow : ℚ → ℚ → ℚ} {T : Int}
    {o o' : PlacementTimingOptimizer}
    (h0 : ∀ n ∈ o.designInfo.nets, (n.pins.length ≤ 1 ∨ 1000 ≤ n.pins.length) →
      n.overallTimingEnhancement = 1)
    (h : enhanceNetWeight_LevelBased fpow T o = some o') :
    ∀ n ∈ o'.designInfo.nets, (n.pins.length ≤ 1 ∨ 1000 ≤ n.pins.length) →
      n.overallTimingEnhancement = 1 := by
  by_cases hT : T < 4
  · unfold enhanceNetWeight_LevelBased at h
    rw [if_pos hT] at h
    rw [← Option.some.inj h]
    exact h0
  · obtain ⟨nets', h1, h2⟩ := enhanceNetWeight_LevelBased_unfold (not_lt.mp hT) h
    rw [h2]
    refine enhanceCells_inv
      (P := fun n => (n.pins.length ≤ 1 ∨ 1000 ≤ n.pins.length) → n.overallTimingEnhancement = 1)
      ?_ _ _ _ ?_ h1
    · intro L _ net _ hlo hhi hout
      simp only [DesignNet.enhanceOverallTimingNetEnhancement] at hout
      omega
    · intro n hn _
      simp only [List.mem_map] at hn
      obtain ⟨m, -, rfl⟩ := hn
      rfl

theorem updateEffectFactor_pos_le_one {fpow : ℚ → ℚ → ℚ} (hpow : ∀ x : ℚ, fpow x 1 = x)
    {cnt : Int} (h : 1 ≤ cnt) :
    0 < updateEffectFactor fpow cnt ∧ updateEffectFactor fpow cnt ≤ 1 := by
  rw [updateEffectFactor_eq_min hpow]
  have hc : (1 : ℚ) ≤ (cnt : ℚ) := by exact_mod_cast h
  have hpos : (0 : ℚ) < (cnt : ℚ) / 30 := by positivity
  exact ⟨lt_min one_pos hpos, min_le_left _ _⟩

theorem one_le_enhanceRatio {fpow : ℚ → ℚ → ℚ} (hpow1 : ∀ x : ℚ, fpow x 1 = x)
    (hpow : ∀ x e : ℚ, 1 ≤ x → 0 < e → e ≤ 1 → 1 ≤ fpow x e) {eff : ℚ} (he0 : 0 < eff)
    (he1 : eff ≤ 1) {T L p : Int} (hT : 4 ≤ T) (hL : T ≤ L) (hp : 2 ≤ p) :
    1 ≤ enhanceRatio fpow eff T L p := by
  unfold enhanceRatio
  simp only [hpow1]
  apply hpow _ _ _ he0 he1
  have hTq : (0 : ℚ) < (T : ℚ) := by exact_mod_cast (by omega : (0 : Int) < T)
  have hLq : (T : ℚ) ≤ (L : ℚ) := by exact_mod_cast hL
  have hpq : (2 : ℚ) ≤ (p : ℚ) := by exact_mod_cast hp
  have hdiv : (1 : ℚ) ≤ (L : ℚ) / (T : ℚ) := (one_le_div hTq).mpr hLq
  rw [mul_div_assoc]
  split
  · linarith
  · linarith

theorem enhanceNetWeight_LevelBased_cnt {fpow : ℚ → ℚ → ℚ} {T : Int}
    {o o' : PlacementTimingOptimizer} (h : enhanceNetWeight_LevelBased fpow T o = some o') :
    o'.enhanceNetWeight_LevelBased_Cnt =
      o.enhanceNetWeight_LevelBased_Cnt + if 4 ≤ T then 1 else 0 := by
  by_cases hT : T < 4
  · unfold enhanceNetWeight_LevelBased at h
    rw [if_pos hT] at h
    rw [← Option.some.inj h, if_neg (by omega)]
    simp
  · obtain ⟨nets', -, h2⟩ := enhanceNetWeight_LevelBased_unfold (not_lt.mp hT) h
    rw [h2, if_pos (not_lt.mp hT)]

theorem reset_eq_of_netPins {a b : List DesignNet} (h : netPins a = netPins b) :
    (a.map fun n => n.setOverallTimingNetEnhancement 1) =
      (b.map fun n => n.setOverallTimingNetEnhancement 1) := by
  have key : ∀ l : List DesignNet, (l.map fun n => n.setOverallTimingNetEnhancement 1) =
      (netPins l).map fun p => ({ pins := p, overallTimingEnhancement := 1 } : DesignNet) := by
    intro l
    simp [netPins, DesignNet.setOverallTimingNetEnhancement, Function.comp_def]
  rw [key a, key b, h]

theorem enhanceNetWeight_LevelBased_fold {fpow : ℚ → ℚ → ℚ} {T : Int} (hT : 4 ≤ T)
    {o o' : PlacementTimingOptimizer} (nets0 : List DesignNet)
    (hs : netPins o.designInfo.nets = netPins nets0)
    (h : enhanceNetWeight_LevelBased fpow T o = some o') :
    o'.designInfo.nets =
      (appliedFactors
        (enhanceRatio fpow (updateEffectFactor fpow (o.enhanceNetWeight_LevelBased_Cnt + 1)) T)
        T o.timingInfo nets0 o.designInfo.cells).foldl applyFactor
        (nets0.map fun n => n.setOverallTimingNetEnhancement 1) := by
  obtain ⟨nets', h1, h2⟩ := enhanceNetWeight_LevelBased_unfold hT h
  rw [h2, ← reset_eq_of_netPins hs]
  exact enhanceCells_fold _ _ _ (by rw [netPins_reset, hs]) h1


theorem powAtOne_one (x : ℚ) : powAtOne x 1 = x := by simp [powAtOne]

theorem one_le_powAtOne (x e : ℚ) (hx : 1 ≤ x) : 1 ≤ powAtOne x e := by
  unfold powAtOne
  split
  · exact hx
  · exact le_refl _


/-! ## Lemmas on the timing graph -/

theorem calcLongestPath_getLongestPathLength (n : TimingNode) (hf : 0 ≤ n.forwardLevel)
    (hb : 0 ≤ n.backwardLevel) :
    n.calcLongestPath.getLongestPathLength = n.forwardLevel + n.backwardLevel + 1 := by
  simp [TimingNode.calcLongestPath, TimingNode.getLongestPathLength, hf, hb]

theorem pathLenComp_eq_false_iff (a b : TimingNode) :
    TimingGraph.pathLenComp b a = false ↔
      (a.getLongestPathLength > b.getLongestPathLength ∨
        (a.getLongestPathLength = b.getLongestPathLength ∧
          a.getForwardLevel ≤ b.getForwardLevel)) := by
  unfold TimingGraph.pathLenComp
  by_cases h : b.getLongestPathLength = a.getLongestPathLength
  · simp only [h, if_true, decide_eq_false_iff_not, not_lt]
    constructor
    · intro hle; exact Or.inr ⟨trivial, hle⟩
    · rintro (hgt | ⟨-, hle⟩)
      · omega
      · exact hle
  · simp only [h, if_false, decide_eq_false_iff_not, not_lt, gt_iff_lt]
    constructor
    · intro hle; left; omega
    · rintro (hgt | ⟨heq, -⟩)
      · omega
      · exact absurd heq.symm h

theorem pathLenComp_eq_true_iff (a b : TimingNode) :
    TimingGraph.pathLenComp a b = true ↔
      (a.getLongestPathLength > b.getLongestPathLength ∨
        (a.getLongestPathLength = b.getLongestPathLength ∧
          a.getForwardLevel < b.getForwardLevel)) := by
  unfold TimingGraph.pathLenComp
  by_cases h : a.getLongestPathLength = b.getLongestPathLength
  · simp only [h, if_true, decide_eq_true_eq]
    constructor
    · intro hlt; exact Or.inr ⟨trivial, hlt⟩
    · rintro (hgt | ⟨-, hlt⟩)
      · omega
      · exact hlt
  · simp only [h, if_false, decide_eq_true_eq, gt_iff_lt]
    constructor
    · intro hlt; left; exact hlt
    · rintro (hgt | ⟨heq, -⟩)
      · exact hgt
      · exact heq.elim

theorem stdSort_sorted (v : List (Nat × TimingNode)) :
    (TimingGraph.stdSort TimingGraph.pathLenComp v).Pairwise
      fun a b => TimingGraph.pathLenComp b.2 a.2 = false := by
  haveI : IsTotal (Nat × TimingNode) (fun a b => TimingGraph.pathLenComp b.2 a.2 = false) :=
    ⟨fun a b => by
      simp only [pathLenComp_eq_false_iff]
      omega⟩
  haveI : IsTrans (Nat × TimingNode) (fun a b => TimingGraph.pathLenComp b.2 a.2 = false) :=
    ⟨fun a b c => by
      simp only [pathLenComp_eq_false_iff]
      omega⟩
  exact List.sorted_insertionSort _ v

theorem stdSort_perm (comp : TimingNode → TimingNode → Bool) (v : List (Nat × TimingNode)) :
    (TimingGraph.stdSort comp v).Perm v :=
  List.perm_insertionSort _ v

theorem sizeToInt_of_lt {n : Nat} (h : n < 2 ^ 31) : sizeToInt n = (n : Int) := by
  unfold sizeToInt
  have h1 : n % 2 ^ 32 = n := Nat.mod_eq_of_lt (by omega)
  rw [h1, if_pos h]

theorem sizeToInt_two_pow_31 : sizeToInt (2 ^ 31) = -(2 ^ 31) := by
  unfold sizeToInt
  norm_num

theorem sizeToInt_nonneg_of_le {n : Nat} (hle : n ≤ 2 ^ 31) (h : 0 ≤ sizeToInt n) :
    n < 2 ^ 31 := by
  rcases Nat.lt_or_ge n (2 ^ 31) with hlt | hge
  · exact hlt
  · have : n = 2 ^ 31 := by omega
    rw [this, sizeToInt_two_pow_31] at h
    norm_num at h

theorem TimingEdge.new_eq_some {srcNode sinkNode : Nat} {srcPin sinkPin net : Option Nat}
    {id : Int} {e : TimingEdge}
    (h : TimingEdge.new srcNode sinkNode srcPin sinkPin net id = some e) :
    0 ≤ id ∧ e.id = id ∧ e.srcNode = srcNode ∧ e.sinkNode = sinkNode ∧
      srcPin = some e.srcPin ∧ sinkPin = some e.sinkPin ∧ e.net = net ∧ e.delay = 0 := by
  unfold TimingEdge.new at h
  cases srcPin with
  | none => simp at h
  | some sp =>
    cases sinkPin with
    | none => simp at h
    | some kp =>
      simp only [ge_iff_le] at h
      by_cases hid : 0 ≤ id
      · rw [if_pos hid] at h
        have := Option.some.inj h
        subst this
        exact ⟨hid, rfl, rfl, rfl, rfl, rfl, rfl, rfl⟩
      · rw [if_neg hid] at h
        cases h

theorem addEdgeBetween_eq_some {g g' : TimingGraph} {idA idB : Int}
    {srcPin sinkPin net : Option Nat} {delay : ℚ}
    (h : g.addEdgeBetween idA idB srcPin sinkPin net delay = some g') :
    ∃ e : TimingEdge, g'.edges = g.edges ++ [e] ∧ e.id = sizeToInt g.edges.length ∧
      0 ≤ e.id ∧ e.delay = delay ∧
      g'.nodes = (g.nodes.modify (fun n => n.addInEdge g.edges.length) idB.toNat).modify
        (fun n => n.addOutEdge g.edges.length) idA.toNat ∧
      g'.pathLenSortedNodes = g.pathLenSortedNodes := by
  unfold TimingGraph.addEdgeBetween at h
  split at h
  · cases h
  · split at h
    · cases h
    · rename_i newEdge hnew
      obtain ⟨hid, hid', -⟩ := TimingEdge.new_eq_some hnew
      have := Option.some.inj h
      subst this
      exact ⟨newEdge.setDelay delay, rfl, hid', by simpa [TimingEdge.setDelay, hid'] using hid,
        rfl, rfl, rfl⟩

theorem addEdgeBetween_isSome (g : TimingGraph) {idA idB : Int} (srcPin sinkPin : Nat)
    (net : Option Nat) (delay : ℚ) (hA0 : 0 ≤ idA) (hA : idA < g.nodes.length) (hB0 : 0 ≤ idB)
    (hB : idB < g.nodes.length) (hlen : g.edges.length < 2 ^ 31) :
    ∃ g', g.addEdgeBetween idA idB (some srcPin) (some sinkPin) net delay = some g' := by
  unfold TimingGraph.addEdgeBetween
  rw [if_neg (by omega)]
  have hid : (0 : Int) ≤ sizeToInt g.edges.length := by
    rw [sizeToInt_of_lt hlen]; omega
  simp only [TimingEdge.new, ge_iff_le, hid, if_true]
  exact ⟨_, rfl⟩

theorem addEdgeBetween_overflow (g : TimingGraph) (idA idB : Int) (srcPin sinkPin net : Option Nat)
    (delay : ℚ) (hlen : g.edges.length = 2 ^ 31) :
    g.addEdgeBetween idA idB srcPin sinkPin net delay = none := by
  unfold TimingGraph.addEdgeBetween
  split
  · rfl
  · have hnew : TimingEdge.new idA.toNat idB.toNat srcPin sinkPin net
        (sizeToInt g.edges.length) = none := by
      rw [hlen, sizeToInt_two_pow_31]
      unfold TimingEdge.new
      cases srcPin <;> cases sinkPin <;> simp
    rw [hnew]

theorem step_denseIds {g g' : TimingGraph} {op : GraphOp} (hd : DenseIds g)
    (h : g.step op = some g') :
    DenseIds g' ∧ g'.edges.length = g.edges.length + (if op.isAddEdge then 1 else 0) := by
  cases op with
  | insertTimingNode timingNode =>
    simp only [TimingGraph.step, TimingGraph.insertTimingNode] at h
    have := Option.some.inj h
    subst this
    exact ⟨hd, rfl⟩
  | addEdgeBetween idA idB srcPin sinkPin net delay =>
    simp only [TimingGraph.step] at h
    obtain ⟨e, he, hid, hnn, -⟩ := addEdgeBetween_eq_some h
    have hlt : g.edges.length < 2 ^ 31 := sizeToInt_nonneg_of_le hd.1 (hid ▸ hnn)
    have hlen : g'.edges.length = g.edges.length + 1 := by rw [he]; simp
    refine ⟨⟨by omega, ?_⟩, by simpa [GraphOp.isAddEdge] using hlen⟩
    intro i hi
    have hi' : i < (g.edges ++ [e]).length := by rw [← he]; exact hi
    have hget : g'.edges[i] = (g.edges ++ [e])[i] := by simp only [he]
    rw [hget]
    by_cases hlast : i < g.edges.length
    · rw [List.getElem_append_left hlast]
      exact hd.2 i hlast
    · have hieq : i = g.edges.length := by omega
      subst hieq
      simp only [List.getElem_concat_length, TimingEdge.getId]
      rw [hid, sizeToInt_of_lt hlt]

theorem build_denseIds :
    ∀ (ops : List GraphOp) (g g' : TimingGraph), DenseIds g → TimingGraph.build ops g = some g' →
      DenseIds g' ∧
        g'.edges.length = g.edges.length + (ops.filter fun op => op.isAddEdge).length
  | [], g, g', hd, h => by
    simp only [TimingGraph.build] at h
    have := Option.some.inj h
    subst this
    exact ⟨hd, by simp⟩
  | op :: rest, g, g', hd, h => by
    simp only [TimingGraph.build, Option.bind_eq_some] at h
    obtain ⟨mid, hmid, hrest⟩ := h
    obtain ⟨hd1, hl1⟩ := step_denseIds hd hmid
    obtain ⟨hd2, hl2⟩ := build_denseIds rest mid g' hd1 hrest
    refine ⟨hd2, ?_⟩
    rw [hl2, hl1]
    cases hop : op.isAddEdge
    · simp [List.filter_cons, hop]
    · simp [List.filter_cons, hop]; omega

theorem build_replicate_addEdge (srcPin sinkPin : Nat) (net : Option Nat) (delay : ℚ) :
    ∀ (n : Nat) (g : TimingGraph), g.edges.length + n ≤ 2 ^ 31 → 0 < g.nodes.length →
      ∃ g', TimingGraph.build
          (List.replicate n (GraphOp.addEdgeBetween 0 0 (some srcPin) (some sinkPin) net delay))
          g = some g' ∧
        g'.edges.length = g.edges.length + n ∧ g'.nodes.length = g.nodes.length
  | 0, g, _, _ => ⟨g, rfl, rfl, rfl⟩
  | n + 1, g, hle, hpos => by
    obtain ⟨mid, hmid⟩ := addEdgeBetween_isSome g srcPin sinkPin net delay (le_refl 0)
      (by exact_mod_cast hpos) (le_refl 0) (by exact_mod_cast hpos) (by omega)
    obtain ⟨e, he, -, -, -, hn, -⟩ := addEdgeBetween_eq_some hmid
    have hl : mid.edges.length = g.edges.length + 1 := by rw [he]; simp
    have hnl : mid.nodes.length = g.nodes.length := by
      rw [hn, List.length_modify, List.length_modify]
    obtain ⟨g', hg', hl', hnl'⟩ := build_replicate_addEdge srcPin sinkPin net delay n mid
      (by omega) (by omega)
    refine ⟨g', ?_, by omega, by omega⟩
    rw [List.replicate_succ]
    simp only [TimingGraph.build, TimingGraph.step, hmid, Option.some_bind]
    exact hg'

theorem sampleGraph_build :
    TimingGraph.build
      [.addEdgeBetween 0 2 (some 0) (some 1) none 0,
       .insertTimingNode { designNode := 4, id := 4 },
       .addEdgeBetween 2 4 (some 2) (some 3) (some 0) (1 / 2)] sampleGraph =
      some sampleGraphBuilt := by
  rfl


/-! ## C1 - C7: `enhanceNetWeight_LevelBased` -/

/-- C3: starting from a design in which every net has `overallTimingEnhancement = 1`, after any
sequence of `enhanceNetWeight_LevelBased` calls (any `levelThr`, any timing nodes) every net
with at most 1 or at least 1000 pins still has `overallTimingEnhancement = 1`; and the sequence
runs to its end whenever the references of the design are valid at each call. -/
theorem runCalls_outside_range_untouched (fpow : ℚ → ℚ → ℚ)
    (calls : List (List TimingNode × Int)) (o : PlacementTimingOptimizer)
    (hone : ∀ n ∈ o.designInfo.nets, n.overallTimingEnhancement = 1) :
    ((∀ c ∈ calls, refsValid c.1 o.designInfo.nets o.designInfo.cells = true) →
      ∃ o', runCalls fpow calls o = some o') ∧
    ∀ o', runCalls fpow calls o = some o' →
      ∀ n ∈ o'.designInfo.nets, (n.pins.length ≤ 1 ∨ 1000 ≤ n.pins.length) →
        n.overallTimingEnhancement = 1 := by
  have hone' : ∀ n ∈ o.designInfo.nets, (n.pins.length ≤ 1 ∨ 1000 ≤ n.pins.length) →
      n.overallTimingEnhancement = 1 := fun n hn _ => hone n hn
  clear hone
  induction calls generalizing o with
  | nil =>
    refine ⟨fun _ => ⟨o, rfl⟩, ?_⟩
    intro o' h
    simp only [runCalls] at h
    rw [← Option.some.inj h]
    exact hone'
  | cons c rest ih =>
    obtain ⟨timingNodes, levelThr⟩ := c
    constructor
    · intro hv
      obtain ⟨mid, hmid⟩ := enhanceNetWeight_LevelBased_isSome fpow levelThr
        { o with timingInfo := timingNodes } (hv (timingNodes, levelThr) (List.mem_cons_self _ _))
      obtain ⟨hc, -, hp⟩ := enhanceNetWeight_LevelBased_frame hmid
      have hrest : ∀ c ∈ rest, refsValid c.1 mid.designInfo.nets mid.designInfo.cells = true := by
        intro c hcm
        rw [hc, refsValid_congr c.1 (netPins_length hp)]
        exact hv c (List.mem_cons_of_mem _ hcm)
      obtain ⟨o', ho'⟩ := (ih mid (enhanceNetWeight_LevelBased_outside
        (o := { o with timingInfo := timingNodes }) hone' hmid)).1 hrest
      exact ⟨o', by simp [runCalls, hmid, ho']⟩
    · intro o' h
      simp only [runCalls, Option.bind_eq_some] at h
      obtain ⟨mid, hmid, hrun⟩ := h
      exact (ih mid (enhanceNetWeight_LevelBased_outside
        (o := { o with timingInfo := timingNodes }) hone' hmid)).2 o' hrun

theorem runCalls_outside_range_untouched_witness :
    (∀ n ∈ smallDesign.designInfo.nets, n.overallTimingEnhancement = 1) ∧
    (((∀ c ∈ [(smallDesign.timingInfo, (5 : Int)), ([], 2), (smallDesign.timingInfo, 4)],
        refsValid c.1 smallDesign.designInfo.nets smallDesign.designInfo.cells = true) →
      ∃ o', runCalls powAtOne [(smallDesign.timingInfo, 5), ([], 2), (smallDesign.timingInfo, 4)]
        smallDesign = some o') ∧
    ∀ o', runCalls powAtOne [(smallDesign.timingInfo, 5), ([], 2), (smallDesign.timingInfo, 4)]
        smallDesign = some o' →
      ∀ n ∈ o'.designInfo.nets, (n.pins.length ≤ 1 ∨ 1000 ≤ n.pins.length) →
        n.overallTimingEnhancement = 1) :=
  ⟨by simp [smallDesign],
    runCalls_outside_range_untouched powAtOne _ smallDesign (by simp [smallDesign])⟩

/-- C4: after a call with `levelThr ≥ 4` on an optimizer whose call counter is not negative,
every net's `overallTimingEnhancement` is at least 1: the exponent is in `(0, 1]` and every
factor the call can apply (path length at least `levelThr`, at least 2 pins) is at least 1.
The facts used about `std::pow` are `pow(x, 1) = x` and `pow(x, e) ≥ 1` for `x ≥ 1`,
`0 < e ≤ 1`. -/
theorem enhanceNetWeight_LevelBased_enhancement_ge_one (fpow : ℚ → ℚ → ℚ)
    (hpow1 : ∀ x : ℚ, fpow x 1 = x)
    (hpow : ∀ x e : ℚ, 1 ≤ x → 0 < e → e ≤ 1 → 1 ≤ fpow x e)
    (levelThr : Int) (hT : 4 ≤ levelThr) (o : PlacementTimingOptimizer)
    (hcnt : 0 ≤ o.enhanceNetWeight_LevelBased_Cnt) :
    (0 < updateEffectFactor fpow (o.enhanceNetWeight_LevelBased_Cnt + 1) ∧
      updateEffectFactor fpow (o.enhanceNetWeight_LevelBased_Cnt + 1) ≤ 1) ∧
    (∀ L p : Int, levelThr ≤ L → 2 ≤ p →
      1 ≤ enhanceRatio fpow (updateEffectFactor fpow (o.enhanceNetWeight_LevelBased_Cnt + 1))
        levelThr L p) ∧
    (refsValid o.timingInfo o.designInfo.nets o.designInfo.cells = true →
      ∃ o', enhanceNetWeight_LevelBased fpow levelThr o = some o') ∧
    ∀ o', enhanceNetWeight_LevelBased fpow levelThr o = some o' →
      ∀ n ∈ o'.designInfo.nets, 1 ≤ n.overallTimingEnhancement := by
  have heff := updateEffectFactor_pos_le_one hpow1
    (by omega : 1 ≤ o.enhanceNetWeight_LevelBased_Cnt + 1)
  refine ⟨heff, ?_, enhanceNetWeight_LevelBased_isSome fpow levelThr o, ?_⟩
  · intro L p hL hp
    exact one_le_enhanceRatio hpow1 hpow heff.1 heff.2 hT hL hp
  · intro o' h
    obtain ⟨nets', h1, h2⟩ := enhanceNetWeight_LevelBased_unfold hT h
    rw [h2]
    refine enhanceCells_inv (P := fun n => 1 ≤ n.overallTimingEnhancement) ?_ _ _ _ ?_ h1
    · intro L hL net hnet hlo _
      simp only [DesignNet.enhanceOverallTimingNetEnhancement]
      have hr := one_le_enhanceRatio hpow1 hpow heff.1 heff.2 hT hL
        (by omega : (2 : Int) ≤ (net.pins.length : Int))
      calc (1 : ℚ) = 1 * 1 := by norm_num
        _ ≤ net.overallTimingEnhancement * _ := mul_le_mul hnet hr (by norm_num) (by linarith)
    · intro n hn
      simp only [List.mem_map] at hn
      obtain ⟨m, -, rfl⟩ := hn
      exact le_refl _

theorem enhanceNetWeight_LevelBased_enhancement_ge_one_witness :
    (∀ x : ℚ, powAtOne x 1 = x) ∧
    (∀ x e : ℚ, 1 ≤ x → 0 < e → e ≤ 1 → 1 ≤ powAtOne x e) ∧ (4 : Int) ≤ 5 ∧
    (0 : Int) ≤ smallDesign.enhanceNetWeight_LevelBased_Cnt ∧
    ((0 < updateEffectFactor powAtOne (smallDesign.enhanceNetWeight_LevelBased_Cnt + 1) ∧
      updateEffectFactor powAtOne (smallDesign.enhanceNetWeight_LevelBased_Cnt + 1) ≤ 1) ∧
    (∀ L p : Int, 5 ≤ L → 2 ≤ p →
      1 ≤ enhanceRatio powAtOne
        (updateEffectFactor powAtOne (smallDesign.enhanceNetWeight_LevelBased_Cnt + 1)) 5 L p) ∧
    (refsValid smallDesign.timingInfo smallDesign.designInfo.nets smallDesign.designInfo.cells
        = true →
      ∃ o', enhanceNetWeight_LevelBased powAtOne 5 smallDesign = some o') ∧
    ∀ o', enhanceNetWeight_LevelBased powAtOne 5 smallDesign = some o' →
      ∀ n ∈ o'.designInfo.nets, 1 ≤ n.overallTimingEnhancement) :=
  ⟨powAtOne_one, fun x e hx _ _ => one_le_powAtOne x e hx, by decide, by decide,
    enhanceNetWeight_LevelBased_enhancement_ge_one powAtOne powAtOne_one
      (fun x e hx _ _ => one_le_powAtOne x e hx) 5 (by decide) smallDesign (by decide)⟩

/-- C5: a call with `levelThr < 4` returns the state it was given: no net's
`overallTimingEnhancement` changes (none is reset to 1), and neither the call counter nor
`effectFactor` changes. -/
theorem enhanceNetWeight_LevelBased_below_four (fpow : ℚ → ℚ → ℚ) (levelThr : Int)
    (hT : levelThr < 4) (o : PlacementTimingOptimizer) :
    enhanceNetWeight_LevelBased fpow levelThr o = some o := by
  unfold enhanceNetWeight_LevelBased
  rw [if_pos hT]

theorem enhanceNetWeight_LevelBased_below_four_witness :
    (3 : Int) < 4 ∧
    enhanceNetWeight_LevelBased powAtOne 3
      { smallDesign with
        designInfo := { smallDesign.designInfo with
          nets := [{ pins := [0, 3], overallTimingEnhancement := 7 / 2 },
                   { pins := [1], overallTimingEnhancement := 1 }] } } =
      some { smallDesign with
        designInfo := { smallDesign.designInfo with
          nets := [{ pins := [0, 3], overallTimingEnhancement := 7 / 2 },
                   { pins := [1], overallTimingEnhancement := 1 }] } } :=
  ⟨by decide, enhanceNetWeight_LevelBased_below_four powAtOne 3 (by decide) _⟩

/-- C7 (as stated, refuted): on `smallDesign` the first call with `levelThr = 5` takes net 0
from `1` to `r1 = 243/200`; the second call applies `r2 = 243/200` and leaves net 0 at
`243/200`, not at `r1 * r2`. -/
theorem enhanceNetWeight_LevelBased_twice_not_product :
    (enhanceNetWeight_LevelBased powAtOne 5 smallDesign).map enhancements =
      some [243 / 200, 1] ∧
    ((enhanceNetWeight_LevelBased powAtOne 5 smallDesign).bind
      (enhanceNetWeight_LevelBased powAtOne 5)).map enhancements = some [243 / 200, 1] ∧
    (243 / 200 : ℚ) ≠ 243 / 200 * (243 / 200) := by
  refine ⟨?_, ?_, by norm_num⟩
  · simp [enhanceNetWeight_LevelBased, smallDesign, enhanceCells, enhanceCell, enhancePins,
      enhancePin, updateEffectFactor, powAtOne, enhanceRatio, TimingNode.getLongestPathLength,
      DesignNet.setOverallTimingNetEnhancement, DesignNet.enhanceOverallTimingNetEnhancement,
      enhancements]
    norm_num
  · simp [enhanceNetWeight_LevelBased, smallDesign, enhanceCells, enhanceCell, enhancePins,
      enhancePin, updateEffectFactor, powAtOne, enhanceRatio, TimingNode.getLongestPathLength,
      DesignNet.setOverallTimingNetEnhancement, DesignNet.enhanceOverallTimingNetEnhancement,
      enhancements]
    norm_num

/-- C7 (amended): after two successive calls with `levelThr ≥ 4` on an unchanged timing graph,
the nets are the all-ones nets with only the factors of the second call multiplied in (`r2`
for a net with one eligible driving pin): each such call first sets every net back to 1, so
factors compound within one call and not across calls. -/
theorem enhanceNetWeight_LevelBased_twice (fpow : ℚ → ℚ → ℚ) (T1 T2 : Int) (hT1 : 4 ≤ T1)
    (hT2 : 4 ≤ T2) (o o1 o2 : PlacementTimingOptimizer)
    (h1 : enhanceNetWeight_LevelBased fpow T1 o = some o1)
    (h2 : enhanceNetWeight_LevelBased fpow T2 o1 = some o2) :
    o1.designInfo.nets =
      (appliedFactors
        (enhanceRatio fpow (updateEffectFactor fpow (o.enhanceNetWeight_LevelBased_Cnt + 1)) T1)
        T1 o.timingInfo o.designInfo.nets o.designInfo.cells).foldl applyFactor
        (o.designInfo.nets.map fun n => n.setOverallTimingNetEnhancement 1) ∧
    o2.designInfo.nets =
      (appliedFactors
        (enhanceRatio fpow (updateEffectFactor fpow (o.enhanceNetWeight_LevelBased_Cnt + 2)) T2)
        T2 o.timingInfo o.designInfo.nets o.designInfo.cells).foldl applyFactor
        (o.designInfo.nets.map fun n => n.setOverallTimingNetEnhancement 1) := by
  obtain ⟨hc, ht, hp⟩ := enhanceNetWeight_LevelBased_frame h1
  have hcnt := enhanceNetWeight_LevelBased_cnt h1
  rw [if_pos hT1] at hcnt
  refine ⟨enhanceNetWeight_LevelBased_fold hT1 _ rfl h1, ?_⟩
  have := enhanceNetWeight_LevelBased_fold hT2 o.designInfo.nets hp h2
  rw [hc, ht, hcnt, add_assoc] at this
  exact this

theorem smallDesign_first_call :
    enhanceNetWeight_LevelBased powAtOne 5 smallDesign = some (smallDesignAfter 30) := by
  simp [enhanceNetWeight_LevelBased, smallDesign, smallDesignAfter, enhanceCells, enhanceCell,
    enhancePins, enhancePin, updateEffectFactor, powAtOne, enhanceRatio,
    TimingNode.getLongestPathLength, DesignNet.setOverallTimingNetEnhancement,
    DesignNet.enhanceOverallTimingNetEnhancement]
  norm_num

theorem smallDesign_second_call :
    enhanceNetWeight_LevelBased powAtOne 5 (smallDesignAfter 30) =
      some (smallDesignAfter 31) := by
  simp [enhanceNetWeight_LevelBased, smallDesign, smallDesignAfter, enhanceCells, enhanceCell,
    enhancePins, enhancePin, updateEffectFactor, powAtOne, enhanceRatio,
    TimingNode.getLongestPathLength, DesignNet.setOverallTimingNetEnhancement,
    DesignNet.enhanceOverallTimingNetEnhancement]
  norm_num

theorem enhanceNetWeight_LevelBased_twice_witness :
    (4 : Int) ≤ 5 ∧
    enhanceNetWeight_LevelBased powAtOne 5 smallDesign = some (smallDesignAfter 30) ∧
    enhanceNetWeight_LevelBased powAtOne 5 (smallDesignAfter 30) = some (smallDesignAfter 31) ∧
    (smallDesignAfter 31).designInfo.nets =
      (appliedFactors
        (enhanceRatio powAtOne
          (updateEffectFactor powAtOne (smallDesign.enhanceNetWeight_LevelBased_Cnt + 2)) 5)
        5 smallDesign.timingInfo smallDesign.designInfo.nets
        smallDesign.designInfo.cells).foldl applyFactor
        (smallDesign.designInfo.nets.map fun n => n.setOverallTimingNetEnhancement 1) :=
  ⟨by decide, smallDesign_first_call, smallDesign_second_call,
    (enhanceNetWeight_LevelBased_twice powAtOne 5 5 (by decide) (by decide) smallDesign
      (smallDesignAfter 30) (smallDesignAfter 31) smallDesign_first_call
      smallDesign_second_call).2⟩

/-! ## C8 - C10: the timing graph -/

/-- C8: after `setLongestPathLength` the node at every position keeps its levels, and when both
levels are at least 0 it reports `getLongestPathLength() = forwardLevel + backwardLevel + 1`;
in particular, in a chain of `N` cells whose `k`-th cell has `forwardLevel = k` and
`backwardLevel = N - k - 1`, every cell reports the longest path length `N`. -/
theorem setLongestPathLength_longestPathLength (g : TimingGraph) (N : Nat) :
    (∀ (i : Nat) (node : TimingNode), g.nodes[i]? = some node →
      ∃ node', g.setLongestPathLength.nodes[i]? = some node' ∧
        node'.getForwardLevel = node.getForwardLevel ∧
        node'.getBackwardLevel = node.getBackwardLevel ∧
        (0 ≤ node.forwardLevel → 0 ≤ node.backwardLevel →
          node'.getLongestPathLength = node.forwardLevel + node.backwardLevel + 1)) ∧
    (∀ k : Nat, k < N →
      ∃ node', ({ g with nodes := chainNodes N } : TimingGraph).setLongestPathLength.nodes[k]?
          = some node' ∧
        node'.getForwardLevel = (k : Int) ∧
        node'.getBackwardLevel = (N : Int) - (k : Int) - 1 ∧
        node'.getLongestPathLength = (N : Int)) := by
  constructor
  · intro i node h
    refine ⟨node.calcLongestPath, ?_, rfl, rfl, calcLongestPath_getLongestPathLength node⟩
    simp [TimingGraph.setLongestPathLength, h]
  · intro k hk
    refine ⟨TimingNode.calcLongestPath
      { designNode := k
        id := (k : Int)
        forwardLevel := (k : Int)
        backwardLevel := (N : Int) - (k : Int) - 1 }, ?_, rfl, rfl, ?_⟩
    · simp only [TimingGraph.setLongestPathLength, chainNodes, List.map_map, List.getElem?_map,
        List.getElem?_range hk, Option.map_some', Function.comp_apply]
    · rw [calcLongestPath_getLongestPathLength]
      · simp only; omega
      · simp only; omega
      · simp only; omega

/-- C9: after `setLongestPathLength`, `pathLenSortedNodes` is a permutation of the node
pointers of `nodes`; for positions `i < j` the nodes `a`, `b` it points to satisfy
`len a > len b`, or `len a = len b` and `forwardLevel a ≤ forwardLevel b`; and the comparator
is a strict weak ordering (irreflexive, transitive, with transitive incomparability). -/
theorem setLongestPathLength_sorted (g : TimingGraph) :
    g.setLongestPathLength.pathLenSortedNodes.Perm
      (List.range g.setLongestPathLength.nodes.length) ∧
    (∀ (i j : Nat) (hj : j < g.setLongestPathLength.pathLenSortedNodes.length) (hij : i < j),
      ∃ a b,
        g.setLongestPathLength.nodes[g.setLongestPathLength.pathLenSortedNodes[i]]? = some a ∧
        g.setLongestPathLength.nodes[g.setLongestPathLength.pathLenSortedNodes[j]]? = some b ∧
        (a.getLongestPathLength > b.getLongestPathLength ∨
          (a.getLongestPathLength = b.getLongestPathLength ∧
            a.getForwardLevel ≤ b.getForwardLevel))) ∧
    ((∀ a, TimingGraph.pathLenComp a a = false) ∧
      (∀ a b c, TimingGraph.pathLenComp a b = true → TimingGraph.pathLenComp b c = true →
        TimingGraph.pathLenComp a c = true) ∧
      (∀ a b c, TimingGraph.pathLenComp a b = false → TimingGraph.pathLenComp b a = false →
        TimingGraph.pathLenComp b c = false → TimingGraph.pathLenComp c b = false →
        TimingGraph.pathLenComp a c = false ∧ TimingGraph.pathLenComp c a = false)) := by
  refine ⟨?_, ?_, ?_, ?_, ?_⟩
  · have h := (stdSort_perm TimingGraph.pathLenComp
      (g.nodes.map fun tmpNode => tmpNode.calcLongestPath).enum).map Prod.fst
    rw [List.enum_map_fst] at h
    exact h
  · intro i j hj hij
    have hs := stdSort_sorted (g.nodes.map fun tmpNode => tmpNode.calcLongestPath).enum
    have hmem : ∀ p ∈ TimingGraph.stdSort TimingGraph.pathLenComp
        (g.nodes.map fun tmpNode => tmpNode.calcLongestPath).enum,
        (g.nodes.map fun tmpNode => tmpNode.calcLongestPath)[p.1]? = some p.2 := by
      intro p hp
      have := (stdSort_perm TimingGraph.pathLenComp _).mem_iff.mp hp
      exact List.mk_mem_enum_iff_getElem?.mp this
    have hlen : (TimingGraph.stdSort TimingGraph.pathLenComp
        (g.nodes.map fun tmpNode => tmpNode.calcLongestPath).enum).length =
        g.setLongestPathLength.pathLenSortedNodes.length := by
      simp [TimingGraph.setLongestPathLength]
    have hj' := hlen ▸ hj
    have hi' : i < (TimingGraph.stdSort TimingGraph.pathLenComp
        (g.nodes.map fun tmpNode => tmpNode.calcLongestPath).enum).length := by omega
    have hrel := List.pairwise_iff_getElem.mp hs i j hi' hj' hij
    refine ⟨_, _, ?_, ?_, (pathLenComp_eq_false_iff _ _).mp hrel⟩
    · have := hmem _ (List.getElem_mem hi')
      simpa [TimingGraph.setLongestPathLength] using this
    · have := hmem _ (List.getElem_mem hj')
      simpa [TimingGraph.setLongestPathLength] using this
  · intro a
    rw [pathLenComp_eq_false_iff]
    omega
  · intro a b c
    simp only [pathLenComp_eq_true_iff]
    omega
  · intro a b c
    simp only [pathLenComp_eq_false_iff]
    omega

/-- C10 (as stated, refuted): on the graph with one node, `2^31` calls
`addEdgeBetween(0, 0, pin 0, pin 1)` succeed; the graph then has `2^31` edges, `edges.size()`
converted to `int` is negative, and the next call fails the assertion `id >= 0` of the edge
constructor. -/
theorem addEdgeBetween_id_assertion_fails :
    ∃ g : TimingGraph,
      TimingGraph.build
        (List.replicate (2 ^ 31) (GraphOp.addEdgeBetween 0 0 (some 0) (some 1) none 0))
        { nodes := [{ designNode := 0, id := 0 }] } = some g ∧
      g.edges.length = 2 ^ 31 ∧ sizeToInt g.edges.length < 0 ∧
      TimingEdge.new 0 0 (some 0) (some 1) none (sizeToInt g.edges.length) = none ∧
      g.addEdgeBetween 0 0 (some 0) (some 1) none 0 = none := by
  obtain ⟨g, hg, hl, -⟩ := build_replicate_addEdge 0 1 none 0 (2 ^ 31)
    { nodes := [{ designNode := 0, id := 0 }] } (by simp) (by simp)
  have hl' : g.edges.length = 2 ^ 31 := by simpa using hl
  refine ⟨g, hg, hl', ?_, ?_, addEdgeBetween_overflow g 0 0 _ _ _ 0 hl'⟩
  · rw [hl', sizeToInt_two_pow_31]; norm_num
  · rw [hl', sizeToInt_two_pow_31]; simp [TimingEdge.new]

/-- C10 (amended): in a graph built from one without edges by `insertTimingNode` and
successful `addEdgeBetween` calls, `n` of the latter, `edges` has length `n`,
`edges[i].getId() = i` for every `i < n`, every id is at least 0 and `n ≤ 2^31`; a further
`addEdgeBetween` with valid node ids and non-null pins passes the assertions of the edge
constructor as long as the graph has fewer than `2^31` edges. -/
theorem build_edge_ids_dense (ops : List GraphOp) (g0 g : TimingGraph) (h0 : g0.edges = [])
    (h : TimingGraph.build ops g0 = some g) :
    g.edges.length = (ops.filter fun op => op.isAddEdge).length ∧
    (∀ (i : Nat) (hi : i < g.edges.length), (g.edges[i]).getId = (i : Int)) ∧
    (∀ e ∈ g.edges, 0 ≤ e.getId) ∧
    g.edges.length ≤ 2 ^ 31 ∧
    (∀ (idA idB : Int) (srcPin sinkPin : Nat) (net : Option Nat) (delay : ℚ),
      0 ≤ idA → idA < g.nodes.length → 0 ≤ idB → idB < g.nodes.length →
      g.edges.length < 2 ^ 31 →
      ∃ g', g.addEdgeBetween idA idB (some srcPin) (some sinkPin) net delay = some g') := by
  have hd0 : DenseIds g0 := by
    refine ⟨by simp [h0], ?_⟩
    intro i hi
    simp [h0] at hi
  obtain ⟨hd, hl⟩ := build_denseIds ops g0 g hd0 h
  refine ⟨by simpa [h0] using hl, hd.2, ?_, hd.1, ?_⟩
  · intro e he
    obtain ⟨i, hi, rfl⟩ := List.getElem_of_mem he
    rw [hd.2 i hi]
    omega
  · intro idA idB srcPin sinkPin net delay hA0 hA hB0 hB hlen
    exact addEdgeBetween_isSome g srcPin sinkPin net delay hA0 hA hB0 hB hlen

theorem build_edge_ids_dense_witness :
    sampleGraph.edges = [] ∧
    TimingGraph.build
      [.addEdgeBetween 0 2 (some 0) (some 1) none 0,
       .insertTimingNode { designNode := 4, id := 4 },
       .addEdgeBetween 2 4 (some 2) (some 3) (some 0) (1 / 2)] sampleGraph =
      some sampleGraphBuilt ∧
    sampleGraphBuilt.edges.length = 2 ∧
    (∀ (i : Nat) (hi : i < sampleGraphBuilt.edges.length),
      (sampleGraphBuilt.edges[i]).getId = (i : Int)) :=
  ⟨rfl, sampleGraph_build,
    (build_edge_ids_dense _ sampleGraph sampleGraphBuilt rfl sampleGraph_build).1,
    (build_edge_ids_dense _ sampleGraph sampleGraphBuilt rfl sampleGraph_build).2.1⟩

/-! ## General lemmas for the placement code -/

theorem forall₂_getElem? {α β : Type} {R : α → β → Prop} :
    ∀ {l1 : List α} {l2 : List β}, List.Forall₂ R l1 l2 → ∀ (i : Nat) (a : α),
      l1[i]? = some a → ∃ b, l2[i]? = some b ∧ R a b
  | _, _, .nil, i, a, h => by simp at h
  | _, _, .cons h1 t1, 0, a, h => by
    simp only [List.getElem?_cons_zero, Option.some.injEq] at h
    subst h
    exact ⟨_, by simp, h1⟩
  | _, _, .cons _ t1, i + 1, a, h => by
    simp only [List.getElem?_cons_succ] at h
    obtain ⟨b, hb, hr⟩ := forall₂_getElem? t1 i a h
    exact ⟨b, by simpa using hb, hr⟩

theorem vecAt_isSome {α : Type} (v : List α) {i : Int} (h0 : 0 ≤ i) (h1 : i < v.length) :
    ∃ a, vecAt v i = some a := by
  unfold vecAt
  rw [if_neg (by omega), List.getElem?_eq_getElem (by omega)]
  exact ⟨_, rfl⟩

/-! ## C11: `getEarlestSuccessorId` -/

/-- C11 (the code at the failing input): on a new node, whose slowest predecessor id is `-1`,
`getEarlestSuccessorId()` after `setEarlestSuccessorId(5)` is `-1`, not `5`; for every node
and value it is the slowest predecessor id the node had. -/
theorem getEarlestSuccessorId_is_slowestPredecessorId :
    (TimingNode.setEarlestSuccessorId { designNode := 0, id := 0 } 5).getEarlestSuccessorId
      = -1 ∧
    (TimingNode.setEarlestSuccessorId { designNode := 0, id := 0 } 5).earliestSuccessorId = 5 ∧
    ∀ (n : TimingNode) (v : Int),
      (n.setEarlestSuccessorId v).getEarlestSuccessorId = n.getSlowestPredecessorId :=
  ⟨rfl, rfl, fun _ _ => rfl⟩

/-! ## C12: `setPinsLocation` -/

theorem toUnsigned_lt {id : Int} {n : Nat} (h0 : 0 ≤ id) (h1 : id < n) : toUnsigned id < n := by
  unfold toUnsigned
  norm_num
  omega

theorem setPinLocation_eq {tmpCellLoc : Location} {pinLoc : List Location} {tmpPin : DesignPin}
    (h0 : 0 ≤ tmpPin.elementIdInType) (h1 : tmpPin.elementIdInType < pinLoc.length) :
    setPinLocation tmpCellLoc pinLoc tmpPin =
      some (pinLoc.set tmpPin.elementIdInType.toNat
        { X := tmpCellLoc.X + tmpPin.offsetXInCell, Y := tmpCellLoc.Y + tmpPin.offsetYInCell }) := by
  unfold setPinLocation
  simp only
  rw [if_pos (toUnsigned_lt h0 h1), if_neg (by omega)]

theorem setPinLocations_spec (tmpCellLoc : Location) :
    ∀ (pins : List DesignPin) (pinLoc : List Location),
      (∀ p ∈ pins, 0 ≤ p.elementIdInType ∧ p.elementIdInType < pinLoc.length) →
      (pins.map fun p => p.elementIdInType).Nodup →
      ∃ pinLoc', setPinLocations tmpCellLoc pins pinLoc = some pinLoc' ∧
        pinLoc'.length = pinLoc.length ∧
        (∀ p ∈ pins, pinLoc'[p.elementIdInType.toNat]? =
          some { X := tmpCellLoc.X + p.offsetXInCell, Y := tmpCellLoc.Y + p.offsetYInCell }) ∧
        (∀ j : Nat, (j : Int) ∉ pins.map (fun p => p.elementIdInType) →
          pinLoc'[j]? = pinLoc[j]?)
  | [], pinLoc, _, _ => ⟨pinLoc, rfl, rfl, by simp, fun _ _ => rfl⟩
  | p :: rest, pinLoc, hid, hnd => by
    obtain ⟨h0, h1⟩ := hid p (List.mem_cons_self _ _)
    have hstep := @setPinLocation_eq tmpCellLoc _ _ h0 h1
    simp only [List.map_cons, List.nodup_cons] at hnd
    obtain ⟨hnotin, hnd'⟩ := hnd
    obtain ⟨out, hout, hlen, hset, hframe⟩ := setPinLocations_spec tmpCellLoc rest
      (pinLoc.set p.elementIdInType.toNat
        { X := tmpCellLoc.X + p.offsetXInCell, Y := tmpCellLoc.Y + p.offsetYInCell })
      (fun q hq => by
        rw [List.length_set]
        exact hid q (List.mem_cons_of_mem _ hq)) hnd'
    refine ⟨out, by simp [setPinLocations, hstep, hout], by rw [hlen, List.length_set], ?_, ?_⟩
    · intro q hq
      rcases List.mem_cons.mp hq with rfl | hq
      · rw [hframe q.elementIdInType.toNat (by rwa [Int.toNat_of_nonneg h0])]
        exact List.getElem?_set_self (by omega)
      · exact hset q hq
    · intro j hj
      simp only [List.map_cons, List.mem_cons, not_or] at hj
      rw [hframe j hj.2, List.getElem?_set_ne]
      intro he
      apply hj.1
      rw [← he, Int.toNat_of_nonneg h0]

theorem setCellPinLocations_spec (cellLoc : List Location) :
    ∀ (cells : List DesignCell) (pinLoc : List Location),
      (∀ c ∈ cells, c.cellId < cellLoc.length) →
      (∀ c ∈ cells, ∀ p ∈ c.pins, 0 ≤ p.elementIdInType ∧ p.elementIdInType < pinLoc.length) →
      ((cells.flatMap fun c => c.pins).map fun p => p.elementIdInType).Nodup →
      ∃ pinLoc', setCellPinLocations cellLoc cells pinLoc = some pinLoc' ∧
        pinLoc'.length = pinLoc.length ∧
        (∀ c ∈ cells, ∀ p ∈ c.pins, ∃ loc, cellLoc[c.cellId]? = some loc ∧
          pinLoc'[p.elementIdInType.toNat]? =
            some { X := loc.X + p.offsetXInCell, Y := loc.Y + p.offsetYInCell }) ∧
        (∀ j : Nat, (j : Int) ∉ (cells.flatMap fun c => c.pins).map (fun p => p.elementIdInType) →
          pinLoc'[j]? = pinLoc[j]?)
  | [], pinLoc, _, _, _ => ⟨pinLoc, rfl, rfl, by simp, fun _ _ => rfl⟩
  | c :: rest, pinLoc, hcell, hid, hnd => by
    have hlt := hcell c (List.mem_cons_self _ _)
    simp only [List.flatMap_cons, List.map_append, List.nodup_append] at hnd
    obtain ⟨hnd1, hnd2, hdisj⟩ := hnd
    obtain ⟨mid, hmid, hlen1, hset1, hframe1⟩ := setPinLocations_spec cellLoc[c.cellId] c.pins
      pinLoc (hid c (List.mem_cons_self _ _)) hnd1
    obtain ⟨out, hout, hlen2, hset2, hframe2⟩ := setCellPinLocations_spec cellLoc rest mid
      (fun d hd => hcell d (List.mem_cons_of_mem _ hd))
      (fun d hd q hq => by rw [hlen1]; exact hid d (List.mem_cons_of_mem _ hd) q hq) hnd2
    refine ⟨out, ?_, by rw [hlen2, hlen1], ?_, ?_⟩
    · simp [setCellPinLocations, List.getElem?_eq_getElem hlt, hmid, hout]
    · intro d hd q hq
      rcases List.mem_cons.mp hd with rfl | hd
      · refine ⟨cellLoc[d.cellId], List.getElem?_eq_getElem hlt, ?_⟩
        have h0 := (hid d (List.mem_cons_self _ _) q hq).1
        rw [hframe2 q.elementIdInType.toNat ?_]
        · exact hset1 q hq
        · rw [Int.toNat_of_nonneg h0]
          intro hin
          exact hdisj (List.mem_map_of_mem _ hq) hin
      · exact hset2 d hd q hq
    · intro j hj
      simp only [List.flatMap_cons, List.map_append, List.mem_append, not_or] at hj
      rw [hframe2 j hj.2, hframe1 j hj.1]

/-- C12: when every cell id is a position of `cellLoc` and the pins of the placement cells
have pairwise distinct element ids from 0 up to the pin count, `setPinsLocation` returns, the
pin-location table has one entry per design pin, nothing else of the placement information
changes, and for every cell `c` and every pin `p` of `c` the entry of `p` is
`(cellLoc[c].X + p.offsetX, cellLoc[c].Y + p.offsetY)`. -/
theorem setPinsLocation_spec (unplaced : Location) (numPins : Nat)
    (placementInfo : PlacementInfo)
    (hcell : ∀ c ∈ placementInfo.cells, c.cellId < placementInfo.cellId2location.length)
    (hid : ∀ c ∈ placementInfo.cells, ∀ p ∈ c.pins,
      0 ≤ p.elementIdInType ∧ p.elementIdInType < numPins)
    (hnodup : ((placementInfo.cells.flatMap fun c => c.pins).map
      fun p => p.elementIdInType).Nodup) :
    ∃ pinLoc, setPinsLocation unplaced numPins placementInfo =
        some { placementInfo with pinId2location := pinLoc } ∧
      pinLoc.length = numPins ∧
      ∀ c ∈ placementInfo.cells, ∀ p ∈ c.pins, ∃ loc,
        placementInfo.cellId2location[c.cellId]? = some loc ∧
        pinLoc[p.elementIdInType.toNat]? =
          some { X := loc.X + p.offsetXInCell, Y := loc.Y + p.offsetYInCell } := by
  obtain ⟨out, hout, hlen, hset, -⟩ := setCellPinLocations_spec placementInfo.cellId2location
    placementInfo.cells (List.replicate numPins unplaced) hcell
    (by simpa using hid) hnodup
  refine ⟨out, by simp [setPinsLocation, hout], by simpa using hlen, hset⟩

theorem setPinsLocation_spec_witness :
    (∀ c ∈ pinsInfo.cells, c.cellId < pinsInfo.cellId2location.length) ∧
    (∀ c ∈ pinsInfo.cells, ∀ p ∈ c.pins,
      0 ≤ p.elementIdInType ∧ p.elementIdInType < (3 : Nat)) ∧
    ((pinsInfo.cells.flatMap fun c => c.pins).map fun p => p.elementIdInType).Nodup ∧
    ∃ pinLoc, setPinsLocation { X := -10, Y := -10 } 3 pinsInfo =
        some { pinsInfo with pinId2location := pinLoc } ∧
      pinLoc.length = 3 ∧
      ∀ c ∈ pinsInfo.cells, ∀ p ∈ c.pins, ∃ loc,
        pinsInfo.cellId2location[c.cellId]? = some loc ∧
        pinLoc[p.elementIdInType.toNat]? =
          some { X := loc.X + p.offsetXInCell, Y := loc.Y + p.offsetYInCell } :=
  ⟨by decide, by decide, by decide,
    setPinsLocation_spec { X := -10, Y := -10 } 3 pinsInfo (by decide) (by decide) (by decide)⟩

/-! ## C13: the edge delays of `conductStaticTimingAnalysis` -/

theorem setEdgeDelay_spec {getDelayByModel : ℚ → ℚ → ℚ}
    {getClockRegionByLocation : ℚ → ℚ → Int × Int} {pins : List DesignPin}
    {pinLoc : List Location} {edge edge' : TimingEdge}
    (h : setEdgeDelay getDelayByModel getClockRegionByLocation pins pinLoc edge = some edge') :
    DelaySet getDelayByModel getClockRegionByLocation pins pinLoc edge edge' := by
  unfold setEdgeDelay at h
  split at h
  · rename_i srcPin sinkPin hs hk
    split at h
    · rename_i pin1Loc pin2Loc h1 h2
      refine ⟨srcPin, sinkPin, pin1Loc, pin2Loc, hs, hk, h1, h2, ?_⟩
      unfold edgeAfterDelay unplacedPin
      by_cases hu1 : pin1Loc.X < -5 ∧ pin1Loc.Y < -5
      · rw [if_pos hu1] at h
        simp [hu1, (Option.some.inj h).symm]
      · rw [if_neg hu1] at h
        by_cases hu2 : pin2Loc.X < -5 ∧ pin2Loc.Y < -5
        · rw [if_pos hu2] at h
          simp [hu2, (Option.some.inj h).symm]
        · rw [if_neg hu2] at h
          have hb : (decide (pin1Loc.X < -5) && decide (pin1Loc.Y < -5) ||
              decide (pin2Loc.X < -5) && decide (pin2Loc.Y < -5)) = false := by
            simp only [Bool.or_eq_false_iff, Bool.and_eq_false_iff, decide_eq_false_iff_not]
            constructor
            · by_contra hc; push_neg at hc; exact hu1 ⟨by tauto, by tauto⟩
            · by_contra hc; push_neg at hc; exact hu2 ⟨by tauto, by tauto⟩
          rw [hb]
          simp only [Bool.false_eq_true, if_false]
          rw [← Option.some.inj h]
          simp only [TimingEdge.setDelay]
          congr 1
          ring
    · cases h
  · cases h

theorem setEdgeDelays_spec {getDelayByModel : ℚ → ℚ → ℚ}
    {getClockRegionByLocation : ℚ → ℚ → Int × Int} {pins : List DesignPin}
    {pinLoc : List Location} :
    ∀ (edges edges' : List TimingEdge),
      setEdgeDelays getDelayByModel getClockRegionByLocation pins pinLoc edges = some edges' →
      List.Forall₂ (DelaySet getDelayByModel getClockRegionByLocation pins pinLoc) edges edges'
  | [], edges', h => by
    simp only [setEdgeDelays] at h
    rw [← Option.some.inj h]
    exact .nil
  | e :: rest, edges', h => by
    simp only [setEdgeDelays] at h
    split at h
    · cases h
    · rename_i e' he
      simp only [Option.map_eq_some'] at h
      obtain ⟨rest', hrest, rfl⟩ := h
      exact .cons (setEdgeDelay_spec he) (setEdgeDelays_spec rest rest' hrest)

theorem setEdgeDelays_congr (getDelayByModel : ℚ → ℚ → ℚ)
    (cr cr' : ℚ → ℚ → Int × Int) (hcr : ∀ x y, (cr' x y).1 = (cr x y).1)
    (pins : List DesignPin) (pinLoc : List Location) :
    ∀ edges : List TimingEdge, setEdgeDelays getDelayByModel cr' pins pinLoc edges =
      setEdgeDelays getDelayByModel cr pins pinLoc edges
  | [] => rfl
  | e :: rest => by
    have h1 : setEdgeDelay getDelayByModel cr' pins pinLoc e =
        setEdgeDelay getDelayByModel cr pins pinLoc e := by
      unfold setEdgeDelay
      simp only [hcr]
    simp only [setEdgeDelays, h1, setEdgeDelays_congr getDelayByModel cr cr' hcr pins pinLoc rest]

theorem setEdgeDelays_isSome (getDelayByModel : ℚ → ℚ → ℚ)
    (getClockRegionByLocation : ℚ → ℚ → Int × Int) (pins : List DesignPin)
    (pinLoc : List Location) :
    ∀ edges : List TimingEdge,
      (∀ e ∈ edges, ∃ srcPin sinkPin, pins[e.srcPin]? = some srcPin ∧
        pins[e.sinkPin]? = some sinkPin ∧
        0 ≤ srcPin.elementIdInType ∧ srcPin.elementIdInType < pinLoc.length ∧
        0 ≤ sinkPin.elementIdInType ∧ sinkPin.elementIdInType < pinLoc.length) →
      ∃ edges', setEdgeDelays getDelayByModel getClockRegionByLocation pins pinLoc edges =
        some edges'
  | [], _ => ⟨[], rfl⟩
  | e :: rest, hv => by
    obtain ⟨srcPin, sinkPin, hs, hk, hs0, hs1, hk0, hk1⟩ := hv e (List.mem_cons_self _ _)
    obtain ⟨rest', hrest⟩ := setEdgeDelays_isSome getDelayByModel getClockRegionByLocation pins
      pinLoc rest (fun d hd => hv d (List.mem_cons_of_mem _ hd))
    obtain ⟨pin1Loc, h1⟩ := vecAt_isSome pinLoc hs0 hs1
    obtain ⟨pin2Loc, h2⟩ := vecAt_isSome pinLoc hk0 hk1
    have he : ∃ e', setEdgeDelay getDelayByModel getClockRegionByLocation pins pinLoc e =
        some e' := by
      simp only [setEdgeDelay, hs, hk, h1, h2]
      split_ifs <;> exact ⟨_, rfl⟩
    obtain ⟨e', he'⟩ := he
    exact ⟨e' :: rest', by simp [setEdgeDelays, he', hrest]⟩

/-- C13: in `conductStaticTimingAnalysis`, before the propagation, the pin locations are those
of `setPinsLocation`, and the edge at every position keeps everything but its delay; when the
source pin and the sink pin are both placed (neither has `X < -5` and `Y < -5`) its delay is
`getDelayByModel(|x1 - x2|, |y1 - y2|) + 0.5 * |clockRegionX(sink) - clockRegionX(source)|`,
and when one of them is not placed the edge is unchanged.  The result is the same for any two
devices whose `getClockRegionByLocation` agree on the column, and the call returns whenever
`setPinsLocation` does and the pins of the edges have element ids inside the pin table. -/
theorem conductStaticTimingAnalysis_edge_delays (getDelayByModel : ℚ → ℚ → ℚ)
    (getClockRegionByLocation : ℚ → ℚ → Int × Int) (unplaced : Location)
    (pins : List DesignPin) (placementInfo : PlacementInfo) (timingGraph : TimingGraph) :
    (∀ placementInfo', setPinsLocation unplaced pins.length placementInfo = some placementInfo' →
      placementInfo'.pinId2location.length = pins.length →
      (∀ e ∈ timingGraph.edges, ∃ srcPin sinkPin, pins[e.srcPin]? = some srcPin ∧
        pins[e.sinkPin]? = some sinkPin ∧
        0 ≤ srcPin.elementIdInType ∧ srcPin.elementIdInType < pins.length ∧
        0 ≤ sinkPin.elementIdInType ∧ sinkPin.elementIdInType < pins.length) →
      ∃ timingGraph', conductStaticTimingAnalysis_edgeDelays getDelayByModel
        getClockRegionByLocation unplaced pins placementInfo timingGraph =
          some (placementInfo', timingGraph')) ∧
    (∀ placementInfo' timingGraph',
      conductStaticTimingAnalysis_edgeDelays getDelayByModel getClockRegionByLocation unplaced
        pins placementInfo timingGraph = some (placementInfo', timingGraph') →
      setPinsLocation unplaced pins.length placementInfo = some placementInfo' ∧
      timingGraph'.nodes = timingGraph.nodes ∧
      ∀ (i : Nat) (e : TimingEdge), timingGraph.edges[i]? = some e →
        ∃ e' srcPin sinkPin pin1Loc pin2Loc,
          timingGraph'.edges[i]? = some e' ∧
          pins[e.srcPin]? = some srcPin ∧ pins[e.sinkPin]? = some sinkPin ∧
          vecAt placementInfo'.pinId2location srcPin.elementIdInType = some pin1Loc ∧
          vecAt placementInfo'.pinId2location sinkPin.elementIdInType = some pin2Loc ∧
          (unplacedPin pin1Loc = false → unplacedPin pin2Loc = false →
            e' = { e with
              delay := getDelayByModel |pin1Loc.X - pin2Loc.X| |pin1Loc.Y - pin2Loc.Y| +
                (1 / 2 : ℚ) * ((|(getClockRegionByLocation pin2Loc.X pin2Loc.Y).1 -
                  (getClockRegionByLocation pin1Loc.X pin1Loc.Y).1| : Int) : ℚ) }) ∧
          ((unplacedPin pin1Loc = true ∨ unplacedPin pin2Loc = true) → e' = e)) ∧
    (∀ otherDevice : ℚ → ℚ → Int × Int,
      (∀ x y, (otherDevice x y).1 = (getClockRegionByLocation x y).1) →
      conductStaticTimingAnalysis_edgeDelays getDelayByModel otherDevice unplaced pins
        placementInfo timingGraph =
      conductStaticTimingAnalysis_edgeDelays getDelayByModel getClockRegionByLocation unplaced
        pins placementInfo timingGraph) := by
  refine ⟨?_, ?_, ?_⟩
  · intro placementInfo' hpin hlen hv
    obtain ⟨edges', he⟩ := setEdgeDelays_isSome getDelayByModel getClockRegionByLocation pins
      placementInfo'.pinId2location timingGraph.edges (by rw [hlen]; exact hv)
    exact ⟨{ timingGraph with edges := edges' },
      by simp [conductStaticTimingAnalysis_edgeDelays, hpin, he]⟩
  · intro placementInfo' timingGraph' h
    unfold conductStaticTimingAnalysis_edgeDelays at h
    cases hp : setPinsLocation unplaced pins.length placementInfo with
    | none => simp [hp] at h
    | some pinfo =>
      simp only [hp, Option.map_eq_some', Prod.mk.injEq] at h
      obtain ⟨edges', he, rfl, rfl⟩ := h
      refine ⟨rfl, rfl, ?_⟩
      intro i e hi
      obtain ⟨e', hi', srcPin, sinkPin, pin1Loc, pin2Loc, hs, hk, h1, h2, heq⟩ :=
        forall₂_getElem? (setEdgeDelays_spec _ _ he) i e hi
      refine ⟨e', srcPin, sinkPin, pin1Loc, pin2Loc, hi', hs, hk, h1, h2, ?_, ?_⟩
      · intro hu1 hu2
        rw [heq]
        simp [edgeAfterDelay, hu1, hu2]
      · intro hu
        rw [heq]
        rcases hu with hu | hu <;> simp [edgeAfterDelay, hu]
  · intro otherDevice hcr
    unfold conductStaticTimingAnalysis_edgeDelays
    cases hp : setPinsLocation unplaced pins.length placementInfo with
    | none => rfl
    | some pinfo =>
      simp only [setEdgeDelays_congr getDelayByModel getClockRegionByLocation otherDevice hcr]

theorem conductStaticTimingAnalysis_edge_delays_witness :
    ∃ pinLoc timingGraph',
      conductStaticTimingAnalysis_edgeDelays (fun dx dy => dx + 2 * dy) (fun _ _ => (0, 0))
        { X := -10, Y := -10 } pinsInfoPins pinsInfo pinsGraph =
          some ({ pinsInfo with pinId2location := pinLoc }, timingGraph') := by
  obtain ⟨pinLoc, h1, h2, -⟩ := setPinsLocation_spec { X := -10, Y := -10 } 3 pinsInfo
    (by decide) (by decide) (by decide)
  obtain ⟨g', hg'⟩ := (conductStaticTimingAnalysis_edge_delays (fun dx dy => dx + 2 * dy)
    (fun _ _ => (0, 0)) { X := -10, Y := -10 } pinsInfoPins pinsInfo pinsGraph).1
    { pinsInfo with pinId2location := pinLoc } h1 h2
    (by
      intro e he
      simp only [pinsGraph, List.mem_singleton] at he
      subst he
      exact ⟨_, _, rfl, rfl, by decide, by decide, by decide, by decide⟩)
  exact ⟨pinLoc, g', hg'⟩

/-! ## Lemmas on the maps and sets of the clustering code -/

theorem find?_map_replace {κ ν : Type} [DecidableEq κ] (key : κ) (value : ν) :
    ∀ m : List (κ × ν), (m.any fun entry => decide (entry.1 = key)) = true →
      ((m.map fun entry => if entry.1 = key then (key, value) else entry).find?
        fun entry => decide (entry.1 = key)) = some (key, value)
  | [], h => by simp at h
  | e :: rest, h => by
    by_cases he : e.1 = key
    · simp [he]
    · have hrest : (rest.any fun entry => decide (entry.1 = key)) = true := by
        simpa [he] using h
      simp [he, find?_map_replace key value rest hrest]

theorem find?_map_replace_ne {κ ν : Type} [DecidableEq κ] (key key' : κ) (value : ν)
    (hne : key' ≠ key) :
    ∀ m : List (κ × ν),
      ((m.map fun entry => if entry.1 = key then (key, value) else entry).find?
        fun entry => decide (entry.1 = key')) = m.find? fun entry => decide (entry.1 = key')
  | [] => rfl
  | e :: rest => by
    have hk : decide (key = key') = false := by
      simp only [decide_eq_false_iff_not]
      exact fun h => hne h.symm
    have ih := find?_map_replace_ne key key' value hne rest
    by_cases he : e.1 = key
    · have he' : decide (e.1 = key') = false := by rw [he]; exact hk
      simp only [List.map_cons, if_pos he, List.find?_cons, hk, he', ih]
    · simp only [List.map_cons, if_neg he, List.find?_cons, ih]

theorem mapFind_mapSet_self {κ ν : Type} [DecidableEq κ] (m : List (κ × ν)) (key : κ)
    (value : ν) : mapFind (mapSet m key value) key = some value := by
  unfold mapFind mapSet
  by_cases h : (m.any fun entry => decide (entry.1 = key)) = true
  · rw [if_pos h, find?_map_replace key value m h]
    rfl
  · rw [if_neg h]
    have h' : (m.any fun entry => decide (entry.1 = key)) = false :=
      Bool.eq_false_iff.mpr h
    have hnone : (m.find? fun entry => decide (entry.1 = key)) = none := by
      rw [List.find?_eq_none]
      intro x hx
      simp only [List.any_eq_false] at h'
      exact h' x hx
    simp [List.find?_append, hnone]

theorem mapFind_mapSet_ne {κ ν : Type} [DecidableEq κ] (m : List (κ × ν)) (key key' : κ)
    (value : ν) (hne : key' ≠ key) : mapFind (mapSet m key value) key' = mapFind m key' := by
  unfold mapFind mapSet
  by_cases h : (m.any fun entry => decide (entry.1 = key)) = true
  · rw [if_pos h, find?_map_replace_ne key key' value hne m]
  · rw [if_neg h]
    have hk : ¬ key = key' := fun h => hne h.symm
    simp [List.find?_append, hk]

theorem mem_mapSet {κ ν : Type} [DecidableEq κ] {m : List (κ × ν)} {key : κ} {value : ν}
    {entry : κ × ν} (h : entry ∈ mapSet m key value) : entry ∈ m ∨ entry = (key, value) := by
  unfold mapSet at h
  split at h
  · simp only [List.mem_map] at h
    obtain ⟨e, he, rfl⟩ := h
    by_cases hk : e.1 = key
    · simp [hk]
    · simp [hk, he]
  · simpa using h

theorem keys_mapSet {κ ν : Type} [DecidableEq κ] (m : List (κ × ν)) (key : κ) (value : ν)
    (k : κ) :
    k ∈ (mapSet m key value).map Prod.fst ↔ k ∈ m.map Prod.fst ∨ k = key := by
  unfold mapSet
  split
  · rename_i hany
    simp only [List.map_map, List.mem_map, Function.comp_apply]
    constructor
    · rintro ⟨e, he, rfl⟩
      by_cases hk : e.1 = key
      · simp [hk]
      · left; exact ⟨e, he, by simp [hk]⟩
    · rintro (⟨e, he, rfl⟩ | rfl)
      · exact ⟨e, he, by by_cases hk : e.1 = key <;> simp [hk]⟩
      · simp only [List.any_eq_true, decide_eq_true_eq] at hany
        obtain ⟨e, he, hk⟩ := hany
        exact ⟨e, he, by simp [hk]⟩
  · simp

theorem mem_setInsert {α : Type} [LinearOrder α] (x y : α) (s : List α) :
    y ∈ setInsert x s ↔ y = x ∨ y ∈ s := by
  unfold setInsert
  split
  · rename_i h
    constructor
    · exact Or.inr
    · rintro (rfl | h')
      · exact h
      · exact h'
  · simp [List.mem_orderedInsert]

/-! ## The clock-region tally counts the columns of the member cells -/

theorem tallyCell_eq (getClockRegionByLocation : ℚ → ℚ → Int × Int) (cellLoc : List Location)
    (t : ClockRegionTally) (cellId : Int) :
    tallyCell getClockRegionByLocation cellLoc t cellId =
      (vecAt cellLoc cellId).map fun tmpLoc =>
        tallyColumn t (getClockRegionByLocation tmpLoc.X tmpLoc.Y).1 := by
  unfold tallyCell tallyColumn
  cases vecAt cellLoc cellId with
  | none => rfl
  | some tmpLoc =>
    simp only [Option.map_some', apply_ite some]

theorem tallyOf_empty : TallyOf {} [] := by
  refine ⟨by simp, ?_, by simp, fun _ => rfl, fun h => absurd rfl h⟩
  intro c
  simp [mapFind]

theorem tallyColumn_eq (t : ClockRegionTally) (c : Int) :
    ∃ cnt : List ((Int × Int) × ℚ),
      mapFind cnt (-1, c) = some ((mapFind t.clockRegionYX2Cnt (-1, c)).getD 0 + 1) ∧
      (∀ k : Int × Int, k ≠ (-1, c) → mapFind cnt k = mapFind t.clockRegionYX2Cnt k) ∧
      tallyColumn t c =
        if (mapFind t.clockRegionYX2Cnt (-1, c)).getD 0 + 1 > t.maxClockRegionWeight then
          { clockRegionYX2Cnt := cnt
            maxClockRegionWeight := (mapFind t.clockRegionYX2Cnt (-1, c)).getD 0 + 1
            totalClockRegionWeight := t.totalClockRegionWeight + 1
            optClockLocYX := (-1, c) }
        else
          { clockRegionYX2Cnt := cnt
            maxClockRegionWeight := t.maxClockRegionWeight
            totalClockRegionWeight := t.totalClockRegionWeight + 1
            optClockLocYX := t.optClockLocYX } := by
  by_cases hnone : (mapFind t.clockRegionYX2Cnt (-1, c)).isNone = true
  · have hold : mapFind t.clockRegionYX2Cnt (-1, c) = none := by
      simpa using hnone
    refine ⟨mapSet (mapSet t.clockRegionYX2Cnt (-1, c) 0) (-1, c) (0 + 1), ?_, ?_, ?_⟩
    · rw [mapFind_mapSet_self, hold]; rfl
    · intro k hk
      rw [mapFind_mapSet_ne _ _ _ _ hk, mapFind_mapSet_ne _ _ _ _ hk]
    · unfold tallyColumn
      simp only [hold, Option.isNone_none, if_true, mapFind_mapSet_self, Option.getD_some,
        Option.getD_none]
  · have hsome : (mapFind t.clockRegionYX2Cnt (-1, c)).isNone = false :=
      Bool.eq_false_iff.mpr hnone
    refine ⟨mapSet t.clockRegionYX2Cnt (-1, c)
      ((mapFind t.clockRegionYX2Cnt (-1, c)).getD 0 + 1), ?_, ?_, ?_⟩
    · rw [mapFind_mapSet_self]
    · intro k hk
      rw [mapFind_mapSet_ne _ _ _ _ hk]
    · unfold tallyColumn
      simp only [hsome, Bool.false_eq_true, if_false, mapFind_mapSet_self, Option.getD_some]

theorem tallyOf_tallyColumn {t : ClockRegionTally} {cols : List Int} (h : TallyOf t cols)
    (c : Int) : TallyOf (tallyColumn t c) (cols ++ [c]) := by
  obtain ⟨htot, hcnt, hmax, hnil, hopt⟩ := h
  obtain ⟨cnt, hself, hother, heq⟩ := tallyColumn_eq t c
  have hw : (mapFind t.clockRegionYX2Cnt (-1, c)).getD 0 + 1 = ((cols ++ [c]).count c : ℚ) := by
    rw [hcnt c]
    simp [List.count_append]
  have hcount : ∀ c' : Int, c' ≠ c → (cols ++ [c]).count c' = cols.count c' := by
    intro c' hc'
    simp [List.count_append, List.count_singleton, hc'.symm]
  have hcnt' : ∀ c' : Int, (mapFind cnt (-1, c')).getD 0 = ((cols ++ [c]).count c' : ℚ) := by
    intro c'
    by_cases hc' : c' = c
    · subst hc'
      rw [hself, Option.getD_some, hw]
    · rw [hother (-1, c') (by simpa using hc'), hcnt c', hcount c' hc']
  rw [heq]
  by_cases hgt : (mapFind t.clockRegionYX2Cnt (-1, c)).getD 0 + 1 > t.maxClockRegionWeight
  · rw [if_pos hgt]
    refine ⟨by simp [htot], hcnt', ?_, by simp, fun _ => ⟨c, by simp, rfl, hw⟩⟩
    intro c'
    simp only
    by_cases hc' : c' = c
    · subst hc'; exact hw.ge
    · rw [hcount c' hc']
      exact le_trans (hmax c') hgt.le
  · rw [if_neg hgt]
    have hle : ((cols ++ [c]).count c : ℚ) ≤ t.maxClockRegionWeight := by
      rw [← hw]; exact not_lt.mp hgt
    refine ⟨by simp [htot], hcnt', ?_, by simp, ?_⟩
    · intro c'
      simp only
      by_cases hc' : c' = c
      · subst hc'; exact hle
      · rw [hcount c' hc']; exact hmax c'
    · intro _
      simp only
      by_cases hcols : cols = []
      · exfalso
        rw [hnil hcols, hcols] at hle
        simp at hle
        linarith
      · obtain ⟨c0, hc0, hopt0, hmax0⟩ := hopt hcols
        refine ⟨c0, by simp [hc0], hopt0, ?_⟩
        by_cases hc0c : c0 = c
        · exfalso
          subst hc0c
          rw [hmax0, ← hw, hcnt c0] at hle
          linarith
        · rw [hcount c0 hc0c]; exact hmax0

theorem tallyCells_tallyOf (getClockRegionByLocation : ℚ → ℚ → Int × Int)
    (cellLoc : List Location) :
    ∀ (cellIds : List Int) (t t' : ClockRegionTally) (cols : List Int), TallyOf t cols →
      tallyCells getClockRegionByLocation cellLoc cellIds t = some t' →
      TallyOf t' (cols ++ cellColumns getClockRegionByLocation cellLoc cellIds)
  | [], t, t', cols, ht, h => by
    simp only [tallyCells] at h
    rw [← Option.some.inj h]
    simpa [cellColumns] using ht
  | cellId :: rest, t, t', cols, ht, h => by
    simp only [tallyCells, Option.bind_eq_some, tallyCell_eq, Option.map_eq_some'] at h
    obtain ⟨mid, ⟨tmpLoc, hloc, rfl⟩, hrest⟩ := h
    have := tallyCells_tallyOf getClockRegionByLocation cellLoc rest _ t' _
      (tallyOf_tallyColumn ht (getClockRegionByLocation tmpLoc.X tmpLoc.Y).1) hrest
    simpa [cellColumns, hloc, List.append_assoc] using this

theorem tallyPU_eq (getClockRegionByLocation : ℚ → ℚ → Int × Int) (cellLoc : List Location)
    (placementUnits : List PlacementUnit) (t : ClockRegionTally) (tmpPU : Nat) :
    tallyPU getClockRegionByLocation cellLoc placementUnits t tmpPU =
      match placementUnits[tmpPU]? with
      | none => none
      | some PU => tallyCells getClockRegionByLocation cellLoc PU.cellIds t := by
  unfold tallyPU
  cases placementUnits[tmpPU]? with
  | none => rfl
  | some PU =>
    simp only [PlacementUnit.cellIds]
    cases PU.kind with
    | unpackedCell cellId =>
      simp only [tallyCells]
      cases tallyCell getClockRegionByLocation cellLoc t cellId <;> rfl
    | placementMacro cellIds => rfl

theorem tallyPUs_tallyOf (getClockRegionByLocation : ℚ → ℚ → Int × Int)
    (cellLoc : List Location) (placementUnits : List PlacementUnit) :
    ∀ (PUs : List Nat) (t t' : ClockRegionTally) (cols : List Int), TallyOf t cols →
      tallyPUs getClockRegionByLocation cellLoc placementUnits PUs t = some t' →
      TallyOf t' (cols ++ memberColumns getClockRegionByLocation cellLoc placementUnits PUs)
  | [], t, t', cols, ht, h => by
    simp only [tallyPUs] at h
    rw [← Option.some.inj h]
    simpa [memberColumns, memberCellIds, cellColumns] using ht
  | tmpPU :: rest, t, t', cols, ht, h => by
    simp only [tallyPUs, Option.bind_eq_some, tallyPU_eq] at h
    obtain ⟨mid, hmid, hrest⟩ := h
    cases hPU : placementUnits[tmpPU]? with
    | none => simp [hPU] at hmid
    | some PU =>
      simp only [hPU] at hmid
      have h1 := tallyCells_tallyOf getClockRegionByLocation cellLoc PU.cellIds t mid cols ht hmid
      have h2 := tallyPUs_tallyOf getClockRegionByLocation cellLoc placementUnits rest mid t' _
        h1 hrest
      simpa [memberColumns, memberCellIds, cellColumns, hPU, List.filterMap_append,
        List.append_assoc] using h2

/-! ## Lemmas on the anchor loop and on the cluster of one node -/

theorem tallyOf_accept {t : ClockRegionTally} {cols : List Int} (h : TallyOf t cols)
    (h4 : t.maxClockRegionWeight ≥ 4) :
    ∃ col : Int, DominantColumn cols col ∧ t.optClockLocYX = (-1, col) ∧
      t.maxClockRegionWeight = (cols.count col : ℚ) ∧
      t.totalClockRegionWeight = (cols.length : ℚ) := by
  obtain ⟨htot, _, hmax, hnil, hopt⟩ := h
  have hne : cols ≠ [] := by
    intro hc
    rw [hnil hc] at h4
    norm_num at h4
  obtain ⟨c, hc, hoptc, hmaxc⟩ := hopt hne
  refine ⟨c, ⟨hc, fun c' => ?_⟩, hoptc, hmaxc, htot⟩
  have := hmax c'
  rw [hmaxc] at this
  exact_mod_cast this

theorem anchorPUs_spec (legalizeXYInArea : Nat → ℚ → ℚ → ℚ × ℚ)
    (placementUnits : List PlacementUnit) (cX : ℚ) :
    ∀ (PUs : List Nat) (st : ClusterState) (ids : List Int) (st' : ClusterState)
      (ids' : List Int),
      anchorPUs legalizeXYInArea placementUnits cX PUs (st, ids) = some (st', ids') →
      ids' = ids ++ unfixedIds placementUnits PUs ∧
      st'.clockRegionclusters = st.clockRegionclusters ∧
      (∀ p : Nat, mapFind st'.PU2ClockRegionCenter p =
        anchoredLookup legalizeXYInArea placementUnits cX PUs st.PU2ClockRegionCenter p) ∧
      (∀ entry ∈ st'.PU2ClockRegionCenter, entry ∈ st.PU2ClockRegionCenter ∨
        (entry.1 ∈ PUs ∧ ∃ PU, placementUnits[entry.1]? = some PU ∧ PU.isFixed = false ∧
          entry.2 = legalizeXYInArea entry.1 cX PU.Y))
  | [], st, ids, st', ids', h => by
    simp only [anchorPUs, Option.some.injEq, Prod.mk.injEq] at h
    obtain ⟨rfl, rfl⟩ := h
    refine ⟨by simp [unfixedIds], rfl, ?_, fun e he => Or.inl he⟩
    intro p
    unfold anchoredLookup
    cases placementUnits[p]? <;> simp
  | curPU :: rest, st, ids, st', ids', h => by
    cases hPU : placementUnits[curPU]? with
    | none => simp [anchorPUs, hPU] at h
    | some PU =>
      by_cases hfix : PU.isFixed = true
      · simp only [anchorPUs, hPU, hfix, Bool.not_true, Bool.false_eq_true, if_false] at h
        obtain ⟨h1, h2, h3, h4⟩ :=
          anchorPUs_spec legalizeXYInArea placementUnits cX rest st ids st' ids' h
        refine ⟨?_, h2, ?_, ?_⟩
        · rw [h1]
          simp [unfixedIds, hPU, hfix]
        · intro p
          rw [h3 p]
          unfold anchoredLookup
          cases hp : placementUnits[p]? with
          | none => rfl
          | some PUp =>
            by_cases hpc : p = curPU
            · subst hpc
              rw [hPU] at hp
              cases hp
              simp [hfix]
            · simp [hpc]
        · intro e he
          rcases h4 e he with h | ⟨hm, r⟩
          · exact Or.inl h
          · exact Or.inr ⟨List.mem_cons_of_mem _ hm, r⟩
      · have hfix' : PU.isFixed = false := by simpa using hfix
        simp only [anchorPUs, hPU, hfix', Bool.not_false, if_true] at h
        obtain ⟨h1, h2, h3, h4⟩ :=
          anchorPUs_spec legalizeXYInArea placementUnits cX rest _ _ st' ids' h
        have hm : (anchorUnfixedPU legalizeXYInArea cX st curPU PU).PU2ClockRegionCenter =
            mapSet st.PU2ClockRegionCenter curPU (legalizeXYInArea curPU cX PU.Y) := rfl
        refine ⟨?_, ?_, ?_, ?_⟩
        · rw [h1]
          simp [unfixedIds, hPU, hfix', List.append_assoc]
        · rw [h2]
          rfl
        · intro p
          rw [h3 p, hm]
          unfold anchoredLookup
          by_cases hpc : p = curPU
          · subst hpc
            simp [hPU, hfix', mapFind_mapSet_self]
          · rw [mapFind_mapSet_ne _ _ _ _ hpc]
            cases placementUnits[p]? <;> simp [hpc]
        · intro e he
          rcases h4 e he with h | ⟨hmem, r⟩
          · rw [hm] at h
            rcases mem_mapSet h with h | h
            · exact Or.inl h
            · right
              subst h
              exact ⟨List.mem_cons_self _ _, PU, hPU, hfix', rfl⟩
          · exact Or.inr ⟨List.mem_cons_of_mem _ hmem, r⟩

theorem clusterPUs_cases (getClockRegionByLocation : ℚ → ℚ → Int × Int)
    (YX2ClockRegion : List (List ClockRegion)) (legalizeXYInArea : Nat → ℚ → ℚ → ℚ × ℚ)
    (placementInfo : PlacementInfo) (clusterThrRatio : ℚ) (candidateCellIds : List Int)
    (PUs : List Nat) (st st' : ClusterState)
    (h : clusterPUs getClockRegionByLocation YX2ClockRegion legalizeXYInArea placementInfo
      clusterThrRatio candidateCellIds PUs st = some st') :
    (st'.PU2ClockRegionCenter = st.PU2ClockRegionCenter ∧
      st'.clockRegionclusters = st.clockRegionclusters) ∨
    ∃ (col : Int) (optClockRegion : ClockRegion),
      DominantColumn (memberColumns getClockRegionByLocation placementInfo.cellId2location
        placementInfo.placementUnits PUs) col ∧
      4 ≤ (memberColumns getClockRegionByLocation placementInfo.cellId2location
        placementInfo.placementUnits PUs).count col ∧
      (((memberColumns getClockRegionByLocation placementInfo.cellId2location
        placementInfo.placementUnits PUs).count col : ℚ) >
        ((memberColumns getClockRegionByLocation placementInfo.cellId2location
          placementInfo.placementUnits PUs).length : ℚ) * clusterThrRatio) ∧
      clockRegionRow0 YX2ClockRegion col = some optClockRegion ∧
      (∀ p : Nat, mapFind st'.PU2ClockRegionCenter p =
        anchoredLookup legalizeXYInArea placementInfo.placementUnits
          ((optClockRegion.left + optClockRegion.right) / 2) PUs st.PU2ClockRegionCenter p) ∧
      (∀ entry ∈ st'.PU2ClockRegionCenter, entry ∈ st.PU2ClockRegionCenter ∨
        (entry.1 ∈ PUs ∧ ∃ PU, placementInfo.placementUnits[entry.1]? = some PU ∧
          PU.isFixed = false ∧
          entry.2 = legalizeXYInArea entry.1
            ((optClockRegion.left + optClockRegion.right) / 2) PU.Y)) ∧
      st'.clockRegionclusters =
        st.clockRegionclusters ++ [unfixedIds placementInfo.placementUnits PUs] := by
  unfold clusterPUs at h
  split at h
  · exact absurd h (by simp)
  · rename_i t ht
    have hT := tallyPUs_tallyOf getClockRegionByLocation placementInfo.cellId2location
      placementInfo.placementUnits PUs {} t [] tallyOf_empty ht
    rw [List.nil_append] at hT
    by_cases hacc : t.maxClockRegionWeight > t.totalClockRegionWeight * clusterThrRatio ∧
        t.maxClockRegionWeight ≥ 4
    · rw [if_pos hacc] at h
      obtain ⟨col, hdom, hopt, hmax, htot⟩ := tallyOf_accept hT hacc.2
      have hcol : t.optClockLocYX.2 = col := by rw [hopt]
      rw [hcol] at h
      cases hreg : clockRegionRow0 YX2ClockRegion col with
      | none => simp [hreg] at h
      | some optClockRegion =>
        simp only [hreg, Option.map_eq_some'] at h
        obtain ⟨⟨st'', ids⟩, hanchor, rfl⟩ := h
        obtain ⟨h1, h2, h3, h4⟩ := anchorPUs_spec legalizeXYInArea
          placementInfo.placementUnits _ PUs st [] st'' ids hanchor
        right
        refine ⟨col, optClockRegion, hdom, ?_, ?_, hreg, h3, h4, ?_⟩
        · have := hacc.2
          rw [hmax] at this
          exact_mod_cast this
        · have := hacc.1
          rw [hmax, htot] at this
          exact this
        · simp only [h2, h1, List.nil_append]
    · rw [if_neg hacc] at h
      left
      split at h
      · rw [← Option.some.inj h]
        exact ⟨rfl, rfl⟩
      · rw [← Option.some.inj h]
        exact ⟨rfl, rfl⟩

theorem clusterFromNode_cases (DFSFromNode : Int → Int → Nat → List Int → List Int)
    (getClockRegionByLocation : ℚ → ℚ → Int × Int) (YX2ClockRegion : List (List ClockRegion))
    (legalizeXYInArea : Nat → ℚ → ℚ → ℚ × ℚ) (placementInfo : PlacementInfo)
    (pathLenThr : Int) (clusterThrRatio : ℚ) (timingNode : TimingNode) (st st' : ClusterState)
    (h : clusterFromNode DFSFromNode getClockRegionByLocation YX2ClockRegion legalizeXYInArea
      placementInfo pathLenThr clusterThrRatio timingNode st = some st') :
    (st'.PU2ClockRegionCenter = st.PU2ClockRegionCenter ∧
      st'.clockRegionclusters = st.clockRegionclusters) ∨
    ∃ (PUs : List Nat) (col : Int) (optClockRegion : ClockRegion),
      AcceptedCluster DFSFromNode getClockRegionByLocation YX2ClockRegion legalizeXYInArea
        placementInfo pathLenThr clusterThrRatio timingNode st st' PUs col optClockRegion := by
  unfold clusterFromNode at h
  simp only at h
  split at h
  · cases hc : collectPUs placementInfo.cellId2PlacementUnit st.extractedPUs
        (DFSFromNode timingNode.id pathLenThr 2000 st.extractedCellIds) [] with
    | none => simp [hc] at h
    | some PUs =>
      simp only [hc] at h
      split at h
      · rename_i h8
        rcases clusterPUs_cases _ _ _ _ _ _ _ _ _ h with hsame | ⟨col, reg, h1, h2, h3, h4, h5, h6, h7⟩
        · exact Or.inl hsame
        · exact Or.inr ⟨PUs, col, reg, hc, h8, h1, h2, h3, h4, h5, h6, h7⟩
      · rw [← Option.some.inj h]
        exact Or.inl ⟨rfl, rfl⟩
  · rw [← Option.some.inj h]
    exact Or.inl ⟨rfl, rfl⟩

theorem clusterLoop_inv (DFSFromNode : Int → Int → Nat → List Int → List Int)
    (getClockRegionByLocation : ℚ → ℚ → Int × Int) (YX2ClockRegion : List (List ClockRegion))
    (legalizeXYInArea : Nat → ℚ → ℚ → ℚ × ℚ) (placementInfo : PlacementInfo)
    (timingGraph : TimingGraph) (pathLenThr : Int) (clusterThrRatio : ℚ)
    (P : ClusterState → Prop)
    (hstep : ∀ (timingNode : TimingNode) (st st' : ClusterState), P st →
      clusterFromNode DFSFromNode getClockRegionByLocation YX2ClockRegion legalizeXYInArea
        placementInfo pathLenThr clusterThrRatio timingNode st = some st' → P st') :
    ∀ (positions : List Nat) (st st' : ClusterState), P st →
      clusterLoop DFSFromNode getClockRegionByLocation YX2ClockRegion legalizeXYInArea
        placementInfo timingGraph pathLenThr clusterThrRatio positions st = some st' → P st'
  | [], st, st', hP, h => by
    simp only [clusterLoop] at h
    rw [← Option.some.inj h]
    exact hP
  | nodeId :: rest, st, st', hP, h => by
    unfold clusterLoop at h
    cases hn : sortedNodeAt timingGraph nodeId with
    | none => simp [hn] at h
    | some timingNode =>
      simp only [hn] at h
      split at h
      · split at h
        · exact clusterLoop_inv DFSFromNode getClockRegionByLocation YX2ClockRegion
            legalizeXYInArea placementInfo timingGraph pathLenThr clusterThrRatio P hstep
            rest st st' hP h
        · simp only [Option.bind_eq_some] at h
          obtain ⟨mid, hmid, hrest⟩ := h
          exact clusterLoop_inv DFSFromNode getClockRegionByLocation YX2ClockRegion
            legalizeXYInArea placementInfo timingGraph pathLenThr clusterThrRatio P hstep
            rest mid st' (hstep timingNode st mid hP hmid) hrest
      · rw [← Option.some.inj h]
        exact hP

theorem accepted_clusterAnchor {DFSFromNode : Int → Int → Nat → List Int → List Int}
    {getClockRegionByLocation : ℚ → ℚ → Int × Int} {YX2ClockRegion : List (List ClockRegion)}
    {legalizeXYInArea : Nat → ℚ → ℚ → ℚ × ℚ} {placementInfo : PlacementInfo}
    {pathLenThr : Int} {clusterThrRatio : ℚ} {timingNode : TimingNode}
    {st st' : ClusterState} {PUs : List Nat} {col : Int} {optClockRegion : ClockRegion}
    (hacc : AcceptedCluster DFSFromNode getClockRegionByLocation YX2ClockRegion
      legalizeXYInArea placementInfo pathLenThr clusterThrRatio timingNode st st' PUs col
      optClockRegion)
    (hP : ∀ entry ∈ st.PU2ClockRegionCenter,
      ClusterAnchor DFSFromNode getClockRegionByLocation YX2ClockRegion legalizeXYInArea
        placementInfo pathLenThr clusterThrRatio entry) :
    ∀ entry ∈ st'.PU2ClockRegionCenter,
      ClusterAnchor DFSFromNode getClockRegionByLocation YX2ClockRegion legalizeXYInArea
        placementInfo pathLenThr clusterThrRatio entry := by
  obtain ⟨hc, h8, hdom, h4, hshare, hreg, _, hentries, _⟩ := hacc
  intro entry he
  rcases hentries entry he with hold | ⟨hmem, PU, hPU, hfix, hval⟩
  · exact hP entry hold
  · exact ⟨timingNode, st.extractedCellIds, st.extractedPUs, PUs, PU, col, optClockRegion,
      hc, h8, hmem, hPU, hfix, hdom, h4, hshare, hreg, hval⟩

theorem clusterLoop_anchors (DFSFromNode : Int → Int → Nat → List Int → List Int)
    (getClockRegionByLocation : ℚ → ℚ → Int × Int) (YX2ClockRegion : List (List ClockRegion))
    (legalizeXYInArea : Nat → ℚ → ℚ → ℚ × ℚ) (placementInfo : PlacementInfo)
    (timingGraph : TimingGraph) (pathLenThr : Int) (clusterThrRatio : ℚ)
    (positions : List Nat) (st' : ClusterState)
    (h : clusterLoop DFSFromNode getClockRegionByLocation YX2ClockRegion legalizeXYInArea
      placementInfo timingGraph pathLenThr clusterThrRatio positions {} = some st') :
    ∀ entry ∈ st'.PU2ClockRegionCenter,
      ClusterAnchor DFSFromNode getClockRegionByLocation YX2ClockRegion legalizeXYInArea
        placementInfo pathLenThr clusterThrRatio entry := by
  refine clusterLoop_inv DFSFromNode getClockRegionByLocation YX2ClockRegion legalizeXYInArea
    placementInfo timingGraph pathLenThr clusterThrRatio
    (fun s => ∀ entry ∈ s.PU2ClockRegionCenter,
      ClusterAnchor DFSFromNode getClockRegionByLocation YX2ClockRegion legalizeXYInArea
        placementInfo pathLenThr clusterThrRatio entry) ?_ positions {} st' ?_ h
  · intro timingNode s s' hP hs
    rcases clusterFromNode_cases _ _ _ _ _ _ _ _ _ _ hs with ⟨hsame, _⟩ | ⟨PUs, col, reg, hacc⟩
    · rw [hsame]
      exact hP
    · exact accepted_clusterAnchor hacc hP
  · intro entry he
    simp at he

/-! ## The clustering returns on valid inputs -/

theorem collectPUs_spec (cellId2PlacementUnit : List Nat) (extractedPUs : List Nat) :
    ∀ (candidateCellIds : List Int) (acc : List Nat),
      (∀ c ∈ candidateCellIds, 0 ≤ c ∧ c < cellId2PlacementUnit.length) →
      ∃ PUs, collectPUs cellId2PlacementUnit extractedPUs candidateCellIds acc = some PUs ∧
        ∀ p ∈ PUs, p ∈ acc ∨ p ∈ cellId2PlacementUnit
  | [], acc, _ => ⟨acc, rfl, fun p hp => Or.inl hp⟩
  | c :: rest, acc, hv => by
    obtain ⟨h0, h1⟩ := hv c (List.mem_cons_self _ _)
    obtain ⟨PU, hPU⟩ := vecAt_isSome _ h0 h1
    have hmem : PU ∈ cellId2PlacementUnit := by
      unfold vecAt at hPU
      rw [if_neg (by omega)] at hPU
      exact List.getElem?_mem hPU
    have hrest : ∀ c' ∈ rest, 0 ≤ c' ∧ c' < cellId2PlacementUnit.length :=
      fun c' hc' => hv c' (List.mem_cons_of_mem _ hc')
    unfold collectPUs
    simp only [hPU]
    split
    · obtain ⟨PUs, hP, hsub⟩ := collectPUs_spec cellId2PlacementUnit extractedPUs rest
        (setInsert PU acc) hrest
      refine ⟨PUs, hP, fun p hp => ?_⟩
      rcases hsub p hp with h | h
      · rcases (mem_setInsert PU p acc).mp h with h | h
        · exact Or.inr (h ▸ hmem)
        · exact Or.inl h
      · exact Or.inr h
    · exact collectPUs_spec cellId2PlacementUnit extractedPUs rest acc hrest

theorem tallyCells_isSome (getClockRegionByLocation : ℚ → ℚ → Int × Int)
    (cellLoc : List Location) :
    ∀ (cellIds : List Int) (t : ClockRegionTally),
      (∀ c ∈ cellIds, 0 ≤ c ∧ c < cellLoc.length) →
      ∃ t', tallyCells getClockRegionByLocation cellLoc cellIds t = some t'
  | [], t, _ => ⟨t, rfl⟩
  | c :: rest, t, hv => by
    obtain ⟨h0, h1⟩ := hv c (List.mem_cons_self _ _)
    obtain ⟨loc, hloc⟩ := vecAt_isSome _ h0 h1
    simp only [tallyCells, tallyCell_eq, hloc, Option.map_some', Option.some_bind]
    exact tallyCells_isSome getClockRegionByLocation cellLoc rest _
      (fun c' hc' => hv c' (List.mem_cons_of_mem _ hc'))

theorem tallyPUs_isSome (getClockRegionByLocation : ℚ → ℚ → Int × Int)
    (cellLoc : List Location) (placementUnits : List PlacementUnit)
    (hcells : ∀ PU ∈ placementUnits, ∀ c ∈ PU.cellIds, 0 ≤ c ∧ c < cellLoc.length) :
    ∀ (PUs : List Nat) (t : ClockRegionTally), (∀ p ∈ PUs, p < placementUnits.length) →
      ∃ t', tallyPUs getClockRegionByLocation cellLoc placementUnits PUs t = some t'
  | [], t, _ => ⟨t, rfl⟩
  | p :: rest, t, hv => by
    have hp := hv p (List.mem_cons_self _ _)
    have hPU : placementUnits[p]? = some placementUnits[p] := List.getElem?_eq_getElem hp
    obtain ⟨mid, hmid⟩ := tallyCells_isSome getClockRegionByLocation cellLoc
      placementUnits[p].cellIds t (hcells _ (List.getElem_mem hp))
    simp only [tallyPUs, tallyPU_eq, hPU, hmid, Option.some_bind]
    exact tallyPUs_isSome getClockRegionByLocation cellLoc placementUnits hcells rest mid
      (fun p' hp' => hv p' (List.mem_cons_of_mem _ hp'))

theorem anchorPUs_isSome (legalizeXYInArea : Nat → ℚ → ℚ → ℚ × ℚ)
    (placementUnits : List PlacementUnit) (cX : ℚ) :
    ∀ (PUs : List Nat) (acc : ClusterState × List Int), (∀ p ∈ PUs, p < placementUnits.length) →
      ∃ acc', anchorPUs legalizeXYInArea placementUnits cX PUs acc = some acc'
  | [], acc, _ => ⟨acc, rfl⟩
  | p :: rest, (st, ids), hv => by
    have hp := hv p (List.mem_cons_self _ _)
    have hPU : placementUnits[p]? = some placementUnits[p] := List.getElem?_eq_getElem hp
    have hrest : ∀ p' ∈ rest, p' < placementUnits.length :=
      fun p' hp' => hv p' (List.mem_cons_of_mem _ hp')
    simp only [anchorPUs, hPU]
    split
    · exact anchorPUs_isSome legalizeXYInArea placementUnits cX rest _ hrest
    · exact anchorPUs_isSome legalizeXYInArea placementUnits cX rest _ hrest

theorem memberColumns_location (getClockRegionByLocation : ℚ → ℚ → Int × Int)
    (cellLoc : List Location) (placementUnits : List PlacementUnit) (PUs : List Nat)
    (col : Int)
    (h : col ∈ memberColumns getClockRegionByLocation cellLoc placementUnits PUs) :
    ∃ loc ∈ cellLoc, col = (getClockRegionByLocation loc.X loc.Y).1 := by
  unfold memberColumns cellColumns at h
  simp only [List.mem_filterMap, Option.map_eq_some'] at h
  obtain ⟨c, _, loc, hloc, rfl⟩ := h
  refine ⟨loc, ?_, rfl⟩
  unfold vecAt at hloc
  split at hloc
  · exact absurd hloc (by simp)
  · exact List.getElem?_mem hloc

theorem clusterPUs_isSome (getClockRegionByLocation : ℚ → ℚ → Int × Int)
    (YX2ClockRegion : List (List ClockRegion)) (legalizeXYInArea : Nat → ℚ → ℚ → ℚ × ℚ)
    (placementInfo : PlacementInfo) (clusterThrRatio : ℚ) (candidateCellIds : List Int)
    (PUs : List Nat) (st : ClusterState)
    (hPUs : ∀ p ∈ PUs, p < placementInfo.placementUnits.length)
    (hcells : ∀ PU ∈ placementInfo.placementUnits, ∀ c ∈ PU.cellIds,
      0 ≤ c ∧ c < placementInfo.cellId2location.length)
    (hcols : ∀ loc ∈ placementInfo.cellId2location,
      (clockRegionRow0 YX2ClockRegion (getClockRegionByLocation loc.X loc.Y).1).isSome = true) :
    ∃ st', clusterPUs getClockRegionByLocation YX2ClockRegion legalizeXYInArea placementInfo
      clusterThrRatio candidateCellIds PUs st = some st' := by
  obtain ⟨t0, ht0⟩ := tallyPUs_isSome getClockRegionByLocation placementInfo.cellId2location
    placementInfo.placementUnits hcells PUs {} hPUs
  unfold clusterPUs
  split
  · rename_i ht
    exact absurd (ht0.symm.trans ht) (by simp)
  · rename_i t ht
    have hT := tallyPUs_tallyOf getClockRegionByLocation placementInfo.cellId2location
      placementInfo.placementUnits PUs {} t [] tallyOf_empty ht
    rw [List.nil_append] at hT
    by_cases hacc : t.maxClockRegionWeight > t.totalClockRegionWeight * clusterThrRatio ∧
        t.maxClockRegionWeight ≥ 4
    · rw [if_pos hacc]
      obtain ⟨col, hdom, hopt, _, _⟩ := tallyOf_accept hT hacc.2
      have hcol : t.optClockLocYX.2 = col := by rw [hopt]
      obtain ⟨loc, hloc, hcl⟩ := memberColumns_location _ _ _ _ _ hdom.1
      have hsome := hcols loc hloc
      rw [← hcl, ← hcol] at hsome
      obtain ⟨reg, hreg⟩ := Option.isSome_iff_exists.mp hsome
      simp only [hreg]
      obtain ⟨acc, hacc'⟩ := anchorPUs_isSome legalizeXYInArea placementInfo.placementUnits
        ((reg.left + reg.right) / 2) PUs (st, []) hPUs
      exact ⟨_, by rw [hacc']; rfl⟩
    · rw [if_neg hacc]
      split
      · exact ⟨_, rfl⟩
      · exact ⟨_, rfl⟩

theorem clusterFromNode_isSome (DFSFromNode : Int → Int → Nat → List Int → List Int)
    (getClockRegionByLocation : ℚ → ℚ → Int × Int) (YX2ClockRegion : List (List ClockRegion))
    (legalizeXYInArea : Nat → ℚ → ℚ → ℚ × ℚ) (placementInfo : PlacementInfo)
    (timingGraph : TimingGraph) (pathLenThr : Int) (clusterThrRatio : ℚ)
    (hvalid : ClusterInputsValid DFSFromNode getClockRegionByLocation YX2ClockRegion
      placementInfo timingGraph)
    (timingNode : TimingNode) (st : ClusterState) :
    ∃ st', clusterFromNode DFSFromNode getClockRegionByLocation YX2ClockRegion legalizeXYInArea
      placementInfo pathLenThr clusterThrRatio timingNode st = some st' := by
  obtain ⟨_, hDFS, hptr, hcells, hcols⟩ := hvalid
  obtain ⟨PUs, hP, hsub⟩ := collectPUs_spec placementInfo.cellId2PlacementUnit st.extractedPUs
    (DFSFromNode timingNode.id pathLenThr 2000 st.extractedCellIds) []
    (hDFS timingNode.id pathLenThr 2000 st.extractedCellIds)
  have hPUs : ∀ p ∈ PUs, p < placementInfo.placementUnits.length := by
    intro p hp
    rcases hsub p hp with h | h
    · simp at h
    · exact hptr p h
  unfold clusterFromNode
  simp only [hP]
  split
  · split
    · exact clusterPUs_isSome _ _ _ _ _ _ _ _ hPUs hcells hcols
    · exact ⟨_, rfl⟩
  · exact ⟨_, rfl⟩

theorem clusterLoop_isSome (DFSFromNode : Int → Int → Nat → List Int → List Int)
    (getClockRegionByLocation : ℚ → ℚ → Int × Int) (YX2ClockRegion : List (List ClockRegion))
    (legalizeXYInArea : Nat → ℚ → ℚ → ℚ × ℚ) (placementInfo : PlacementInfo)
    (timingGraph : TimingGraph) (pathLenThr : Int) (clusterThrRatio : ℚ)
    (hvalid : ClusterInputsValid DFSFromNode getClockRegionByLocation YX2ClockRegion
      placementInfo timingGraph) :
    ∀ (positions : List Nat) (st : ClusterState),
      (∀ nodeId ∈ positions, nodeId < timingGraph.pathLenSortedNodes.length) →
      ∃ st', clusterLoop DFSFromNode getClockRegionByLocation YX2ClockRegion legalizeXYInArea
        placementInfo timingGraph pathLenThr clusterThrRatio positions st = some st'
  | [], st, _ => ⟨st, rfl⟩
  | nodeId :: rest, st, hpos => by
    have hn := hpos nodeId (List.mem_cons_self _ _)
    have hrest : ∀ n ∈ rest, n < timingGraph.pathLenSortedNodes.length :=
      fun n hn' => hpos n (List.mem_cons_of_mem _ hn')
    have hptr := hvalid.1 _ (List.getElem_mem hn)
    have hnode : sortedNodeAt timingGraph nodeId =
        some timingGraph.nodes[timingGraph.pathLenSortedNodes[nodeId]] := by
      unfold sortedNodeAt
      rw [List.getElem?_eq_getElem hn]
      exact List.getElem?_eq_getElem hptr
    unfold clusterLoop
    simp only [hnode]
    split
    · split
      · exact clusterLoop_isSome DFSFromNode getClockRegionByLocation YX2ClockRegion
          legalizeXYInArea placementInfo timingGraph pathLenThr clusterThrRatio hvalid rest st
          hrest
      · obtain ⟨mid, hmid⟩ := clusterFromNode_isSome DFSFromNode getClockRegionByLocation
          YX2ClockRegion legalizeXYInArea placementInfo timingGraph pathLenThr clusterThrRatio
          hvalid timingGraph.nodes[timingGraph.pathLenSortedNodes[nodeId]] st
        rw [hmid, Option.some_bind]
        exact clusterLoop_isSome DFSFromNode getClockRegionByLocation YX2ClockRegion
          legalizeXYInArea placementInfo timingGraph pathLenThr clusterThrRatio hvalid rest mid
          hrest
    · exact ⟨_, rfl⟩

theorem loopPositions_lt (size nodeId : Nat) (h : nodeId ∈ loopPositions size) :
    nodeId < size := by
  unfold loopPositions at h
  exact List.mem_range.mp ((List.takeWhile_sublist _).subset h)

theorem clusterLoop_placementInfo (DFSFromNode : Int → Int → Nat → List Int → List Int)
    (getClockRegionByLocation : ℚ → ℚ → Int × Int) (YX2ClockRegion : List (List ClockRegion))
    (legalizeXYInArea : Nat → ℚ → ℚ → ℚ × ℚ) (placementInfo : PlacementInfo)
    (timingGraph : TimingGraph) (pathLenThr : Int) (clusterThrRatio : ℚ)
    (anchors : List (Nat × (ℚ × ℚ))) :
    ∀ (positions : List Nat) (st : ClusterState),
      clusterLoop DFSFromNode getClockRegionByLocation YX2ClockRegion legalizeXYInArea
        { placementInfo with PU2ClockRegionCenter := anchors } timingGraph pathLenThr
        clusterThrRatio positions st =
      clusterLoop DFSFromNode getClockRegionByLocation YX2ClockRegion legalizeXYInArea
        placementInfo timingGraph pathLenThr clusterThrRatio positions st
  | [], _ => rfl
  | nodeId :: rest, st => by
    have ih : clusterLoop DFSFromNode getClockRegionByLocation YX2ClockRegion legalizeXYInArea
        { placementInfo with PU2ClockRegionCenter := anchors } timingGraph pathLenThr
        clusterThrRatio rest =
      clusterLoop DFSFromNode getClockRegionByLocation YX2ClockRegion legalizeXYInArea
        placementInfo timingGraph pathLenThr clusterThrRatio rest :=
      funext (clusterLoop_placementInfo DFSFromNode getClockRegionByLocation YX2ClockRegion
        legalizeXYInArea placementInfo timingGraph pathLenThr clusterThrRatio anchors rest)
    have hstep : ∀ (timingNode : TimingNode),
        clusterFromNode DFSFromNode getClockRegionByLocation YX2ClockRegion legalizeXYInArea
          { placementInfo with PU2ClockRegionCenter := anchors } pathLenThr clusterThrRatio
          timingNode st =
        clusterFromNode DFSFromNode getClockRegionByLocation YX2ClockRegion legalizeXYInArea
          placementInfo pathLenThr clusterThrRatio timingNode st := fun _ => rfl
    simp only [clusterLoop, ih, hstep]

/-! ## C14 - C16: `clusterLongPathInOneClockRegion` -/

theorem anchoredLookup_isSome (legalizeXYInArea : Nat → ℚ → ℚ → ℚ × ℚ)
    (placementUnits : List PlacementUnit) (cX : ℚ) (PUs : List Nat)
    (before : List (Nat × (ℚ × ℚ))) (p : Nat) :
    (anchoredLookup legalizeXYInArea placementUnits cX PUs before p).isSome = true ↔
      ((mapFind before p).isSome = true ∨
        (p ∈ PUs ∧ ∃ PU, placementUnits[p]? = some PU ∧ PU.isFixed = false)) := by
  unfold anchoredLookup
  cases hp : placementUnits[p]? with
  | none => simp
  | some PU =>
    by_cases hc : p ∈ PUs ∧ PU.isFixed = false
    · simp [hc]
    · simp only [if_neg hc]
      constructor
      · exact Or.inl
      · rintro (h | ⟨h1, PU', h2, h3⟩)
        · exact h
        · rw [Option.some.inj h2] at hc
          exact absurd ⟨h1, h3⟩ hc

theorem clusterLongPathInOneClockRegion_total
    (DFSFromNode : Int → Int → Nat → List Int → List Int)
    (getClockRegionByLocation : ℚ → ℚ → Int × Int) (YX2ClockRegion : List (List ClockRegion))
    (legalizeXYInArea : Nat → ℚ → ℚ → ℚ × ℚ) (timingGraph : TimingGraph)
    (pathLenThr : Int) (clusterThrRatio : ℚ) (placementInfo : PlacementInfo)
    (hvalid : ClusterInputsValid DFSFromNode getClockRegionByLocation YX2ClockRegion
      placementInfo timingGraph) :
    ∃ st', clusterLoop DFSFromNode getClockRegionByLocation YX2ClockRegion legalizeXYInArea
        placementInfo timingGraph pathLenThr clusterThrRatio
        (loopPositions timingGraph.pathLenSortedNodes.length) {} = some st' ∧
      clusterLongPathInOneClockRegion DFSFromNode getClockRegionByLocation YX2ClockRegion
        legalizeXYInArea timingGraph pathLenThr clusterThrRatio placementInfo =
        some ({ placementInfo with PU2ClockRegionCenter := st'.PU2ClockRegionCenter },
          st'.clockRegionclusters) := by
  obtain ⟨st', hst⟩ := clusterLoop_isSome DFSFromNode getClockRegionByLocation YX2ClockRegion
    legalizeXYInArea placementInfo timingGraph pathLenThr clusterThrRatio hvalid
    (loopPositions timingGraph.pathLenSortedNodes.length) {}
    (fun nodeId h => loopPositions_lt _ nodeId h)
  refine ⟨st', hst, ?_⟩
  unfold clusterLongPathInOneClockRegion
  rw [hst]
  rfl

theorem longPathInputs_valid :
    ClusterInputsValid sampleDFS twoColumns twoColumnRegions longPathInfo longPathGraph := by
  refine ⟨by decide!, ?_, by decide!, by decide!, by decide!⟩
  intro startNodeId pathLenThr sizeThr exceptionCells c hc
  unfold sampleDFS at hc
  split_ifs at hc
  · exact (by decide! : ∀ c ∈ ([5, 0, 1, 2, 3, 4, 6, 8] : List Int),
      0 ≤ c ∧ c < (longPathInfo.cellId2PlacementUnit.length : Int)) c hc
  · exact (by decide! : ∀ c ∈ ([7, 9, 10, 11, 12, 13, 14, 15] : List Int),
      0 ≤ c ∧ c < (longPathInfo.cellId2PlacementUnit.length : Int)) c hc
  · simp at hc

theorem macroInputs_valid :
    ClusterInputsValid macroDFS unitColumns unitColumnRegions macroInfo longPathGraph := by
  refine ⟨by decide!, ?_, by decide!, by decide!, by decide!⟩
  intro startNodeId pathLenThr sizeThr exceptionCells c hc
  unfold macroDFS at hc
  split_ifs at hc
  · exact (by decide! : ∀ c ∈ (List.range 15).map (fun k => (k : Int)),
      0 ≤ c ∧ c < (macroInfo.cellId2PlacementUnit.length : Int)) c hc
  · simp at hc

/-- C14: when the pointers and indices of the inputs are valid,
`clusterLongPathInOneClockRegion` returns; the anchor map it leaves does not depend on the
map it found (the map is cleared first); the placement units and the cell locations of the
result are those of the input; every key of the resulting map points to a placement unit that
is not fixed; and a cluster grown from a node either leaves the map as it was or gives an
anchor to exactly the placement units of the cluster that are not fixed, whose ids form the
new entry of `clockRegionclusters`. -/
theorem clusterLongPathInOneClockRegion_anchors_unfixed
    (DFSFromNode : Int → Int → Nat → List Int → List Int)
    (getClockRegionByLocation : ℚ → ℚ → Int × Int) (YX2ClockRegion : List (List ClockRegion))
    (legalizeXYInArea : Nat → ℚ → ℚ → ℚ × ℚ) (timingGraph : TimingGraph)
    (pathLenThr : Int) (clusterThrRatio : ℚ) (placementInfo : PlacementInfo)
    (hvalid : ClusterInputsValid DFSFromNode getClockRegionByLocation YX2ClockRegion
      placementInfo timingGraph) :
    ∃ result, clusterLongPathInOneClockRegion DFSFromNode getClockRegionByLocation
        YX2ClockRegion legalizeXYInArea timingGraph pathLenThr clusterThrRatio placementInfo =
        some result ∧
      (∀ anchors : List (Nat × (ℚ × ℚ)),
        clusterLongPathInOneClockRegion DFSFromNode getClockRegionByLocation YX2ClockRegion
          legalizeXYInArea timingGraph pathLenThr clusterThrRatio
          { placementInfo with PU2ClockRegionCenter := anchors } = some result) ∧
      result.1.placementUnits = placementInfo.placementUnits ∧
      result.1.cellId2location = placementInfo.cellId2location ∧
      (∀ entry ∈ result.1.PU2ClockRegionCenter,
        ∃ PU, placementInfo.placementUnits[entry.1]? = some PU ∧ PU.isFixed = false) ∧
      (∀ (timingNode : TimingNode) (st st' : ClusterState),
        clusterFromNode DFSFromNode getClockRegionByLocation YX2ClockRegion legalizeXYInArea
          placementInfo pathLenThr clusterThrRatio timingNode st = some st' →
        (st'.PU2ClockRegionCenter = st.PU2ClockRegionCenter ∧
          st'.clockRegionclusters = st.clockRegionclusters) ∨
        ∃ PUs, collectPUs placementInfo.cellId2PlacementUnit st.extractedPUs
            (DFSFromNode timingNode.id pathLenThr 2000 st.extractedCellIds) [] = some PUs ∧
          (∀ p : Nat, (mapFind st'.PU2ClockRegionCenter p).isSome = true ↔
            ((mapFind st.PU2ClockRegionCenter p).isSome = true ∨
              (p ∈ PUs ∧ ∃ PU, placementInfo.placementUnits[p]? = some PU ∧
                PU.isFixed = false))) ∧
          st'.clockRegionclusters =
            st.clockRegionclusters ++ [unfixedIds placementInfo.placementUnits PUs]) := by
  obtain ⟨stEnd, hloop, hcall⟩ := clusterLongPathInOneClockRegion_total DFSFromNode
    getClockRegionByLocation YX2ClockRegion legalizeXYInArea timingGraph pathLenThr
    clusterThrRatio placementInfo hvalid
  refine ⟨_, hcall, ?_, rfl, rfl, ?_, ?_⟩
  · intro anchors
    unfold clusterLongPathInOneClockRegion
    rw [clusterLoop_placementInfo, hloop]
    rfl
  · intro entry he
    obtain ⟨_, _, _, _, PU, _, _, _, _, _, hPU, hfix, _⟩ :=
      clusterLoop_anchors DFSFromNode getClockRegionByLocation YX2ClockRegion legalizeXYInArea
        placementInfo timingGraph pathLenThr clusterThrRatio _ stEnd hloop entry he
    exact ⟨PU, hPU, hfix⟩
  · intro timingNode st st' h
    rcases clusterFromNode_cases _ _ _ _ _ _ _ _ _ _ h with hsame | ⟨PUs, col, reg, hacc⟩
    · exact Or.inl hsame
    · obtain ⟨hc, _, _, _, _, _, hlook, _, hcl⟩ := hacc
      refine Or.inr ⟨PUs, hc, fun p => ?_, hcl⟩
      rw [hlook p]
      exact anchoredLookup_isSome _ _ _ _ _ _

/-- C14, on the design `longPathInfo` with the graph `longPathGraph`: the inputs are valid,
the call returns, and every key of the anchor map points to a placement unit that is not
fixed. -/
theorem clusterLongPathInOneClockRegion_anchors_unfixed_witness :
    ClusterInputsValid sampleDFS twoColumns twoColumnRegions longPathInfo longPathGraph ∧
    ∃ result, clusterLongPathInOneClockRegion sampleDFS twoColumns twoColumnRegions noLegalize
        longPathGraph 10 (1 / 2) longPathInfo = some result ∧
      result.1.placementUnits = longPathInfo.placementUnits ∧
      ∀ entry ∈ result.1.PU2ClockRegionCenter,
        ∃ PU, longPathInfo.placementUnits[entry.1]? = some PU ∧ PU.isFixed = false :=
  ⟨longPathInputs_valid,
    (clusterLongPathInOneClockRegion_anchors_unfixed sampleDFS twoColumns twoColumnRegions
      noLegalize longPathGraph 10 (1 / 2) longPathInfo longPathInputs_valid).imp
      fun _ h => ⟨h.1, h.2.2.1, h.2.2.2.2.1⟩⟩

/-- C15 (as the claim words it, refuted): on the design `macroInfo` the cluster grown from the
first node is the set of the placement units 0 to 7, and all eight receive an anchor, although
every clock-region column of the cluster holds cells of one placement unit only: the dominant
column wins with the 8 cells of the macro, not with 4 placement units. -/
theorem clusterLongPathInOneClockRegion_accepts_one_PU_column :
    collectPUs macroInfo.cellId2PlacementUnit [] (macroDFS 5 10 2000 []) [] =
      some [0, 1, 2, 3, 4, 5, 6, 7] ∧
    (clusterLongPathInOneClockRegion macroDFS unitColumns unitColumnRegions noLegalize
      longPathGraph 10 (1 / 2) macroInfo).map
      (fun result => result.1.PU2ClockRegionCenter.map Prod.fst) =
      some [0, 1, 2, 3, 4, 5, 6, 7] ∧
    ∀ col ∈ memberColumns unitColumns macroInfo.cellId2location macroInfo.placementUnits
        [0, 1, 2, 3, 4, 5, 6, 7],
      (pusInColumn unitColumns macroInfo.cellId2location macroInfo.placementUnits
        [0, 1, 2, 3, 4, 5, 6, 7] col).length = 1 := by
  decide!

/-- C15 (amended): when the pointers and indices of the inputs are valid,
`clusterLongPathInOneClockRegion` returns, and every anchor of the resulting map belongs to a
placement unit of a cluster (the placement units collected from the cells of a
`DFSFromNode` call) that has at least 8 placement units and whose member cells, a macro
counting once for each of its cells, have a dominant clock-region column with at least 4
cells and a share of the cells above `clusterThrRatio`; and a cluster grown from a node
changes the map only under these conditions. -/
theorem clusterLongPathInOneClockRegion_anchor_only_if
    (DFSFromNode : Int → Int → Nat → List Int → List Int)
    (getClockRegionByLocation : ℚ → ℚ → Int × Int) (YX2ClockRegion : List (List ClockRegion))
    (legalizeXYInArea : Nat → ℚ → ℚ → ℚ × ℚ) (timingGraph : TimingGraph)
    (pathLenThr : Int) (clusterThrRatio : ℚ) (placementInfo : PlacementInfo)
    (hvalid : ClusterInputsValid DFSFromNode getClockRegionByLocation YX2ClockRegion
      placementInfo timingGraph) :
    ∃ result, clusterLongPathInOneClockRegion DFSFromNode getClockRegionByLocation
        YX2ClockRegion legalizeXYInArea timingGraph pathLenThr clusterThrRatio placementInfo =
        some result ∧
      (∀ entry ∈ result.1.PU2ClockRegionCenter,
        ∃ (timingNode : TimingNode) (extractedCellIds : List Int)
          (extractedPUs PUs : List Nat) (col : Int),
          collectPUs placementInfo.cellId2PlacementUnit extractedPUs
            (DFSFromNode timingNode.id pathLenThr 2000 extractedCellIds) [] = some PUs ∧
          entry.1 ∈ PUs ∧ 8 ≤ PUs.length ∧
          DominantColumn (memberColumns getClockRegionByLocation placementInfo.cellId2location
            placementInfo.placementUnits PUs) col ∧
          4 ≤ (memberColumns getClockRegionByLocation placementInfo.cellId2location
            placementInfo.placementUnits PUs).count col ∧
          (((memberColumns getClockRegionByLocation placementInfo.cellId2location
            placementInfo.placementUnits PUs).count col : ℚ) >
            ((memberColumns getClockRegionByLocation placementInfo.cellId2location
              placementInfo.placementUnits PUs).length : ℚ) * clusterThrRatio)) ∧
      (∀ (timingNode : TimingNode) (st st' : ClusterState),
        clusterFromNode DFSFromNode getClockRegionByLocation YX2ClockRegion legalizeXYInArea
          placementInfo pathLenThr clusterThrRatio timingNode st = some st' →
        st'.PU2ClockRegionCenter ≠ st.PU2ClockRegionCenter →
        ∃ (PUs : List Nat) (col : Int),
          collectPUs placementInfo.cellId2PlacementUnit st.extractedPUs
            (DFSFromNode timingNode.id pathLenThr 2000 st.extractedCellIds) [] = some PUs ∧
          8 ≤ PUs.length ∧
          DominantColumn (memberColumns getClockRegionByLocation placementInfo.cellId2location
            placementInfo.placementUnits PUs) col ∧
          4 ≤ (memberColumns getClockRegionByLocation placementInfo.cellId2location
            placementInfo.placementUnits PUs).count col ∧
          (((memberColumns getClockRegionByLocation placementInfo.cellId2location
            placementInfo.placementUnits PUs).count col : ℚ) >
            ((memberColumns getClockRegionByLocation placementInfo.cellId2location
              placementInfo.placementUnits PUs).length : ℚ) * clusterThrRatio)) := by
  obtain ⟨stEnd, hloop, hcall⟩ := clusterLongPathInOneClockRegion_total DFSFromNode
    getClockRegionByLocation YX2ClockRegion legalizeXYInArea timingGraph pathLenThr
    clusterThrRatio placementInfo hvalid
  refine ⟨_, hcall, ?_, ?_⟩
  · intro entry he
    obtain ⟨timingNode, exCells, exPUs, PUs, _, col, _, hc, h8, hmem, _, _, hdom, h4, hshare,
        _, _⟩ :=
      clusterLoop_anchors DFSFromNode getClockRegionByLocation YX2ClockRegion legalizeXYInArea
        placementInfo timingGraph pathLenThr clusterThrRatio _ stEnd hloop entry he
    exact ⟨timingNode, exCells, exPUs, PUs, col, hc, hmem, h8, hdom, h4, hshare⟩
  · intro timingNode st st' h hne
    rcases clusterFromNode_cases _ _ _ _ _ _ _ _ _ _ h with hsame | ⟨PUs, col, reg, hacc⟩
    · exact absurd hsame.1 hne
    · obtain ⟨hc, h8, hdom, h4, hshare, _⟩ := hacc
      exact ⟨PUs, col, hc, h8, hdom, h4, hshare⟩

/-- C15 (amended), on the design `macroInfo`: the inputs are valid, the call returns, and the
cluster of every anchor has at least 8 placement units. -/
theorem clusterLongPathInOneClockRegion_anchor_only_if_witness :
    ClusterInputsValid macroDFS unitColumns unitColumnRegions macroInfo longPathGraph ∧
    ∃ result, clusterLongPathInOneClockRegion macroDFS unitColumns unitColumnRegions noLegalize
        longPathGraph 10 (1 / 2) macroInfo = some result ∧
      ∀ entry ∈ result.1.PU2ClockRegionCenter,
        ∃ (timingNode : TimingNode) (extractedCellIds : List Int)
          (extractedPUs PUs : List Nat),
          collectPUs macroInfo.cellId2PlacementUnit extractedPUs
            (macroDFS timingNode.id 10 2000 extractedCellIds) [] = some PUs ∧
          entry.1 ∈ PUs ∧ 8 ≤ PUs.length :=
  ⟨macroInputs_valid,
    (clusterLongPathInOneClockRegion_anchor_only_if macroDFS unitColumns unitColumnRegions
      noLegalize longPathGraph 10 (1 / 2) macroInfo macroInputs_valid).imp
      fun _ h => ⟨h.1, fun entry he =>
        let ⟨timingNode, exCells, exPUs, PUs, _, hc, hmem, h8, _⟩ := h.2.1 entry he
        ⟨timingNode, exCells, exPUs, PUs, hc, hmem, h8⟩⟩⟩

/-- C16: when the pointers and indices of the inputs are valid,
`clusterLongPathInOneClockRegion` returns, and every anchor of the resulting map is
`legalizeXYInArea` of the point `(cX, PU.Y)`, where `PU` is the placement unit of the key with
its `Y` of before the call and `cX = (left + right) / 2` for the clock region, in row 0, of a
dominant column of the member cells of the cluster of the key; and a cluster that is accepted
uses one clock region, so one `cX`, for all its placement units. -/
theorem clusterLongPathInOneClockRegion_anchor_value
    (DFSFromNode : Int → Int → Nat → List Int → List Int)
    (getClockRegionByLocation : ℚ → ℚ → Int × Int) (YX2ClockRegion : List (List ClockRegion))
    (legalizeXYInArea : Nat → ℚ → ℚ → ℚ × ℚ) (timingGraph : TimingGraph)
    (pathLenThr : Int) (clusterThrRatio : ℚ) (placementInfo : PlacementInfo)
    (hvalid : ClusterInputsValid DFSFromNode getClockRegionByLocation YX2ClockRegion
      placementInfo timingGraph) :
    ∃ result, clusterLongPathInOneClockRegion DFSFromNode getClockRegionByLocation
        YX2ClockRegion legalizeXYInArea timingGraph pathLenThr clusterThrRatio placementInfo =
        some result ∧
      (∀ entry ∈ result.1.PU2ClockRegionCenter,
        ∃ (timingNode : TimingNode) (extractedCellIds : List Int)
          (extractedPUs PUs : List Nat) (PU : PlacementUnit) (col : Int)
          (optClockRegion : ClockRegion),
          collectPUs placementInfo.cellId2PlacementUnit extractedPUs
            (DFSFromNode timingNode.id pathLenThr 2000 extractedCellIds) [] = some PUs ∧
          entry.1 ∈ PUs ∧ result.1.placementUnits[entry.1]? = some PU ∧
          placementInfo.placementUnits[entry.1]? = some PU ∧
          DominantColumn (memberColumns getClockRegionByLocation placementInfo.cellId2location
            placementInfo.placementUnits PUs) col ∧
          clockRegionRow0 YX2ClockRegion col = some optClockRegion ∧
          entry.2 = legalizeXYInArea entry.1
            ((optClockRegion.left + optClockRegion.right) / 2) PU.Y) ∧
      (∀ (timingNode : TimingNode) (st st' : ClusterState),
        clusterFromNode DFSFromNode getClockRegionByLocation YX2ClockRegion legalizeXYInArea
          placementInfo pathLenThr clusterThrRatio timingNode st = some st' →
        st'.PU2ClockRegionCenter = st.PU2ClockRegionCenter ∨
        ∃ (PUs : List Nat) (col : Int) (optClockRegion : ClockRegion),
          collectPUs placementInfo.cellId2PlacementUnit st.extractedPUs
            (DFSFromNode timingNode.id pathLenThr 2000 st.extractedCellIds) [] = some PUs ∧
          DominantColumn (memberColumns getClockRegionByLocation placementInfo.cellId2location
            placementInfo.placementUnits PUs) col ∧
          clockRegionRow0 YX2ClockRegion col = some optClockRegion ∧
          ∀ p : Nat, mapFind st'.PU2ClockRegionCenter p =
            anchoredLookup legalizeXYInArea placementInfo.placementUnits
              ((optClockRegion.left + optClockRegion.right) / 2) PUs
              st.PU2ClockRegionCenter p) := by
  obtain ⟨stEnd, hloop, hcall⟩ := clusterLongPathInOneClockRegion_total DFSFromNode
    getClockRegionByLocation YX2ClockRegion legalizeXYInArea timingGraph pathLenThr
    clusterThrRatio placementInfo hvalid
  refine ⟨_, hcall, ?_, ?_⟩
  · intro entry he
    obtain ⟨timingNode, exCells, exPUs, PUs, PU, col, reg, hc, _, hmem, hPU, _, hdom, _, _,
        hreg, hval⟩ :=
      clusterLoop_anchors DFSFromNode getClockRegionByLocation YX2ClockRegion legalizeXYInArea
        placementInfo timingGraph pathLenThr clusterThrRatio _ stEnd hloop entry he
    exact ⟨timingNode, exCells, exPUs, PUs, PU, col, reg, hc, hmem, hPU, hPU, hdom, hreg, hval⟩
  · intro timingNode st st' h
    rcases clusterFromNode_cases _ _ _ _ _ _ _ _ _ _ h with hsame | ⟨PUs, col, reg, hacc⟩
    · exact Or.inl hsame.1
    · obtain ⟨hc, _, hdom, _, _, hreg, hlook, _⟩ := hacc
      exact Or.inr ⟨PUs, col, reg, hc, hdom, hreg, hlook⟩

/-- C16, on the design `longPathInfo`: the inputs are valid, the call returns, and every
anchor is `noLegalize` of the centre of a clock region of row 0 and the `Y` of its placement
unit. -/
theorem clusterLongPathInOneClockRegion_anchor_value_witness :
    ClusterInputsValid sampleDFS twoColumns twoColumnRegions longPathInfo longPathGraph ∧
    ∃ result, clusterLongPathInOneClockRegion sampleDFS twoColumns twoColumnRegions noLegalize
        longPathGraph 10 (1 / 2) longPathInfo = some result ∧
      ∀ entry ∈ result.1.PU2ClockRegionCenter,
        ∃ (PU : PlacementUnit) (col : Int) (optClockRegion : ClockRegion),
          longPathInfo.placementUnits[entry.1]? = some PU ∧
          clockRegionRow0 twoColumnRegions col = some optClockRegion ∧
          entry.2 = noLegalize entry.1
            ((optClockRegion.left + optClockRegion.right) / 2) PU.Y :=
  ⟨longPathInputs_valid,
    (clusterLongPathInOneClockRegion_anchor_value sampleDFS twoColumns twoColumnRegions
      noLegalize longPathGraph 10 (1 / 2) longPathInfo longPathInputs_valid).imp
      fun _ h => ⟨h.1, fun entry he =>
        let ⟨_, _, _, _, PU, col, reg, _, _, _, hPU, _, hreg, hval⟩ := h.2.1 entry he
        ⟨PU, col, reg, hPU, hreg, hval⟩⟩⟩

/-! ## C17: the visited test of the clustering loop -/

/-- C17 (the code, evaluated): on `longPathGraph` the sorted vector holds node 7 at position 1,
with a longest path above the threshold 10.  After the cluster of position 0 the set
`extractedCellIds` holds cell 1 but not cell 7; the loop passes over position 1 and leaves the
state as it is, so the call ends with the one cluster, while the cluster grown from node 7 in
that state would have been accepted as a second one. -/
theorem clusterLongPathInOneClockRegion_skips_by_position :
    (sortedNodeAt longPathGraph 1).map
      (fun timingNode => (timingNode.id, decide (timingNode.getLongestPathLength > 10))) =
      some (7, true) ∧
    (clusterLoop sampleDFS twoColumns twoColumnRegions noLegalize longPathInfo longPathGraph 10
      (1 / 2) [0] {}).map (fun st => st.extractedCellIds) = some [0, 1, 2, 3, 4, 5, 6, 8] ∧
    (clusterLoop sampleDFS twoColumns twoColumnRegions noLegalize longPathInfo longPathGraph 10
      (1 / 2) [0] {}).bind
      (fun st => (clusterLoop sampleDFS twoColumns twoColumnRegions noLegalize longPathInfo
        longPathGraph 10 (1 / 2) [1] st).map fun st' => decide (st' = st)) = some true ∧
    (clusterLongPathInOneClockRegion sampleDFS twoColumns twoColumnRegions noLegalize
      longPathGraph 10 (1 / 2) longPathInfo).map (fun result => result.2) =
      some [[0, 1, 2, 3, 4, 5, 6, 8]] ∧
    ((clusterLoop sampleDFS twoColumns twoColumnRegions noLegalize longPathInfo longPathGraph 10
      (1 / 2) [0] {}).bind fun st =>
      (sortedNodeAt longPathGraph 1).bind fun timingNode =>
        (clusterFromNode sampleDFS twoColumns twoColumnRegions noLegalize longPathInfo 10
          (1 / 2) timingNode st).map fun st' => st'.clockRegionclusters) =
      some [[0, 1, 2, 3, 4, 5, 6, 8], [7, 9, 10, 11, 12, 13, 14, 15]] := by
  decide!

/-! ## C18: `moveDriverIntoBetterClockRegion` -/

/-- C18 (the code, evaluated): on `longPathGraph` the node at position 0 of the sorted vector
is node 5 of cell 5, whose placement unit is unit 5; the candidate cells are the sinks 8 to 15
of its out-edges; the one anchor `moveDriverIntoBetterClockRegion` records is for placement
unit 0, the unit of the cell whose id is the position 0, and placement unit 5 has none. -/
theorem moveDriverIntoBetterClockRegion_anchors_unit_of_position :
    (sortedNodeAt longPathGraph 0).map
      (fun timingNode => (timingNode.id, timingNode.designNode)) = some (5, 5) ∧
    vecAt longPathInfo.cellId2PlacementUnit 5 = some 5 ∧
    ((sortedNodeAt longPathGraph 0).bind fun timingNode =>
      sinkIds longPathGraph timingNode.outEdges []) = some [8, 9, 10, 11, 12, 13, 14, 15] ∧
    (moveDriverIntoBetterClockRegion twoColumns twoColumnRegions noLegalize longPathGraph 10
      (1 / 2) longPathInfo).map (fun result => result.PU2ClockRegionCenter) =
      some [(0, (75, 0))] := by
  decide!

/-! ## C19: the constructor of `AMFPlacer` -/

theorem jsonHas_jsonTouch (JSON : List (String × String)) (key : String) :
    jsonHas (jsonTouch JSON key) key = true := by
  unfold jsonTouch
  by_cases h : jsonHas JSON key = true
  · rw [if_pos h]; exact h
  · rw [if_neg h]
    simp [jsonHas]

theorem jsonValue_of_not_has {JSON : List (String × String)} {key : String}
    (h : jsonHas JSON key = false) : jsonValue JSON key = "" := by
  unfold jsonValue
  have hnone : (JSON.find? fun entry => decide (entry.1 = key)) = none := by
    rw [List.find?_eq_none]
    intro x hx
    simp only [jsonHas, List.any_eq_false] at h
    exact h x hx
  rw [hnone]

theorem jsonValue_jsonTouch (JSON : List (String × String)) (key : String) :
    jsonValue (jsonTouch JSON key) key = jsonValue JSON key := by
  unfold jsonTouch
  by_cases h : jsonHas JSON key = true
  · rw [if_pos h]
  · rw [if_neg h]
    have hf : jsonHas JSON key = false := by simpa using h
    rw [jsonValue_of_not_has hf]
    unfold jsonValue
    have hnone : (JSON.find? fun entry => decide (entry.1 = key)) = none := by
      rw [List.find?_eq_none]
      intro x hx
      simp only [jsonHas, List.any_eq_false] at hf
      exact hf x hx
    simp [List.find?_append, hnone]

theorem newAMFPlacer_eq (fileExists createDirectories : String → Bool)
    (stoi : String → Option Int) (JSON : List (String × String)) :
    newAMFPlacer fileExists createDirectories stoi JSON =
      if !(assertedKeys.all fun key => jsonHas JSON key) then none
      else if jsonHas JSON "dumpDirectory" && !fileExists (jsonValue JSON "dumpDirectory") &&
          !createDirectories (jsonValue JSON "dumpDirectory") then none
      else stoi (jsonValue JSON "jobs") := by
  unfold newAMFPlacer
  split
  · rfl
  · split
    · rfl
    · cases h : stoi (jsonValue JSON "jobs") with
      | none => rfl
      | some n =>
        simp only [jsonHas_jsonTouch, jsonValue_jsonTouch, if_true, h]

/-- C19 (as stated, refuted): `fullConfig` has every required key, the six file keys,
`GlobalPlacementIteration` and `jobs`, yet the construction fails when the dump directory is
absent and cannot be created. -/
theorem newAMFPlacer_fails_with_all_keys :
    (requiredKeys.all fun key => jsonHas fullConfig key) = true ∧
    newAMFPlacer (fun _ => false) (fun _ => false) stoiSample fullConfig = none := by
  decide

/-- C19 (amended): the construction fails before the device and the design are loaded exactly
when the configuration lacks one of the seven asserted keys, or the dump directory is
configured, absent and cannot be created, or `std::stoi` throws on the value of `jobs`.  A
configuration that lacks any required key, `jobs` included, fails (`std::stoi` throws on the
empty string that `JSON["jobs"]` yields), and a construction that succeeds has set the number
of threads to the value of `jobs`: there is no fall-back to one thread. -/
theorem newAMFPlacer_fails_iff (fileExists createDirectories : String → Bool)
    (stoi : String → Option Int) (hstoi : stoi "" = none) (JSON : List (String × String)) :
    (newAMFPlacer fileExists createDirectories stoi JSON = none ↔
      ((assertedKeys.all fun key => jsonHas JSON key) = false ∨
        (jsonHas JSON "dumpDirectory" = true ∧
          fileExists (jsonValue JSON "dumpDirectory") = false ∧
          createDirectories (jsonValue JSON "dumpDirectory") = false) ∨
        stoi (jsonValue JSON "jobs") = none)) ∧
    ((requiredKeys.all fun key => jsonHas JSON key) = false →
      newAMFPlacer fileExists createDirectories stoi JSON = none) ∧
    (∀ n, newAMFPlacer fileExists createDirectories stoi JSON = some n →
      jsonHas JSON "jobs" = true ∧ stoi (jsonValue JSON "jobs") = some n) := by
  have hjobs : jsonHas JSON "jobs" = false → stoi (jsonValue JSON "jobs") = none := by
    intro h
    rw [jsonValue_of_not_has h, hstoi]
  have hiff : newAMFPlacer fileExists createDirectories stoi JSON = none ↔
      ((assertedKeys.all fun key => jsonHas JSON key) = false ∨
        (jsonHas JSON "dumpDirectory" = true ∧
          fileExists (jsonValue JSON "dumpDirectory") = false ∧
          createDirectories (jsonValue JSON "dumpDirectory") = false) ∨
        stoi (jsonValue JSON "jobs") = none) := by
    rw [newAMFPlacer_eq]
    cases h1 : (assertedKeys.all fun key => jsonHas JSON key) <;>
      cases h2 : jsonHas JSON "dumpDirectory" <;>
      cases h3 : fileExists (jsonValue JSON "dumpDirectory") <;>
      cases h4 : createDirectories (jsonValue JSON "dumpDirectory") <;>
      simp
  refine ⟨hiff, ?_, ?_⟩
  · intro hreq
    rw [hiff]
    simp only [requiredKeys, List.all_append, Bool.and_eq_false_iff] at hreq
    rcases hreq with h | h
    · exact Or.inl h
    · right; right
      apply hjobs
      simpa using h
  · intro n hn
    have hne : newAMFPlacer fileExists createDirectories stoi JSON ≠ none := by
      rw [hn]; simp
    rw [Ne, hiff] at hne
    push_neg at hne
    obtain ⟨-, -, h3⟩ := hne
    refine ⟨?_, ?_⟩
    · by_contra hc
      exact h3 (hjobs (by simpa using hc))
    · rw [newAMFPlacer_eq] at hn
      split at hn
      · cases hn
      · split at hn
        · cases hn
        · exact hn

theorem newAMFPlacer_fails_iff_witness :
    stoiSample "" = none ∧
    (newAMFPlacer (fun _ => false) (fun _ => true) stoiSample fullConfig = some 8 →
      jsonHas fullConfig "jobs" = true ∧ stoiSample (jsonValue fullConfig "jobs") = some 8) ∧
    newAMFPlacer (fun _ => false) (fun _ => true) stoiSample fullConfig = some 8 :=
  ⟨by decide,
    (newAMFPlacer_fails_iff (fun _ => false) (fun _ => true) stoiSample (by decide)
      fullConfig).2.2 8,
    by decide⟩

/-! ## C20: `clearSomeAttributesCannotRecord` -/

theorem unfixedFrom_trans {a b c : PlacementUnit} (h1 : UnfixedFrom a b) (h2 : UnfixedFrom b c) :
    UnfixedFrom a c := by
  rcases h1 with rfl | ⟨hl, rfl⟩
  · exact h2
  · rcases h2 with rfl | ⟨-, rfl⟩
    · exact Or.inr ⟨hl, rfl⟩
    · exact Or.inr ⟨hl, rfl⟩

theorem unfixOne_rel {l l' : List PlacementUnit} {pair : Nat × ℚ}
    (h : unfixOne l pair = some l') :
    List.Forall₂ UnfixedFrom l l' ∧
      ∃ PU, l'[pair.1]? = some PU ∧ (PU.isFixed = true → PU.isLocked = true) := by
  unfold unfixOne at h
  cases hg : l[pair.1]? with
  | none => simp [hg] at h
  | some PU =>
    simp only [hg] at h
    have hlt : pair.1 < l.length := (List.getElem?_eq_some.mp hg).1
    by_cases hc : (PU.isFixed && !PU.isLocked) = true
    · rw [if_pos hc] at h
      have := Option.some.inj h
      subst this
      simp only [Bool.and_eq_true, Bool.not_eq_true'] at hc
      refine ⟨?_, PU.setUnfixed, List.getElem?_set_self hlt, ?_⟩
      · rw [List.forall₂_iff_get]
        refine ⟨by simp, ?_⟩
        intro i h1 h2
        simp only [List.get_eq_getElem, List.getElem_set]
        split
        · rename_i hi
          subst hi
          have : l[pair.1] = PU := (List.getElem?_eq_some.mp hg).2
          rw [this]
          exact Or.inr ⟨hc.2, rfl⟩
        · exact Or.inl rfl
      · intro hf
        simp [PlacementUnit.setUnfixed, PlacementUnit.isFixed] at hf
    · rw [if_neg hc] at h
      have := Option.some.inj h
      subst this
      refine ⟨?_, PU, hg, ?_⟩
      · rw [List.forall₂_iff_get]
        exact ⟨rfl, fun i _ _ => Or.inl rfl⟩
      · intro hf
        simp only [Bool.and_eq_true, Bool.not_eq_true', not_and, Bool.not_eq_false] at hc
        exact hc hf

theorem forall₂_unfixedFrom_trans :
    ∀ {l1 l2 l3 : List PlacementUnit}, List.Forall₂ UnfixedFrom l1 l2 →
      List.Forall₂ UnfixedFrom l2 l3 → List.Forall₂ UnfixedFrom l1 l3
  | _, _, _, .nil, .nil => .nil
  | _, _, _, .cons h1 t1, .cons h2 t2 =>
    .cons (unfixedFrom_trans h1 h2) (forall₂_unfixedFrom_trans t1 t2)

theorem unfixLegalized_rel :
    ∀ (pairs : List (Nat × ℚ)) (l l' : List PlacementUnit), unfixLegalized pairs l = some l' →
      List.Forall₂ UnfixedFrom l l' ∧
        ∀ pair ∈ pairs, ∃ PU, l'[pair.1]? = some PU ∧ (PU.isFixed = true → PU.isLocked = true)
  | [], l, l', h => by
    simp only [unfixLegalized] at h
    have := Option.some.inj h
    subst this
    refine ⟨?_, by simp⟩
    rw [List.forall₂_iff_get]
    exact ⟨rfl, fun i _ _ => Or.inl rfl⟩
  | pair :: rest, l, l', h => by
    simp only [unfixLegalized, Option.bind_eq_some] at h
    obtain ⟨mid, h1, h2⟩ := h
    obtain ⟨r1, PU, hPU, hq⟩ := unfixOne_rel h1
    obtain ⟨r2, hrest⟩ := unfixLegalized_rel rest mid l' h2
    refine ⟨forall₂_unfixedFrom_trans r1 r2, ?_⟩
    intro p hp
    rcases List.mem_cons.mp hp with rfl | hp
    · obtain ⟨PU', hPU', hrel⟩ := forall₂_getElem? r2 _ PU hPU
      refine ⟨PU', hPU', ?_⟩
      rcases hrel with rfl | ⟨-, rfl⟩
      · exact hq
      · intro hf
        simp [PlacementUnit.setUnfixed, PlacementUnit.isFixed] at hf
    · exact hrest p hp

theorem unfixLegalized_isSome :
    ∀ (pairs : List (Nat × ℚ)) (l : List PlacementUnit),
      (∀ pair ∈ pairs, pair.1 < l.length) → ∃ l', unfixLegalized pairs l = some l'
  | [], l, _ => ⟨l, rfl⟩
  | pair :: rest, l, hv => by
    have hlt := hv pair (List.mem_cons_self _ _)
    have h1 : ∃ mid, unfixOne l pair = some mid := by
      unfold unfixOne
      rw [List.getElem?_eq_getElem hlt]
      simp only
      split
      · exact ⟨_, rfl⟩
      · exact ⟨_, rfl⟩
    obtain ⟨mid, hmid⟩ := h1
    have hlen : mid.length = l.length := (unfixOne_rel hmid).1.length_eq.symm
    obtain ⟨l', hl'⟩ := unfixLegalized_isSome rest mid
      (fun p hp => by rw [hlen]; exact hv p (List.mem_cons_of_mem _ hp))
    exact ⟨l', by simp [unfixLegalized, hmid, hl']⟩

/-- C20 (as stated, refuted): in `fixedUnitsInfo` unit 0 is fixed, not locked and not a key of
`getPULegalXY().first`; after `clearSomeAttributesCannotRecord` it is still fixed and not
locked. -/
theorem clearSomeAttributesCannotRecord_leaves_fixed :
    ∃ placementInfo PU, clearSomeAttributesCannotRecord fixedUnitsInfo = some placementInfo ∧
      placementInfo.placementUnits[0]? = some PU ∧ PU.isFixed = true ∧ PU.isLocked = false := by
  refine ⟨{ fixedUnitsInfo with
      placementUnits :=
        [{ id := 0, X := 1, Y := 2, fixed := true, kind := .unpackedCell 0 },
         { id := 1, X := 3, Y := 4, kind := .placementMacro [1, 2] }] },
    { id := 0, X := 1, Y := 2, fixed := true, kind := .unpackedCell 0 }, ?_, rfl, rfl, rfl⟩
  rfl

theorem unfixOne_getElem? {l mid : List PlacementUnit} {pair : Nat × ℚ}
    (h : unfixOne l pair = some mid) (i : Nat) :
    mid[i]? = if pair.1 = i then
        l[i]?.map fun PU => if PU.isFixed && !PU.isLocked then PU.setUnfixed else PU
      else l[i]? := by
  unfold unfixOne at h
  cases hg : l[pair.1]? with
  | none => simp [hg] at h
  | some PU =>
    simp only [hg] at h
    have hlt : pair.1 < l.length := (List.getElem?_eq_some.mp hg).1
    by_cases hc : (PU.isFixed && !PU.isLocked) = true
    · rw [if_pos hc] at h
      have := Option.some.inj h
      subst this
      by_cases hi : pair.1 = i
      · subst hi
        rw [if_pos rfl, List.getElem?_set_self hlt, hg, Option.map_some', if_pos hc]
      · rw [if_neg hi, List.getElem?_set_ne hi]
    · rw [if_neg hc] at h
      have := Option.some.inj h
      subst this
      by_cases hi : pair.1 = i
      · subst hi
        rw [if_pos rfl, hg, Option.map_some', if_neg hc]
      · rw [if_neg hi]

theorem unfixLegalized_getElem? :
    ∀ (pairs : List (Nat × ℚ)) (l l' : List PlacementUnit), unfixLegalized pairs l = some l' →
      ∀ i, l'[i]? = if (pairs.any fun pair => decide (pair.1 = i)) = true then
          l[i]?.map fun PU => if PU.isFixed && !PU.isLocked then PU.setUnfixed else PU
        else l[i]?
  | [], l, l', h, i => by
    simp only [unfixLegalized] at h
    have := Option.some.inj h
    subst this
    simp
  | pair :: rest, l, l', h, i => by
    simp only [unfixLegalized, Option.bind_eq_some] at h
    obtain ⟨mid, h1, h2⟩ := h
    have hmid := unfixOne_getElem? h1 i
    have hrest := unfixLegalized_getElem? rest mid l' h2 i
    rw [hrest, hmid]
    cases hl : l[i]? with
    | none => simp
    | some PU =>
      by_cases hp : pair.1 = i <;> by_cases hr : (rest.any fun pair => decide (pair.1 = i)) = true
      · simp only [List.any_cons, hp, hr, decide_True, Bool.or_true, if_true, Option.map_some']
        split <;> simp_all [PlacementUnit.setUnfixed, PlacementUnit.isFixed,
          PlacementUnit.isLocked]
      · simp [List.any_cons, hp, hr]
      · simp [List.any_cons, hp, hr]
      · simp [List.any_cons, hp, hr]

/-- C20 (amended): after `clearSomeAttributesCannotRecord` no placement unit is packed, every
unit that is a key of `getPULegalXY().first` and is still fixed is locked, `isLocked` implies
`isFixed` as before, and at every position the unit keeps its id, location, kind and lock,
its `isFixed` being unchanged or cleared on a unit that is not locked; a unit that is a key of
the map ends fixed exactly when it was fixed and locked, and a unit that is not a key keeps
its `isFixed`, so that a fixed, unlocked unit that is not a key stays fixed; the other parts
of the placement information are unchanged; the call returns whenever the keys of the map
point to placement units. -/
theorem clearSomeAttributesCannotRecord_spec (placementInfo : PlacementInfo) :
    ((∀ pair ∈ placementInfo.PULegalXY.1, pair.1 < placementInfo.placementUnits.length) →
      ∃ placementInfo', clearSomeAttributesCannotRecord placementInfo = some placementInfo') ∧
    ∀ placementInfo', clearSomeAttributesCannotRecord placementInfo = some placementInfo' →
      (∀ PU ∈ placementInfo'.placementUnits, PU.isPacked = false) ∧
      (∀ pair ∈ placementInfo.PULegalXY.1, ∃ PU,
        placementInfo'.placementUnits[pair.1]? = some PU ∧
          (PU.isFixed = true → PU.isLocked = true)) ∧
      ((∀ PU ∈ placementInfo.placementUnits, PU.isLocked = true → PU.isFixed = true) →
        ∀ PU ∈ placementInfo'.placementUnits, PU.isLocked = true → PU.isFixed = true) ∧
      List.Forall₂ ClearedFrom placementInfo.placementUnits placementInfo'.placementUnits ∧
      (∀ i PU, placementInfo.placementUnits[i]? = some PU →
        ∃ PU', placementInfo'.placementUnits[i]? = some PU' ∧
          ((∃ pair ∈ placementInfo.PULegalXY.1, pair.1 = i) →
            PU'.isFixed = (PU.isFixed && PU.isLocked)) ∧
          ((∀ pair ∈ placementInfo.PULegalXY.1, pair.1 ≠ i) → PU'.isFixed = PU.isFixed) ∧
          (PU.isFixed = true → PU.isLocked = false →
            (∀ pair ∈ placementInfo.PULegalXY.1, pair.1 ≠ i) →
            PU'.isFixed = true ∧ PU'.isLocked = false)) ∧
      placementInfo'.cells = placementInfo.cells ∧
      placementInfo'.cellId2PlacementUnit = placementInfo.cellId2PlacementUnit ∧
      placementInfo'.cellId2location = placementInfo.cellId2location ∧
      placementInfo'.pinId2location = placementInfo.pinId2location ∧
      placementInfo'.PU2ClockRegionCenter = placementInfo.PU2ClockRegionCenter ∧
      placementInfo'.PULegalXY = placementInfo.PULegalXY := by
  constructor
  · intro hv
    obtain ⟨l', hl'⟩ := unfixLegalized_isSome placementInfo.PULegalXY.1
      (resetPackedAll placementInfo.placementUnits) (by simpa [resetPackedAll] using hv)
    exact ⟨{ placementInfo with placementUnits := l' },
      by simp [clearSomeAttributesCannotRecord, hl']⟩
  · intro placementInfo' h
    simp only [clearSomeAttributesCannotRecord, Option.map_eq_some'] at h
    obtain ⟨l', hl', rfl⟩ := h
    obtain ⟨hrel, hkeys⟩ := unfixLegalized_rel _ _ _ hl'
    have hall : List.Forall₂ ClearedFrom placementInfo.placementUnits l' := by
      rw [List.forall₂_iff_get] at hrel ⊢
      obtain ⟨hlen, hget⟩ := hrel
      have hlen' : placementInfo.placementUnits.length = l'.length := by
        simpa [resetPackedAll] using hlen
      refine ⟨hlen', ?_⟩
      intro i h1 h2
      have hr := hget i (by simpa [resetPackedAll] using h1) h2
      simp only [List.get_eq_getElem, resetPackedAll, List.getElem_map] at hr ⊢
      rcases hr with hr | ⟨hl, hr⟩
      · rw [hr]
        split <;>
          simp_all [ClearedFrom, PlacementUnit.resetPacked, PlacementUnit.isPacked]
      · rw [hr]
        split at hl <;> split <;>
          simp_all [ClearedFrom, PlacementUnit.resetPacked, PlacementUnit.isPacked,
            PlacementUnit.setUnfixed]
    have hframe : ∀ i PU, placementInfo.placementUnits[i]? = some PU →
        ∃ PU', l'[i]? = some PU' ∧
          ((∃ pair ∈ placementInfo.PULegalXY.1, pair.1 = i) →
            PU'.isFixed = (PU.isFixed && PU.isLocked)) ∧
          ((∀ pair ∈ placementInfo.PULegalXY.1, pair.1 ≠ i) → PU'.isFixed = PU.isFixed) ∧
          PU'.isLocked = PU.isLocked := by
      intro i PU hPU
      have hget := unfixLegalized_getElem? _ _ _ hl' i
      have hreset : (resetPackedAll placementInfo.placementUnits)[i]? =
          some (if PU.isPacked then PU.resetPacked else PU) := by
        simp [resetPackedAll, hPU]
      rw [hreset] at hget
      by_cases hk : (placementInfo.PULegalXY.1.any fun pair => decide (pair.1 = i)) = true
      · rw [if_pos hk] at hget
        refine ⟨_, hget, ?_, ?_, ?_⟩
        · intro _
          cases hf : PU.fixed <;> cases hlk : PU.locked <;> cases hp : PU.packed <;>
            simp [PlacementUnit.isFixed, PlacementUnit.isLocked, PlacementUnit.isPacked,
              PlacementUnit.resetPacked, PlacementUnit.setUnfixed, hf, hlk, hp]
        · intro hno
          simp only [List.any_eq_true, decide_eq_true_eq] at hk
          obtain ⟨pair, hmem, hpi⟩ := hk
          exact absurd hpi (hno pair hmem)
        · cases hf : PU.fixed <;> cases hlk : PU.locked <;> cases hp : PU.packed <;>
            simp [PlacementUnit.isFixed, PlacementUnit.isLocked, PlacementUnit.isPacked,
              PlacementUnit.resetPacked, PlacementUnit.setUnfixed, hf, hlk, hp]
      · rw [if_neg hk] at hget
        refine ⟨_, hget, ?_, ?_, ?_⟩
        · intro hyes
          exact absurd (by simpa [List.any_eq_true] using hyes) hk
        · intro _
          cases hp : PU.packed <;>
            simp [PlacementUnit.isFixed, PlacementUnit.isPacked, PlacementUnit.resetPacked, hp]
        · cases hp : PU.packed <;>
            simp [PlacementUnit.isLocked, PlacementUnit.isPacked, PlacementUnit.resetPacked, hp]
    refine ⟨?_, hkeys, ?_, hall, ?_, rfl, rfl, rfl, rfl, rfl, rfl⟩
    · intro PU hPU
      obtain ⟨i, hi, rfl⟩ := List.getElem_of_mem hPU
      have := (List.forall₂_iff_get.mp hall).2 i (by rw [(List.forall₂_iff_get.mp hall).1]; exact hi) hi
      exact this.2.2.2.2.2.1
    · intro hinv PU hPU hlock
      obtain ⟨i, hi, rfl⟩ := List.getElem_of_mem hPU
      have hi0 : i < placementInfo.placementUnits.length := by
        rw [(List.forall₂_iff_get.mp hall).1]; exact hi
      have hc := (List.forall₂_iff_get.mp hall).2 i hi0 hi
      simp only [List.get_eq_getElem] at hc
      obtain ⟨-, -, -, -, hl, -, hf⟩ := hc
      have h0 := hinv _ (List.getElem_mem hi0)
      simp only [PlacementUnit.isLocked, PlacementUnit.isFixed] at h0 hlock ⊢
      rcases hf with hf | ⟨-, hf⟩
      · rw [hf]; exact h0 (hl ▸ hlock)
      · rw [hl] at hlock; rw [hf] at hlock; cases hlock
    · intro i PU hPU
      obtain ⟨PU', hPU', hkey, hnokey, hlk⟩ := hframe i PU hPU
      refine ⟨PU', hPU', hkey, hnokey, ?_⟩
      intro hfix hunl hno
      exact ⟨(hnokey hno).trans hfix, hlk.trans hunl⟩

/-- C20 (amended), on `lockedUnitsInfo`: the invariant holds and the keys point to placement
units; after the call the fixed, unlocked unit 0, which is not a key, is still fixed, the
unlocked key unit 1 is un-fixed, the locked key unit 2 is still fixed and locked, and no unit
is packed. -/
theorem clearSomeAttributesCannotRecord_spec_witness :
    (∀ PU ∈ lockedUnitsInfo.placementUnits, PU.isLocked = true → PU.isFixed = true) ∧
    clearSomeAttributesCannotRecord lockedUnitsInfo = some { lockedUnitsInfo with
      placementUnits :=
        [{ id := 0, X := 1, Y := 2, fixed := true, kind := .unpackedCell 0 },
         { id := 1, X := 3, Y := 4, kind := .placementMacro [1, 2] },
         { id := 2, X := 5, Y := 6, fixed := true, locked := true, kind := .unpackedCell 3 },
         { id := 3, X := 7, Y := 8, kind := .unpackedCell 4 }] } ∧
    (∃ placementInfo', clearSomeAttributesCannotRecord lockedUnitsInfo = some placementInfo') ∧
    ∀ placementInfo', clearSomeAttributesCannotRecord lockedUnitsInfo = some placementInfo' →
      (∀ PU ∈ placementInfo'.placementUnits, PU.isPacked = false) ∧
      (∀ pair ∈ lockedUnitsInfo.PULegalXY.1, ∃ PU,
        placementInfo'.placementUnits[pair.1]? = some PU ∧
          (PU.isFixed = true → PU.isLocked = true)) ∧
      (∀ PU ∈ placementInfo'.placementUnits, PU.isLocked = true → PU.isFixed = true) ∧
      List.Forall₂ ClearedFrom lockedUnitsInfo.placementUnits placementInfo'.placementUnits ∧
      (∀ i PU, lockedUnitsInfo.placementUnits[i]? = some PU →
        ∃ PU', placementInfo'.placementUnits[i]? = some PU' ∧
          ((∃ pair ∈ lockedUnitsInfo.PULegalXY.1, pair.1 = i) →
            PU'.isFixed = (PU.isFixed && PU.isLocked)) ∧
          ((∀ pair ∈ lockedUnitsInfo.PULegalXY.1, pair.1 ≠ i) → PU'.isFixed = PU.isFixed) ∧
          (PU.isFixed = true → PU.isLocked = false →
            (∀ pair ∈ lockedUnitsInfo.PULegalXY.1, pair.1 ≠ i) →
            PU'.isFixed = true ∧ PU'.isLocked = false)) :=
  ⟨by decide, rfl, (clearSomeAttributesCannotRecord_spec lockedUnitsInfo).1 (by decide),
    fun placementInfo' h =>
      ⟨((clearSomeAttributesCannotRecord_spec lockedUnitsInfo).2 placementInfo' h).1,
        ((clearSomeAttributesCannotRecord_spec lockedUnitsInfo).2 placementInfo' h).2.1,
        ((clearSomeAttributesCannotRecord_spec lockedUnitsInfo).2 placementInfo' h).2.2.1
          (by decide),
        ((clearSomeAttributesCannotRecord_spec lockedUnitsInfo).2 placementInfo' h).2.2.2.1,
        ((clearSomeAttributesCannotRecord_spec lockedUnitsInfo).2 placementInfo'
          h).2.2.2.2.1⟩⟩

/-! ## The floating-point model -/

theorem twoPow_pos (e : Int) : 0 < twoPow e := by
  unfold twoPow
  split <;> positivity

theorem halvings_spec : ∀ (fuel n : Nat), 0 < n → n ≤ fuel →
    2 ^ halvings fuel n ≤ n ∧ n < 2 ^ (halvings fuel n + 1)
  | 0, n, h0, h1 => by omega
  | fuel + 1, n, h0, h1 => by
    unfold halvings
    split
    · rename_i h2
      obtain ⟨ih1, ih2⟩ := halvings_spec fuel (n / 2) (by omega) (by omega)
      rw [pow_succ] at ih2 ⊢
      rw [pow_succ _ (halvings fuel (n / 2) + 1), pow_succ]
      constructor <;> omega
    · simp only [pow_zero, zero_add, pow_one]
      omega

theorem floorLog2_spec {n : Nat} (h : 0 < n) :
    2 ^ floorLog2 n ≤ n ∧ n < 2 ^ (floorLog2 n + 1) :=
  halvings_spec n n h (le_refl n)

theorem twoPow_eq_zpow (e : Int) : twoPow e = (2 : ℚ) ^ e := by
  unfold twoPow
  split
  · rename_i h
    obtain ⟨k, rfl⟩ := Int.eq_ofNat_of_zero_le h
    simp
  · rename_i h
    obtain ⟨k, hk⟩ := Int.eq_ofNat_of_zero_le (by omega : 0 ≤ -e)
    have he : e = -(k : Int) := by omega
    subst he
    simp

/-- The binary exponent `e` of a positive rational `x` satisfies `2 ^ e ≤ x < 2 ^ (e + 1)`. -/
theorem binaryExponent_spec {x : ℚ} (hx : 0 < x) :
    twoPow (binaryExponent x) ≤ x ∧ x < twoPow (binaryExponent x + 1) := by
  have hnum : 0 < x.num := Rat.num_pos.mpr hx
  have hden : 0 < x.den := x.den_pos
  obtain ⟨a1, a2⟩ := floorLog2_spec (Int.natAbs_pos.mpr hnum.ne')
  obtain ⟨b1, b2⟩ := floorLog2_spec hden
  have hxe : x = (x.num.natAbs : ℚ) / (x.den : ℚ) := by
    have hn : ((x.num.natAbs : Int) : ℚ) = (x.num : ℚ) := by
      rw [Int.natAbs_of_nonneg hnum.le]
    rw [← Int.cast_natCast x.num.natAbs, hn]
    exact (Rat.num_div_den x).symm
  have hdq : (0 : ℚ) < (x.den : ℚ) := by exact_mod_cast hden
  have a1q : (2 : ℚ) ^ floorLog2 x.num.natAbs ≤ (x.num.natAbs : ℚ) := by exact_mod_cast a1
  have a2q : (x.num.natAbs : ℚ) < (2 : ℚ) ^ (floorLog2 x.num.natAbs + 1) := by
    exact_mod_cast a2
  have b1q : (2 : ℚ) ^ floorLog2 x.den ≤ (x.den : ℚ) := by exact_mod_cast b1
  have b2q : (x.den : ℚ) < (2 : ℚ) ^ (floorLog2 x.den + 1) := by exact_mod_cast b2
  have hp : ∀ k : Nat, (0 : ℚ) < (2 : ℚ) ^ k := fun k => by positivity
  have e1 : ∀ a b : Nat, (2 : ℚ) ^ ((a : Int) - (b : Int)) = (2 : ℚ) ^ a / (2 : ℚ) ^ b := by
    intro a b
    rw [zpow_sub₀ (by norm_num : (2 : ℚ) ≠ 0), zpow_natCast, zpow_natCast]
  have e2 : ∀ a b : Nat, (2 : ℚ) ^ ((a : Int) - (b : Int) + 1) =
      (2 : ℚ) ^ (a + 1) / (2 : ℚ) ^ b := by
    intro a b
    have : (a : Int) - (b : Int) + 1 = ((a + 1 : Nat) : Int) - (b : Int) := by push_cast; ring
    rw [this, e1]
  have e3 : ∀ a b : Nat, (2 : ℚ) ^ ((a : Int) - (b : Int) - 1) =
      (2 : ℚ) ^ a / (2 : ℚ) ^ (b + 1) := by
    intro a b
    have : (a : Int) - (b : Int) - 1 = (a : Int) - ((b + 1 : Nat) : Int) := by push_cast; ring
    rw [this, e1]
  unfold binaryExponent
  simp only
  split
  · rename_i h
    refine ⟨h, ?_⟩
    rw [twoPow_eq_zpow, e2]
    refine lt_of_eq_of_lt hxe ?_
    rw [div_lt_div_iff₀ hdq (hp _)]
    calc (x.num.natAbs : ℚ) * 2 ^ floorLog2 x.den
        ≤ (x.num.natAbs : ℚ) * (x.den : ℚ) :=
          mul_le_mul_of_nonneg_left b1q (by positivity)
      _ < 2 ^ (floorLog2 x.num.natAbs + 1) * (x.den : ℚ) :=
          mul_lt_mul_of_pos_right a2q hdq
  · rename_i h
    constructor
    · rw [twoPow_eq_zpow, e3]
      refine le_of_le_of_eq ?_ hxe.symm
      rw [div_le_div_iff₀ (hp _) hdq]
      calc (2 : ℚ) ^ floorLog2 x.num.natAbs * (x.den : ℚ)
          ≤ (x.num.natAbs : ℚ) * (x.den : ℚ) :=
            mul_le_mul_of_nonneg_right a1q hdq.le
        _ ≤ (x.num.natAbs : ℚ) * 2 ^ (floorLog2 x.den + 1) :=
            mul_le_mul_of_nonneg_left b2q.le (by positivity)
    · have : (floorLog2 x.num.natAbs : Int) - (floorLog2 x.den : Int) - 1 + 1 =
          (floorLog2 x.num.natAbs : Int) - (floorLog2 x.den : Int) := by ring
      rw [this]
      exact not_le.mp h

/-- The integer `roundHalfEven y` is within `1 / 2` of `y`. -/
theorem roundHalfEven_spec (y : ℚ) : |(roundHalfEven y : ℚ) - y| ≤ 1 / 2 := by
  have h1 : ((Rat.floor y : Int) : ℚ) ≤ y := Rat.le_floor.mp (le_refl _)
  have h2 : y < ((Rat.floor y : Int) : ℚ) + 1 := by
    by_contra hc
    have : (Rat.floor y + 1 : Int) ≤ Rat.floor y :=
      Rat.le_floor.mpr (by push_cast; exact not_lt.mp hc)
    omega
  unfold roundHalfEven
  simp only
  rw [abs_le]
  split
  · constructor <;> linarith
  · split
    · push_cast
      constructor <;> linarith
    · split
      · constructor <;> linarith
      · push_cast
        constructor <;> linarith

theorem roundHalfEven_nonneg {y : ℚ} (hy : 0 ≤ y) : 0 ≤ roundHalfEven y := by
  have hn : (0 : Int) ≤ Rat.floor y := Rat.le_floor.mpr (by simpa using hy)
  unfold roundHalfEven
  simp only
  split
  · exact hn
  · split
    · omega
    · split
      · exact hn
      · omega

theorem roundMagnitude_nonneg (p : Nat) (minExp : Int) {x : ℚ} (hx : 0 ≤ x) :
    0 ≤ roundMagnitude p minExp x := by
  unfold roundMagnitude
  split
  · exact le_refl _
  · simp only
    apply mul_nonneg
    · exact_mod_cast roundHalfEven_nonneg (div_nonneg hx (twoPow_pos _).le)
    · exact (twoPow_pos _).le

theorem roundMagnitude_zero (p : Nat) (minExp : Int) : roundMagnitude p minExp 0 = 0 := by
  simp [roundMagnitude]

theorem roundNearest_zero (p : Nat) (minExp : Int) : roundNearest p minExp 0 = 0 := by
  simp [roundNearest, roundMagnitude_zero]

theorem roundNearest_neg (p : Nat) (minExp : Int) (x : ℚ) :
    roundNearest p minExp (-x) = -roundNearest p minExp x := by
  unfold roundNearest
  rcases lt_trichotomy x 0 with h | h | h
  · rw [if_neg (by linarith), if_pos h, neg_neg]
  · subst h
    simp [roundMagnitude_zero]
  · rw [if_pos (by linarith), if_neg (by linarith), neg_neg]

theorem roundNearest_nonneg (p : Nat) (minExp : Int) {x : ℚ} (hx : 0 ≤ x) :
    0 ≤ roundNearest p minExp x := by
  unfold roundNearest
  rw [if_neg (not_lt.mpr hx)]
  exact roundMagnitude_nonneg p minExp hx

theorem twoPow_mono {a b : Int} (h : a ≤ b) : twoPow a ≤ twoPow b := by
  rw [twoPow_eq_zpow, twoPow_eq_zpow]
  exact zpow_le_zpow_right₀ (by norm_num) h

theorem twoPow_le_one {a : Int} (h : a ≤ 0) : twoPow a ≤ 1 := by
  have := twoPow_mono h
  rwa [twoPow_eq_zpow 0, zpow_zero] at this

/-- The result of `roundNearest` is a multiple of the spacing of the format at the binary
exponent of `x`, and it is within half that spacing of `x`. -/
theorem roundNearest_spec (p : Nat) (minExp : Int) {x : ℚ} (hx : x ≠ 0) :
    (∃ n : Int, roundNearest p minExp x =
      (n : ℚ) * twoPow (max (binaryExponent |x| - ((p : Int) - 1)) minExp)) ∧
    |roundNearest p minExp x - x| ≤
      twoPow (max (binaryExponent |x| - ((p : Int) - 1)) minExp) / 2 := by
  have key : ∀ y : ℚ, 0 < y → |roundMagnitude p minExp y - y| ≤
      twoPow (max (binaryExponent y - ((p : Int) - 1)) minExp) / 2 := by
    intro y hy
    unfold roundMagnitude
    rw [if_neg hy.ne']
    simp only
    have hu := twoPow_pos (max (binaryExponent y - ((p : Int) - 1)) minExp)
    have hr := roundHalfEven_spec (y / twoPow (max (binaryExponent y - ((p : Int) - 1)) minExp))
    have : (roundHalfEven (y / twoPow (max (binaryExponent y - ((p : Int) - 1)) minExp)) : ℚ) *
          twoPow (max (binaryExponent y - ((p : Int) - 1)) minExp) - y =
        ((roundHalfEven (y / twoPow (max (binaryExponent y - ((p : Int) - 1)) minExp)) : ℚ) -
          y / twoPow (max (binaryExponent y - ((p : Int) - 1)) minExp)) *
          twoPow (max (binaryExponent y - ((p : Int) - 1)) minExp) := by
      field_simp
    rw [this, abs_mul, abs_of_pos hu]
    calc _ ≤ 1 / 2 * twoPow (max (binaryExponent y - ((p : Int) - 1)) minExp) :=
          mul_le_mul_of_nonneg_right hr hu.le
      _ = _ := by ring
  unfold roundNearest
  split
  · rename_i h
    rw [abs_of_neg h]
    constructor
    · refine ⟨-roundHalfEven
        (-x / twoPow (max (binaryExponent (-x) - ((p : Int) - 1)) minExp)), ?_⟩
      unfold roundMagnitude
      rw [if_neg (by linarith : -x ≠ 0)]
      push_cast
      ring
    · have := key (-x) (by linarith)
      rwa [show -roundMagnitude p minExp (-x) - x = -(roundMagnitude p minExp (-x) - -x) by ring,
        abs_neg]
  · rename_i h
    have hpos : 0 < x := lt_of_le_of_ne (not_lt.mp h) (Ne.symm hx)
    rw [abs_of_pos hpos]
    constructor
    · refine ⟨roundHalfEven (x / twoPow (max (binaryExponent x - ((p : Int) - 1)) minExp)), ?_⟩
      unfold roundMagnitude
      rw [if_neg hx]
    · exact key x hpos

/-- Rounding at most doubles a bound `B ≥ 1` on the magnitude. -/
theorem roundNearest_le (p : Nat) (minExp : Int) (hp : 1 ≤ p) (hmin : minExp ≤ 0) {x B : ℚ}
    (hB : 1 ≤ B) (hx : |x| ≤ B) : |roundNearest p minExp x| ≤ 2 * B := by
  by_cases h0 : x = 0
  · subst h0
    rw [roundNearest_zero, abs_zero]
    linarith
  · have hpos : 0 < |x| := abs_pos.mpr h0
    have herr := (roundNearest_spec p minExp h0).2
    have hulp : twoPow (max (binaryExponent |x| - ((p : Int) - 1)) minExp) ≤ B := by
      rcases max_cases (binaryExponent |x| - ((p : Int) - 1)) minExp with ⟨h, _⟩ | ⟨h, _⟩
      · rw [h]
        calc twoPow (binaryExponent |x| - ((p : Int) - 1))
            ≤ twoPow (binaryExponent |x|) := twoPow_mono (by omega)
          _ ≤ |x| := (binaryExponent_spec hpos).1
          _ ≤ B := hx
      · rw [h]
        exact (twoPow_le_one hmin).trans hB
    have h1 : |roundNearest p minExp x| ≤ |roundNearest p minExp x - x| + |x| := by
      have := abs_add (roundNearest p minExp x - x) x
      rwa [sub_add_cancel] at this
    linarith

theorem roundBinary_isSome (p : Nat) (minExp maxExp : Int) (hp : 1 ≤ p) (hmin : minExp ≤ 0)
    {x B : ℚ} (hB : 1 ≤ B) (hx : |x| ≤ B) (hmax : 2 * B < twoPow maxExp) :
    ∃ y, roundBinary p minExp maxExp x = some y ∧ |y| ≤ 2 * B := by
  have h := roundNearest_le p minExp hp hmin hB hx
  refine ⟨roundNearest p minExp x, ?_, h⟩
  unfold roundBinary
  simp only
  rw [if_neg (not_le.mpr (lt_of_le_of_lt h hmax))]

theorem roundBinary_neg (p : Nat) (minExp maxExp : Int) (x : ℚ) :
    roundBinary p minExp maxExp (-x) = (roundBinary p minExp maxExp x).map fun y => -y := by
  unfold roundBinary
  simp only [roundNearest_neg, abs_neg]
  split <;> rfl

theorem roundBinary_zero (p : Nat) (minExp maxExp : Int) :
    roundBinary p minExp maxExp 0 = some 0 := by
  unfold roundBinary
  simp only [roundNearest_zero, abs_zero]
  rw [if_neg (not_le.mpr (twoPow_pos _))]

theorem roundBinary_nonneg (p : Nat) (minExp maxExp : Int) {x y : ℚ} (hx : 0 ≤ x)
    (h : roundBinary p minExp maxExp x = some y) : 0 ≤ y := by
  unfold roundBinary at h
  simp only at h
  split at h
  · cases h
  · cases h
    exact roundNearest_nonneg p minExp hx

/-- The result of `roundFloat32`, when it is finite, is a multiple of the spacing of the
`float`s at the binary exponent of `x`, within half that spacing of `x`, and below
`2 ^ 128`. -/
theorem roundFloat32_spec {x y : ℚ} (hx : x ≠ 0) (h : roundFloat32 x = some y) :
    (∃ n : Int, y = (n : ℚ) * twoPow (max (binaryExponent |x| - 23) (-149))) ∧
    |y - x| ≤ twoPow (max (binaryExponent |x| - 23) (-149)) / 2 ∧ |y| < twoPow 128 := by
  unfold roundFloat32 roundBinary at h
  simp only at h
  split at h
  · cases h
  · rename_i hlt
    cases h
    obtain ⟨h1, h2⟩ := roundNearest_spec 24 (-149) hx
    exact ⟨h1, h2, not_le.mp hlt⟩

/-! ## C21: `getCellDistance` -/

theorem roundFloat32_neg (x : ℚ) : roundFloat32 (-x) = (roundFloat32 x).map fun y => -y :=
  roundBinary_neg 24 (-149) 128 x

theorem roundFloat32_zero : roundFloat32 0 = some 0 := roundBinary_zero 24 (-149) 128

theorem roundFloat64_zero : roundFloat64 0 = some 0 := roundBinary_zero 53 (-1074) 1024

theorem getCellDistance_comm (fabsOverload : FabsOverload) (packer : IncrementalBELPacker)
    (A B : Location) :
    packer.getCellDistance fabsOverload A B = packer.getCellDistance fabsOverload B A := by
  have hx : roundFloat32 (B.X - A.X) = (roundFloat32 (A.X - B.X)).map fun y => -y := by
    rw [← roundFloat32_neg, neg_sub]
  have hy : roundFloat32 (B.Y - A.Y) = (roundFloat32 (A.Y - B.Y)).map fun y => -y := by
    rw [← roundFloat32_neg, neg_sub]
  simp only [IncrementalBELPacker.getCellDistance, hx, hy]
  cases roundFloat32 (A.X - B.X) with
  | none => rfl
  | some dx =>
    cases roundFloat32 (A.Y - B.Y) with
    | none => rfl
    | some dy => simp only [Option.map_some', Option.some_bind, abs_neg]

theorem getCellDistance_self (fabsOverload : FabsOverload) (packer : IncrementalBELPacker)
    (A : Location) : packer.getCellDistance fabsOverload A A = some 0 := by
  cases fabsOverload <;>
    simp [IncrementalBELPacker.getCellDistance, roundFloat32_zero, roundFloat64_zero]

theorem getCellDistance_nonneg (fabsOverload : FabsOverload) (packer : IncrementalBELPacker)
    (h0 : 0 ≤ packer.y2xRatio) (A B : Location) (d : ℚ)
    (h : packer.getCellDistance fabsOverload A B = some d) : 0 ≤ d := by
  simp only [IncrementalBELPacker.getCellDistance, Option.bind_eq_some] at h
  obtain ⟨dx, -, dy, -, h⟩ := h
  cases fabsOverload with
  | float =>
    simp only [Option.bind_eq_some] at h
    obtain ⟨prod, hprod, hsum⟩ := h
    have h1 := roundBinary_nonneg 24 (-149) 128 (mul_nonneg h0 (abs_nonneg dy)) hprod
    exact roundBinary_nonneg 24 (-149) 128 (add_nonneg (abs_nonneg dx) h1) hsum
  | double =>
    simp only [Option.bind_eq_some] at h
    obtain ⟨prod, hprod, sum, hsum, hd⟩ := h
    have h1 := roundBinary_nonneg 53 (-1074) 1024 (mul_nonneg h0 (abs_nonneg dy)) hprod
    have h2 := roundBinary_nonneg 53 (-1074) 1024 (add_nonneg (abs_nonneg dx) h1) hsum
    exact roundBinary_nonneg 24 (-149) 128 h2 hd

/-- The distance is a finite number when the two differences of the coordinates are at most
`2 ^ 100` and `y2xRatio` is at most `2 ^ 20` in magnitude. -/
theorem getCellDistance_isSome (fabsOverload : FabsOverload) (packer : IncrementalBELPacker)
    (A B : Location) (hx : |A.X - B.X| ≤ 2 ^ 100) (hy : |A.Y - B.Y| ≤ 2 ^ 100)
    (hr : |packer.y2xRatio| ≤ 2 ^ 20) :
    ∃ d, packer.getCellDistance fabsOverload A B = some d := by
  have e128 : twoPow 128 = 2 ^ 128 := by rw [twoPow_eq_zpow]; norm_cast
  have big : twoPow 128 ≤ twoPow 1024 := twoPow_mono (by norm_num)
  obtain ⟨dx, hdx, bdx⟩ := roundBinary_isSome 24 (-149) 128 (by norm_num) (by norm_num)
    (by norm_num : (1 : ℚ) ≤ 2 ^ 100) hx (by rw [e128]; norm_num)
  obtain ⟨dy, hdy, bdy⟩ := roundBinary_isSome 24 (-149) 128 (by norm_num) (by norm_num)
    (by norm_num : (1 : ℚ) ≤ 2 ^ 100) hy (by rw [e128]; norm_num)
  have hprodB : abs (packer.y2xRatio * abs dy) ≤ 2 ^ 121 := by
    rw [abs_mul, abs_abs]
    calc |packer.y2xRatio| * |dy| ≤ 2 ^ 20 * (2 * 2 ^ 100) :=
          mul_le_mul hr bdy (abs_nonneg _) (by norm_num)
      _ = 2 ^ 121 := by norm_num
  have hsumB : ∀ prod : ℚ, |prod| ≤ 2 * 2 ^ 121 → abs (abs dx + prod) ≤ 2 ^ 123 := by
    intro prod hprod
    calc abs (abs dx + prod) ≤ abs (abs dx) + |prod| := abs_add _ _
      _ ≤ 2 * 2 ^ 100 + 2 * 2 ^ 121 := by rw [abs_abs]; exact add_le_add bdx hprod
      _ ≤ 2 ^ 123 := by norm_num
  simp only [IncrementalBELPacker.getCellDistance]
  rw [show roundFloat32 (A.X - B.X) = some dx from hdx,
    show roundFloat32 (A.Y - B.Y) = some dy from hdy]
  simp only [Option.some_bind]
  cases fabsOverload with
  | float =>
    obtain ⟨prod, hprod, bprod⟩ := roundBinary_isSome 24 (-149) 128 (by norm_num)
      (by norm_num) (by norm_num : (1 : ℚ) ≤ 2 ^ 121) hprodB (by rw [e128]; norm_num)
    obtain ⟨sum, hsum, -⟩ := roundBinary_isSome 24 (-149) 128 (by norm_num)
      (by norm_num) (by norm_num : (1 : ℚ) ≤ 2 ^ 123) (hsumB prod bprod)
      (by rw [e128]; norm_num)
    refine ⟨sum, ?_⟩
    simp only
    rw [show roundFloat32 (packer.y2xRatio * |dy|) = some prod from hprod]
    exact hsum
  | double =>
    obtain ⟨prod, hprod, bprod⟩ := roundBinary_isSome 53 (-1074) 1024 (by norm_num)
      (by norm_num) (by norm_num : (1 : ℚ) ≤ 2 ^ 121) hprodB (lt_of_lt_of_le (by rw [e128]; norm_num) big)
    obtain ⟨sum, hsum, bsum⟩ := roundBinary_isSome 53 (-1074) 1024 (by norm_num)
      (by norm_num) (by norm_num : (1 : ℚ) ≤ 2 ^ 123) (hsumB prod bprod)
      (lt_of_lt_of_le (by rw [e128]; norm_num) big)
    obtain ⟨d, hd, -⟩ := roundBinary_isSome 24 (-149) 128 (by norm_num)
      (by norm_num) (by norm_num : (1 : ℚ) ≤ 2 * 2 ^ 123) bsum (by rw [e128]; norm_num)
    refine ⟨d, ?_⟩
    simp only
    rw [show roundFloat64 (packer.y2xRatio * |dy|) = some prod from hprod]
    simp only [Option.some_bind]
    rw [show roundFloat64 (|dx| + prod) = some sum from hsum]
    exact hd

/-- The three distances between `(0, 0)`, `(96, 2⁻¹⁸)` and `(192 + 2⁻¹⁶, 2⁻¹⁷)` with
`y2xRatio = 1` are `96`, `96 + 2⁻¹⁶` and `192 + 2⁻¹⁵`, whichever function `fabs` is. -/
theorem getCellDistance_threePoints (fabsOverload : FabsOverload) :
    ({} : IncrementalBELPacker).getCellDistance fabsOverload
        { X := 0, Y := 0 } { X := 96, Y := 1 / 262144 } = some 96 ∧
    ({} : IncrementalBELPacker).getCellDistance fabsOverload
        { X := 96, Y := 1 / 262144 } { X := 12582913 / 65536, Y := 1 / 131072 } =
      some (6291457 / 65536) ∧
    ({} : IncrementalBELPacker).getCellDistance fabsOverload
        { X := 0, Y := 0 } { X := 12582913 / 65536, Y := 1 / 131072 } =
      some (6291457 / 32768) := by
  cases fabsOverload <;> decide!

/-- C21 (as stated, refuted): with the default `y2xRatio = 1` and the locations `A = (0, 0)`,
`B = (96, 2⁻¹⁸)`, `C = (192 + 2⁻¹⁶, 2⁻¹⁷)`, whose coordinates are `float`s, the distances are
`d(A, B) = 96`, `d(B, C) = 96 + 2⁻¹⁶` and `d(A, C) = 192 + 2⁻¹⁵`, whichever function `fabs`
is, so that `d(A, C)` is larger than `d(A, B) + d(B, C)`, whether that sum is exact or
rounded to `float`. -/
theorem getCellDistance_triangle_fails :
    newIncrementalBELPacker stofSample [] = some {} ∧
    (0 : ℚ) ≤ ({} : IncrementalBELPacker).y2xRatio ∧
    (roundFloat32 0 = some 0 ∧ roundFloat32 96 = some 96 ∧
      roundFloat32 (1 / 262144) = some (1 / 262144) ∧
      roundFloat32 (12582913 / 65536) = some (12582913 / 65536) ∧
      roundFloat32 (1 / 131072) = some (1 / 131072)) ∧
    (∀ fabsOverload : FabsOverload,
      ({} : IncrementalBELPacker).getCellDistance fabsOverload
          { X := 0, Y := 0 } { X := 96, Y := 1 / 262144 } = some 96 ∧
      ({} : IncrementalBELPacker).getCellDistance fabsOverload
          { X := 96, Y := 1 / 262144 } { X := 12582913 / 65536, Y := 1 / 131072 } =
        some (6291457 / 65536) ∧
      ({} : IncrementalBELPacker).getCellDistance fabsOverload
          { X := 0, Y := 0 } { X := 12582913 / 65536, Y := 1 / 131072 } =
        some (6291457 / 32768)) ∧
    ¬ ((6291457 / 32768 : ℚ) ≤ 96 + 6291457 / 65536) ∧
    roundFloat32 (96 + 6291457 / 65536) = some (12582913 / 65536) ∧
    ¬ ((6291457 / 32768 : ℚ) ≤ 12582913 / 65536) :=
  ⟨rfl, by decide!, by decide!, getCellDistance_threePoints, by decide!, by decide!,
    by decide!⟩

/-- C21 (amended): a packer constructed from a configuration without the key `y2xRatio` has
`y2xRatio = 1`; with the key it has `std::stof` of the value.  For every packer, and
whichever function `fabs` is, `getCellDistance(A, B)` is
`|A.X - B.X| + y2xRatio * |A.Y - B.Y|` evaluated in floating point (the differences rounded
to `float`; the product and the sum rounded to `float`, or rounded to `double` and the sum
then to `float`), and it is the exact value of that formula when no operation rounds; with `y2xRatio = 2` the distance between `(0, 0)`
and `(10, 5)` is 20; the distance is symmetric (the two results are the same finite number,
or neither is a finite number) and zero on identical locations; for `y2xRatio ≥ 0` a finite
distance is not negative; and the distance is finite when the differences of the coordinates
are at most `2 ^ 100` and `y2xRatio` is at most `2 ^ 20` in magnitude.  For `y2xRatio ≥ 0`
the exact value of the formula satisfies the triangle inequality, but the returned distance
does not: there are a packer with `y2xRatio ≥ 0` and locations `A`, `B`, `C` with `float`
coordinates for which `getCellDistance(A, C)` exceeds
`getCellDistance(A, B) + getCellDistance(B, C)`. -/
theorem getCellDistance_spec (stof : String → Option ℚ) (JSONCfg : List (String × String)) :
    (jsonHas JSONCfg "y2xRatio" = false →
      newIncrementalBELPacker stof JSONCfg = some { y2xRatio := 1 }) ∧
    (∀ r : ℚ, jsonHas JSONCfg "y2xRatio" = true →
      stof (jsonValue JSONCfg "y2xRatio") = some r →
      newIncrementalBELPacker stof JSONCfg = some { y2xRatio := r }) ∧
    (∀ packer : IncrementalBELPacker,
      (∀ (A B : Location) (dx dy prod : ℚ),
        roundFloat32 (A.X - B.X) = some dx → roundFloat32 (A.Y - B.Y) = some dy →
        roundFloat32 (packer.y2xRatio * |dy|) = some prod →
        packer.getCellDistance .float A B = roundFloat32 (|dx| + prod)) ∧
      (∀ (A B : Location) (dx dy prod sum : ℚ),
        roundFloat32 (A.X - B.X) = some dx → roundFloat32 (A.Y - B.Y) = some dy →
        roundFloat64 (packer.y2xRatio * |dy|) = some prod →
        roundFloat64 (|dx| + prod) = some sum →
        packer.getCellDistance .double A B = roundFloat32 sum) ∧
      (∀ A B : Location,
        roundFloat32 (A.X - B.X) = some (A.X - B.X) →
        roundFloat32 (A.Y - B.Y) = some (A.Y - B.Y) →
        roundFloat32 (packer.y2xRatio * |A.Y - B.Y|) = some (packer.y2xRatio * |A.Y - B.Y|) →
        roundFloat32 (|A.X - B.X| + packer.y2xRatio * |A.Y - B.Y|) =
          some (|A.X - B.X| + packer.y2xRatio * |A.Y - B.Y|) →
        packer.getCellDistance .float A B =
          some (|A.X - B.X| + packer.y2xRatio * |A.Y - B.Y|)) ∧
      (∀ A B : Location,
        roundFloat32 (A.X - B.X) = some (A.X - B.X) →
        roundFloat32 (A.Y - B.Y) = some (A.Y - B.Y) →
        roundFloat64 (packer.y2xRatio * |A.Y - B.Y|) = some (packer.y2xRatio * |A.Y - B.Y|) →
        roundFloat64 (|A.X - B.X| + packer.y2xRatio * |A.Y - B.Y|) =
          some (|A.X - B.X| + packer.y2xRatio * |A.Y - B.Y|) →
        roundFloat32 (|A.X - B.X| + packer.y2xRatio * |A.Y - B.Y|) =
          some (|A.X - B.X| + packer.y2xRatio * |A.Y - B.Y|) →
        packer.getCellDistance .double A B =
          some (|A.X - B.X| + packer.y2xRatio * |A.Y - B.Y|)) ∧
      ∀ fabsOverload : FabsOverload,
        (packer.y2xRatio = 2 →
          packer.getCellDistance fabsOverload { X := 0, Y := 0 } { X := 10, Y := 5 } =
            some 20) ∧
        (∀ A B : Location,
          packer.getCellDistance fabsOverload A B = packer.getCellDistance fabsOverload B A ∧
          packer.getCellDistance fabsOverload A A = some 0) ∧
        (∀ A B : Location, |A.X - B.X| ≤ 2 ^ 100 → |A.Y - B.Y| ≤ 2 ^ 100 →
          |packer.y2xRatio| ≤ 2 ^ 20 →
          ∃ d, packer.getCellDistance fabsOverload A B = some d) ∧
        (0 ≤ packer.y2xRatio → ∀ A B C : Location,
          (∀ d, packer.getCellDistance fabsOverload A B = some d → 0 ≤ d) ∧
          specCellDistance packer.y2xRatio A B =
            |A.X - B.X| + packer.y2xRatio * |A.Y - B.Y| ∧
          specCellDistance packer.y2xRatio A C ≤
            specCellDistance packer.y2xRatio A B + specCellDistance packer.y2xRatio B C)) ∧
    ∃ (packer : IncrementalBELPacker) (A B C : Location) (dAB dBC dAC : ℚ),
      0 ≤ packer.y2xRatio ∧
      (roundFloat32 A.X = some A.X ∧ roundFloat32 A.Y = some A.Y ∧
        roundFloat32 B.X = some B.X ∧ roundFloat32 B.Y = some B.Y ∧
        roundFloat32 C.X = some C.X ∧ roundFloat32 C.Y = some C.Y) ∧
      (∀ fabsOverload : FabsOverload,
        packer.getCellDistance fabsOverload A B = some dAB ∧
        packer.getCellDistance fabsOverload B C = some dBC ∧
        packer.getCellDistance fabsOverload A C = some dAC) ∧
      dAB + dBC < dAC := by
  refine ⟨?_, ?_, ?_, ?_⟩
  · intro h
    simp [newIncrementalBELPacker, h]
  · intro r h hr
    simp [newIncrementalBELPacker, h, hr]
  · intro packer
    refine ⟨?_, ?_, ?_, ?_, ?_⟩
    · intro A B dx dy prod hx hy hm
      simp only [IncrementalBELPacker.getCellDistance, hx, hy, Option.some_bind, hm]
    · intro A B dx dy prod sum hx hy hm hs
      simp only [IncrementalBELPacker.getCellDistance, hx, hy, Option.some_bind, hm, hs]
    · intro A B hx hy hm hs
      simp only [IncrementalBELPacker.getCellDistance, hx, hy, Option.some_bind, hm, hs]
    · intro A B hx hy hm hs hd
      simp only [IncrementalBELPacker.getCellDistance, hx, hy, Option.some_bind, hm, hs, hd]
    · intro fabsOverload
      refine ⟨?_, ?_, ?_, ?_⟩
      · intro h2
        have h : packer = { y2xRatio := 2 } := by
          cases packer
          simp_all
        subst h
        cases fabsOverload <;> decide!
      · intro A B
        exact ⟨getCellDistance_comm fabsOverload packer A B,
          getCellDistance_self fabsOverload packer A⟩
      · intro A B hx hy hr
        exact getCellDistance_isSome fabsOverload packer A B hx hy hr
      · intro h0 A B C
        refine ⟨getCellDistance_nonneg fabsOverload packer h0 A B, rfl, ?_⟩
        simp only [specCellDistance]
        have hx : |A.X - C.X| ≤ |A.X - B.X| + |B.X - C.X| := abs_sub_le _ _ _
        have hy : |A.Y - C.Y| ≤ |A.Y - B.Y| + |B.Y - C.Y| := abs_sub_le _ _ _
        have hy' := mul_le_mul_of_nonneg_left hy h0
        linarith
  · exact ⟨{}, { X := 0, Y := 0 }, { X := 96, Y := 1 / 262144 },
      { X := 12582913 / 65536, Y := 1 / 131072 }, 96, 6291457 / 65536, 6291457 / 32768,
      by decide!, by decide!, getCellDistance_threePoints, by norm_num⟩

/-- C21 (amended), on the configuration that holds `y2xRatio = "2"`: the packer is constructed
with `y2xRatio = 2`, its distance between `(0, 0)` and `(10, 5)` is 20, and its distance
between `(0, 0)` and `(1 / 3, 1 / 10)`, where the operations round, is a finite number that
is not negative. -/
theorem getCellDistance_spec_witness :
    newIncrementalBELPacker stofSample [("y2xRatio", "2")] = some { y2xRatio := 2 } ∧
    ({ y2xRatio := 2 } : IncrementalBELPacker).getCellDistance .float
      { X := 0, Y := 0 } { X := 10, Y := 5 } = some 20 ∧
    (∃ d, ({ y2xRatio := 2 } : IncrementalBELPacker).getCellDistance .float
      { X := 0, Y := 0 } { X := 1 / 3, Y := 1 / 10 } = some d) ∧
    (∀ d, ({ y2xRatio := 2 } : IncrementalBELPacker).getCellDistance .float
      { X := 0, Y := 0 } { X := 1 / 3, Y := 1 / 10 } = some d → 0 ≤ d) :=
  ⟨(getCellDistance_spec stofSample [("y2xRatio", "2")]).2.1 2 (by decide) (by decide),
    (((getCellDistance_spec stofSample [("y2xRatio", "2")]).2.2.1
      { y2xRatio := 2 }).2.2.2.2 .float).1 rfl,
    (((getCellDistance_spec stofSample [("y2xRatio", "2")]).2.2.1
      { y2xRatio := 2 }).2.2.2.2 .float).2.2.1 { X := 0, Y := 0 } { X := 1 / 3, Y := 1 / 10 }
      (by norm_num [abs_le]) (by norm_num [abs_le]) (by norm_num [abs_le]),
    ((((getCellDistance_spec stofSample [("y2xRatio", "2")]).2.2.1
      { y2xRatio := 2 }).2.2.2.2 .float).2.2.2 (by decide!)
      { X := 0, Y := 0 } { X := 1 / 3, Y := 1 / 10 } { X := 0, Y := 0 }).1⟩

/-! ## Lemmas on `findALoopFromNode` -/

theorem edgeEnters_unique {g : TimingGraph} {outEdge : Nat} {v : Int} {edge : TimingEdge}
    {sink next : TimingNode} (he : g.edges[outEdge]? = some edge)
    (hs : g.nodes[edge.getSink]? = some sink) (hn : vecAt g.nodes sink.getId = some next)
    (h : EdgeEnters g outEdge v) : v = sink.getId ∧ next.checkIsRegister = false := by
  obtain ⟨edge', sink', next', he', hs', hv, hn', hreg⟩ := h
  rw [he] at he'
  cases he'
  rw [hs] at hs'
  cases hs'
  subst hv
  rw [hn] at hn'
  cases hn'
  exact ⟨rfl, hreg⟩

theorem findALoopEdges_spec (g : TimingGraph)
    (call : List Int → Int → Int → Int → LoopSearch) (startNode level : Int)
    (hcall : ∀ (path : List Int) (v : Int),
      (∀ p', call path startNode v (level + 1) = .returned p' →
        p' = path ∧ v ≠ startNode ∧ ∀ w, List.Chain (LoopStep g) v w → startNode ∉ w) ∧
      (∀ printed, call path startNode v (level + 1) = .exited printed →
        ∃ w, printed = path ++ w ∧ List.Chain (LoopStep g) v w ∧
          (v :: w).getLast? = some startNode)) :
    ∀ (edges : List Nat) (path : List Int),
      (∀ p', findALoopEdges g call startNode level edges path = .returned p' →
        p' = path ∧ ∀ outEdge ∈ edges, ∀ v, EdgeEnters g outEdge v →
          v ≠ startNode ∧ ∀ w, List.Chain (LoopStep g) v w → startNode ∉ w) ∧
      (∀ printed, findALoopEdges g call startNode level edges path = .exited printed →
        ∃ outEdge ∈ edges, ∃ v w, EdgeEnters g outEdge v ∧ printed = path ++ v :: w ∧
          List.Chain (LoopStep g) v w ∧ (v :: w).getLast? = some startNode)
  | [], path => by
    constructor
    · intro p' h
      simp only [findALoopEdges, LoopSearch.returned.injEq] at h
      exact ⟨h.symm, fun _ hmem => absurd hmem (List.not_mem_nil _)⟩
    · intro printed h
      simp [findALoopEdges] at h
  | e :: rest, path => by
    have ih := findALoopEdges_spec g call startNode level hcall rest path
    cases he : g.edges[e]? with
    | none => simp [findALoopEdges, he]
    | some edge =>
      cases hs : g.nodes[edge.getSink]? with
      | none => simp [findALoopEdges, he, hs]
      | some sink =>
        cases hn : vecAt g.nodes sink.getId with
        | none => simp [findALoopEdges, he, hs, hn]
        | some next =>
          cases hreg : next.checkIsRegister with
          | true =>
            have hres : findALoopEdges g call startNode level (e :: rest) path =
                findALoopEdges g call startNode level rest path := by
              simp [findALoopEdges, he, hs, hn, hreg]
            rw [hres]
            constructor
            · intro p' h
              obtain ⟨hp, hall⟩ := ih.1 p' h
              refine ⟨hp, ?_⟩
              intro outEdge hmem v hv
              rcases List.mem_cons.mp hmem with rfl | hmem
              · have := (edgeEnters_unique he hs hn hv).2
                rw [hreg] at this
                cases this
              · exact hall outEdge hmem v hv
            · intro printed h
              obtain ⟨outEdge, hmem, rest'⟩ := ih.2 printed h
              exact ⟨outEdge, List.mem_cons_of_mem _ hmem, rest'⟩
          | false =>
            have henter : EdgeEnters g e sink.getId := ⟨edge, sink, next, he, hs, rfl, hn, hreg⟩
            cases hr : call (path ++ [sink.getId]) startNode sink.getId (level + 1) with
            | returned p2 =>
              obtain ⟨hp2, hne, hwalk⟩ := (hcall _ _).1 p2 hr
              have hres : findALoopEdges g call startNode level (e :: rest) path =
                  findALoopEdges g call startNode level rest path := by
                simp [findALoopEdges, he, hs, hn, hreg, hr, hp2]
              rw [hres]
              constructor
              · intro p' h
                obtain ⟨hp, hall⟩ := ih.1 p' h
                refine ⟨hp, ?_⟩
                intro outEdge hmem v hv
                rcases List.mem_cons.mp hmem with rfl | hmem
                · rw [(edgeEnters_unique he hs hn hv).1]
                  exact ⟨hne, hwalk⟩
                · exact hall outEdge hmem v hv
              · intro printed h
                obtain ⟨outEdge, hmem, rest'⟩ := ih.2 printed h
                exact ⟨outEdge, List.mem_cons_of_mem _ hmem, rest'⟩
            | exited printed2 =>
              have hres : findALoopEdges g call startNode level (e :: rest) path =
                  .exited printed2 := by
                simp [findALoopEdges, he, hs, hn, hreg, hr]
              rw [hres]
              constructor
              · intro p' h
                cases h
              · intro printed h
                have hpp : printed2 = printed := by injection h
                subst hpp
                obtain ⟨w, hp, hchain, hlast⟩ := (hcall _ _).2 printed2 hr
                exact ⟨e, List.mem_cons_self _ _, sink.getId, w, henter,
                  by rw [hp, List.append_assoc]; rfl, hchain, hlast⟩
            | undefined =>
              have hres : findALoopEdges g call startNode level (e :: rest) path =
                  .undefined := by
                simp [findALoopEdges, he, hs, hn, hreg, hr]
              rw [hres]
              exact ⟨fun _ h => (nomatch h), fun _ h => (nomatch h)⟩
            | outOfFuel =>
              have hres : findALoopEdges g call startNode level (e :: rest) path =
                  .outOfFuel := by
                simp [findALoopEdges, he, hs, hn, hreg, hr]
              rw [hres]
              exact ⟨fun _ h => (nomatch h), fun _ h => (nomatch h)⟩

theorem findALoopFromNode_spec (g : TimingGraph) (startNode : Int) :
    ∀ (fuel : Nat) (path : List Int) (curNode level : Int), 0 ≤ level →
      (∀ p', findALoopFromNode g fuel path startNode curNode level = .returned p' →
        p' = path ∧ ¬ (level > 0 ∧ curNode = startNode) ∧
          ∀ w, List.Chain (LoopStep g) curNode w → startNode ∉ w) ∧
      (∀ printed, findALoopFromNode g fuel path startNode curNode level = .exited printed →
        ∃ w, printed = path ++ w ∧ List.Chain (LoopStep g) curNode w ∧
          ((w = [] ∧ level > 0 ∧ curNode = startNode) ∨ w.getLast? = some startNode))
  | 0, path, curNode, level, _ => by
    simp [findALoopFromNode]
  | fuel + 1, path, curNode, level, hlevel => by
    by_cases hexit : level > 0 ∧ curNode = startNode
    · have hres : findALoopFromNode g (fuel + 1) path startNode curNode level =
          if (path.all fun nodeId => (vecAt g.nodes nodeId).isSome) = true then .exited path
          else .undefined := by
        simp only [findALoopFromNode, if_pos hexit]
      rw [hres]
      constructor
      · intro p' h
        split at h <;> cases h
      · intro printed h
        split at h
        · cases h
          exact ⟨[], by simp, List.Chain.nil, Or.inl ⟨rfl, hexit⟩⟩
        · cases h
    · cases hnode : vecAt g.nodes curNode with
      | none =>
        have hres : findALoopFromNode g (fuel + 1) path startNode curNode level =
            .undefined := by
          simp only [findALoopFromNode, if_neg hexit, hnode]
        rw [hres]
        exact ⟨fun _ h => (nomatch h), fun _ h => (nomatch h)⟩
      | some node =>
        have hres : findALoopFromNode g (fuel + 1) path startNode curNode level =
            findALoopEdges g (findALoopFromNode g fuel) startNode level node.getOutEdges
              path := by
          simp only [findALoopFromNode, if_neg hexit, hnode]
        rw [hres]
        have hcall : ∀ (path : List Int) (v : Int),
            (∀ p', findALoopFromNode g fuel path startNode v (level + 1) = .returned p' →
              p' = path ∧ v ≠ startNode ∧
                ∀ w, List.Chain (LoopStep g) v w → startNode ∉ w) ∧
            (∀ printed,
              findALoopFromNode g fuel path startNode v (level + 1) = .exited printed →
              ∃ w, printed = path ++ w ∧ List.Chain (LoopStep g) v w ∧
                (v :: w).getLast? = some startNode) := by
          intro path' v
          obtain ⟨h1, h2⟩ := findALoopFromNode_spec g startNode fuel path' v (level + 1)
            (by omega)
          constructor
          · intro p' h
            obtain ⟨hp, hne, hw⟩ := h1 p' h
            exact ⟨hp, fun hv => hne ⟨by omega, hv⟩, hw⟩
          · intro printed h
            obtain ⟨w, hp, hchain, hlast⟩ := h2 printed h
            refine ⟨w, hp, hchain, ?_⟩
            rcases hlast with ⟨rfl, _, rfl⟩ | hlast
            · rfl
            · cases w with
              | nil => simp at hlast
              | cons a w' =>
                rw [List.getLast?_cons_cons]
                exact hlast
        obtain ⟨h1, h2⟩ := findALoopEdges_spec g (findALoopFromNode g fuel) startNode level
          hcall node.getOutEdges path
        constructor
        · intro p' h
          obtain ⟨hp, hall⟩ := h1 p' h
          refine ⟨hp, hexit, ?_⟩
          intro w hchain
          cases w with
          | nil => simp
          | cons v w' =>
            obtain ⟨hstep, hrest⟩ := List.chain_cons.mp hchain
            obtain ⟨node', hnode', outEdge, hmem, henter⟩ := hstep
            rw [hnode] at hnode'
            cases hnode'
            obtain ⟨hne, hw⟩ := hall outEdge hmem v henter
            intro hmem'
            rcases List.mem_cons.mp hmem' with h | h
            · exact hne h.symm
            · exact hw w' hrest h
        · intro printed h
          obtain ⟨outEdge, hmem, v, w, henter, hp, hchain, hlast⟩ := h2 printed h
          exact ⟨v :: w, hp, List.chain_cons.mpr ⟨⟨node, hnode, outEdge, hmem, henter⟩, hchain⟩,
            Or.inr hlast⟩

theorem findALoopFromNode_diverges (g : TimingGraph) (startNode a : Int)
    (nodeA : TimingNode) (eA : Nat) (edgeA : TimingEdge) (hne : a ≠ startNode)
    (hnodeA : vecAt g.nodes a = some nodeA) (houtA : nodeA.getOutEdges = [eA])
    (hedgeA : g.edges[eA]? = some edgeA) (hsinkA : g.nodes[edgeA.getSink]? = some nodeA)
    (hidA : nodeA.getId = a) (hregA : nodeA.checkIsRegister = false) :
    ∀ (fuel : Nat) (path : List Int) (level : Int),
      findALoopFromNode g fuel path startNode a level = .outOfFuel
  | 0, _, _ => rfl
  | fuel + 1, path, level => by
    have ih := findALoopFromNode_diverges g startNode a nodeA eA edgeA hne hnodeA houtA hedgeA
      hsinkA hidA hregA fuel (path ++ [a]) (level + 1)
    simp only [findALoopFromNode]
    rw [if_neg (fun h => hne h.2)]
    simp only [hnodeA, houtA, findALoopEdges, hedgeA, hsinkA, hidA, hregA, Bool.not_false,
      if_true, ih]

theorem findALoopFromNode_diverges_from (g : TimingGraph) (startNode a : Int)
    (nodeS nodeA : TimingNode) (eS eA : Nat) (restS : List Nat) (edgeS edgeA : TimingEdge)
    (hne : a ≠ startNode) (hnodeS : vecAt g.nodes startNode = some nodeS)
    (houtS : nodeS.getOutEdges = eS :: restS) (hedgeS : g.edges[eS]? = some edgeS)
    (hsinkS : g.nodes[edgeS.getSink]? = some nodeA)
    (hnodeA : vecAt g.nodes a = some nodeA) (houtA : nodeA.getOutEdges = [eA])
    (hedgeA : g.edges[eA]? = some edgeA) (hsinkA : g.nodes[edgeA.getSink]? = some nodeA)
    (hidA : nodeA.getId = a) (hregA : nodeA.checkIsRegister = false) :
    ∀ (fuel : Nat) (path : List Int),
      findALoopFromNode g fuel path startNode startNode 0 = .outOfFuel
  | 0, _ => rfl
  | fuel + 1, path => by
    have h := findALoopFromNode_diverges g startNode a nodeA eA edgeA hne hnodeA houtA hedgeA
      hsinkA hidA hregA fuel (path ++ [a]) (0 + 1)
    simp only [findALoopFromNode]
    rw [if_neg (fun h => absurd h.1 (lt_irrefl _))]
    simp only [hnodeS, houtS, findALoopEdges, hedgeS, hsinkS, hidA, hnodeA, hregA,
      Bool.not_false, if_true, h]

theorem findALoopEdges_returned_calls (g : TimingGraph)
    (call : List Int → Int → Int → Int → LoopSearch) (startNode level : Int) :
    ∀ (edges : List Nat) (path : List Int) (p' : List Int),
      findALoopEdges g call startNode level edges path = .returned p' →
      ∀ outEdge ∈ edges, ∀ v, EdgeEnters g outEdge v →
        ∃ path2 p2, call path2 startNode v (level + 1) = .returned p2
  | [], _, _, _ => fun _ hmem => absurd hmem (List.not_mem_nil _)
  | e :: rest, path, p', h => by
    cases he : g.edges[e]? with
    | none => simp [findALoopEdges, he] at h
    | some edge =>
      cases hs : g.nodes[edge.getSink]? with
      | none => simp [findALoopEdges, he, hs] at h
      | some sink =>
        cases hn : vecAt g.nodes sink.getId with
        | none => simp [findALoopEdges, he, hs, hn] at h
        | some next =>
          cases hreg : next.checkIsRegister with
          | true =>
            have hres : findALoopEdges g call startNode level (e :: rest) path =
                findALoopEdges g call startNode level rest path := by
              simp [findALoopEdges, he, hs, hn, hreg]
            rw [hres] at h
            intro outEdge hmem v hv
            rcases List.mem_cons.mp hmem with rfl | hmem
            · have := (edgeEnters_unique he hs hn hv).2
              rw [hreg] at this
              cases this
            · exact findALoopEdges_returned_calls g call startNode level rest path p' h
                outEdge hmem v hv
          | false =>
            cases hr : call (path ++ [sink.getId]) startNode sink.getId (level + 1) with
            | returned p2 =>
              have hres : findALoopEdges g call startNode level (e :: rest) path =
                  findALoopEdges g call startNode level rest p2.dropLast := by
                simp [findALoopEdges, he, hs, hn, hreg, hr]
              rw [hres] at h
              intro outEdge hmem v hv
              rcases List.mem_cons.mp hmem with rfl | hmem
              · rw [(edgeEnters_unique he hs hn hv).1]
                exact ⟨_, _, hr⟩
              · exact findALoopEdges_returned_calls g call startNode level rest _ p' h
                  outEdge hmem v hv
            | exited printed2 => simp [findALoopEdges, he, hs, hn, hreg, hr] at h
            | undefined => simp [findALoopEdges, he, hs, hn, hreg, hr] at h
            | outOfFuel => simp [findALoopEdges, he, hs, hn, hreg, hr] at h

/-- A search that returns has followed every walk from `curNode` to its end: each walk is
shorter than the depth the search was allowed. -/
theorem findALoopFromNode_returned_depth (g : TimingGraph) (startNode : Int) :
    ∀ (fuel : Nat) (path : List Int) (curNode level : Int) (p' : List Int),
      findALoopFromNode g fuel path startNode curNode level = .returned p' →
      ∀ w, List.Chain (LoopStep g) curNode w → w.length < fuel
  | 0, _, _, _, _, h => by simp [findALoopFromNode] at h
  | fuel + 1, path, curNode, level, p', h => by
    intro w hchain
    cases w with
    | nil => simp
    | cons v w' =>
      obtain ⟨hstep, hrest⟩ := List.chain_cons.mp hchain
      obtain ⟨node, hnode, outEdge, hmem, henter⟩ := hstep
      by_cases hexit : level > 0 ∧ curNode = startNode
      · simp only [findALoopFromNode, if_pos hexit] at h
        split at h <;> cases h
      · simp only [findALoopFromNode, if_neg hexit, hnode] at h
        obtain ⟨path2, p2, hcall⟩ := findALoopEdges_returned_calls g (findALoopFromNode g fuel)
          startNode level node.getOutEdges path p' h outEdge hmem v henter
        have := findALoopFromNode_returned_depth g startNode fuel path2 v (level + 1) p2 hcall
          w' hrest
        simp only [List.length_cons]
        omega

theorem exists_repeat : ∀ l : List Int, ¬ l.Nodup →
    ∃ l1 v l2 l3, l = l1 ++ v :: (l2 ++ v :: l3)
  | [], h => absurd List.nodup_nil h
  | a :: t, h => by
    by_cases ha : a ∈ t
    · obtain ⟨l2, l3, rfl⟩ := List.append_of_mem ha
      exact ⟨[], a, l2, l3, rfl⟩
    · have ht : ¬ t.Nodup := fun hn => h (List.nodup_cons.mpr ⟨ha, hn⟩)
      obtain ⟨l1, v, l2, l3, rfl⟩ := exists_repeat t ht
      exact ⟨a :: l1, v, l2, l3, rfl⟩

/-- A walk that comes to a node twice gives walks of every length. -/
theorem walk_pump (g : TimingGraph) (s : Int) (w : List Int)
    (hchain : List.Chain (LoopStep g) s w) (hnd : ¬ (s :: w).Nodup) :
    ∀ n : Nat, ∃ w', List.Chain (LoopStep g) s w' ∧ n ≤ w'.length := by
  obtain ⟨l1, v, l2, l3, hl⟩ := exists_repeat (s :: w) hnd
  have hkey : ∃ p c, List.Chain (LoopStep g) s (p ++ [v]) ∧
      List.Chain (LoopStep g) v (c ++ [v]) := by
    cases l1 with
    | nil =>
      simp only [List.nil_append, List.cons.injEq] at hl
      obtain ⟨rfl, rfl⟩ := hl
      have := (List.chain_split.mp hchain).1
      exact ⟨l2, l2, this, this⟩
    | cons a l1' =>
      simp only [List.cons_append, List.cons.injEq] at hl
      obtain ⟨rfl, rfl⟩ := hl
      obtain ⟨h1, h2⟩ := List.chain_split.mp hchain
      exact ⟨l1', l2, h1, (List.chain_split.mp h2).1⟩
  obtain ⟨p, c, hp, hc⟩ := hkey
  have hall : ∀ n : Nat, ∃ q, List.Chain (LoopStep g) s (q ++ [v]) ∧ n ≤ q.length := by
    intro n
    induction n with
    | zero => exact ⟨p, hp, Nat.zero_le _⟩
    | succ n ih =>
      obtain ⟨q, hq, hlen⟩ := ih
      refine ⟨q ++ v :: c, ?_, ?_⟩
      · rw [List.append_assoc, List.cons_append]
        exact List.chain_split.mpr ⟨hq, hc⟩
      · simp only [List.length_append, List.length_cons]
        omega
  intro n
  obtain ⟨q, hq, hlen⟩ := hall n
  exact ⟨q ++ [v], hq, by simp only [List.length_append]; omega⟩

/-- A search that returns has met no cycle: no walk from `curNode` over nodes that are not
registers comes to a node twice. -/
theorem findALoopFromNode_returned_noLoop (g : TimingGraph) (startNode : Int) (fuel : Nat)
    (path : List Int) (curNode level : Int) (p' : List Int)
    (h : findALoopFromNode g fuel path startNode curNode level = .returned p') :
    NoLoopReachable g curNode := by
  intro w hchain
  by_contra hnd
  obtain ⟨w', hw', hlen⟩ := walk_pump g curNode w hchain hnd fuel
  have := findALoopFromNode_returned_depth g startNode fuel path curNode level p' h w' hw'
  omega

theorem findALoopEdges_fuel_mono (g : TimingGraph)
    (call1 call2 : List Int → Int → Int → Int → LoopSearch) (startNode level : Int)
    (hcall : ∀ (path : List Int) (v : Int), call1 path startNode v (level + 1) ≠ .outOfFuel →
      call2 path startNode v (level + 1) = call1 path startNode v (level + 1)) :
    ∀ (edges : List Nat) (path : List Int),
      findALoopEdges g call1 startNode level edges path ≠ .outOfFuel →
      findALoopEdges g call2 startNode level edges path =
        findALoopEdges g call1 startNode level edges path
  | [], _, _ => rfl
  | e :: rest, path, h => by
    cases he : g.edges[e]? with
    | none => simp [findALoopEdges, he]
    | some edge =>
      cases hs : g.nodes[edge.getSink]? with
      | none => simp [findALoopEdges, he, hs]
      | some sink =>
        cases hn : vecAt g.nodes sink.getId with
        | none => simp [findALoopEdges, he, hs, hn]
        | some next =>
          cases hreg : next.checkIsRegister with
          | true =>
            have hres : ∀ call, findALoopEdges g call startNode level (e :: rest) path =
                findALoopEdges g call startNode level rest path := by
              intro call
              simp [findALoopEdges, he, hs, hn, hreg]
            rw [hres] at h ⊢
            rw [hres]
            exact findALoopEdges_fuel_mono g call1 call2 startNode level hcall rest path h
          | false =>
            cases hr : call1 (path ++ [sink.getId]) startNode sink.getId (level + 1) with
            | returned p2 =>
              have hr2 := hcall (path ++ [sink.getId]) sink.getId (by rw [hr]; simp)
              rw [hr] at hr2
              have hres1 : findALoopEdges g call1 startNode level (e :: rest) path =
                  findALoopEdges g call1 startNode level rest p2.dropLast := by
                simp [findALoopEdges, he, hs, hn, hreg, hr]
              have hres2 : findALoopEdges g call2 startNode level (e :: rest) path =
                  findALoopEdges g call2 startNode level rest p2.dropLast := by
                simp [findALoopEdges, he, hs, hn, hreg, hr2]
              rw [hres1] at h ⊢
              rw [hres2]
              exact findALoopEdges_fuel_mono g call1 call2 startNode level hcall rest _ h
            | exited printed2 =>
              have hr2 := hcall (path ++ [sink.getId]) sink.getId (by rw [hr]; simp)
              rw [hr] at hr2
              simp [findALoopEdges, he, hs, hn, hreg, hr, hr2]
            | undefined =>
              have hr2 := hcall (path ++ [sink.getId]) sink.getId (by rw [hr]; simp)
              rw [hr] at hr2
              simp [findALoopEdges, he, hs, hn, hreg, hr, hr2]
            | outOfFuel =>
              exact absurd (by simp [findALoopEdges, he, hs, hn, hreg, hr]) h

/-- A search that has come to an end with the depth `fuel` ends in the same way with every
larger depth. -/
theorem findALoopFromNode_fuel_succ (g : TimingGraph) (startNode : Int) :
    ∀ (fuel : Nat) (path : List Int) (curNode level : Int),
      findALoopFromNode g fuel path startNode curNode level ≠ .outOfFuel →
      findALoopFromNode g (fuel + 1) path startNode curNode level =
        findALoopFromNode g fuel path startNode curNode level
  | 0, _, _, _, h => absurd rfl h
  | fuel + 1, path, curNode, level, h => by
    by_cases hexit : level > 0 ∧ curNode = startNode
    · simp only [findALoopFromNode, if_pos hexit]
    · cases hnode : vecAt g.nodes curNode with
      | none => simp only [findALoopFromNode, if_neg hexit, hnode]
      | some node =>
        have h1 : findALoopFromNode g (fuel + 1) path startNode curNode level =
            findALoopEdges g (findALoopFromNode g fuel) startNode level node.getOutEdges
              path := by
          simp only [findALoopFromNode, if_neg hexit, hnode]
        have h2 : findALoopFromNode g (fuel + 1 + 1) path startNode curNode level =
            findALoopEdges g (findALoopFromNode g (fuel + 1)) startNode level
              node.getOutEdges path := by
          simp only [findALoopFromNode, if_neg hexit, hnode]
        rw [h1] at h ⊢
        rw [h2]
        exact findALoopEdges_fuel_mono g (findALoopFromNode g fuel)
          (findALoopFromNode g (fuel + 1)) startNode level
          (fun path' v hv => findALoopFromNode_fuel_succ g startNode fuel path' v (level + 1) hv)
          node.getOutEdges path h

theorem findALoopFromNode_fuel_mono (g : TimingGraph) (startNode : Int) (fuel : Nat)
    (path : List Int) (curNode level : Int)
    (h : findALoopFromNode g fuel path startNode curNode level ≠ .outOfFuel) :
    ∀ fuel' : Nat, fuel ≤ fuel' →
      findALoopFromNode g fuel' path startNode curNode level =
        findALoopFromNode g fuel path startNode curNode level := by
  intro fuel' hle
  induction fuel' with
  | zero =>
    have : fuel = 0 := by omega
    subst this
    rfl
  | succ n ih =>
    by_cases hn : fuel = n + 1
    · subst hn
      rfl
    · have ih' := ih (by omega)
      rw [← ih']
      exact findALoopFromNode_fuel_succ g startNode n path curNode level (by rw [ih']; exact h)

theorem loopBesideGraph_onLoop : OnRegisterFreeLoop loopBesideGraph 0 := by
  refine ⟨[2, 0], ?_, rfl⟩
  refine List.chain_cons.mpr ⟨?_, List.chain_cons.mpr ⟨?_, List.Chain.nil⟩⟩
  · exact ⟨_, rfl, 2, by decide, _, _, _, rfl, rfl, rfl, rfl, rfl⟩
  · exact ⟨_, rfl, 3, by decide, _, _, _, rfl, rfl, rfl, rfl, rfl⟩

theorem loopBesideGraph_diverges (fuel : Nat) :
    findALoopFromNode loopBesideGraph fuel [] 0 0 0 = .outOfFuel :=
  findALoopFromNode_diverges_from loopBesideGraph 0 1 _ _ 0 1 [2] _ _ (by decide)
    rfl rfl rfl rfl rfl rfl rfl rfl rfl rfl fuel []

/-! ## C22: when `findALoopFromNode` reports a loop -/

/-- C22 (as the claim words it, refuted): in `loopBesideGraph` the node 0 lies on the cycle
0 -> 2 -> 0, whose nodes are not registers, but the search from node 0 follows the edge to
node 1 first and stays on the cycle 1 -> 1: whatever the depth allowed, it has not reported a
loop. -/
theorem findALoopFromNode_never_reports_beside_loop :
    OnRegisterFreeLoop loopBesideGraph 0 ∧
    ∀ fuel : Nat, findALoopFromNode loopBesideGraph fuel [] 0 0 0 = .outOfFuel :=
  ⟨loopBesideGraph_onLoop, loopBesideGraph_diverges⟩

/-- C22 (amended): the search `findALoopFromNode(path, s, s, 0)` reports a loop only if `s`
lies on a directed cycle whose nodes are not registers, and what it prints is the given path
followed by the nodes of such a cycle, in order, ending in `s`.  When the search comes to an
end, by a return or by the report, it has reported exactly when `s` lies on such a cycle, and
it ends in the same way with every larger depth of the recursion.  The search returns only if
no walk from `s` over nodes that are not registers comes to a node twice.  It need not come
to an end: there is a graph in which `s` lies on a cycle whose nodes are not registers and
the search has neither reported nor returned at any depth.  On the graph A -> B -> A without
a register the search from A prints the path B, A. -/
theorem findALoopFromNode_reports_iff (g : TimingGraph) (s : Int) (fuel : Nat)
    (path : List Int) :
    (∀ printed, findALoopFromNode g fuel path s s 0 = .exited printed →
      ∃ w, printed = path ++ w ∧ List.Chain (LoopStep g) s w ∧ w.getLast? = some s) ∧
    ((∃ printed, findALoopFromNode g fuel path s s 0 = .exited printed) →
      OnRegisterFreeLoop g s) ∧
    (findALoopFromNode g fuel path s s 0 ≠ .outOfFuel →
      findALoopFromNode g fuel path s s 0 ≠ .undefined →
      ((∃ printed, findALoopFromNode g fuel path s s 0 = .exited printed) ↔
        OnRegisterFreeLoop g s)) ∧
    (findALoopFromNode g fuel path s s 0 ≠ .outOfFuel →
      ∀ fuel' : Nat, fuel ≤ fuel' →
        findALoopFromNode g fuel' path s s 0 = findALoopFromNode g fuel path s s 0) ∧
    ((∃ p', findALoopFromNode g fuel path s s 0 = .returned p') → NoLoopReachable g s) ∧
    (∃ (g0 : TimingGraph) (s0 : Int), OnRegisterFreeLoop g0 s0 ∧
      ∀ fuel0 : Nat, findALoopFromNode g0 fuel0 [] s0 s0 0 = .outOfFuel) ∧
    findALoopFromNode twoNodeLoop 3 [] 0 0 0 = .exited [1, 0] := by
  obtain ⟨h1, h2⟩ := findALoopFromNode_spec g s fuel path s 0 le_rfl
  have hpr : ∀ printed, findALoopFromNode g fuel path s s 0 = .exited printed →
      ∃ w, printed = path ++ w ∧ List.Chain (LoopStep g) s w ∧ w.getLast? = some s := by
    intro printed h
    obtain ⟨w, hp, hchain, hlast⟩ := h2 printed h
    rcases hlast with ⟨_, hl, _⟩ | hlast
    · exact absurd hl (lt_irrefl _)
    · exact ⟨w, hp, hchain, hlast⟩
  have honly : (∃ printed, findALoopFromNode g fuel path s s 0 = .exited printed) →
      OnRegisterFreeLoop g s := by
    rintro ⟨printed, h⟩
    obtain ⟨w, _, hchain, hlast⟩ := hpr printed h
    exact ⟨w, hchain, hlast⟩
  refine ⟨hpr, honly, ?_, ?_, ?_, ⟨loopBesideGraph, 0, loopBesideGraph_onLoop,
    loopBesideGraph_diverges⟩, by decide⟩
  · intro hend hdef
    refine ⟨honly, ?_⟩
    rintro ⟨w, hchain, hlast⟩
    cases hr : findALoopFromNode g fuel path s s 0 with
    | returned p' =>
      exact absurd (List.mem_of_getLast?_eq_some hlast) ((h1 p' hr).2.2 w hchain)
    | exited printed => exact ⟨printed, rfl⟩
    | undefined => exact absurd hr hdef
    | outOfFuel => exact absurd hr hend
  · exact findALoopFromNode_fuel_mono g s fuel path s 0
  · rintro ⟨p', h⟩
    exact findALoopFromNode_returned_noLoop g s fuel path s 0 p' h

/-- C22 (amended), on the graph A -> B -> A without a register: the search from A with the
depth 3 comes to an end, so it reports, it prints the path B, A, and it does so with every
depth from 3 on. -/
theorem findALoopFromNode_reports_iff_witness :
    findALoopFromNode twoNodeLoop 3 [] 0 0 0 = .exited [1, 0] ∧
    ((∃ printed, findALoopFromNode twoNodeLoop 3 [] 0 0 0 = .exited printed) ↔
      OnRegisterFreeLoop twoNodeLoop 0) ∧
    (∀ fuel' : Nat, 3 ≤ fuel' →
      findALoopFromNode twoNodeLoop fuel' [] 0 0 0 =
        findALoopFromNode twoNodeLoop 3 [] 0 0 0) :=
  ⟨by decide,
    (findALoopFromNode_reports_iff twoNodeLoop 0 3 []).2.2.1 (by decide) (by decide),
    (findALoopFromNode_reports_iff twoNodeLoop 0 3 []).2.2.2.1 (by decide)⟩

/-! ## C23: the log files of the timing optimizer -/

theorem logCellPathLen_isSome (fpow : ℚ → ℚ → ℚ) (effectFactor : ℚ) (levelThr : Int)
    (timingNodes : List TimingNode) :
    ∀ (cells : List DesignCell) (nets nets' : List DesignNet),
      enhanceCells fpow effectFactor levelThr timingNodes cells nets = some nets' →
      ∃ lens, logCellPathLen timingNodes cells = some lens
  | [], _, _, _ => ⟨[], rfl⟩
  | cellA :: rest, nets, nets', h => by
    simp only [enhanceCells, Option.bind_eq_some] at h
    obtain ⟨mid, hmid, hrest⟩ := h
    obtain ⟨lens, hlens⟩ := logCellPathLen_isSome fpow effectFactor levelThr timingNodes rest
      mid nets' hrest
    unfold logCellPathLen
    split
    · exact ⟨lens, hlens⟩
    · rename_i hv
      unfold enhanceCell at hmid
      rw [if_neg hv] at hmid
      cases hn : timingNodes[cellA.cellId]? with
      | none => simp [hn] at hmid
      | some node => exact ⟨node.getLongestPathLength :: lens, by simp [hlens]⟩

theorem enhanceNetWeight_LevelBased_log_isSome (fpow : ℚ → ℚ → ℚ) (levelThr : Int)
    (o o' : PlacementTimingOptimizer) (h4 : ¬ levelThr < 4)
    (h : enhanceNetWeight_LevelBased fpow levelThr o = some o') :
    ∃ lens, logCellPathLen o'.timingInfo o'.designInfo.cells = some lens := by
  unfold enhanceNetWeight_LevelBased at h
  rw [if_neg h4] at h
  simp only [Option.map_eq_some'] at h
  obtain ⟨nets, hnets, rfl⟩ := h
  exact logCellPathLen_isSome _ _ _ _ _ _ _ hnets

/-- C23 (as the claim words it, refuted): with the log of `enhanceNetWeight_LevelBased`
configured and a file that cannot be opened, the call on `smallDesign` ends at the assertion,
while without the log it enhances the nets; the same holds for the edge delays of
`conductStaticTimingAnalysis` on `pinsGraph`. -/
theorem enhanceNetWeight_LevelBased_log_failure_is_fatal :
    enhanceNetWeight_LevelBased_withLog (fun _ => false)
      [("PlacementTimingOptimizer_EnhanceNetWeightLevelBasedLog", "log/netWeight.txt")]
      powAtOne 5 smallDesign = none ∧
    enhanceNetWeight_LevelBased_withLog (fun _ => false) [] powAtOne 5 smallDesign =
      some (smallDesignAfter 30, []) ∧
    conductStaticTimingAnalysis_edgeDelays_withLog (fun _ => false)
      [("PlacementTimingOptimizer_EdgesDelayLog", "log/edgeDelay.txt")]
      (fun dx dy => dx + 2 * dy) (fun _ _ => (0, 0)) { X := -10, Y := -10 } pinsInfoPins
      pinsInfo pinsGraph = none ∧
    (conductStaticTimingAnalysis_edgeDelays_withLog (fun _ => false) []
      (fun dx dy => dx + 2 * dy) (fun _ _ => (0, 0)) { X := -10, Y := -10 } pinsInfoPins
      pinsInfo pinsGraph).map (fun r => r.2.edges.map fun e => e.delay) = some [62] := by
  refine ⟨by decide, ?_, by decide, by decide!⟩
  simp [enhanceNetWeight_LevelBased_withLog, openLog, jsonHas, smallDesign_first_call]

/-- C23 (amended): when the configuration has the key of the log and the file cannot be
opened, `enhanceNetWeight_LevelBased` and `conductStaticTimingAnalysis` end at the assertion
on the stream, for every `levelThr` and every design; when the key is absent or the file can
be opened, the state after `enhanceNetWeight_LevelBased` and the edge delays of
`conductStaticTimingAnalysis` are those of the run without a log. -/
theorem enhanceNetWeight_LevelBased_log_spec (openFile : String → Bool)
    (JSONCfg : List (String × String)) (fpow : ℚ → ℚ → ℚ) (levelThr : Int)
    (o : PlacementTimingOptimizer) (getDelayByModel : ℚ → ℚ → ℚ)
    (getClockRegionByLocation : ℚ → ℚ → Int × Int) (unplaced : Location)
    (pins : List DesignPin) (placementInfo : PlacementInfo) (timingGraph : TimingGraph) :
    (jsonHas JSONCfg "PlacementTimingOptimizer_EnhanceNetWeightLevelBasedLog" = true →
      openFile (jsonValue JSONCfg "PlacementTimingOptimizer_EnhanceNetWeightLevelBasedLog") =
        false →
      enhanceNetWeight_LevelBased_withLog openFile JSONCfg fpow levelThr o = none) ∧
    (jsonHas JSONCfg "PlacementTimingOptimizer_EnhanceNetWeightLevelBasedLog" = false ∨
      openFile (jsonValue JSONCfg "PlacementTimingOptimizer_EnhanceNetWeightLevelBasedLog") =
        true →
      (enhanceNetWeight_LevelBased_withLog openFile JSONCfg fpow levelThr o).map
        (fun r => r.1) = enhanceNetWeight_LevelBased fpow levelThr o) ∧
    (jsonHas JSONCfg "PlacementTimingOptimizer_EdgesDelayLog" = true →
      openFile (jsonValue JSONCfg "PlacementTimingOptimizer_EdgesDelayLog") = false →
      conductStaticTimingAnalysis_edgeDelays_withLog openFile JSONCfg getDelayByModel
        getClockRegionByLocation unplaced pins placementInfo timingGraph = none) ∧
    (jsonHas JSONCfg "PlacementTimingOptimizer_EdgesDelayLog" = false ∨
      openFile (jsonValue JSONCfg "PlacementTimingOptimizer_EdgesDelayLog") = true →
      conductStaticTimingAnalysis_edgeDelays_withLog openFile JSONCfg getDelayByModel
        getClockRegionByLocation unplaced pins placementInfo timingGraph =
      conductStaticTimingAnalysis_edgeDelays getDelayByModel getClockRegionByLocation unplaced
        pins placementInfo timingGraph) := by
  refine ⟨?_, ?_, ?_, ?_⟩
  · intro hk hf
    simp [enhanceNetWeight_LevelBased_withLog, openLog, hk, hf]
  · intro hor
    have hopen : ∃ printOut, openLog openFile JSONCfg
        "PlacementTimingOptimizer_EnhanceNetWeightLevelBasedLog" = some printOut := by
      unfold openLog
      rcases hor with h | h
      · exact ⟨false, by simp [h]⟩
      · by_cases hk : jsonHas JSONCfg
            "PlacementTimingOptimizer_EnhanceNetWeightLevelBasedLog" = true
        · exact ⟨true, by simp [hk, h]⟩
        · exact ⟨false, by simp [hk]⟩
    obtain ⟨printOut, hp⟩ := hopen
    unfold enhanceNetWeight_LevelBased_withLog
    simp only [hp]
    by_cases h4 : levelThr < 4
    · simp [h4, enhanceNetWeight_LevelBased]
    · rw [if_neg h4]
      cases he : enhanceNetWeight_LevelBased fpow levelThr o with
      | none => rfl
      | some o' =>
        obtain ⟨lens, hlens⟩ := enhanceNetWeight_LevelBased_log_isSome fpow levelThr o o' h4 he
        cases printOut <;> simp [hlens]
  · intro hk hf
    simp [conductStaticTimingAnalysis_edgeDelays_withLog, openLog, hk, hf]
  · intro hor
    unfold conductStaticTimingAnalysis_edgeDelays_withLog openLog
    rcases hor with h | h
    · simp [h]
    · by_cases hk : jsonHas JSONCfg "PlacementTimingOptimizer_EdgesDelayLog" = true
      · simp [hk, h]
      · simp [hk]

/-- C23 (amended), on `smallDesign`: a log file that cannot be opened ends the call, and a
log file that can be opened leaves the state that the run without a log leaves. -/
theorem enhanceNetWeight_LevelBased_log_spec_witness :
    enhanceNetWeight_LevelBased_withLog (fun _ => false)
      [("PlacementTimingOptimizer_EnhanceNetWeightLevelBasedLog", "log/netWeight.txt")]
      powAtOne 5 smallDesign = none ∧
    (enhanceNetWeight_LevelBased_withLog (fun _ => true)
      [("PlacementTimingOptimizer_EnhanceNetWeightLevelBasedLog", "log/netWeight.txt")]
      powAtOne 5 smallDesign).map (fun r => r.1) =
      enhanceNetWeight_LevelBased powAtOne 5 smallDesign :=
  ⟨(enhanceNetWeight_LevelBased_log_spec (fun _ => false)
      [("PlacementTimingOptimizer_EnhanceNetWeightLevelBasedLog", "log/netWeight.txt")]
      powAtOne 5 smallDesign (fun dx dy => dx + 2 * dy) (fun _ _ => (0, 0))
      { X := -10, Y := -10 } pinsInfoPins pinsInfo pinsGraph).1 (by decide) rfl,
    (enhanceNetWeight_LevelBased_log_spec (fun _ => true)
      [("PlacementTimingOptimizer_EnhanceNetWeightLevelBasedLog", "log/netWeight.txt")]
      powAtOne 5 smallDesign (fun dx dy => dx + 2 * dy) (fun _ _ => (0, 0))
      { X := -10, Y := -10 } pinsInfoPins pinsInfo pinsGraph).2.1 (Or.inr rfl)⟩

/-! ## C24: the node id given to `backTraceDelayLongestPathFromNode` -/

theorem foldl_maxDelayStep_of_le :
    ∀ (entries : List (Nat × TimingNode)) (acc : ℚ × Int), 0 ≤ acc.1 →
      (∀ entry ∈ entries, entry.2.getLatestArrival ≤ 0) →
      entries.foldl maxDelayStep acc = acc
  | [], _, _, _ => rfl
  | entry :: rest, acc, h0, hle => by
    have hstep : maxDelayStep acc entry = acc := by
      unfold maxDelayStep
      rw [if_neg]
      have := hle entry (List.mem_cons_self _ _)
      exact not_lt.mpr (le_trans this h0)
    rw [List.foldl_cons, hstep]
    exact foldl_maxDelayStep_of_le rest acc h0
      (fun e he => hle e (List.mem_cons_of_mem _ he))

theorem findMaxDelayId_of_le (timingGraph : TimingGraph)
    (h : ∀ node ∈ timingGraph.nodes, node.getLatestArrival ≤ 0) :
    findMaxDelayId timingGraph = (0, -1) := by
  unfold findMaxDelayId
  refine foldl_maxDelayStep_of_le _ _ le_rfl ?_
  intro entry he
  obtain ⟨i, node⟩ := entry
  exact h node (List.getElem?_mem (List.mk_mem_enum_iff_getElem?.mp he))

/-- C24 (the code, evaluated): on the graph without nodes, and on `sampleGraph`, whose four
nodes have the latest arrival 0, the loop leaves `maxDelayId = -1`, which is the id given to
`backTraceDelayLongestPathFromNode` and is not an index of a node. -/
theorem findMaxDelayId_no_positive_arrival :
    ({} : TimingGraph).nodes.length = 0 ∧
    (findMaxDelayId {}).2 = -1 ∧
    sampleGraph.nodes.length = 4 ∧
    (findMaxDelayId sampleGraph).2 = -1 ∧
    ¬ ((0 : Int) ≤ (findMaxDelayId sampleGraph).2 ∧
      (findMaxDelayId sampleGraph).2 < (sampleGraph.nodes.length : Int)) := by
  have h0 : findMaxDelayId {} = (0, -1) :=
    findMaxDelayId_of_le {} (fun node h => by simp at h)
  have h1 : findMaxDelayId sampleGraph = (0, -1) :=
    findMaxDelayId_of_le sampleGraph (by
      intro node h
      simp only [sampleGraph, List.mem_cons, List.mem_singleton, List.not_mem_nil,
        or_false] at h
      rcases h with h | h | h | h <;> subst h <;> simp [TimingNode.getLatestArrival])
  rw [h0, h1]
  exact ⟨rfl, rfl, rfl, rfl, by decide⟩

/-! ## C25: `addEdgeBetween` and the edge lists of the nodes -/

theorem sum_map_modify_succ {α : Type} (w : α → Nat) (f : α → α)
    (hw : ∀ a, w (f a) = w a + 1) :
    ∀ (l : List α) (i : Nat), i < l.length → ((l.modify f i).map w).sum = (l.map w).sum + 1
  | [], i, h => by simp at h
  | a :: l, 0, _ => by
    simp only [List.modify_zero_cons, List.map_cons, List.sum_cons, hw]
    omega
  | a :: l, i + 1, h => by
    simp only [List.modify_succ_cons, List.map_cons, List.sum_cons]
    rw [sum_map_modify_succ w f hw l i (by simpa using h)]
    omega

theorem map_modify_same {α β : Type} (w : α → β) (f : α → α) (hw : ∀ a, w (f a) = w a) :
    ∀ (l : List α) (i : Nat), (l.modify f i).map w = l.map w
  | [], i => by cases i <;> rfl
  | a :: l, 0 => by simp [hw]
  | a :: l, i + 1 => by
    simp only [List.modify_succ_cons, List.map_cons]
    rw [map_modify_same w f hw l i]

theorem addEdgeBetween_effect {g g' : TimingGraph} {idA idB : Int}
    {srcPin sinkPin net : Option Nat} {delay : ℚ}
    (h : g.addEdgeBetween idA idB srcPin sinkPin net delay = some g') :
    0 ≤ idA ∧ idA.toNat < g.nodes.length ∧ 0 ≤ idB ∧ idB.toNat < g.nodes.length ∧
    ∃ e : TimingEdge, g'.edges = g.edges ++ [e] ∧ e.srcNode = idA.toNat ∧
      e.sinkNode = idB.toNat ∧ srcPin = some e.srcPin ∧ sinkPin = some e.sinkPin ∧
      e.net = net ∧ e.delay = delay ∧
      g'.nodes = (g.nodes.modify (fun n => n.addInEdge g.edges.length) idB.toNat).modify
        (fun n => n.addOutEdge g.edges.length) idA.toNat := by
  unfold TimingGraph.addEdgeBetween at h
  split at h
  · cases h
  · rename_i hrange
    split at h
    · cases h
    · rename_i newEdge hnew
      obtain ⟨_, _, hs, hk, hsp, hkp, hnet, _⟩ := TimingEdge.new_eq_some hnew
      have := Option.some.inj h
      subst this
      refine ⟨by omega, by omega, by omega, by omega, newEdge.setDelay delay, rfl, hs, hk, hsp,
        hkp, hnet, rfl, rfl⟩

theorem addEdgeBetween_nodes (g : TimingGraph) (idA idB : Nat) (j : Nat) (n : TimingNode)
    (hn : g.nodes[j]? = some n) :
    ((g.nodes.modify (fun n => n.addInEdge g.edges.length) idB).modify
      (fun n => n.addOutEdge g.edges.length) idA)[j]? =
      some { n with
        inEdges := if j = idB then n.inEdges ++ [g.edges.length] else n.inEdges
        outEdges := if j = idA then n.outEdges ++ [g.edges.length] else n.outEdges } := by
  rw [List.getElem?_modify, List.getElem?_modify, hn]
  by_cases hA : idA = j <;> by_cases hB : idB = j <;>
    simp [hA, hB, eq_comm, TimingNode.addInEdge, TimingNode.addOutEdge]

theorem addEdgeBetween_degreeSums (g : TimingGraph) (idA idB : Nat)
    (hA : idA < g.nodes.length) (hB : idB < g.nodes.length) :
    ((((g.nodes.modify (fun n => n.addInEdge g.edges.length) idB).modify
      (fun n => n.addOutEdge g.edges.length) idA).map fun n => n.outEdges.length).sum =
      (g.nodes.map fun n => n.outEdges.length).sum + 1) ∧
    ((((g.nodes.modify (fun n => n.addInEdge g.edges.length) idB).modify
      (fun n => n.addOutEdge g.edges.length) idA).map fun n => n.inEdges.length).sum =
      (g.nodes.map fun n => n.inEdges.length).sum + 1) := by
  constructor
  · rw [sum_map_modify_succ (fun n : TimingNode => n.outEdges.length) _
      (by intro a; simp [TimingNode.addOutEdge]) _ idA (by rw [List.length_modify]; exact hA),
      map_modify_same (fun n : TimingNode => n.outEdges.length) _
        (by intro a; simp [TimingNode.addInEdge])]
  · rw [map_modify_same (fun n : TimingNode => n.inEdges.length) _
      (by intro a; simp [TimingNode.addOutEdge]),
      sum_map_modify_succ (fun n : TimingNode => n.inEdges.length) _
        (by intro a; simp [TimingNode.addInEdge]) _ idB hB]

theorem insertTimingNode_linked {g : TimingGraph} {timingNode : TimingNode}
    (hin : timingNode.inEdges = []) (hout : timingNode.outEdges = [])
    (hl : EdgesLinked g) (hv : EdgePointersValid g) :
    EdgesLinked (g.insertTimingNode timingNode) ∧
      EdgePointersValid (g.insertTimingNode timingNode) := by
  obtain ⟨h1, h2, h3⟩ := hl
  refine ⟨⟨?_, ?_, ?_⟩, ?_⟩
  · intro e edge he
    obtain ⟨src, sink, hs, hk, hc⟩ := h1 e edge he
    refine ⟨src, sink, ?_, ?_, hc⟩
    · simp only [TimingGraph.insertTimingNode]
      rw [List.getElem?_append_left (List.getElem?_eq_some.mp hs).1]
      exact hs
    · simp only [TimingGraph.insertTimingNode]
      rw [List.getElem?_append_left (List.getElem?_eq_some.mp hk).1]
      exact hk
  · simpa [outDegreeSum, TimingGraph.insertTimingNode, hout] using h2
  · simpa [inDegreeSum, TimingGraph.insertTimingNode, hin] using h3
  · intro node hnode
    simp only [TimingGraph.insertTimingNode, List.mem_append, List.mem_singleton] at hnode
    rcases hnode with hnode | hnode
    · exact hv node hnode
    · subst hnode
      simp [hin, hout]

theorem addEdgeBetween_linked {g g' : TimingGraph} {idA idB : Int}
    {srcPin sinkPin net : Option Nat} {delay : ℚ}
    (hl : EdgesLinked g) (hv : EdgePointersValid g)
    (h : g.addEdgeBetween idA idB srcPin sinkPin net delay = some g') :
    EdgesLinked g' ∧ EdgePointersValid g' := by
  obtain ⟨_, hA, _, hB, e, hedges, hsrc, hsink, _, _, _, _, hnodes⟩ := addEdgeBetween_effect h
  obtain ⟨h1, h2, h3⟩ := hl
  have hnode : ∀ (j : Nat) (n : TimingNode), g.nodes[j]? = some n →
      g'.nodes[j]? = some { n with
        inEdges := if j = idB.toNat then n.inEdges ++ [g.edges.length] else n.inEdges
        outEdges := if j = idA.toNat then n.outEdges ++ [g.edges.length] else n.outEdges } := by
    intro j n hn
    rw [hnodes]
    exact addEdgeBetween_nodes g idA.toNat idB.toNat j n hn
  have hlen : g'.nodes.length = g.nodes.length := by
    rw [hnodes, List.length_modify, List.length_modify]
  refine ⟨⟨?_, ?_, ?_⟩, ?_⟩
  · intro e0 edge he
    rw [hedges] at he
    by_cases hlt : e0 < g.edges.length
    · rw [List.getElem?_append_left hlt] at he
      obtain ⟨src, sink, hs, hk, hcs, hck⟩ := h1 e0 edge he
      refine ⟨_, _, hnode _ src hs, hnode _ sink hk, ?_, ?_⟩
      · simp only
        split
        · rw [List.count_append, hcs]
          simp [List.count_singleton]
          omega
        · exact hcs
      · simp only
        split
        · rw [List.count_append, hck]
          simp [List.count_singleton]
          omega
        · exact hck
    · have hlt' := (List.getElem?_eq_some.mp he).1
      simp only [List.length_append, List.length_singleton] at hlt'
      have he0 : e0 = g.edges.length := by omega
      subst he0
      rw [List.getElem?_append_right (le_refl _)] at he
      simp only [Nat.sub_self, List.getElem?_cons_zero, Option.some.injEq] at he
      subst he
      have hnA : g.nodes[idA.toNat]? = some g.nodes[idA.toNat] := List.getElem?_eq_getElem hA
      have hnB : g.nodes[idB.toNat]? = some g.nodes[idB.toNat] := List.getElem?_eq_getElem hB
      have hvA := hv _ (List.getElem_mem hA)
      have hvB := hv _ (List.getElem_mem hB)
      rw [TimingEdge.getSource, TimingEdge.getSink, hsrc, hsink]
      refine ⟨_, _, hnode _ _ hnA, hnode _ _ hnB, ?_, ?_⟩
      · simp only [if_true]
        rw [List.count_append, List.count_eq_zero_of_not_mem]
        · simp
        · intro hmem
          exact absurd (hvA.1 _ hmem) (lt_irrefl _)
      · simp only [if_true]
        rw [List.count_append, List.count_eq_zero_of_not_mem]
        · simp
        · intro hmem
          exact absurd (hvB.2 _ hmem) (lt_irrefl _)
  · unfold outDegreeSum at h2 ⊢
    rw [hnodes, (addEdgeBetween_degreeSums g idA.toNat idB.toNat hA hB).1, h2, hedges]
    simp
  · unfold inDegreeSum at h3 ⊢
    rw [hnodes, (addEdgeBetween_degreeSums g idA.toNat idB.toNat hA hB).2, h3, hedges]
    simp
  · intro node' hmem
    obtain ⟨j, hj, hget⟩ := List.getElem_of_mem hmem
    have hj' : j < g.nodes.length := hlen ▸ hj
    have := hnode j _ (List.getElem?_eq_getElem hj')
    rw [List.getElem?_eq_getElem hj, Option.some.injEq, hget] at this
    have hvj := hv _ (List.getElem_mem hj')
    rw [this, hedges]
    simp only [List.length_append, List.length_singleton]
    constructor
    · intro p hp
      split at hp
      · rcases List.mem_append.mp hp with hp | hp
        · exact Nat.lt_succ_of_lt (hvj.1 p hp)
        · simp at hp
          omega
      · exact Nat.lt_succ_of_lt (hvj.1 p hp)
    · intro p hp
      split at hp
      · rcases List.mem_append.mp hp with hp | hp
        · exact Nat.lt_succ_of_lt (hvj.2 p hp)
        · simp at hp
          omega
      · exact Nat.lt_succ_of_lt (hvj.2 p hp)

theorem build_linked :
    ∀ (ops : List GraphOp) (g g' : TimingGraph), InsertsFreshNodes ops →
      EdgesLinked g → EdgePointersValid g → TimingGraph.build ops g = some g' →
      EdgesLinked g' ∧ EdgePointersValid g'
  | [], g, g', _, hl, hv, h => by
    simp only [TimingGraph.build] at h
    have := Option.some.inj h
    subst this
    exact ⟨hl, hv⟩
  | op :: rest, g, g', hfresh, hl, hv, h => by
    simp only [TimingGraph.build, Option.bind_eq_some] at h
    obtain ⟨mid, hmid, hrest⟩ := h
    have hfresh' : InsertsFreshNodes rest :=
      fun node hnode => hfresh node (List.mem_cons_of_mem _ hnode)
    have hmidInv : EdgesLinked mid ∧ EdgePointersValid mid := by
      cases op with
      | insertTimingNode timingNode =>
        simp only [TimingGraph.step] at hmid
        have := Option.some.inj hmid
        subst this
        obtain ⟨hin, hout⟩ := hfresh timingNode (List.mem_cons_self _ _)
        exact insertTimingNode_linked hin hout hl hv
      | addEdgeBetween idA idB srcPin sinkPin net delay =>
        simp only [TimingGraph.step] at hmid
        exact addEdgeBetween_linked hl hv hmid
    exact build_linked rest mid g' hfresh' hmidInv.1 hmidInv.2 hrest

theorem noEdgesYet_linked {g : TimingGraph} (h : NoEdgesYet g) :
    EdgesLinked g ∧ EdgePointersValid g := by
  obtain ⟨he, hn⟩ := h
  have hsum : ∀ (l : List TimingNode), (∀ node ∈ l, node.inEdges = [] ∧ node.outEdges = []) →
      (l.map fun n => n.outEdges.length).sum = 0 ∧ (l.map fun n => n.inEdges.length).sum = 0 := by
    intro l
    induction l with
    | nil => intro _; exact ⟨rfl, rfl⟩
    | cons a l ih =>
      intro hl
      obtain ⟨h1, h2⟩ := ih (fun node hnode => hl node (List.mem_cons_of_mem _ hnode))
      obtain ⟨ha1, ha2⟩ := hl a (List.mem_cons_self _ _)
      simp [h1, h2, ha1, ha2]
  refine ⟨⟨?_, ?_, ?_⟩, ?_⟩
  · intro e edge hedge
    rw [he] at hedge
    simp at hedge
  · rw [outDegreeSum, he, (hsum g.nodes hn).1]
    rfl
  · rw [inDegreeSum, he, (hsum g.nodes hn).2]
    rfl
  · intro node hnode
    obtain ⟨h1, h2⟩ := hn node hnode
    simp [h1, h2]

/-- C25: on a graph with fewer than `2^31` edges, `addEdgeBetween` with valid node ids and pins
that are not null returns a graph whose edges are the old ones and one new edge `e` from
`nodes[idA]` to `nodes[idB]` with the given pins, net and delay; each node keeps its place,
`nodes[idA]` has `e` appended to its out-edges, `nodes[idB]` has `e` appended to its in-edges,
and nothing else of a node changes.  And in every graph built by `insertTimingNode` and
`addEdgeBetween` from a graph without edges, every edge occurs exactly once in the out-edges
of its source and once in the in-edges of its sink, and the sum of the out-degrees and the sum
of the in-degrees are the number of edges. -/
theorem addEdgeBetween_links_edge :
    (∀ (g : TimingGraph) (idA idB : Int) (srcPin sinkPin : Nat) (net : Option Nat) (delay : ℚ),
      0 ≤ idA → idA < g.nodes.length → 0 ≤ idB → idB < g.nodes.length →
      g.edges.length < 2 ^ 31 →
      ∃ g' e, g.addEdgeBetween idA idB (some srcPin) (some sinkPin) net delay = some g' ∧
        g'.edges = g.edges ++ [e] ∧
        e.getSource = idA.toNat ∧ e.getSink = idB.toNat ∧ e.srcPin = srcPin ∧
        e.sinkPin = sinkPin ∧ e.net = net ∧ e.getDelay = delay ∧
        g'.nodes.length = g.nodes.length ∧
        ∀ (j : Nat) (n : TimingNode), g.nodes[j]? = some n →
          g'.nodes[j]? = some { n with
            inEdges := if j = idB.toNat then n.inEdges ++ [g.edges.length] else n.inEdges
            outEdges :=
              if j = idA.toNat then n.outEdges ++ [g.edges.length] else n.outEdges }) ∧
    (∀ (ops : List GraphOp) (g g' : TimingGraph), NoEdgesYet g → InsertsFreshNodes ops →
      TimingGraph.build ops g = some g' → EdgesLinked g') := by
  constructor
  · intro g idA idB srcPin sinkPin net delay hA0 hA hB0 hB hlen
    obtain ⟨g', hg'⟩ := addEdgeBetween_isSome g srcPin sinkPin net delay hA0 hA hB0 hB hlen
    obtain ⟨_, _, _, _, e, hedges, hsrc, hsink, hsp, hkp, hnet, hdelay, hnodes⟩ :=
      addEdgeBetween_effect hg'
    refine ⟨g', e, hg', hedges, hsrc, hsink, (Option.some.inj hsp).symm,
      (Option.some.inj hkp).symm, hnet, hdelay, ?_, ?_⟩
    · rw [hnodes, List.length_modify, List.length_modify]
    · intro j n hn
      rw [hnodes]
      exact addEdgeBetween_nodes g idA.toNat idB.toNat j n hn
  · intro ops g g' hno hfresh hbuild
    obtain ⟨hl, hv⟩ := noEdgesYet_linked hno
    exact (build_linked ops g g' hfresh hl hv hbuild).1

/-- C25, on `sampleGraph`: the call `addEdgeBetween(0, 2, ..)` returns and appends one edge,
and the graph `sampleGraphBuilt`, built from `sampleGraph` by two `addEdgeBetween` and one
`insertTimingNode`, has every edge once in the lists of its two ends. -/
theorem addEdgeBetween_links_edge_witness :
    (∃ g' e, sampleGraph.addEdgeBetween 0 2 (some 0) (some 1) none 0 = some g' ∧
      g'.edges = sampleGraph.edges ++ [e] ∧ e.getSource = 0 ∧ e.getSink = 2) ∧
    EdgesLinked sampleGraphBuilt :=
  ⟨(addEdgeBetween_links_edge.1 sampleGraph 0 2 0 1 none 0 (by decide) (by decide) (by decide)
      (by decide) (by decide)).imp fun _ h => h.imp fun _ h => ⟨h.1, h.2.1, h.2.2.1, h.2.2.2.1⟩,
    addEdgeBetween_links_edge.2 _ sampleGraph sampleGraphBuilt
      ⟨rfl, by decide⟩
      (by
        intro timingNode h
        simp only [List.mem_cons, List.mem_singleton, GraphOp.insertTimingNode.injEq,
          List.not_mem_nil, or_false, false_or, reduceCtorEq] at h
        subst h
        exact ⟨rfl, rfl⟩)
      sampleGraph_build⟩

/-! ## C26: termination of `findALoopFromNode` -/

theorem vecAt_bounds {α : Type} {v : List α} {i : Int} {a : α} (h : vecAt v i = some a) :
    0 ≤ i ∧ i.toNat < v.length := by
  unfold vecAt at h
  split at h
  · cases h
  · exact ⟨by omega, (List.getElem?_eq_some.mp h).1⟩

theorem vecAt_mem {α : Type} {v : List α} {i : Int} {a : α} (h : vecAt v i = some a) :
    a ∈ v := by
  unfold vecAt at h
  split at h
  · cases h
  · exact List.getElem?_mem h

theorem chain_loopStep_valid (g : TimingGraph) :
    ∀ (w : List Int) (s : Int), List.Chain (LoopStep g) s w →
      ∀ v ∈ w, ∃ next, vecAt g.nodes v = some next
  | [], _, _ => fun _ hv => absurd hv (List.not_mem_nil _)
  | a :: w, s, h => by
    obtain ⟨hstep, hrest⟩ := List.chain_cons.mp h
    intro v hv
    rcases List.mem_cons.mp hv with rfl | hv
    · obtain ⟨_, _, _, _, _, _, next, _, _, _, hn, _⟩ := hstep
      exact ⟨next, hn⟩
    · exact chain_loopStep_valid g w a hrest v hv

theorem walk_length_lt (g : TimingGraph) (s : Int) (w : List Int)
    (hs : ∃ node, vecAt g.nodes s = some node) (hchain : List.Chain (LoopStep g) s w)
    (hnd : (s :: w).Nodup) : w.length < g.nodes.length := by
  have hvalid : ∀ v ∈ s :: w, 0 ≤ v ∧ v.toNat < g.nodes.length := by
    intro v hv
    rcases List.mem_cons.mp hv with rfl | hv
    · obtain ⟨node, hnode⟩ := hs
      exact vecAt_bounds hnode
    · obtain ⟨next, hnext⟩ := chain_loopStep_valid g w s hchain v hv
      exact vecAt_bounds hnext
  have hmap : ((s :: w).map Int.toNat).Nodup := by
    refine List.Nodup.map_on ?_ hnd
    intro x hx y hy hxy
    have := (hvalid x hx).1
    have := (hvalid y hy).1
    omega
  have hsub : (s :: w).map Int.toNat ⊆ List.range g.nodes.length := by
    intro n hn
    obtain ⟨v, hv, rfl⟩ := List.mem_map.mp hn
    exact List.mem_range.mpr (hvalid v hv).2
  have := (List.subperm_of_subset hmap hsub).length_le
  simp only [List.length_map, List.length_cons, List.length_range] at this
  omega

theorem findALoopEdges_returns (g : TimingGraph)
    (call : List Int → Int → Int → Int → LoopSearch) (startNode level : Int)
    (C : Int → Prop)
    (hcall : ∀ (path : List Int) (v : Int), C v →
      call path startNode v (level + 1) = .returned path) :
    ∀ (edges : List Nat) (path : List Int),
      (∀ outEdge ∈ edges, ∃ edge sink next, g.edges[outEdge]? = some edge ∧
        g.nodes[edge.getSink]? = some sink ∧ vecAt g.nodes sink.getId = some next) →
      (∀ outEdge ∈ edges, ∀ v, EdgeEnters g outEdge v → C v) →
      findALoopEdges g call startNode level edges path = .returned path
  | [], _, _, _ => rfl
  | e :: rest, path, hvalid, hC => by
    obtain ⟨edge, sink, next, he, hs, hn⟩ := hvalid e (List.mem_cons_self _ _)
    have ih := findALoopEdges_returns g call startNode level C hcall rest path
      (fun o ho => hvalid o (List.mem_cons_of_mem _ ho))
      (fun o ho => hC o (List.mem_cons_of_mem _ ho))
    cases hreg : next.checkIsRegister with
    | true => simp [findALoopEdges, he, hs, hn, hreg, ih]
    | false =>
      have hc := hcall (path ++ [sink.getId]) sink.getId
        (hC e (List.mem_cons_self _ _) _ ⟨edge, sink, next, he, hs, rfl, hn, hreg⟩)
      simp [findALoopEdges, he, hs, hn, hreg, hc, ih]

theorem findALoopFromNode_returns (g : TimingGraph) (hvalid : LoopGraphValid g)
    (startNode : Int) :
    ∀ (fuel : Nat) (path : List Int) (curNode level : Int), 0 ≤ level →
      (∃ node, vecAt g.nodes curNode = some node) →
      ¬ (level > 0 ∧ curNode = startNode) →
      (∀ w, List.Chain (LoopStep g) curNode w → w.length < fuel ∧ startNode ∉ w) →
      findALoopFromNode g fuel path startNode curNode level = .returned path
  | 0, _, _, _, _, _, _, hw => absurd (hw [] List.Chain.nil).1 (Nat.lt_irrefl 0)
  | fuel + 1, path, curNode, level, hlevel, hnode, hexit, hw => by
    obtain ⟨node, hnode⟩ := hnode
    simp only [findALoopFromNode, if_neg hexit, hnode]
    refine findALoopEdges_returns g (findALoopFromNode g fuel) startNode level
      (fun v => (∃ next, vecAt g.nodes v = some next) ∧ v ≠ startNode ∧
        ∀ w, List.Chain (LoopStep g) v w → w.length < fuel ∧ startNode ∉ w)
      ?_ node.getOutEdges path (hvalid node (vecAt_mem hnode)) ?_
    · intro path' v hv
      exact findALoopFromNode_returns g hvalid startNode fuel path' v (level + 1) (by omega)
        hv.1 (fun h => hv.2.1 h.2) hv.2.2
    · intro outEdge hmem v henter
      have hstep : LoopStep g curNode v := ⟨node, hnode, outEdge, hmem, henter⟩
      obtain ⟨_, _, next, _, _, _, hn, _⟩ := henter
      refine ⟨⟨next, hn⟩, ?_, ?_⟩
      · intro hv
        have := (hw [v] (List.chain_cons.mpr ⟨hstep, List.Chain.nil⟩)).2
        exact this (by simp [hv])
      · intro w hchain
        obtain ⟨hlen, hnot⟩ := hw (v :: w) (List.chain_cons.mpr ⟨hstep, hchain⟩)
        simp only [List.length_cons] at hlen
        exact ⟨by omega, fun h => hnot (List.mem_cons_of_mem _ h)⟩

theorem registerLoopGraph_valid : LoopGraphValid registerLoopGraph := by
  intro node hnode outEdge hout
  simp only [registerLoopGraph, List.mem_cons, List.mem_singleton, List.not_mem_nil,
    or_false] at hnode
  rcases hnode with rfl | rfl | rfl
  · have : outEdge = 0 := by simpa [TimingNode.getOutEdges] using hout
    subst this
    exact ⟨_, _, _, rfl, rfl, rfl⟩
  · have : outEdge = 1 := by simpa [TimingNode.getOutEdges] using hout
    subst this
    exact ⟨_, _, _, rfl, rfl, rfl⟩
  · have : outEdge = 2 := by simpa [TimingNode.getOutEdges] using hout
    subst this
    exact ⟨_, _, _, rfl, rfl, rfl⟩

theorem registerLoopGraph_step0 (v : Int) (h : LoopStep registerLoopGraph 0 v) : v = 1 := by
  obtain ⟨node, hnode, outEdge, hmem, edge, sink, next, he, hk, hid, _, _⟩ := h
  have : node = registerLoopGraph.nodes[0] := (Option.some.inj hnode).symm
  subst this
  have : outEdge = 0 := by simpa [registerLoopGraph, TimingNode.getOutEdges] using hmem
  subst this
  have : edge = registerLoopGraph.edges[0] := (Option.some.inj he).symm
  subst this
  have : sink = registerLoopGraph.nodes[1] := (Option.some.inj hk).symm
  subst this
  exact hid.symm

theorem registerLoopGraph_step1 (v : Int) (h : LoopStep registerLoopGraph 1 v) : False := by
  obtain ⟨node, hnode, outEdge, hmem, edge, sink, next, he, hk, hid, hn, hreg⟩ := h
  have : node = registerLoopGraph.nodes[1] := (Option.some.inj hnode).symm
  subst this
  have : outEdge = 1 := by simpa [registerLoopGraph, TimingNode.getOutEdges] using hmem
  subst this
  have : edge = registerLoopGraph.edges[1] := (Option.some.inj he).symm
  subst this
  have : sink = registerLoopGraph.nodes[2] := (Option.some.inj hk).symm
  subst this
  have hv : v = 2 := hid.symm
  subst hv
  have : next = registerLoopGraph.nodes[2] := (Option.some.inj hn).symm
  subst this
  exact absurd hreg (by decide)

theorem registerLoopGraph_noLoop : NoLoopReachable registerLoopGraph 0 := by
  intro w hchain
  cases w with
  | nil => simp
  | cons v w =>
    obtain ⟨hstep, hrest⟩ := List.chain_cons.mp hchain
    have hv := registerLoopGraph_step0 v hstep
    subst hv
    cases w with
    | nil => decide
    | cons v' w' =>
      exact absurd (List.chain_cons.mp hrest).1 (registerLoopGraph_step1 v')

/-- C26: in a graph whose edge and node pointers are valid, when no walk over nodes that are
not registers comes from the node `s` to a node twice, `findALoopFromNode(path, s, s, 0)`
returns without a report, with `nodeInPath` as it was, as soon as the depth allowed is the
number of nodes.  And in `selfLoopGraph`, where the cycle 1 -> 1 of a node that is not a
register is reached from node 0 and does not pass through node 0, the search from node 0 has
neither returned nor reported at any depth. -/
theorem findALoopFromNode_terminates_of_acyclic (g : TimingGraph) (s : Int)
    (path : List Int) (hvalid : LoopGraphValid g)
    (hs : ∃ node, vecAt g.nodes s = some node) (hacyclic : NoLoopReachable g s) :
    (∀ fuel : Nat, g.nodes.length ≤ fuel →
      findALoopFromNode g fuel path s s 0 = .returned path) ∧
    (LoopStep selfLoopGraph 0 1 ∧ OnRegisterFreeLoop selfLoopGraph 1 ∧
      ¬ OnRegisterFreeLoop selfLoopGraph 0 ∧
      ∀ fuel : Nat, findALoopFromNode selfLoopGraph fuel [] 0 0 0 = .outOfFuel) := by
  constructor
  · intro fuel hfuel
    refine findALoopFromNode_returns g hvalid s fuel path s 0 le_rfl hs
      (fun h => absurd h.1 (lt_irrefl _)) ?_
    intro w hchain
    have hnd := hacyclic w hchain
    exact ⟨lt_of_lt_of_le (walk_length_lt g s w hs hchain hnd) hfuel,
      (List.nodup_cons.mp hnd).1⟩
  · have hstep01 : LoopStep selfLoopGraph 0 1 :=
      ⟨_, rfl, 0, by decide, _, _, _, rfl, rfl, rfl, rfl, rfl⟩
    have hstep11 : LoopStep selfLoopGraph 1 1 :=
      ⟨_, rfl, 1, by decide, _, _, _, rfl, rfl, rfl, rfl, rfl⟩
    have hdiv : ∀ fuel : Nat, findALoopFromNode selfLoopGraph fuel [] 0 0 0 = .outOfFuel :=
      fun fuel => findALoopFromNode_diverges_from selfLoopGraph 0 1 _ _ 0 1 [] _ _
        (by decide) rfl rfl rfl rfl rfl rfl rfl rfl rfl rfl fuel []
    refine ⟨hstep01, ⟨[1], List.chain_cons.mpr ⟨hstep11, List.Chain.nil⟩, rfl⟩, ?_, hdiv⟩
    intro hloop
    have hnever : ∀ (w : List Int) (u : Int), u = 0 ∨ u = 1 →
        List.Chain (LoopStep selfLoopGraph) u w → (0 : Int) ∉ w := by
      intro w
      induction w with
      | nil => intro _ _ _; simp
      | cons v w ih =>
        intro u hu hchain
        obtain ⟨hstep, hrest⟩ := List.chain_cons.mp hchain
        have hv : v = 1 := by
          obtain ⟨node, hnode, outEdge, hmem, edge, sink, next, he, hk, hid, _, _⟩ := hstep
          rcases hu with rfl | rfl
          · have : node = selfLoopGraph.nodes[0] := (Option.some.inj hnode).symm
            subst this
            have : outEdge = 0 := by simpa [selfLoopGraph, TimingNode.getOutEdges] using hmem
            subst this
            have : edge = selfLoopGraph.edges[0] := (Option.some.inj he).symm
            subst this
            have : sink = selfLoopGraph.nodes[1] := (Option.some.inj hk).symm
            subst this
            exact hid.symm
          · have : node = selfLoopGraph.nodes[1] := (Option.some.inj hnode).symm
            subst this
            have : outEdge = 1 := by simpa [selfLoopGraph, TimingNode.getOutEdges] using hmem
            subst this
            have : edge = selfLoopGraph.edges[1] := (Option.some.inj he).symm
            subst this
            have : sink = selfLoopGraph.nodes[1] := (Option.some.inj hk).symm
            subst this
            exact hid.symm
        subst hv
        intro hmem
        rcases List.mem_cons.mp hmem with h | h
        · exact absurd h (by decide)
        · exact ih 1 (Or.inr rfl) hrest h
    obtain ⟨w, hchain, hlast⟩ := hloop
    exact hnever w 0 (Or.inl rfl) hchain (List.mem_of_getLast?_eq_some hlast)

/-- C26, on `registerLoopGraph`, whose only cycle passes through a register: the graph is
valid, no walk from node 0 comes to a node twice, and the search from node 0 returns. -/
theorem findALoopFromNode_terminates_of_acyclic_witness :
    LoopGraphValid registerLoopGraph ∧ NoLoopReachable registerLoopGraph 0 ∧
    findALoopFromNode registerLoopGraph 3 [] 0 0 0 = .returned [] :=
  ⟨registerLoopGraph_valid, registerLoopGraph_noLoop,
    (findALoopFromNode_terminates_of_acyclic registerLoopGraph 0 [] registerLoopGraph_valid
      ⟨_, rfl⟩ registerLoopGraph_noLoop).1 3 (by decide)⟩

/-! ## C27: the clock-region tally -/

theorem optFirst_tallyColumn {t : ClockRegionTally} {cols : List Int} (h : TallyOf t cols)
    (hf : OptFirst t cols) (c : Int) : OptFirst (tallyColumn t c) (cols ++ [c]) := by
  obtain ⟨_, hcnt, hmax, hnil, _⟩ := h
  obtain ⟨cnt, _, _, heq⟩ := tallyColumn_eq t c
  intro _
  rw [heq, hcnt c]
  by_cases hgt : (cols.count c : ℚ) + 1 > t.maxClockRegionWeight
  · rw [if_pos hgt]
    refine ⟨c, cols.count c + 1, rfl, by push_cast; rfl, cols, [], rfl, by simp, ?_⟩
    intro c'
    have := lt_of_le_of_lt (hmax c') hgt
    exact_mod_cast this
  · rw [if_neg hgt]
    have hne : cols ≠ [] := by
      intro hc
      rw [hnil hc, hc] at hgt
      simp at hgt
    obtain ⟨col, maxCount, hopt, hm, pre, post, hsplit, hcount, hpre⟩ := hf hne
    exact ⟨col, maxCount, hopt, hm, pre, post ++ [c], by simp [hsplit], hcount, hpre⟩

theorem tallyCells_inv (Q : ClockRegionTally → List Int → Prop)
    (hstep : ∀ (t : ClockRegionTally) (cols : List Int) (c : Int), Q t cols →
      Q (tallyColumn t c) (cols ++ [c]))
    (getClockRegionByLocation : ℚ → ℚ → Int × Int) (cellLoc : List Location) :
    ∀ (cellIds : List Int) (t t' : ClockRegionTally) (cols : List Int), Q t cols →
      tallyCells getClockRegionByLocation cellLoc cellIds t = some t' →
      Q t' (cols ++ cellColumns getClockRegionByLocation cellLoc cellIds)
  | [], t, t', cols, ht, h => by
    simp only [tallyCells] at h
    rw [← Option.some.inj h]
    simpa [cellColumns] using ht
  | cellId :: rest, t, t', cols, ht, h => by
    simp only [tallyCells, Option.bind_eq_some, tallyCell_eq, Option.map_eq_some'] at h
    obtain ⟨mid, ⟨tmpLoc, hloc, rfl⟩, hrest⟩ := h
    have := tallyCells_inv Q hstep getClockRegionByLocation cellLoc rest _ t' _
      (hstep t cols (getClockRegionByLocation tmpLoc.X tmpLoc.Y).1 ht) hrest
    simpa [cellColumns, hloc, List.append_assoc] using this

theorem tallyPUs_inv (Q : ClockRegionTally → List Int → Prop)
    (hstep : ∀ (t : ClockRegionTally) (cols : List Int) (c : Int), Q t cols →
      Q (tallyColumn t c) (cols ++ [c]))
    (getClockRegionByLocation : ℚ → ℚ → Int × Int) (cellLoc : List Location)
    (placementUnits : List PlacementUnit) :
    ∀ (PUs : List Nat) (t t' : ClockRegionTally) (cols : List Int), Q t cols →
      tallyPUs getClockRegionByLocation cellLoc placementUnits PUs t = some t' →
      Q t' (cols ++ memberColumns getClockRegionByLocation cellLoc placementUnits PUs)
  | [], t, t', cols, ht, h => by
    simp only [tallyPUs] at h
    rw [← Option.some.inj h]
    simpa [memberColumns, memberCellIds, cellColumns] using ht
  | tmpPU :: rest, t, t', cols, ht, h => by
    simp only [tallyPUs, Option.bind_eq_some, tallyPU_eq] at h
    obtain ⟨mid, hmid, hrest⟩ := h
    cases hPU : placementUnits[tmpPU]? with
    | none => simp [hPU] at hmid
    | some PU =>
      simp only [hPU] at hmid
      have h1 := tallyCells_inv Q hstep getClockRegionByLocation cellLoc PU.cellIds t mid cols
        ht hmid
      have h2 := tallyPUs_inv Q hstep getClockRegionByLocation cellLoc placementUnits rest mid
        t' _ h1 hrest
      simpa [memberColumns, memberCellIds, cellColumns, hPU, List.filterMap_append,
        List.append_assoc] using h2

theorem forall₂_filterMap {α β : Type} (f : α → Option β) :
    ∀ (l : List α), (∀ a ∈ l, ∃ b, f a = some b) →
      List.Forall₂ (fun a b => f a = some b) l (l.filterMap f)
  | [], _ => List.Forall₂.nil
  | a :: l, h => by
    obtain ⟨b, hb⟩ := h a (List.mem_cons_self _ _)
    rw [List.filterMap_cons_some hb]
    exact List.Forall₂.cons hb
      (forall₂_filterMap f l (fun a' ha' => h a' (List.mem_cons_of_mem _ ha')))

theorem memberColumns_forall₂ (getClockRegionByLocation : ℚ → ℚ → Int × Int)
    (cellLoc : List Location) (placementUnits : List PlacementUnit) (PUs : List Nat)
    (hcells : ∀ PU ∈ placementUnits, ∀ c ∈ PU.cellIds, 0 ≤ c ∧ c < cellLoc.length) :
    List.Forall₂ (CellInColumn getClockRegionByLocation cellLoc)
      (memberCellIds placementUnits PUs)
      (memberColumns getClockRegionByLocation cellLoc placementUnits PUs) := by
  have hall : ∀ c ∈ memberCellIds placementUnits PUs,
      ∃ col, (vecAt cellLoc c).map
        (fun tmpLoc => (getClockRegionByLocation tmpLoc.X tmpLoc.Y).1) = some col := by
    intro c hc
    unfold memberCellIds at hc
    simp only [List.mem_flatMap] at hc
    obtain ⟨p, _, hcp⟩ := hc
    cases hPU : placementUnits[p]? with
    | none => simp [hPU] at hcp
    | some PU =>
      simp only [hPU] at hcp
      obtain ⟨h0, h1⟩ := hcells PU (List.getElem?_mem hPU) c hcp
      obtain ⟨loc, hloc⟩ := vecAt_isSome cellLoc h0 h1
      exact ⟨_, by rw [hloc]; rfl⟩
  have := forall₂_filterMap _ _ hall
  refine List.Forall₂.imp ?_ this
  intro c col hcol
  simp only [Option.map_eq_some'] at hcol
  obtain ⟨loc, hloc, rfl⟩ := hcol
  exact ⟨loc, hloc, rfl⟩

/-- C27: when the placement units `PUs` and their member cells are valid, the tally loop of
`clusterLongPathInOneClockRegion` and `moveDriverIntoBetterClockRegion` returns a tally `t`
for which, with `cols` the clock-region columns of the member cells of `PUs` in the order of
the loop (one column for each member cell, the column of its location):
`totalClockRegionWeight` is the number of member cells; `maxClockRegionWeight` bounds the
number of cells of every column and is the number of cells of the column of `optClockLocYX`;
and when there is a member cell, `optClockLocYX` is `(-1, col)` for the column `col` that is
the first to reach the maximum. -/
theorem tallyPUs_spec (getClockRegionByLocation : ℚ → ℚ → Int × Int)
    (cellLoc : List Location) (placementUnits : List PlacementUnit) (PUs : List Nat)
    (hPUs : ∀ p ∈ PUs, p < placementUnits.length)
    (hcells : ∀ PU ∈ placementUnits, ∀ c ∈ PU.cellIds, 0 ≤ c ∧ c < cellLoc.length) :
    ∃ t, tallyPUs getClockRegionByLocation cellLoc placementUnits PUs {} = some t ∧
      List.Forall₂ (CellInColumn getClockRegionByLocation cellLoc)
        (memberCellIds placementUnits PUs)
        (memberColumns getClockRegionByLocation cellLoc placementUnits PUs) ∧
      t.totalClockRegionWeight = ((memberCellIds placementUnits PUs).length : ℚ) ∧
      (∀ c : Int,
        ((memberColumns getClockRegionByLocation cellLoc placementUnits PUs).count c : ℚ) ≤
          t.maxClockRegionWeight) ∧
      t.maxClockRegionWeight =
        ((memberColumns getClockRegionByLocation cellLoc placementUnits PUs).count
          t.optClockLocYX.2 : ℚ) ∧
      (memberCellIds placementUnits PUs ≠ [] →
        ∃ (col : Int) (maxCount : Nat), t.optClockLocYX = (-1, col) ∧
          t.maxClockRegionWeight = (maxCount : ℚ) ∧
          FirstToReach (memberColumns getClockRegionByLocation cellLoc placementUnits PUs)
            col maxCount) := by
  obtain ⟨t, ht⟩ := tallyPUs_isSome getClockRegionByLocation cellLoc placementUnits hcells PUs
    {} hPUs
  have hT := tallyPUs_tallyOf getClockRegionByLocation cellLoc placementUnits PUs {} t []
    tallyOf_empty ht
  have hF := tallyPUs_inv (fun t cols => TallyOf t cols ∧ OptFirst t cols)
    (fun t cols c h => ⟨tallyOf_tallyColumn h.1 c, optFirst_tallyColumn h.1 h.2 c⟩)
    getClockRegionByLocation cellLoc placementUnits PUs {} t []
    ⟨tallyOf_empty, fun h => absurd rfl h⟩ ht
  rw [List.nil_append] at hT hF
  have hall := memberColumns_forall₂ getClockRegionByLocation cellLoc placementUnits PUs hcells
  have hlen := hall.length_eq
  obtain ⟨htot, hcnt, hmax, hnil, hopt⟩ := hT
  refine ⟨t, ht, hall, by rw [htot, hlen], hmax, ?_, ?_⟩
  · by_cases hc : memberColumns getClockRegionByLocation cellLoc placementUnits PUs = []
    · rw [hnil hc, hc]
      simp
    · obtain ⟨c, _, hoptc, hmaxc⟩ := hopt hc
      rw [hoptc]
      exact hmaxc
  · intro hne
    apply hF.2
    intro hc
    rw [hc] at hlen
    exact hne (List.length_eq_zero.mp hlen)

/-- C27, on the design `macroInfo` with the placement units 0 to 7 (a macro of eight cells in
column 0 and seven unpacked cells in the columns 1 to 7): the tally returns, counts 15 cells,
and has the maximum 8 at the column 0. -/
theorem tallyPUs_spec_witness :
    ∃ t, tallyPUs unitColumns macroInfo.cellId2location macroInfo.placementUnits
        [0, 1, 2, 3, 4, 5, 6, 7] {} = some t ∧
      t.totalClockRegionWeight =
        ((memberCellIds macroInfo.placementUnits [0, 1, 2, 3, 4, 5, 6, 7]).length : ℚ) ∧
      t.maxClockRegionWeight =
        ((memberColumns unitColumns macroInfo.cellId2location macroInfo.placementUnits
          [0, 1, 2, 3, 4, 5, 6, 7]).count t.optClockLocYX.2 : ℚ) :=
  (tallyPUs_spec unitColumns macroInfo.cellId2location macroInfo.placementUnits
    [0, 1, 2, 3, 4, 5, 6, 7] (by decide!) (by decide!)).imp
    fun _ h => ⟨h.1, h.2.2.1, h.2.2.2.2.1⟩

/-! ## C28: the recorded clusters and the keys of the anchor map -/

theorem nodup_setInsert {α : Type} [LinearOrder α] (x : α) (s : List α) (h : s.Nodup) :
    (setInsert x s).Nodup := by
  unfold setInsert
  split
  · exact h
  · rename_i hx
    exact (List.perm_orderedInsert _ x s).nodup_iff.mpr (List.nodup_cons.mpr ⟨hx, h⟩)

theorem mapSet_of_not_mem {κ ν : Type} [DecidableEq κ] (m : List (κ × ν)) (key : κ)
    (value : ν) (h : key ∉ m.map Prod.fst) : mapSet m key value = m ++ [(key, value)] := by
  unfold mapSet
  rw [if_neg]
  intro hany
  simp only [List.any_eq_true, decide_eq_true_eq] at hany
  obtain ⟨entry, he, hk⟩ := hany
  exact h (List.mem_map.mpr ⟨entry, he, hk⟩)

theorem collectPUs_nodup (cellId2PlacementUnit : List Nat) (extractedPUs : List Nat) :
    ∀ (candidateCellIds : List Int) (acc PUs : List Nat),
      collectPUs cellId2PlacementUnit extractedPUs candidateCellIds acc = some PUs →
      acc.Nodup → (∀ p ∈ acc, p ∉ extractedPUs) →
      PUs.Nodup ∧ ∀ p ∈ PUs, p ∉ extractedPUs
  | [], acc, PUs, h, hn, hd => by
    simp only [collectPUs, Option.some.injEq] at h
    subst h
    exact ⟨hn, hd⟩
  | c :: rest, acc, PUs, h, hn, hd => by
    unfold collectPUs at h
    split at h
    · cases h
    · rename_i PU _
      split at h
      · rename_i hcond
        refine collectPUs_nodup cellId2PlacementUnit extractedPUs rest _ PUs h
          (nodup_setInsert PU acc hn) ?_
        intro p hp
        rcases (mem_setInsert PU p acc).mp hp with hp | hp
        · rw [hp]
          exact hcond.1
        · exact hd p hp
      · exact collectPUs_nodup cellId2PlacementUnit extractedPUs rest acc PUs h hn hd

theorem anchorPUs_keys (legalizeXYInArea : Nat → ℚ → ℚ → ℚ × ℚ)
    (placementUnits : List PlacementUnit) (cX : ℚ) (hid : IdsArePositions placementUnits) :
    ∀ (PUs : List Nat) (st : ClusterState) (ids : List Int) (st' : ClusterState)
      (ids' : List Int),
      anchorPUs legalizeXYInArea placementUnits cX PUs (st, ids) = some (st', ids') →
      PUs.Nodup → (∀ p ∈ PUs, p ∉ st.extractedPUs) →
      (∀ p ∈ st.PU2ClockRegionCenter.map Prod.fst, p ∈ st.extractedPUs) →
      st'.PU2ClockRegionCenter.map Prod.fst =
        st.PU2ClockRegionCenter.map Prod.fst ++ unfixedPUs placementUnits PUs ∧
      ids' = ids ++ (unfixedPUs placementUnits PUs).map (fun (p : Nat) => (p : Int)) ∧
      st'.clockRegionclusters = st.clockRegionclusters ∧
      ∀ q, q ∈ st'.extractedPUs ↔ (q ∈ st.extractedPUs ∨ q ∈ unfixedPUs placementUnits PUs)
  | [], st, ids, st', ids', h, _, _, _ => by
    simp only [anchorPUs, Option.some.injEq, Prod.mk.injEq] at h
    obtain ⟨rfl, rfl⟩ := h
    simp [unfixedPUs]
  | curPU :: rest, st, ids, st', ids', h, hn, hd, hk => by
    obtain ⟨hnot, hnrest⟩ := List.nodup_cons.mp hn
    cases hPU : placementUnits[curPU]? with
    | none => simp [anchorPUs, hPU] at h
    | some PU =>
      by_cases hfix : PU.isFixed = true
      · simp only [anchorPUs, hPU, hfix, Bool.not_true, Bool.false_eq_true, if_false] at h
        obtain ⟨h1, h2, h3, h4⟩ := anchorPUs_keys legalizeXYInArea placementUnits cX hid rest
          st ids st' ids' h hnrest (fun p hp => hd p (List.mem_cons_of_mem _ hp)) hk
        have hu : unfixedPUs placementUnits (curPU :: rest) = unfixedPUs placementUnits rest := by
          simp [unfixedPUs, List.filter_cons, hPU, hfix]
        rw [hu]
        exact ⟨h1, h2, h3, h4⟩
      · have hfix' : PU.isFixed = false := by simpa using hfix
        simp only [anchorPUs, hPU, hfix', Bool.not_false, if_true] at h
        have hm : (anchorUnfixedPU legalizeXYInArea cX st curPU PU).PU2ClockRegionCenter =
            mapSet st.PU2ClockRegionCenter curPU (legalizeXYInArea curPU cX PU.Y) := rfl
        have hx : (anchorUnfixedPU legalizeXYInArea cX st curPU PU).extractedPUs =
            setInsert curPU st.extractedPUs := rfl
        have hcl : (anchorUnfixedPU legalizeXYInArea cX st curPU PU).clockRegionclusters =
            st.clockRegionclusters := rfl
        have hnew : curPU ∉ st.PU2ClockRegionCenter.map Prod.fst :=
          fun hmem => hd curPU (List.mem_cons_self _ _) (hk curPU hmem)
        have hkeys1 : (anchorUnfixedPU legalizeXYInArea cX st curPU
            PU).PU2ClockRegionCenter.map Prod.fst =
            st.PU2ClockRegionCenter.map Prod.fst ++ [curPU] := by
          rw [hm, mapSet_of_not_mem _ _ _ hnew]
          simp
        obtain ⟨h1, h2, h3, h4⟩ := anchorPUs_keys legalizeXYInArea placementUnits cX hid rest
          _ _ st' ids' h hnrest
          (by
            intro p hp hmem
            rw [hx] at hmem
            rcases (mem_setInsert curPU p st.extractedPUs).mp hmem with hmem | hmem
            · exact hnot (hmem ▸ hp)
            · exact hd p (List.mem_cons_of_mem _ hp) hmem)
          (by
            intro p hp
            rw [hkeys1] at hp
            rw [hx]
            rcases List.mem_append.mp hp with hp | hp
            · exact (mem_setInsert curPU p st.extractedPUs).mpr (Or.inr (hk p hp))
            · exact (mem_setInsert curPU p st.extractedPUs).mpr
                (Or.inl (List.mem_singleton.mp hp)))
        have hu : unfixedPUs placementUnits (curPU :: rest) =
            curPU :: unfixedPUs placementUnits rest := by
          simp [unfixedPUs, List.filter_cons, hPU, hfix']
        rw [hu]
        refine ⟨?_, ?_, ?_, ?_⟩
        · rw [h1, hkeys1]
          simp
        · rw [h2, hid curPU PU hPU]
          simp
        · rw [h3, hcl]
        · intro q
          rw [h4 q, hx, mem_setInsert]
          simp only [List.mem_cons]
          tauto

theorem longPathInfo_idsArePositions : IdsArePositions longPathInfo.placementUnits := by
  intro p PU h
  have hlen : longPathInfo.placementUnits.length = 20 := by decide!
  have hlt : p < 20 := hlen ▸ (List.getElem?_eq_some.mp h).1
  have hall : ∀ q ∈ List.range 20,
      (longPathInfo.placementUnits[q]?).map (fun PU => PU.id) = some (q : Int) := by decide!
  have := hall p (List.mem_range.mpr hlt)
  rw [h] at this
  exact Option.some.inj this

theorem clusterFromNode_shape (DFSFromNode : Int → Int → Nat → List Int → List Int)
    (getClockRegionByLocation : ℚ → ℚ → Int × Int) (YX2ClockRegion : List (List ClockRegion))
    (legalizeXYInArea : Nat → ℚ → ℚ → ℚ × ℚ) (placementInfo : PlacementInfo)
    (pathLenThr : Int) (clusterThrRatio : ℚ) (timingNode : TimingNode) (st st' : ClusterState)
    (h : clusterFromNode DFSFromNode getClockRegionByLocation YX2ClockRegion legalizeXYInArea
      placementInfo pathLenThr clusterThrRatio timingNode st = some st') :
    (st'.PU2ClockRegionCenter = st.PU2ClockRegionCenter ∧
      st'.clockRegionclusters = st.clockRegionclusters ∧
      st'.extractedPUs = st.extractedPUs) ∨
    ∃ (PUs : List Nat) (cX : ℚ) (acc : ClusterState × List Int),
      collectPUs placementInfo.cellId2PlacementUnit st.extractedPUs
        (DFSFromNode timingNode.id pathLenThr 2000 st.extractedCellIds) [] = some PUs ∧
      anchorPUs legalizeXYInArea placementInfo.placementUnits cX PUs (st, []) = some acc ∧
      st' = { acc.1 with clockRegionclusters := acc.1.clockRegionclusters ++ [acc.2] } := by
  unfold clusterFromNode at h
  simp only at h
  split at h
  · cases hc : collectPUs placementInfo.cellId2PlacementUnit st.extractedPUs
        (DFSFromNode timingNode.id pathLenThr 2000 st.extractedCellIds) [] with
    | none => simp [hc] at h
    | some PUs =>
      simp only [hc] at h
      split at h
      · unfold clusterPUs at h
        split at h
        · cases h
        · split at h
          · split at h
            · cases h
            · simp only [Option.map_eq_some'] at h
              obtain ⟨acc, hacc, rfl⟩ := h
              exact Or.inr ⟨PUs, _, acc, rfl, hacc, rfl⟩
          · split at h
            · rw [← Option.some.inj h]
              exact Or.inl ⟨rfl, rfl, rfl⟩
            · rw [← Option.some.inj h]
              exact Or.inl ⟨rfl, rfl, rfl⟩
      · rw [← Option.some.inj h]
        exact Or.inl ⟨rfl, rfl, rfl⟩
  · rw [← Option.some.inj h]
    exact Or.inl ⟨rfl, rfl, rfl⟩

theorem nodup_unfixedPUs (placementUnits : List PlacementUnit) (PUs : List Nat)
    (h : PUs.Nodup) : (unfixedPUs placementUnits PUs).Nodup :=
  h.filter _

theorem clusterFromNode_clustersMatch (DFSFromNode : Int → Int → Nat → List Int → List Int)
    (getClockRegionByLocation : ℚ → ℚ → Int × Int) (YX2ClockRegion : List (List ClockRegion))
    (legalizeXYInArea : Nat → ℚ → ℚ → ℚ × ℚ) (placementInfo : PlacementInfo)
    (pathLenThr : Int) (clusterThrRatio : ℚ) (hid : IdsArePositions placementInfo.placementUnits)
    (timingNode : TimingNode) (st st' : ClusterState) (hinv : ClustersMatchAnchors st)
    (h : clusterFromNode DFSFromNode getClockRegionByLocation YX2ClockRegion legalizeXYInArea
      placementInfo pathLenThr clusterThrRatio timingNode st = some st') :
    ClustersMatchAnchors st' := by
  obtain ⟨ha, hb, hc⟩ := hinv
  rcases clusterFromNode_shape _ _ _ _ _ _ _ _ _ _ h with ⟨h1, h2, h3⟩ |
    ⟨PUs, cX, ⟨st'', ids⟩, hcol, hanchor, rfl⟩
  · exact ⟨by rw [h1, h2]; exact ha, by rw [h1]; exact hb, by rw [h1, h3]; exact hc⟩
  · obtain ⟨hnd, hdisj⟩ := collectPUs_nodup _ _ _ _ _ hcol List.nodup_nil
      (fun p hp => absurd hp (List.not_mem_nil p))
    obtain ⟨hk, hi, hcl, hx⟩ := anchorPUs_keys legalizeXYInArea placementInfo.placementUnits cX
      hid PUs st [] st'' ids hanchor hnd hdisj hc
    refine ⟨?_, ?_, ?_⟩
    · simp only [hcl, List.flatten_append, List.flatten_cons, List.flatten_nil,
        List.append_nil, ha, hi, List.nil_append]
      have : st''.PU2ClockRegionCenter.map (fun entry => (entry.1 : Int)) =
          (st''.PU2ClockRegionCenter.map Prod.fst).map (fun (p : Nat) => (p : Int)) := by
        simp [List.map_map, Function.comp_def]
      rw [this, hk]
      simp [List.map_map, Function.comp_def]
    · simp only
      rw [hk]
      refine List.Nodup.append hb (nodup_unfixedPUs _ _ hnd) ?_
      intro p hp1 hp2
      exact hdisj p (List.mem_of_mem_filter hp2) (hc p hp1)
    · intro p hp
      simp only at hp ⊢
      rw [hk] at hp
      rw [hx p]
      rcases List.mem_append.mp hp with hp | hp
      · exact Or.inl (hc p hp)
      · exact Or.inr hp

/-- C28: when the pointers and indices of the inputs are valid and `getId()` of a placement
unit is its position, `clusterLongPathInOneClockRegion` returns, and in its result the
recorded clusters, taken one after the other, hold no id twice (so every cluster has its ids
once, and two clusters share no id); the ids in the clusters are exactly the placement units
that are keys of `PU2ClockRegionCenter`; and every key occurs once in the clusters, a cluster
entry being written with every anchor. -/
theorem clusterLongPathInOneClockRegion_clusters_disjoint
    (DFSFromNode : Int → Int → Nat → List Int → List Int)
    (getClockRegionByLocation : ℚ → ℚ → Int × Int) (YX2ClockRegion : List (List ClockRegion))
    (legalizeXYInArea : Nat → ℚ → ℚ → ℚ × ℚ) (timingGraph : TimingGraph)
    (pathLenThr : Int) (clusterThrRatio : ℚ) (placementInfo : PlacementInfo)
    (hvalid : ClusterInputsValid DFSFromNode getClockRegionByLocation YX2ClockRegion
      placementInfo timingGraph)
    (hid : IdsArePositions placementInfo.placementUnits) :
    ∃ result, clusterLongPathInOneClockRegion DFSFromNode getClockRegionByLocation
        YX2ClockRegion legalizeXYInArea timingGraph pathLenThr clusterThrRatio placementInfo =
        some result ∧
      result.2.flatten.Nodup ∧
      (∀ cluster ∈ result.2, cluster.Nodup) ∧
      result.2.Pairwise List.Disjoint ∧
      (∀ id : Int, id ∈ result.2.flatten ↔
        ∃ p ∈ result.1.PU2ClockRegionCenter.map Prod.fst, id = (p : Int)) ∧
      (∀ p ∈ result.1.PU2ClockRegionCenter.map Prod.fst,
        result.2.flatten.count (p : Int) = 1) := by
  obtain ⟨stEnd, hloop, hcall⟩ := clusterLongPathInOneClockRegion_total DFSFromNode
    getClockRegionByLocation YX2ClockRegion legalizeXYInArea timingGraph pathLenThr
    clusterThrRatio placementInfo hvalid
  have hinv : ClustersMatchAnchors stEnd :=
    clusterLoop_inv DFSFromNode getClockRegionByLocation YX2ClockRegion legalizeXYInArea
      placementInfo timingGraph pathLenThr clusterThrRatio ClustersMatchAnchors
      (fun timingNode st st' hP hs =>
        clusterFromNode_clustersMatch DFSFromNode getClockRegionByLocation YX2ClockRegion
          legalizeXYInArea placementInfo pathLenThr clusterThrRatio hid timingNode st st' hP hs)
      _ {} stEnd ⟨rfl, List.nodup_nil, fun p hp => by simp at hp⟩ hloop
  obtain ⟨ha, hb, _⟩ := hinv
  have hflat : stEnd.clockRegionclusters.flatten =
      (stEnd.PU2ClockRegionCenter.map Prod.fst).map (fun (p : Nat) => (p : Int)) := by
    rw [ha]
    simp [List.map_map, Function.comp_def]
  have hnd : stEnd.clockRegionclusters.flatten.Nodup := by
    rw [hflat]
    exact hb.map (fun a b hab => by exact_mod_cast hab)
  have hsplit := List.nodup_flatten.mp hnd
  refine ⟨_, hcall, hnd, hsplit.1, hsplit.2, ?_, ?_⟩
  · intro id
    simp only
    rw [hflat, List.mem_map]
    constructor
    · rintro ⟨p, hp, rfl⟩
      exact ⟨p, hp, rfl⟩
    · rintro ⟨p, hp, rfl⟩
      exact ⟨p, hp, rfl⟩
  · intro p hp
    simp only at hp ⊢
    exact List.count_eq_one_of_mem hnd (by rw [hflat]; exact List.mem_map.mpr ⟨p, hp, rfl⟩)

/-- C28, on the design `longPathInfo`: the inputs are valid, the ids are the positions, the
call returns, and its clusters hold no id twice. -/
theorem clusterLongPathInOneClockRegion_clusters_disjoint_witness :
    ClusterInputsValid sampleDFS twoColumns twoColumnRegions longPathInfo longPathGraph ∧
    IdsArePositions longPathInfo.placementUnits ∧
    ∃ result, clusterLongPathInOneClockRegion sampleDFS twoColumns twoColumnRegions noLegalize
        longPathGraph 10 (1 / 2) longPathInfo = some result ∧
      result.2.flatten.Nodup ∧ result.2.Pairwise List.Disjoint :=
  ⟨longPathInputs_valid, longPathInfo_idsArePositions,
    (clusterLongPathInOneClockRegion_clusters_disjoint sampleDFS twoColumns twoColumnRegions
      noLegalize longPathGraph 10 (1 / 2) longPathInfo longPathInputs_valid
      longPathInfo_idsArePositions).imp fun _ h => ⟨h.1, h.2.1, h.2.2.2.1⟩⟩

/-! ## C29: timing nodes whose levels are unset -/

/-- C29: a timing node whose `forwardLevel` or `backwardLevel` is negative reports
`getLongestPathLength() = -1`, also after `calcLongestPath`.  Consequently, for
`levelThr ≥ 4` the loop body of `enhanceNetWeight_LevelBased` leaves every net as it is for a
cell whose timing node is such a node, and for `pathLenThr ≥ -1` the loop of
`clusterLongPathInOneClockRegion` that comes to such a node ends there with its state
unchanged, so that no cluster is grown from the node. -/
theorem unset_levels_longestPathLength (node : TimingNode)
    (hunset : node.forwardLevel < 0 ∨ node.backwardLevel < 0) :
    node.getLongestPathLength = -1 ∧
    node.calcLongestPath.getLongestPathLength = -1 ∧
    (∀ (fpow : ℚ → ℚ → ℚ) (effectFactor : ℚ) (levelThr : Int)
      (timingNodes : List TimingNode) (nets : List DesignNet) (cellA : DesignCell),
      4 ≤ levelThr → timingNodes[cellA.cellId]? = some node →
      enhanceCell fpow effectFactor levelThr timingNodes nets cellA = some nets) ∧
    (∀ (DFSFromNode : Int → Int → Nat → List Int → List Int)
      (getClockRegionByLocation : ℚ → ℚ → Int × Int)
      (YX2ClockRegion : List (List ClockRegion)) (legalizeXYInArea : Nat → ℚ → ℚ → ℚ × ℚ)
      (placementInfo : PlacementInfo) (timingGraph : TimingGraph) (pathLenThr : Int)
      (clusterThrRatio : ℚ) (nodeId : Nat) (rest : List Nat) (st : ClusterState),
      -1 ≤ pathLenThr → sortedNodeAt timingGraph nodeId = some node →
      clusterLoop DFSFromNode getClockRegionByLocation YX2ClockRegion legalizeXYInArea
        placementInfo timingGraph pathLenThr clusterThrRatio (nodeId :: rest) st = some st) := by
  have h1 : node.getLongestPathLength = -1 := by
    unfold TimingNode.getLongestPathLength
    rw [if_neg]
    omega
  have h2 : node.calcLongestPath.getLongestPathLength = -1 := by
    unfold TimingNode.getLongestPathLength TimingNode.calcLongestPath
    rw [if_neg]
    simp only
    omega
  refine ⟨h1, h2, ?_, ?_⟩
  · intro fpow effectFactor levelThr timingNodes nets cellA hT hnode
    unfold enhanceCell
    split
    · rfl
    · simp only [hnode, h1]
      rw [if_pos (by omega)]
  · intro DFSFromNode getClockRegionByLocation YX2ClockRegion legalizeXYInArea placementInfo
      timingGraph pathLenThr clusterThrRatio nodeId rest st hthr hnode
    unfold clusterLoop
    simp only [hnode, h1]
    rw [if_neg (by omega)]

/-- C29, on the second node of `smallDesign`, a node as the constructor leaves it: its longest
path length is reported as `-1`, and the cell of the node leaves the nets as they are. -/
theorem unset_levels_longestPathLength_witness :
    (({ designNode := 2, id := 1 } : TimingNode).forwardLevel < 0 ∨
      ({ designNode := 2, id := 1 } : TimingNode).backwardLevel < 0) ∧
    ({ designNode := 2, id := 1 } : TimingNode).calcLongestPath.getLongestPathLength = -1 ∧
    enhanceCell powAtOne 1 5 smallDesign.timingInfo smallDesign.designInfo.nets
      { isVirtualCell := false, cellId := 1, pins := [{ net := some 0, isInputPort := false }] } =
      some smallDesign.designInfo.nets :=
  ⟨Or.inl (by decide),
    (unset_levels_longestPathLength { designNode := 2, id := 1 } (Or.inl (by decide))).2.1,
    (unset_levels_longestPathLength { designNode := 2, id := 1 } (Or.inl (by decide))).2.2.1
      powAtOne 1 5 smallDesign.timingInfo smallDesign.designInfo.nets
      { isVirtualCell := false, cellId := 1, pins := [{ net := some 0, isInputPort := false }] }
      (by decide) rfl⟩

/-! ## C30: reading through `FILEbuf` -/

theorem to_int_type_byteToChar (b : Nat) (hb : b < 256) :
    to_int_type (byteToChar b) = (b : Int) := by
  unfold to_int_type byteToChar
  split <;> omega

theorem map_to_int_type_byteToChar :
    ∀ (chunk : List Nat), (∀ b ∈ chunk, b < 256) →
      (chunk.map byteToChar).map to_int_type = chunk.map fun (b : Nat) => (b : Int)
  | [], _ => rfl
  | b :: rest, h => by
    simp only [List.map_cons]
    rw [to_int_type_byteToChar b (h b (List.mem_cons_self _ _)),
      map_to_int_type_byteToChar rest (fun b' hb' => h b' (List.mem_cons_of_mem _ hb'))]

theorem underflow_eof (s : FILEbuf) (hg : s.gptr = s.egptr) (hf : s.fp_ = []) :
    ∃ s', s.underflow = some (eof, s') ∧ s'.exposed = [] ∧
      s'.consume.gptr = s'.consume.egptr ∧ s'.consume.fp_ = [] := by
  refine ⟨{ s with fp_ := [], buffer_ := s.buffer_ }, ?_, ?_, rfl, rfl⟩
  · simp [FILEbuf.underflow, FILEbuf.fill, hg, hf, fread]
  · simp [FILEbuf.exposed, hg]

theorem underflow_chunk (s : FILEbuf) (chunk : List Nat) (rest : List (List Nat))
    (hg : s.gptr = s.egptr) (hf : s.fp_ = chunk :: rest) (h1 : 1 ≤ chunk.length)
    (h2 : chunk.length ≤ 1024) (hb : ∀ b ∈ chunk, b < 256) :
    ∃ s', s.underflow = some (((chunk.headD 0 : Nat) : Int), s') ∧
      s'.exposed = (chunk.map fun (b : Nat) => (b : Int)) ∧
      s'.consume.gptr = s'.consume.egptr ∧ s'.consume.fp_ = rest := by
  have htake : chunk.take 1024 = chunk := List.take_of_length_le h2
  refine ⟨{ s with
      fp_ := rest
      buffer_ := chunk.map byteToChar ++ s.buffer_.drop chunk.length
      gptr := 0
      egptr := chunk.length }, ?_, ?_, rfl, rfl⟩
  · cases chunk with
    | nil => simp at h1
    | cons b tail =>
      have hb0 := to_int_type_byteToChar b (hb b (List.mem_cons_self _ _))
      simp only [List.length_cons] at h2
      simp [FILEbuf.underflow, FILEbuf.fill, hg, hf, fread, FILEbuf.s_size, htake, h2, hb0]
  · simp only [FILEbuf.exposed, List.drop_zero, Nat.sub_zero]
    rw [← List.length_map chunk byteToChar, List.take_left]
    exact map_to_int_type_byteToChar chunk hb

theorem underflowCalls_eof :
    ∀ (n : Nat) (s : FILEbuf), s.gptr = s.egptr → s.fp_ = [] →
      FILEbuf.underflowCalls n s = some (List.replicate n (eof, []))
  | 0, _, _, _ => rfl
  | n + 1, s, hg, hf => by
    obtain ⟨s', hs', hexp, hg', hf'⟩ := underflow_eof s hg hf
    simp only [FILEbuf.underflowCalls, hs', hexp, underflowCalls_eof n s'.consume hg' hf']
    rfl

theorem underflowCalls_chunks (k : Nat) :
    ∀ (chunks : List (List Nat)) (s : FILEbuf), ChunksValid chunks → s.gptr = s.egptr →
      s.fp_ = chunks →
      FILEbuf.underflowCalls (chunks.length + k) s =
        some ((chunks.map fun chunk =>
          (((chunk.headD 0 : Nat) : Int), chunk.map fun (b : Nat) => (b : Int))) ++
          List.replicate k (eof, []))
  | [], s, _, hg, hf => by
    simpa using underflowCalls_eof k s hg hf
  | chunk :: rest, s, hv, hg, hf => by
    obtain ⟨h1, h2, hb⟩ := hv chunk (List.mem_cons_self _ _)
    obtain ⟨s', hs', hexp, hg', hf'⟩ := underflow_chunk s chunk rest hg hf h1 h2 hb
    have ih := underflowCalls_chunks k rest s'.consume
      (fun c hc => hv c (List.mem_cons_of_mem _ hc)) hg' hf'
    have hlen : (chunk :: rest).length + k = (rest.length + k) + 1 := by
      simp only [List.length_cons]
      omega
    rw [hlen]
    simp only [FILEbuf.underflowCalls, hs', hexp, ih]
    rfl

theorem fill_of_ne (s : FILEbuf) (h : ¬ s.gptr = s.egptr) : s.fill = s := by
  unfold FILEbuf.fill
  rw [if_neg h]

theorem underflow_twice (s : FILEbuf) (c : Int) (s' : FILEbuf)
    (h : s.underflow = some (c, s')) (hc : c ≠ eof) : s'.underflow = some (c, s') := by
  unfold FILEbuf.underflow at h
  simp only at h
  by_cases hg : s.fill.gptr = s.fill.egptr
  · rw [if_pos hg] at h
    simp only [Option.some.injEq, Prod.mk.injEq] at h
    exact absurd h.1.symm hc
  · rw [if_neg hg] at h
    cases hb : s.fill.buffer_[s.fill.gptr]? with
    | none => simp [hb] at h
    | some c0 =>
      simp only [hb, Option.some.injEq, Prod.mk.injEq] at h
      obtain ⟨rfl, rfl⟩ := h
      have hfill : s.fill.fill = s.fill := fill_of_ne s.fill hg
      unfold FILEbuf.underflow
      simp only [hfill, if_neg hg, hb]

/-- C30: for a `FILE` that delivers the chunks `chunks`, each of 1 to 1024 bytes, any number
of successive calls of `underflow` on a new `FILEbuf`, each followed by the consumption of the
exposed bytes, exposes the bytes of the stream in order, and the call number `i` (from 0)
returns `eof()` exactly when `i` is not below the number of chunks.  A call that returns a
character, repeated without consumption, returns the same character and leaves the state as
it is.  A byte `b` comes back as `b`, never as `eof()`; the byte `0xFF` comes back as 255. -/
theorem underflow_reproduces_stream (chunks : List (List Nat)) (garbage : List Int)
    (hvalid : ChunksValid chunks) :
    (∀ k : Nat, ∃ calls,
      FILEbuf.underflowCalls (chunks.length + k) (newFILEbuf chunks garbage) = some calls ∧
      (calls.map Prod.snd).flatten = streamBytes chunks ∧
      ∀ (i : Nat) (call : Int × List Int), calls[i]? = some call →
        (call.1 = eof ↔ chunks.length ≤ i)) ∧
    (∀ (s : FILEbuf) (c : Int) (s' : FILEbuf), s.underflow = some (c, s') → c ≠ eof →
      s'.underflow = some (c, s')) ∧
    (∀ b : Nat, b < 256 →
      to_int_type (byteToChar b) = (b : Int) ∧ to_int_type (byteToChar b) ≠ eof) ∧
    to_int_type (byteToChar 255) = 255 := by
  refine ⟨?_, underflow_twice, ?_, by decide⟩
  · intro k
    refine ⟨_, underflowCalls_chunks k chunks (newFILEbuf chunks garbage) hvalid rfl rfl,
      ?_, ?_⟩
    · simp [streamBytes, List.map_flatten, Function.comp_def]
    · intro i call hcall
      by_cases hi : i < chunks.length
      · rw [List.getElem?_append_left (by simpa using hi)] at hcall
        simp only [List.getElem?_map, Option.map_eq_some'] at hcall
        obtain ⟨chunk, _, rfl⟩ := hcall
        simp only [eof]
        constructor
        · intro h
          omega
        · intro h
          omega
      · rw [List.getElem?_append_right (by simpa using hi)] at hcall
        have := List.getElem?_mem hcall
        rw [List.eq_of_mem_replicate this]
        simp only [true_iff]
        omega
  · intro b hb
    rw [to_int_type_byteToChar b hb]
    exact ⟨rfl, by simp only [eof]; omega⟩

/-- C30, on a `FILE` that delivers the chunks `[1, 2, 255]` and `[255, 7]`: the chunks are
valid, and four calls of `underflow` expose the two chunks and then return `eof()` twice. -/
theorem underflow_reproduces_stream_witness :
    ChunksValid [[1, 2, 255], [255, 7]] ∧
    ∃ calls, FILEbuf.underflowCalls 4 (newFILEbuf [[1, 2, 255], [255, 7]] []) = some calls ∧
      (calls.map Prod.snd).flatten = streamBytes [[1, 2, 255], [255, 7]] :=
  ⟨by unfold ChunksValid; decide,
    ((underflow_reproduces_stream [[1, 2, 255], [255, 7]] []
      (by unfold ChunksValid; decide)).1 2).imp
      fun _ h => ⟨h.1, h.2.1⟩⟩

end AMFPlacer
